import Mathlib

/-!
# readosm: the PBF wire-format reader

A shallow embedding of the PBF decoder of `src/readosm.c` and the properties
of it stated by the specification.

Conventions of the embedding.

* A buffer window `[start, stop]` (both pointers inclusive, as in the source)
  is the list of the bytes it holds; `ptr > stop` is the empty list, `*ptr++`
  takes the head, and a returned pointer is the list of the bytes that remain
  up to `stop`.  A `NULL` result is `none`.
* Bytes are natural numbers; every use of a byte goes through `& 0x80` or
  `& 0x7f`, as in the source.
* `unsigned int` and `unsigned long long` are natural numbers reduced
  `% 2 ^ 32` and `% 2 ^ 64` wherever the C arithmetic can wrap; `int` and
  `long long` are integers produced by the conversions `int32_of_bits` and
  `int64_of_bits`.
* The unions `readosm_endian4` and `readosm_endian8` place the 7-bit payload
  in the least significant byte of the word for the byte order reported by
  `test_endianness`, so reading `uint32_value` / `uint64_value` yields the
  payload itself.
-/

namespace ReadOSM

/-! ## Declared field types -/

/-- The logical types a variant can be declared with (`READOSM_VAR_*`,
`READOSM_LEN_BYTES`). -/
inductive VarType
  | READOSM_VAR_UNDEFINED
  | READOSM_VAR_INT32
  | READOSM_VAR_INT64
  | READOSM_VAR_UINT32
  | READOSM_VAR_UINT64
  | READOSM_VAR_SINT32
  | READOSM_VAR_SINT64
  | READOSM_VAR_BOOL
  | READOSM_VAR_ENUM
  | READOSM_LEN_BYTES
  deriving DecidableEq, Repr

open VarType

/-! ## The bit masks of `read_var`

`READOSM_MASK32_1` .. `READOSM_MASK64_A` are used by `read_var` but declared in
`readosm_internals.h`, which is not part of the sources at hand. -/

/-- Modelled from the spec: mask of `readosm_internals.h` (absent) for byte 1 of a
32-bit value; "each source byte contributes its low 7 bits". -/
def READOSM_MASK32_1 : Nat := 0x0000007f
/-- Modelled from the spec: mask of `readosm_internals.h` (absent), byte 2, 32 bit. -/
def READOSM_MASK32_2 : Nat := 0x00003f80
/-- Modelled from the spec: mask of `readosm_internals.h` (absent), byte 3, 32 bit. -/
def READOSM_MASK32_3 : Nat := 0x001fc000
/-- Modelled from the spec: mask of `readosm_internals.h` (absent), byte 4, 32 bit. -/
def READOSM_MASK32_4 : Nat := 0x0fe00000
/-- Modelled from the spec: mask of `readosm_internals.h` (absent), byte 5, 32 bit:
the four bits that still fit the word. -/
def READOSM_MASK32_5 : Nat := 0xf0000000

/-- Modelled from the spec: mask of `readosm_internals.h` (absent), byte 1, 64 bit. -/
def READOSM_MASK64_1 : Nat := 0x000000000000007f
/-- Modelled from the spec: mask of `readosm_internals.h` (absent), byte 2, 64 bit. -/
def READOSM_MASK64_2 : Nat := 0x0000000000003f80
/-- Modelled from the spec: mask of `readosm_internals.h` (absent), byte 3, 64 bit. -/
def READOSM_MASK64_3 : Nat := 0x00000000001fc000
/-- Modelled from the spec: mask of `readosm_internals.h` (absent), byte 4, 64 bit. -/
def READOSM_MASK64_4 : Nat := 0x000000000fe00000
/-- Modelled from the spec: mask of `readosm_internals.h` (absent), byte 5, 64 bit. -/
def READOSM_MASK64_5 : Nat := 0x00000007f0000000
/-- Modelled from the spec: mask of `readosm_internals.h` (absent), byte 6, 64 bit. -/
def READOSM_MASK64_6 : Nat := 0x000003f800000000
/-- Modelled from the spec: mask of `readosm_internals.h` (absent), byte 7, 64 bit. -/
def READOSM_MASK64_7 : Nat := 0x0001fc0000000000
/-- Modelled from the spec: mask of `readosm_internals.h` (absent), byte 8, 64 bit. -/
def READOSM_MASK64_8 : Nat := 0x00fe000000000000
/-- Modelled from the spec: mask of `readosm_internals.h` (absent), byte 9, 64 bit. -/
def READOSM_MASK64_9 : Nat := 0x7f00000000000000
/-- Modelled from the spec: mask of `readosm_internals.h` (absent), byte 10, 64 bit:
the one bit that still fits the word. -/
def READOSM_MASK64_A : Nat := 0x8000000000000000

/-! ## C integer conversions -/

/-- Conversion of a 32-bit pattern to `int` (two's complement). -/
def int32_of_bits (u : Nat) : Int :=
  if u % 2 ^ 32 < 2 ^ 31 then ((u % 2 ^ 32 : Nat) : Int)
  else ((u % 2 ^ 32 : Nat) : Int) - 2 ^ 32

/-- Conversion of a 64-bit pattern to `long long` (two's complement). -/
def int64_of_bits (u : Nat) : Int :=
  if u % 2 ^ 64 < 2 ^ 63 then ((u % 2 ^ 64 : Nat) : Int)
  else ((u % 2 ^ 64 : Nat) : Int) - 2 ^ 64

/-! ## `read_var` -/

/-- The inner `switch (count)` of the 32-bit branch of `read_var`: the word
`v32` that payload `c` contributes as byte number `count`, or `none` for the
`default: return NULL` case. -/
def read_var_v32 (count c : Nat) : Option Nat :=
  match count with
  | 0 => some (c % 2 ^ 32 &&& READOSM_MASK32_1)
  | 1 => some ((c <<< 7) % 2 ^ 32 &&& READOSM_MASK32_2)
  | 2 => some ((c <<< 14) % 2 ^ 32 &&& READOSM_MASK32_3)
  | 3 => some ((c <<< 21) % 2 ^ 32 &&& READOSM_MASK32_4)
  | 4 => some ((c <<< 28) % 2 ^ 32 &&& READOSM_MASK32_5)
  | _ => none

/-- The inner `switch (count)` of the 64-bit branch of `read_var`. -/
def read_var_v64 (count c : Nat) : Option Nat :=
  match count with
  | 0 => some (c % 2 ^ 64 &&& READOSM_MASK64_1)
  | 1 => some ((c <<< 7) % 2 ^ 64 &&& READOSM_MASK64_2)
  | 2 => some ((c <<< 14) % 2 ^ 64 &&& READOSM_MASK64_3)
  | 3 => some ((c <<< 21) % 2 ^ 64 &&& READOSM_MASK64_4)
  | 4 => some ((c <<< 28) % 2 ^ 64 &&& READOSM_MASK64_5)
  | 5 => some ((c <<< 35) % 2 ^ 64 &&& READOSM_MASK64_6)
  | 6 => some ((c <<< 42) % 2 ^ 64 &&& READOSM_MASK64_7)
  | 7 => some ((c <<< 49) % 2 ^ 64 &&& READOSM_MASK64_8)
  | 8 => some ((c <<< 56) % 2 ^ 64 &&& READOSM_MASK64_9)
  | 9 => some ((c <<< 63) % 2 ^ 64 &&& READOSM_MASK64_A)
  | _ => none

/-- The `switch (variant->type)` inside the loop of `read_var`: the new
`(value32, value64)` after payload `c` was seen as byte number `count`. Types
outside the two families fall through the switch unchanged. -/
def read_var_accum (ty : VarType) (count c value32 value64 : Nat) :
    Option (Nat × Nat) :=
  match ty with
  | READOSM_VAR_INT32 | READOSM_VAR_UINT32 | READOSM_VAR_SINT32 =>
    match read_var_v32 count c with
    | some v32 => some (value32 ||| v32, value64)
    | none => none
  | READOSM_VAR_INT64 | READOSM_VAR_UINT64 | READOSM_VAR_SINT64 =>
    match read_var_v64 count c with
    | some v64 => some (value32, value64 ||| v64)
    | none => none
  | _ => some (value32, value64)

/-- The `while (1)` loop of `read_var`, started with `count`, `value32` and
`value64`; yields the final `value32`, `value64` and the bytes after `ptr`. -/
def read_var_loop (ty : VarType) : List Nat → Nat → Nat → Nat →
    Option (Nat × Nat × List Nat)
  | [], _, _, _ => none
  | b :: rest, count, value32, value64 =>
    let next := (b &&& 0x80) == 0x80
    let c := b &&& 0x7f
    match read_var_accum ty count c value32 value64 with
    | none => none
    | some (v32, v64) =>
      if next then read_var_loop ty rest (count + 1) v32 v64
      else some (v32, v64, rest)

/-- The final `switch (variant->type)` of `read_var`: the value stored into the
variant (as the number the written union member holds), `none` when no case
applies. -/
def read_var_value (ty : VarType) (value32 value64 : Nat) : Option Int :=
  match ty with
  | READOSM_VAR_INT32 => some (int32_of_bits value32)
  | READOSM_VAR_UINT32 => some (value32 : Int)
  | READOSM_VAR_SINT32 =>
    let neg : Int := if value32 &&& 0x00000001 = 0 then 1 else -1
    let v32 := (value32 + 1) % 2 ^ 32 / 2
    some (int32_of_bits (v32 * (neg % 2 ^ 32).toNat % 2 ^ 32))
  | READOSM_VAR_INT64 => some (int32_of_bits value64)
  | READOSM_VAR_UINT64 => some (value64 : Int)
  | READOSM_VAR_SINT64 =>
    let neg : Int := if value64 &&& 0x0000000000000001 = 0 then 1 else -1
    let v64 := (value64 + 1) % 2 ^ 64 / 2
    some (int64_of_bits (v64 * (neg % 2 ^ 64).toNat % 2 ^ 64))
  | _ => none

/-- Function `read_var (start, stop, variant)` for a variant of declared type
`ty`: the decoded value and the bytes that follow it, `none` for `NULL`. -/
def read_var (ty : VarType) (bytes : List Nat) : Option (Int × List Nat) :=
  match read_var_loop ty bytes 0 0 0 with
  | none => none
  | some (value32, value64, rest) =>
    match read_var_value ty value32 value64 with
    | none => none
    | some v => some (v, rest)

/-! ## Outcomes of the decoding functions -/

/-- What a decoding function of the source does on an input: it returns success
(`ok`, the C return value 1 together with the state it leaves), it returns failure
(`error`, the C return value 0 reached through `goto error`), or the C execution
leaves defined behaviour (`fault`: a null pointer is dereferenced or memory outside
an initialised object is read).  `fuel` is the embedding's own mark for a loop
bound that ran out; every loop is run with a bound of one more than the number of
bytes of its window, and each of its rounds consumes at least one byte. -/
inductive Outcome (α : Type) where
  | ok (a : α)
  | error
  | fault
  | fuel
  deriving DecidableEq, Repr

/-- Sequencing of outcomes: anything but `ok` is passed on. -/
def Outcome.bind {α β : Type} (x : Outcome α) (f : α → Outcome β) : Outcome β :=
  match x with
  | .ok a => f a
  | .error => .error
  | .fault => .fault
  | .fuel => .fuel

/-- The outcome with a function applied to the state of `ok`. -/
def Outcome.map {α β : Type} (f : α → β) (x : Outcome α) : Outcome β :=
  x.bind fun a => .ok (f a)

/-! ## Variants and type hints -/

/-- Struct `readosm_variant_hint`: a declared `(type, field_id)` pair. -/
structure readosm_variant_hint where
  type : VarType
  field_id : Nat
  deriving DecidableEq, Repr

/-- Struct `readosm_variant`.  `pointer` holds the `length` bytes the C pointer
designates, `value` the number held by the union member that was written, `hints`
the linked list `first .. last`. -/
structure readosm_variant where
  type : VarType
  field_id : Nat
  length : Nat
  pointer : List Nat
  valid : Bool
  value : Int
  hints : List readosm_variant_hint
  deriving DecidableEq, Repr

/-- Function `init_variant`. -/
def init_variant : readosm_variant :=
  { type := READOSM_VAR_UNDEFINED, field_id := 0, length := 0, pointer := [],
    valid := false, value := 0, hints := [] }

/-- Function `reset_variant`. -/
def reset_variant (variant : readosm_variant) : readosm_variant :=
  { variant with type := READOSM_VAR_UNDEFINED, field_id := 0, length := 0, pointer := [],
                 valid := false }

/-- Function `add_variant_hints`. -/
def add_variant_hints (variant : readosm_variant) (type : VarType) (field_id : Nat) :
    readosm_variant :=
  { variant with hints := variant.hints ++ [{ type := type, field_id := field_id }] }

/-- The `while (hint)` loop of `find_type_hint`. -/
def find_type_hint_loop (field_id type : Nat) : List readosm_variant_hint → Option VarType
  | [] => none
  | hint :: next =>
    if hint.field_id = field_id then
      match type with
      | 0 =>
        match hint.type with
        | READOSM_VAR_INT32 | READOSM_VAR_INT64 | READOSM_VAR_UINT32 | READOSM_VAR_UINT64
        | READOSM_VAR_SINT32 | READOSM_VAR_SINT64 | READOSM_VAR_BOOL | READOSM_VAR_ENUM =>
          some hint.type
        | _ => find_type_hint_loop field_id type next
      | 2 =>
        if hint.type = READOSM_LEN_BYTES then some hint.type
        else find_type_hint_loop field_id type next
      | _ => find_type_hint_loop field_id type next
    else find_type_hint_loop field_id type next

/-- Function `find_type_hint`: the hinted type, `none` for the return value 0. -/
def find_type_hint (variant : readosm_variant) (field_id type : Nat) : Option VarType :=
  find_type_hint_loop field_id type variant.hints

/-- Function `read_bytes`: a `uint32` length, then that many bytes.  The test
`(ptr + len - 1) > stop` is `len` exceeding the bytes left in the window. -/
def read_bytes (bytes : List Nat) (variant : readosm_variant) :
    Option (List Nat) × readosm_variant :=
  match read_var READOSM_VAR_UINT32 bytes with
  | some (v, ptr) =>
    let len := v.toNat
    if len > ptr.length then (none, variant)
    else (some (ptr.drop len),
          { variant with pointer := ptr.take len, length := len, valid := true })
  | none => (none, variant)

/-- Function `parse_field`: the returned pointer (`none` for `NULL`) and the variant
as the call leaves it. -/
def parse_field (bytes : List Nat) (variant : readosm_variant) :
    Option (List Nat) × readosm_variant :=
  match bytes with
  | [] => (none, variant)
  | t :: ptr =>
    let type := t &&& 0x07
    let field_id := (t &&& 0xf8) >>> 3
    match find_type_hint variant field_id type with
    | none => (none, variant)
    | some type_hint =>
      let variant := { variant with type := type_hint, field_id := field_id }
      match variant.type with
      | READOSM_VAR_INT32 | READOSM_VAR_INT64 | READOSM_VAR_UINT32 | READOSM_VAR_UINT64
      | READOSM_VAR_SINT32 | READOSM_VAR_SINT64 =>
        match read_var variant.type ptr with
        | some (v, rest) => (some rest, { variant with value := v, valid := true })
        | none => (none, variant)
      | READOSM_LEN_BYTES => read_bytes ptr variant
      | _ => (none, variant)

/-! ## Packed arrays -/

/-- Structs `readosm_uint32_packed`, `readosm_int32_packed` and
`readosm_int64_packed`, which have one shape: the linked list `first .. last`, the
`count` member, and the `values` array, of which the embedding keeps the entries
that were written (the array is allocated with `count` entries). -/
structure readosm_packed where
  first : List Int
  count : Nat
  values : List Int
  deriving DecidableEq, Repr

/-- Functions `init_uint32_packed`, `init_int32_packed`, `init_int64_packed`. -/
def init_packed : readosm_packed := { first := [], count := 0, values := [] }

/-- Function `array_from_uint32_packed`: `count` is increased by the length of the
list, and unless it is 0 a fresh array receives the values of the list. -/
def array_from_uint32_packed (packed : readosm_packed) : readosm_packed :=
  let count := packed.count + packed.first.length
  if count ≤ 0 then { packed with count := count }
  else { packed with count := count, values := packed.first }

/-- Function `array_from_int64_packed`. -/
def array_from_int64_packed (packed : readosm_packed) : readosm_packed :=
  let count := packed.count + packed.first.length
  if count ≤ 0 then { packed with count := count }
  else { packed with count := count, values := packed.first }

/-- The `while (1)` loop shared by `parse_uint32_packed`, `parse_sint32_packed` and
`parse_sint64_packed` (they differ in the declared type only).  `packed` is the
list appended to, `valid` the flag of the local variant, which no iteration clears.
When `read_var` fails with the flag still set from an earlier value, the source
appends the stale value, takes the `NULL` result as the next start and
dereferences it: `fault`. -/
def parse_packed_loop (ty : VarType) : Nat → List Int → Bool → List Nat → Outcome (List Int)
  | 0, _, _, _ => .fuel
  | fuel + 1, packed, valid, start =>
    match read_var ty start with
    | some (v, ptr) =>
      match ptr with
      | [] => .ok (packed ++ [v])
      | _ :: _ => parse_packed_loop ty fuel (packed ++ [v]) true ptr
    | none => if valid then .fault else .error

/-- Function `parse_uint32_packed`. -/
def parse_uint32_packed (packed : readosm_packed) (bytes : List Nat) :
    Outcome readosm_packed :=
  (parse_packed_loop READOSM_VAR_UINT32 (bytes.length + 1) packed.first false bytes).bind
    fun l => .ok { packed with first := l }

/-- Function `parse_sint32_packed`. -/
def parse_sint32_packed (packed : readosm_packed) (bytes : List Nat) :
    Outcome readosm_packed :=
  (parse_packed_loop READOSM_VAR_SINT32 (bytes.length + 1) packed.first false bytes).bind
    fun l => .ok { packed with first := l }

/-- Function `parse_sint64_packed`. -/
def parse_sint64_packed (packed : readosm_packed) (bytes : List Nat) :
    Outcome readosm_packed :=
  (parse_packed_loop READOSM_VAR_SINT64 (bytes.length + 1) packed.first false bytes).bind
    fun l => .ok { packed with first := l }

/-! ## DenseInfo -/

/-- Addition in `int` (two's complement wrap-around). -/
def int32_add (a b : Int) : Int := int32_of_bits ((a + b) % 2 ^ 32).toNat

/-- Addition in `long long` (two's complement wrap-around). -/
def int64_add (a b : Int) : Int := int64_of_bits ((a + b) % 2 ^ 64).toNat

/-- The loops `delta += p32->value; *(array + count) = delta;` over a list of `int`
values, started with `delta`. -/
def delta_int32 : Int → List Int → List Int
  | _, [] => []
  | delta, v :: vs => int32_add delta v :: delta_int32 (int32_add delta v) vs

/-- The loop `delta += p64->value; *(array + count) = delta;` over a list of
`long long` values. -/
def delta_int64 : Int → List Int → List Int
  | _, [] => []
  | delta, v :: vs => int64_add delta v :: delta_int64 (int64_add delta v) vs

/-- Struct `readosm_packed_infos` (its element types are declared in the absent
header; elements are kept as the numbers assigned to them). -/
structure readosm_packed_infos where
  ver_count : Nat
  versions : List Int
  tim_count : Nat
  timestamps : List Int
  cng_count : Nat
  changesets : List Int
  uid_count : Nat
  uids : List Int
  usr_count : Nat
  users : List Int
  deriving DecidableEq, Repr

/-- Function `init_packed_infos`. -/
def init_packed_infos : readosm_packed_infos :=
  { ver_count := 0, versions := [], tim_count := 0, timestamps := [], cng_count := 0,
    changesets := [], uid_count := 0, uids := [], usr_count := 0, users := [] }

/-- The body of the loop of `parse_pbf_node_infos` after `parse_field`: the five
`if (variant.field_id == .. && variant.type == READOSM_LEN_BYTES)` blocks, which
exclude one another.  The local packed objects are in their initial state at each
use, since every block resets the one it used. -/
def node_infos_field (packed_infos : readosm_packed_infos) (variant : readosm_variant) :
    Outcome readosm_packed_infos :=
  if variant.field_id = 1 ∧ variant.type = READOSM_LEN_BYTES then
    (parse_uint32_packed init_packed variant.pointer).bind fun packed_u32 =>
      let count := packed_u32.first.length
      .ok { packed_infos with
            ver_count := count, versions := if count > 0 then packed_u32.first else [] }
  else if variant.field_id = 2 ∧ variant.type = READOSM_LEN_BYTES then
    (parse_sint32_packed init_packed variant.pointer).bind fun packed_32 =>
      let count := packed_32.first.length
      .ok { packed_infos with
            tim_count := count,
            timestamps := if count > 0 then delta_int32 0 packed_32.first else [] }
  else if variant.field_id = 3 ∧ variant.type = READOSM_LEN_BYTES then
    (parse_sint64_packed init_packed variant.pointer).bind fun packed_64 =>
      let count := packed_64.first.length
      .ok { packed_infos with
            cng_count := count,
            changesets := if count > 0 then delta_int64 0 packed_64.first else [] }
  else if variant.field_id = 4 ∧ variant.type = READOSM_LEN_BYTES then
    (parse_sint32_packed init_packed variant.pointer).bind fun packed_32 =>
      let count := packed_32.first.length
      .ok { packed_infos with
            uid_count := count,
            uids := if count > 0 then delta_int32 0 packed_32.first else [] }
  else if variant.field_id = 5 ∧ variant.type = READOSM_LEN_BYTES then
    (parse_sint32_packed init_packed variant.pointer).bind fun packed_32 =>
      let count := packed_32.first.length
      .ok { packed_infos with
            usr_count := count,
            users := if count > 0 then delta_int32 0 packed_32.first else [] }
  else .ok packed_infos

/-- The `while (1)` loop of `parse_pbf_node_infos`.  A `NULL` from `parse_field`
with the variant not valid is the error exit; `parse_field` never returns `NULL`
with the variant valid (the source would go on with a null start pointer). -/
def parse_pbf_node_infos_loop :
    Nat → readosm_packed_infos → readosm_variant → List Nat → Outcome readosm_packed_infos
  | 0, _, _, _ => .fuel
  | fuel + 1, packed_infos, variant, start =>
    match parse_field start (reset_variant variant) with
    | (none, variant) => if variant.valid = false then .error else .fault
    | (some base, variant) =>
      (node_infos_field packed_infos variant).bind fun packed_infos =>
        match base with
        | [] => .ok packed_infos
        | _ :: _ => parse_pbf_node_infos_loop fuel packed_infos variant base

/-- The variant of `parse_pbf_node_infos` with its six hints. -/
def node_infos_variant : readosm_variant :=
  add_variant_hints (add_variant_hints (add_variant_hints (add_variant_hints
    (add_variant_hints (add_variant_hints init_variant READOSM_LEN_BYTES 1)
      READOSM_LEN_BYTES 2) READOSM_LEN_BYTES 3) READOSM_LEN_BYTES 4) READOSM_LEN_BYTES 5)
    READOSM_LEN_BYTES 6

/-- Function `parse_pbf_node_infos`. -/
def parse_pbf_node_infos (packed_infos : readosm_packed_infos) (bytes : List Nat) :
    Outcome readosm_packed_infos :=
  parse_pbf_node_infos_loop (bytes.length + 1) packed_infos node_infos_variant bytes

/-! ## Strings, tags and nodes -/

/-- Modelled from the spec: constant `READOSM_UNDEFINED` of the absent `readosm.h`,
the out-of-band value of numeric fields that are not present. -/
def READOSM_UNDEFINED : Int := -1234567890

/-- Modelled from the spec: constant `READOSM_OK` of the absent `readosm.h`
("`OK=0`"). -/
def READOSM_OK : Int := 0

/-- The C string held by a character buffer: its bytes up to the first zero byte
(what `strlen` and `strcpy` see). -/
def c_string (buf : List Nat) : List Nat := buf.takeWhile (fun b => b != 0)

/-- Struct `readosm_string_table`: the linked list `first .. last` of the strings
(each the bytes copied by `append_string_to_table`, before the terminating zero), the
`count` member and the `strings` pointer array. -/
structure readosm_string_table where
  first : List (List Nat)
  count : Nat
  strings : List (List Nat)
  deriving DecidableEq, Repr

/-- The access `*(strings->strings + i)` followed by `->string`: the character
buffer of entry `i`, `none` when the index lies outside the array. -/
def string_at (strings : readosm_string_table) (i : Int) : Option (List Nat) :=
  if 0 ≤ i then strings.strings.get? i.toNat else none

/-- Struct `readosm_internal_tag`. -/
structure readosm_internal_tag where
  key : Option (List Nat)
  value : Option (List Nat)
  deriving DecidableEq, Repr

/-- Struct `readosm_internal_node`.  `latitude` and `longitude` are the exact
numerators of the doubles over `10000000`; `timestamp` is the number of seconds
whose `gmtime` rendering the C string holds; `tags` is the list
`first_tag .. last_tag`. -/
structure readosm_internal_node where
  id : Int
  latitude : Int
  longitude : Int
  version : Int
  changeset : Int
  user : Option (List Nat)
  uid : Int
  timestamp : Option Int
  tag_count : Nat
  tags : List readosm_internal_tag
  deriving DecidableEq, Repr

/-- Function `init_internal_node`. -/
def init_internal_node : readosm_internal_node :=
  { id := READOSM_UNDEFINED, latitude := READOSM_UNDEFINED * 10000000,
    longitude := READOSM_UNDEFINED * 10000000, version := READOSM_UNDEFINED,
    changeset := READOSM_UNDEFINED, user := none, uid := READOSM_UNDEFINED,
    timestamp := none, tag_count := 0, tags := [] }

/-- Function `append_tag_to_node`: key and value are copied with `strcpy`. -/
def append_tag_to_node (node : readosm_internal_node) (key value : List Nat) :
    readosm_internal_node :=
  { node with tags := node.tags ++ [{ key := some (c_string key),
                                      value := some (c_string value) }] }

/-- Struct `readosm_export_tag`. -/
structure readosm_export_tag where
  key : Option (List Nat)
  value : Option (List Nat)
  deriving DecidableEq, Repr

/-- Struct `readosm_export_node`, the view handed to the node callback. -/
structure readosm_export_node where
  id : Int
  latitude : Int
  longitude : Int
  version : Int
  changeset : Int
  user : Option (List Nat)
  uid : Int
  timestamp : Option Int
  tag_count : Nat
  tags : List readosm_export_tag
  deriving DecidableEq, Repr

/-- Struct `readosm_export_way`, the view handed to the way callback. -/
structure readosm_export_way where
  id : Int
  version : Int
  changeset : Int
  user : Option (List Nat)
  uid : Int
  timestamp : Option Int
  node_ref_count : Nat
  node_refs : List Int
  tag_count : Nat
  tags : List readosm_export_tag
  deriving DecidableEq, Repr

/-- Struct `readosm_export_member`. -/
structure readosm_export_member where
  member_type : Int
  id : Int
  role : Option (List Nat)
  deriving DecidableEq, Repr

/-- Struct `readosm_export_relation`, the view handed to the relation callback. -/
structure readosm_export_relation where
  id : Int
  version : Int
  changeset : Int
  user : Option (List Nat)
  uid : Int
  timestamp : Option Int
  member_count : Nat
  members : List readosm_export_member
  tag_count : Nat
  tags : List readosm_export_tag
  deriving DecidableEq, Repr

/-- Function `init_export_node`. -/
def init_export_node : readosm_export_node :=
  { id := READOSM_UNDEFINED, latitude := READOSM_UNDEFINED * 10000000,
    longitude := READOSM_UNDEFINED * 10000000, version := READOSM_UNDEFINED,
    changeset := READOSM_UNDEFINED, user := none, uid := READOSM_UNDEFINED,
    timestamp := none, tag_count := 0, tags := [] }

/-- The export view `call_node_callback` builds from an internal node: scalar
members are copied, strings are copied with `strcpy`, and the tag array mirrors the
tag list. -/
def export_node (node : readosm_internal_node) : readosm_export_node :=
  { init_export_node with
    id := node.id, latitude := node.latitude, longitude := node.longitude,
    version := node.version, changeset := node.changeset,
    user := node.user.map c_string, uid := node.uid, timestamp := node.timestamp,
    tag_count := node.tags.length,
    tags := node.tags.map fun tag =>
      { key := tag.key.map c_string, value := tag.value.map c_string } }

/-- Function `call_node_callback`.  A callback receives the user data and the
export view and yields its return value together with the user data as it leaves
them. -/
def call_node_callback {σ : Type} (node_callback : σ → readosm_export_node → Int × σ)
    (user_data : σ) (node : readosm_internal_node) : Int × σ :=
  node_callback user_data (export_node node)

/-- Struct `pbf_params`; a null callback is `none`. -/
structure pbf_params (σ : Type) where
  user_data : σ
  node_callback : Option (σ → readosm_export_node → Int × σ)
  way_callback : Option (σ → readosm_export_way → Int × σ)
  relation_callback : Option (σ → readosm_export_relation → Int × σ)
  stop : Int

/-! ## DenseNodes -/

/-- The packed objects that `parse_pbf_nodes` fills while it reads the fields. -/
structure dense_nodes_state where
  packed_keys : readosm_packed
  packed_ids : readosm_packed
  packed_lats : readosm_packed
  packed_lons : readosm_packed
  packed_infos : readosm_packed_infos
  deriving DecidableEq, Repr

/-- The initial state of the packed objects of `parse_pbf_nodes`. -/
def init_dense_nodes_state : dense_nodes_state :=
  { packed_keys := init_packed, packed_ids := init_packed, packed_lats := init_packed,
    packed_lons := init_packed, packed_infos := init_packed_infos }

/-- The body of the field loop of `parse_pbf_nodes` after `parse_field`: the five
`if (variant.field_id == .. && variant.type == READOSM_LEN_BYTES)` blocks, which
exclude one another. -/
def nodes_field (st : dense_nodes_state) (variant : readosm_variant) :
    Outcome dense_nodes_state :=
  if variant.field_id = 1 ∧ variant.type = READOSM_LEN_BYTES then
    (parse_sint64_packed st.packed_ids variant.pointer).bind fun packed =>
      .ok { st with packed_ids := array_from_int64_packed packed }
  else if variant.field_id = 5 ∧ variant.type = READOSM_LEN_BYTES then
    (parse_pbf_node_infos st.packed_infos variant.pointer).bind fun packed_infos =>
      .ok { st with packed_infos := packed_infos }
  else if variant.field_id = 8 ∧ variant.type = READOSM_LEN_BYTES then
    (parse_sint64_packed st.packed_lats variant.pointer).bind fun packed =>
      .ok { st with packed_lats := array_from_int64_packed packed }
  else if variant.field_id = 9 ∧ variant.type = READOSM_LEN_BYTES then
    (parse_sint64_packed st.packed_lons variant.pointer).bind fun packed =>
      .ok { st with packed_lons := array_from_int64_packed packed }
  else if variant.field_id = 10 ∧ variant.type = READOSM_LEN_BYTES then
    (parse_uint32_packed st.packed_keys variant.pointer).bind fun packed =>
      .ok { st with packed_keys := array_from_uint32_packed packed }
  else .ok st

/-- The `while (1)` field loop of `parse_pbf_nodes`. -/
def parse_pbf_nodes_loop :
    Nat → dense_nodes_state → readosm_variant → List Nat → Outcome dense_nodes_state
  | 0, _, _, _ => .fuel
  | fuel + 1, st, variant, start =>
    match parse_field start (reset_variant variant) with
    | (none, variant) => if variant.valid = false then .error else .fault
    | (some base, variant) =>
      (nodes_field st variant).bind fun st =>
        match base with
        | [] => .ok st
        | _ :: _ => parse_pbf_nodes_loop fuel st variant base

/-- The variant of `parse_pbf_nodes` with its five hints. -/
def nodes_variant : readosm_variant :=
  add_variant_hints (add_variant_hints (add_variant_hints (add_variant_hints
    (add_variant_hints init_variant READOSM_LEN_BYTES 1) READOSM_LEN_BYTES 5)
      READOSM_LEN_BYTES 8) READOSM_LEN_BYTES 9) READOSM_LEN_BYTES 10

/-- The first part of `parse_pbf_nodes`: reading all fields of the message. -/
def parse_pbf_nodes_fields (bytes : List Nat) : Outcome dense_nodes_state :=
  parse_pbf_nodes_loop (bytes.length + 1) init_dense_nodes_state nodes_variant bytes

/-- The test that guards the reassembly in `parse_pbf_nodes`: all item counts
agree. -/
def nodes_counts_agree (st : dense_nodes_state) : Bool :=
  st.packed_ids.count == st.packed_lats.count
    && st.packed_ids.count == st.packed_lons.count
    && st.packed_ids.count == st.packed_infos.ver_count
    && st.packed_ids.count == st.packed_infos.tim_count
    && st.packed_ids.count == st.packed_infos.cng_count
    && st.packed_ids.count == st.packed_infos.uid_count
    && st.packed_ids.count == st.packed_infos.usr_count

/-- The loop `for (; i_keys < packed_keys.count; i_keys++)` that decodes the tags
of one node; the first argument is `packed_keys.count - i_keys`.  Yields the final
`i_keys` and the node. -/
def node_tags_loop (strings : readosm_string_table) (packed_keys : readosm_packed) :
    Nat → Nat → Option (List Nat) → readosm_internal_node →
      Outcome (Nat × readosm_internal_node)
  | 0, i_keys, _, nd => .ok (i_keys, nd)
  | n + 1, i_keys, key, nd =>
    match packed_keys.values.get? i_keys with
    | none => .fault
    | some raw =>
      let is := int32_of_bits raw.toNat
      if is = 0 then .ok (i_keys + 1, nd)
      else
        match string_at strings is with
        | none => .fault
        | some s =>
          match key with
          | none => node_tags_loop strings packed_keys n (i_keys + 1) (some s) nd
          | some k =>
            node_tags_loop strings packed_keys n (i_keys + 1) none
              (append_tag_to_node nd k s)

/-- The user name of a node: for `s_id > 0` the string of that index, when it is
not empty. -/
def node_user (strings : readosm_string_table) (s_id : Int) : Outcome (Option (List Nat)) :=
  if s_id > 0 then
    match string_at strings s_id with
    | none => .fault
    | some s => if (c_string s).length > 0 then .ok (some (c_string s)) else .ok none
  else .ok none

/-- One round of the loop `for (i = 0; i < nd_count; i++)` that reassembles the
nodes: node `i`, and `i_keys`, `delta_id`, `delta_lat`, `delta_lon` after it. -/
def reassemble_node (strings : readosm_string_table) (st : dense_nodes_state)
    (i i_keys : Nat) (delta_id delta_lat delta_lon : Int) :
    Outcome (readosm_internal_node × Nat × Int × Int × Int) :=
  match st.packed_ids.values.get? i, st.packed_lats.values.get? i,
      st.packed_lons.values.get? i, st.packed_infos.versions.get? i,
      st.packed_infos.timestamps.get? i, st.packed_infos.changesets.get? i,
      st.packed_infos.uids.get? i, st.packed_infos.users.get? i with
  | some id, some lat, some lon, some version, some xtime, some changeset, some uid,
      some s_id =>
    let delta_id := int64_add delta_id id
    let delta_lat := int64_add delta_lat lat
    let delta_lon := int64_add delta_lon lon
    let nd : readosm_internal_node :=
      { init_internal_node with
        id := delta_id, latitude := delta_lat, longitude := delta_lon,
        version := version, timestamp := some xtime, changeset := changeset,
        uid := if uid ≥ 0 then uid else init_internal_node.uid }
    (node_user strings s_id).bind fun user =>
      (node_tags_loop strings st.packed_keys (st.packed_keys.count - i_keys) i_keys none
          { nd with user := user }).bind fun r =>
        .ok (r.2, r.1, delta_id, delta_lat, delta_lon)
  | _, _, _, _, _, _, _, _ => .fault

/-- The loop `for (i = 0; i < nd_count; i++)` that reassembles the nodes; the first
argument is `nd_count - i`. -/
def reassemble_loop (strings : readosm_string_table) (st : dense_nodes_state) :
    Nat → Nat → Nat → Int → Int → Int → Outcome (List readosm_internal_node)
  | 0, _, _, _, _, _ => .ok []
  | n + 1, i, i_keys, delta_id, delta_lat, delta_lon =>
    (reassemble_node strings st i i_keys delta_id delta_lat delta_lon).bind fun r =>
      (reassemble_loop strings st n (i + 1) r.2.1 r.2.2.1 r.2.2.2.1 r.2.2.2.2).bind
        fun nodes => .ok (r.1 :: nodes)

/-- The nodes array of `parse_pbf_nodes` after the reassembly block: `nd_count`
nodes when all counts agree, no node otherwise. -/
def reassemble_nodes (strings : readosm_string_table) (st : dense_nodes_state) :
    Outcome (List readosm_internal_node) :=
  if nodes_counts_agree st then reassemble_loop strings st st.packed_ids.count 0 0 0 0 0
  else .ok []

/-- The loop `for (i = 0; i < nd_count; i++)` that hands the nodes to the callback;
a return value other than `READOSM_OK` sets `stop` and leaves the loop. -/
def dispatch_nodes {σ : Type} (node_callback : σ → readosm_export_node → Int × σ) :
    List readosm_internal_node → pbf_params σ → pbf_params σ
  | [], params => params
  | nd :: rest, params =>
    let r := call_node_callback node_callback params.user_data nd
    if r.1 ≠ READOSM_OK then { params with user_data := r.2, stop := 1 }
    else dispatch_nodes node_callback rest { params with user_data := r.2 }

/-- Function `parse_pbf_nodes`: `ok` with the parameters as the call leaves them
for the return value 1, `error` for the return value 0. -/
def parse_pbf_nodes {σ : Type} (strings : readosm_string_table) (bytes : List Nat)
    (params : pbf_params σ) : Outcome (pbf_params σ) :=
  (parse_pbf_nodes_fields bytes).bind fun st =>
    (reassemble_nodes strings st).bind fun nodes =>
      match params.node_callback with
      | some node_callback =>
        if params.stop = 0 then .ok (dispatch_nodes node_callback nodes params)
        else .ok params
      | none => .ok params

/-! ## The field loop of the message parsers -/

/-- The `while (1)` skeleton that the message parsers of the source repeat: reset
the variant, `parse_field`, leave through `goto error` on `NULL`, run the blocks
`if (variant.field_id == .. && variant.type == ..)` (the `handler`), and stop
once the returned position lies past `stop`. -/
def field_loop {S : Type} (handler : S → readosm_variant → Outcome S) :
    Nat → S → readosm_variant → List Nat → Outcome S
  | 0, _, _, _ => .fuel
  | fuel + 1, s, variant, start =>
    match parse_field start (reset_variant variant) with
    | (none, variant) => if variant.valid = false then .error else .fault
    | (some base, variant) =>
      (handler s variant).bind fun s =>
        match base with
        | [] => .ok s
        | _ :: _ => field_loop handler fuel s variant base

/-! ## Ways -/

/-- Struct `readosm_internal_way`; `refs` is the list `first_ref .. last_ref`,
`tags` the list `first_tag .. last_tag`, `timestamp` the seconds whose rendering
the C string holds. -/
structure readosm_internal_way where
  id : Int
  version : Int
  changeset : Int
  user : Option (List Nat)
  uid : Int
  timestamp : Option Int
  ref_count : Nat
  refs : List Int
  tag_count : Nat
  tags : List readosm_internal_tag
  deriving DecidableEq, Repr

/-- Function `alloc_internal_way`. -/
def alloc_internal_way : readosm_internal_way :=
  { id := 0, version := 0, changeset := 0, user := none, uid := 0, timestamp := none,
    ref_count := 0, refs := [], tag_count := 0, tags := [] }

/-- Function `append_reference_to_way`. -/
def append_reference_to_way (way : readosm_internal_way) (node_ref : Int) :
    readosm_internal_way :=
  { way with refs := way.refs ++ [node_ref] }

/-- Function `append_tag_to_way`: key and value are copied with `strcpy`. -/
def append_tag_to_way (way : readosm_internal_way) (key value : List Nat) :
    readosm_internal_way :=
  { way with tags := way.tags ++ [{ key := some (c_string key),
                                    value := some (c_string value) }] }

/-- The user name looked up by `parse_pbf_way_info` and `parse_pbf_relation_info`:
guarded by `userid > 0 && userid < strings->count`, otherwise nil. -/
def info_user (strings : readosm_string_table) (userid : Int) : Outcome (Option (List Nat)) :=
  if userid > 0 ∧ userid < strings.count then
    match string_at strings userid with
    | none => .fault
    | some s => .ok (some (c_string s))
  else .ok none

/-- The body of the loop of `parse_pbf_way_info` after `parse_field`. -/
def way_info_field (strings : readosm_string_table) (way : readosm_internal_way)
    (variant : readosm_variant) : Outcome readosm_internal_way :=
  if variant.field_id = 1 ∧ variant.type = READOSM_VAR_INT32 then
    .ok { way with version := variant.value }
  else if variant.field_id = 2 ∧ variant.type = READOSM_VAR_INT32 then
    .ok { way with timestamp := some variant.value }
  else if variant.field_id = 3 ∧ variant.type = READOSM_VAR_INT64 then
    .ok { way with changeset := variant.value }
  else if variant.field_id = 4 ∧ variant.type = READOSM_VAR_INT32 then
    .ok { way with uid := variant.value }
  else if variant.field_id = 5 ∧ variant.type = READOSM_VAR_INT32 then
    (info_user strings variant.value).bind fun user => .ok { way with user := user }
  else .ok way

/-- The variant of `parse_pbf_way_info` and `parse_pbf_relation_info` with its six
hints. -/
def info_variant : readosm_variant :=
  add_variant_hints (add_variant_hints (add_variant_hints (add_variant_hints
    (add_variant_hints (add_variant_hints init_variant READOSM_VAR_INT32 1)
      READOSM_VAR_INT32 2) READOSM_VAR_INT64 3) READOSM_VAR_INT32 4) READOSM_VAR_INT32 5)
    READOSM_VAR_INT32 6

/-- Function `parse_pbf_way_info`. -/
def parse_pbf_way_info (way : readosm_internal_way) (strings : readosm_string_table)
    (bytes : List Nat) : Outcome readosm_internal_way :=
  field_loop (way_info_field strings) (bytes.length + 1) way info_variant bytes

/-- The way and the packed objects that `parse_pbf_way` works on. -/
structure way_state where
  way : readosm_internal_way
  packed_keys : readosm_packed
  packed_values : readosm_packed
  packed_refs : readosm_packed
  deriving DecidableEq, Repr

/-- The initial state of `parse_pbf_way`. -/
def init_way_state : way_state :=
  { way := alloc_internal_way, packed_keys := init_packed, packed_values := init_packed,
    packed_refs := init_packed }

/-- The loop `delta += value->value; append_reference_to_way (way, delta);` over the
whole list of `packed_refs`, started with `delta = 0`. -/
def append_way_refs (way : readosm_internal_way) (values : List Int) : readosm_internal_way :=
  (delta_int64 0 values).foldl append_reference_to_way way

/-- The body of the field loop of `parse_pbf_way` after `parse_field`. -/
def way_field (strings : readosm_string_table) (st : way_state) (variant : readosm_variant) :
    Outcome way_state :=
  if variant.field_id = 1 ∧ variant.type = READOSM_VAR_INT64 then
    .ok { st with way := { st.way with id := variant.value } }
  else if variant.field_id = 2 ∧ variant.type = READOSM_LEN_BYTES then
    (parse_uint32_packed st.packed_keys variant.pointer).bind fun packed =>
      .ok { st with packed_keys := array_from_uint32_packed packed }
  else if variant.field_id = 3 ∧ variant.type = READOSM_LEN_BYTES then
    (parse_uint32_packed st.packed_values variant.pointer).bind fun packed =>
      .ok { st with packed_values := array_from_uint32_packed packed }
  else if variant.field_id = 4 ∧ variant.type = READOSM_LEN_BYTES then
    (parse_pbf_way_info st.way strings variant.pointer).bind fun way =>
      .ok { st with way := way }
  else if variant.field_id = 8 ∧ variant.type = READOSM_LEN_BYTES then
    (parse_sint64_packed st.packed_refs variant.pointer).bind fun packed =>
      .ok { st with packed_refs := packed, way := append_way_refs st.way packed.first }
  else .ok st

/-- The variant of `parse_pbf_way` with its five hints. -/
def way_variant : readosm_variant :=
  add_variant_hints (add_variant_hints (add_variant_hints (add_variant_hints
    (add_variant_hints init_variant READOSM_VAR_INT64 1) READOSM_LEN_BYTES 2)
      READOSM_LEN_BYTES 3) READOSM_LEN_BYTES 4) READOSM_LEN_BYTES 8

/-- The first part of `parse_pbf_way`: reading all fields of the message. -/
def parse_pbf_way_fields (strings : readosm_string_table) (bytes : List Nat) :
    Outcome way_state :=
  field_loop (way_field strings) (bytes.length + 1) init_way_state way_variant bytes

/-- The loop `for (i = 0; i < packed_keys.count; i++)` of `parse_pbf_way` that
appends the tags; the first argument is `packed_keys.count - i`. -/
def way_tags_loop (strings : readosm_string_table) (packed_keys packed_values : readosm_packed) :
    Nat → Nat → readosm_internal_way → Outcome readosm_internal_way
  | 0, _, way => .ok way
  | n + 1, i, way =>
    match packed_keys.values.get? i, packed_values.values.get? i with
    | some k, some v =>
      match string_at strings (int32_of_bits k.toNat),
          string_at strings (int32_of_bits v.toNat) with
      | some s_key, some s_value =>
        way_tags_loop strings packed_keys packed_values n (i + 1)
          (append_tag_to_way way s_key s_value)
      | _, _ => .fault
    | _, _ => .fault

/-- The way of `parse_pbf_way` as it stands when the callback is reached: the
fields are read and, when the counts of keys and values agree, the tags appended;
the function leaves through `goto error` otherwise. -/
def parse_pbf_way_entity (strings : readosm_string_table) (bytes : List Nat) :
    Outcome readosm_internal_way :=
  (parse_pbf_way_fields strings bytes).bind fun st =>
    if st.packed_keys.count = st.packed_values.count then
      way_tags_loop strings st.packed_keys st.packed_values st.packed_keys.count 0 st.way
    else .error

/-- Function `init_export_way`. -/
def init_export_way : readosm_export_way :=
  { id := 0, version := 0, changeset := 0, user := none, uid := 0, timestamp := none,
    node_ref_count := 0, node_refs := [], tag_count := 0, tags := [] }

/-- The export view `call_way_callback` builds from an internal way. -/
def export_way (way : readosm_internal_way) : readosm_export_way :=
  { init_export_way with
    id := way.id, version := way.version, changeset := way.changeset,
    user := way.user.map c_string, uid := way.uid, timestamp := way.timestamp,
    node_ref_count := way.refs.length, node_refs := way.refs,
    tag_count := way.tags.length,
    tags := way.tags.map fun tag =>
      { key := tag.key.map c_string, value := tag.value.map c_string } }

/-- Function `call_way_callback`. -/
def call_way_callback {σ : Type} (way_callback : σ → readosm_export_way → Int × σ)
    (user_data : σ) (way : readosm_internal_way) : Int × σ :=
  way_callback user_data (export_way way)

/-- The block "processing the WAY" of `parse_pbf_way`. -/
def dispatch_way {σ : Type} (way : readosm_internal_way) (params : pbf_params σ) :
    pbf_params σ :=
  match params.way_callback with
  | some way_callback =>
    if params.stop = 0 then
      let r := call_way_callback way_callback params.user_data way
      if r.1 ≠ READOSM_OK then { params with user_data := r.2, stop := 1 }
      else { params with user_data := r.2 }
    else params
  | none => params

/-- Function `parse_pbf_way`: `ok` with the parameters as the call leaves them for
the return value 1, `error` for the return value 0 (the parameters are untouched
then, the callback being the last step). -/
def parse_pbf_way {σ : Type} (strings : readosm_string_table) (bytes : List Nat)
    (params : pbf_params σ) : Outcome (pbf_params σ) :=
  (parse_pbf_way_entity strings bytes).bind fun way => .ok (dispatch_way way params)

/-! ## Relations -/

/-- Modelled from the spec: constant `READOSM_MEMBER_NODE` of the absent `readosm.h`;
the specification names the member kind NODE without a number, the embedding keeps
a number distinct from the other member kinds and from `READOSM_UNDEFINED`. -/
def READOSM_MEMBER_NODE : Int := 7361

/-- Modelled from the spec: constant `READOSM_MEMBER_WAY` of the absent `readosm.h`
(member kind WAY). -/
def READOSM_MEMBER_WAY : Int := 6731

/-- Modelled from the spec: constant `READOSM_MEMBER_RELATION` of the absent
`readosm.h` (member kind RELATION). -/
def READOSM_MEMBER_RELATION : Int := 3671

/-- Struct `readosm_internal_member`. -/
structure readosm_internal_member where
  member_type : Int
  id : Int
  role : Option (List Nat)
  deriving DecidableEq, Repr

/-- Function `alloc_internal_member`. -/
def alloc_internal_member : readosm_internal_member :=
  { member_type := READOSM_UNDEFINED, id := 0, role := none }

/-- Struct `readosm_internal_relation`; `members` is the list
`first_member .. last_member`, `tags` the list `first_tag .. last_tag`. -/
structure readosm_internal_relation where
  id : Int
  version : Int
  changeset : Int
  user : Option (List Nat)
  uid : Int
  timestamp : Option Int
  member_count : Nat
  members : List readosm_internal_member
  tag_count : Nat
  tags : List readosm_internal_tag
  deriving DecidableEq, Repr

/-- Function `alloc_internal_relation`. -/
def alloc_internal_relation : readosm_internal_relation :=
  { id := 0, version := 0, changeset := 0, user := none, uid := 0, timestamp := none,
    member_count := 0, members := [], tag_count := 0, tags := [] }

/-- Function `append_member_to_relation`: the `switch (type)` sets the member type
for 0, 1 and 2 and leaves it as allocated otherwise. -/
def append_member_to_relation (relation : readosm_internal_relation) (type id : Int)
    (role : List Nat) : readosm_internal_relation :=
  let member := alloc_internal_member
  let member :=
    if type = 0 then { member with member_type := READOSM_MEMBER_NODE }
    else if type = 1 then { member with member_type := READOSM_MEMBER_WAY }
    else if type = 2 then { member with member_type := READOSM_MEMBER_RELATION }
    else member
  { relation with
    members := relation.members ++ [{ member with id := id, role := some (c_string role) }] }

/-- Function `append_tag_to_relation`. -/
def append_tag_to_relation (relation : readosm_internal_relation) (key value : List Nat) :
    readosm_internal_relation :=
  { relation with tags := relation.tags ++ [{ key := some (c_string key),
                                              value := some (c_string value) }] }

/-- The body of the loop of `parse_pbf_relation_info` after `parse_field`. -/
def relation_info_field (strings : readosm_string_table) (relation : readosm_internal_relation)
    (variant : readosm_variant) : Outcome readosm_internal_relation :=
  if variant.field_id = 1 ∧ variant.type = READOSM_VAR_INT32 then
    .ok { relation with version := variant.value }
  else if variant.field_id = 2 ∧ variant.type = READOSM_VAR_INT32 then
    .ok { relation with timestamp := some variant.value }
  else if variant.field_id = 3 ∧ variant.type = READOSM_VAR_INT64 then
    .ok { relation with changeset := variant.value }
  else if variant.field_id = 4 ∧ variant.type = READOSM_VAR_INT32 then
    .ok { relation with uid := variant.value }
  else if variant.field_id = 5 ∧ variant.type = READOSM_VAR_INT32 then
    (info_user strings variant.value).bind fun user => .ok { relation with user := user }
  else .ok relation

/-- Function `parse_pbf_relation_info`. -/
def parse_pbf_relation_info (relation : readosm_internal_relation)
    (strings : readosm_string_table) (bytes : List Nat) : Outcome readosm_internal_relation :=
  field_loop (relation_info_field strings) (bytes.length + 1) relation info_variant bytes

/-- The relation and the packed objects that `parse_pbf_relation` works on. -/
structure relation_state where
  relation : readosm_internal_relation
  packed_keys : readosm_packed
  packed_values : readosm_packed
  packed_roles : readosm_packed
  packed_types : readosm_packed
  packed_refs : readosm_packed
  deriving DecidableEq, Repr

/-- The initial state of `parse_pbf_relation`. -/
def init_relation_state : relation_state :=
  { relation := alloc_internal_relation, packed_keys := init_packed,
    packed_values := init_packed, packed_roles := init_packed, packed_types := init_packed,
    packed_refs := init_packed }

/-- The body of the field loop of `parse_pbf_relation` after `parse_field`. -/
def relation_field (strings : readosm_string_table) (st : relation_state)
    (variant : readosm_variant) : Outcome relation_state :=
  if variant.field_id = 1 ∧ variant.type = READOSM_VAR_INT64 then
    .ok { st with relation := { st.relation with id := variant.value } }
  else if variant.field_id = 2 ∧ variant.type = READOSM_LEN_BYTES then
    (parse_uint32_packed st.packed_keys variant.pointer).bind fun packed =>
      .ok { st with packed_keys := array_from_uint32_packed packed }
  else if variant.field_id = 3 ∧ variant.type = READOSM_LEN_BYTES then
    (parse_uint32_packed st.packed_values variant.pointer).bind fun packed =>
      .ok { st with packed_values := array_from_uint32_packed packed }
  else if variant.field_id = 4 ∧ variant.type = READOSM_LEN_BYTES then
    (parse_pbf_relation_info st.relation strings variant.pointer).bind fun relation =>
      .ok { st with relation := relation }
  else if variant.field_id = 8 ∧ variant.type = READOSM_LEN_BYTES then
    (parse_uint32_packed st.packed_roles variant.pointer).bind fun packed =>
      .ok { st with packed_roles := array_from_uint32_packed packed }
  else if variant.field_id = 9 ∧ variant.type = READOSM_LEN_BYTES then
    (parse_sint64_packed st.packed_refs variant.pointer).bind fun packed =>
      .ok { st with packed_refs := array_from_int64_packed packed }
  else if variant.field_id = 10 ∧ variant.type = READOSM_LEN_BYTES then
    (parse_uint32_packed st.packed_types variant.pointer).bind fun packed =>
      .ok { st with packed_types := array_from_uint32_packed packed }
  else .ok st

/-- The variant of `parse_pbf_relation` with its seven hints. -/
def relation_variant : readosm_variant :=
  add_variant_hints (add_variant_hints (add_variant_hints (add_variant_hints
    (add_variant_hints (add_variant_hints (add_variant_hints init_variant
      READOSM_VAR_INT64 1) READOSM_LEN_BYTES 2) READOSM_LEN_BYTES 3) READOSM_LEN_BYTES 4)
        READOSM_LEN_BYTES 8) READOSM_LEN_BYTES 9) READOSM_LEN_BYTES 10

/-- The first part of `parse_pbf_relation`: reading all fields of the message. -/
def parse_pbf_relation_fields (strings : readosm_string_table) (bytes : List Nat) :
    Outcome relation_state :=
  field_loop (relation_field strings) (bytes.length + 1) init_relation_state relation_variant
    bytes

/-- The first loop `for (i = 0; i < packed_keys.count; i++)` of `parse_pbf_relation`,
which appends the tags; the first argument is `packed_keys.count - i`. -/
def relation_tags_loop (strings : readosm_string_table)
    (packed_keys packed_values : readosm_packed) :
    Nat → Nat → readosm_internal_relation → Outcome readosm_internal_relation
  | 0, _, relation => .ok relation
  | n + 1, i, relation =>
    match packed_keys.values.get? i, packed_values.values.get? i with
    | some k, some v =>
      match string_at strings (int32_of_bits k.toNat),
          string_at strings (int32_of_bits v.toNat) with
      | some s_key, some s_value =>
        relation_tags_loop strings packed_keys packed_values n (i + 1)
          (append_tag_to_relation relation s_key s_value)
      | _, _ => .fault
    | _, _ => .fault

/-- The second loop `for (i = 0; i < packed_roles.count; i++)` of
`parse_pbf_relation`, which appends the members; the first argument is
`packed_roles.count - i`, `delta` the running sum of the member ids. -/
def relation_members_loop (strings : readosm_string_table)
    (packed_roles packed_types packed_refs : readosm_packed) :
    Nat → Nat → Int → readosm_internal_relation → Outcome readosm_internal_relation
  | 0, _, _, relation => .ok relation
  | n + 1, i, delta, relation =>
    match packed_roles.values.get? i, packed_types.values.get? i,
        packed_refs.values.get? i with
    | some r, some t, some d =>
      match string_at strings (int32_of_bits r.toNat) with
      | some s_role =>
        let delta := int64_add delta d
        relation_members_loop strings packed_roles packed_types packed_refs n (i + 1) delta
          (append_member_to_relation relation (int32_of_bits t.toNat) delta s_role)
      | none => .fault
    | _, _, _ => .fault

/-- The relation of `parse_pbf_relation` as it stands when the callback is reached:
the fields are read, the tags appended when the counts of keys and values agree, and
the members appended when the counts of roles, member ids and types agree; the
function leaves through `goto error` otherwise. -/
def parse_pbf_relation_entity (strings : readosm_string_table) (bytes : List Nat) :
    Outcome readosm_internal_relation :=
  (parse_pbf_relation_fields strings bytes).bind fun st =>
    if st.packed_keys.count = st.packed_values.count then
      (relation_tags_loop strings st.packed_keys st.packed_values st.packed_keys.count 0
        st.relation).bind fun relation =>
        if st.packed_roles.count = st.packed_refs.count ∧
            st.packed_roles.count = st.packed_types.count then
          relation_members_loop strings st.packed_roles st.packed_types st.packed_refs
            st.packed_roles.count 0 0 relation
        else .error
    else .error

/-- Function `init_export_relation`. -/
def init_export_relation : readosm_export_relation :=
  { id := 0, version := 0, changeset := 0, user := none, uid := 0, timestamp := none,
    member_count := 0, members := [], tag_count := 0, tags := [] }

/-- The export view `call_relation_callback` builds from an internal relation. -/
def export_relation (relation : readosm_internal_relation) : readosm_export_relation :=
  { init_export_relation with
    id := relation.id, version := relation.version, changeset := relation.changeset,
    user := relation.user.map c_string, uid := relation.uid, timestamp := relation.timestamp,
    member_count := relation.members.length,
    members := relation.members.map fun member =>
      { member_type := member.member_type, id := member.id,
        role := member.role.map c_string },
    tag_count := relation.tags.length,
    tags := relation.tags.map fun tag =>
      { key := tag.key.map c_string, value := tag.value.map c_string } }

/-- Function `call_relation_callback`. -/
def call_relation_callback {σ : Type}
    (relation_callback : σ → readosm_export_relation → Int × σ)
    (user_data : σ) (relation : readosm_internal_relation) : Int × σ :=
  relation_callback user_data (export_relation relation)

/-- The block "processing the RELATION" of `parse_pbf_relation`. -/
def dispatch_relation {σ : Type} (relation : readosm_internal_relation)
    (params : pbf_params σ) : pbf_params σ :=
  match params.relation_callback with
  | some relation_callback =>
    if params.stop = 0 then
      let r := call_relation_callback relation_callback params.user_data relation
      if r.1 ≠ READOSM_OK then { params with user_data := r.2, stop := 1 }
      else { params with user_data := r.2 }
    else params
  | none => params

/-- Function `parse_pbf_relation`: `ok` with the parameters as the call leaves them
for the return value 1, `error` for the return value 0. -/
def parse_pbf_relation {σ : Type} (strings : readosm_string_table) (bytes : List Nat)
    (params : pbf_params σ) : Outcome (pbf_params σ) :=
  (parse_pbf_relation_entity strings bytes).bind fun relation =>
    .ok (dispatch_relation relation params)

/-! ## String tables, primitive groups, blobs and the stream -/

/-- Modelled from the spec: constant `READOSM_INVALID_PBF_HEADER` of the absent
`readosm.h`; the specification names the code without a number, the embedding keeps
a number distinct from the other codes. -/
def READOSM_INVALID_PBF_HEADER : Int := -9

/-- Modelled from the spec: constant `READOSM_ABORT` of the absent `readosm.h`, the
code of a parse that a callback stopped. -/
def READOSM_ABORT : Int := -11

/-- Function `init_string_table`. -/
def init_string_table : readosm_string_table := { first := [], count := 0, strings := [] }

/-- Function `append_string_to_table`: the `length` bytes at `pointer` are copied
(a zero byte is put behind them). -/
def append_string_to_table (string_table : readosm_string_table) (variant : readosm_variant) :
    readosm_string_table :=
  { string_table with first := string_table.first ++ [variant.pointer] }

/-- Function `array_from_string_table`: `count` is increased once per list element,
and unless it is 0 a fresh pointer array receives the elements of the list. -/
def array_from_string_table (string_table : readosm_string_table) : readosm_string_table :=
  let count := string_table.count + string_table.first.length
  if count ≤ 0 then { string_table with count := count }
  else { string_table with count := count, strings := string_table.first }

/-- The body of the loop of `parse_string_table` after `parse_field`. -/
def string_table_field (string_table : readosm_string_table) (variant : readosm_variant) :
    Outcome readosm_string_table :=
  if variant.field_id = 1 ∧ variant.type = READOSM_LEN_BYTES then
    .ok (append_string_to_table string_table variant)
  else .ok string_table

/-- Function `parse_string_table`. -/
def parse_string_table (string_table : readosm_string_table) (bytes : List Nat) :
    Outcome readosm_string_table :=
  field_loop string_table_field (bytes.length + 1) string_table
    (add_variant_hints init_variant READOSM_LEN_BYTES 1) bytes

/-- The three blocks of the loop of `parse_primitive_group` after `parse_field`;
`error` is the `goto error` of a failed sub-parser, which has called no callback. -/
def primitive_group_field {σ : Type} (strings : readosm_string_table) (params : pbf_params σ)
    (variant : readosm_variant) : Outcome (pbf_params σ) :=
  if variant.field_id = 2 ∧ variant.type = READOSM_LEN_BYTES then
    parse_pbf_nodes strings variant.pointer params
  else if variant.field_id = 3 ∧ variant.type = READOSM_LEN_BYTES then
    parse_pbf_way strings variant.pointer params
  else if variant.field_id = 4 ∧ variant.type = READOSM_LEN_BYTES then
    parse_pbf_relation strings variant.pointer params
  else .ok params

/-- The `while (1)` loop of `parse_primitive_group`.  Callbacks may have run when the
error exit is taken, so the result is the C return value (1, or 0 through
`goto error`) together with the parameters as they stand at the exit. -/
def primitive_group_loop {σ : Type} (strings : readosm_string_table) :
    Nat → pbf_params σ → readosm_variant → List Nat → Outcome (Int × pbf_params σ)
  | 0, _, _, _ => .fuel
  | fuel + 1, params, variant, start =>
    match parse_field start (reset_variant variant) with
    | (none, variant) => if variant.valid = false then .ok (0, params) else .fault
    | (some base, variant) =>
      match primitive_group_field strings params variant with
      | .ok params =>
        match base with
        | [] => .ok (1, params)
        | _ :: _ => primitive_group_loop strings fuel params variant base
      | .error => .ok (0, params)
      | .fault => .fault
      | .fuel => .fuel

/-- The variant of `parse_primitive_group` with its five hints. -/
def primitive_group_variant : readosm_variant :=
  add_variant_hints (add_variant_hints (add_variant_hints (add_variant_hints
    (add_variant_hints init_variant READOSM_LEN_BYTES 1) READOSM_LEN_BYTES 2)
      READOSM_LEN_BYTES 3) READOSM_LEN_BYTES 4) READOSM_LEN_BYTES 5

/-- Function `parse_primitive_group`. -/
def parse_primitive_group {σ : Type} (strings : readosm_string_table) (bytes : List Nat)
    (params : pbf_params σ) : Outcome (Int × pbf_params σ) :=
  primitive_group_loop strings (bytes.length + 1) params primitive_group_variant bytes

/-- Function `get_header_size`: four bytes, most significant first. -/
def get_header_size (buf : List Nat) : Nat :=
  buf.getD 0 0 * 2 ^ 24 + buf.getD 1 0 * 2 ^ 16 + buf.getD 2 0 * 2 ^ 8 + buf.getD 3 0

/-- The call `fread (buf, 1, n, input->in)` on a stream of which `input` is still
unread: the bytes read (fewer than `n` at the end of the stream) and the bytes left
unread. -/
def fread (n : Nat) (input : List Nat) : List Nat × List Nat := (input.take n, input.drop n)

/-- The locals `ok_header` and `hdsz` of `skip_osm_header` and `parse_osm_data`. -/
structure blob_header_state where
  ok_header : Int
  hdsz : Int
  deriving DecidableEq, Repr

/-- The string `OSMHeader`. -/
def OSMHeader : List Nat := [79, 83, 77, 72, 101, 97, 100, 101, 114]

/-- The string `OSMData`. -/
def OSMData : List Nat := [79, 83, 77, 68, 97, 116, 97]

/-- The body of the BlobHeader loop of `skip_osm_header` (`name` is `OSMHeader`) and
of `parse_osm_data` (`name` is `OSMData`) after `parse_field`. -/
def blob_header_field (name : List Nat) (st : blob_header_state) (variant : readosm_variant) :
    Outcome blob_header_state :=
  let st :=
    if variant.field_id = 1 ∧ variant.type = READOSM_LEN_BYTES ∧ variant.length = name.length
    then (if variant.pointer.take name.length = name then { st with ok_header := 1 } else st)
    else st
  if variant.field_id = 3 ∧ variant.type = READOSM_VAR_INT32 then
    .ok { st with hdsz := variant.value }
  else .ok st

/-- The variant of the BlobHeader loops with its three hints. -/
def blob_header_variant : readosm_variant :=
  add_variant_hints (add_variant_hints (add_variant_hints init_variant READOSM_LEN_BYTES 1)
    READOSM_LEN_BYTES 2) READOSM_VAR_INT32 3

/-- The part that `skip_osm_header` and `parse_osm_data` share: `sz` bytes are read
and decoded as a BlobHeader of the given name, then `hdsz` bytes are read.  Yields
the second buffer and the unread rest of the stream, `none` in place of the buffer
for the error exit.  A negative `hdsz` makes the size of the allocation and of the
read out of range: `fault`.  Allocation failure is left out. -/
def read_blob (name : List Nat) (input : List Nat) (sz : Nat) :
    Outcome (Option (List Nat) × List Nat) :=
  let r := fread sz input
  if r.1.length ≠ sz then .ok (none, r.2)
  else
    match field_loop (blob_header_field name) (r.1.length + 1)
        { ok_header := 0, hdsz := 0 } blob_header_variant r.1 with
    | .ok st =>
      if st.ok_header = 0 ∨ st.hdsz = 0 then .ok (none, r.2)
      else if st.hdsz < 0 then .fault
      else
        let r2 := fread st.hdsz.toNat r.2
        if (r2.1.length : Int) ≠ st.hdsz then .ok (none, r2.2) else .ok (some r2.1, r2.2)
    | .error => .ok (none, r.2)
    | .fault => .fault
    | .fuel => .fuel

/-- Function `skip_osm_header`: the return value and the unread rest of the
stream. -/
def skip_osm_header (input : List Nat) (sz : Nat) : Outcome (Int × List Nat) :=
  (read_blob OSMHeader input sz).bind fun r =>
    match r.1 with
    | some _ => .ok (1, r.2)
    | none => .ok (0, r.2)

/-- The locals `raw_ptr`, `raw_sz`, `zip_ptr` and `zip_sz` of `parse_osm_data`; a
null pointer is `none`, a pointer is kept as the bytes of its block. -/
structure blob_state where
  raw_ptr : Option (List Nat)
  raw_sz : Int
  zip_ptr : Option (List Nat)
  zip_sz : Int
  deriving DecidableEq, Repr

/-- The body of the Blob loop of `parse_osm_data` after `parse_field`. -/
def blob_field (st : blob_state) (variant : readosm_variant) : Outcome blob_state :=
  let st :=
    if variant.field_id = 1 ∧ variant.type = READOSM_LEN_BYTES then
      { st with raw_sz := variant.length, raw_ptr := some variant.pointer }
    else st
  let st :=
    if variant.field_id = 2 ∧ variant.type = READOSM_VAR_INT32 then
      { st with raw_sz := variant.value }
    else st
  if variant.field_id = 3 ∧ variant.type = READOSM_LEN_BYTES then
    .ok { st with zip_ptr := some variant.pointer, zip_sz := variant.length }
  else .ok st

/-- The variant of the Blob loop with its three hints. -/
def blob_variant : readosm_variant :=
  add_variant_hints (add_variant_hints (add_variant_hints init_variant READOSM_LEN_BYTES 1)
    READOSM_VAR_INT32 2) READOSM_LEN_BYTES 3

/-- Function `unzip_compressed_block`, over `inflate`, the decompression of zlib
(an external library: `none` when the data is not a valid compressed stream):
`uncompress` succeeds when the decompressed data fits into `raw_sz` bytes and
reports its size, which the function requires to be `raw_sz`. -/
def unzip_compressed_block (inflate : List Nat → Option (List Nat)) (zip_ptr : List Nat)
    (raw_sz : Nat) : Option (List Nat) :=
  match inflate zip_ptr with
  | some raw => if raw.length = raw_sz then some raw else none
  | none => none

/-- The variant of the PrimitiveBlock loop with its six hints. -/
def primitive_block_variant : readosm_variant :=
  add_variant_hints (add_variant_hints (add_variant_hints (add_variant_hints
    (add_variant_hints (add_variant_hints init_variant READOSM_LEN_BYTES 1)
      READOSM_LEN_BYTES 2) READOSM_VAR_INT32 17) READOSM_VAR_INT32 18)
        READOSM_VAR_INT64 19) READOSM_VAR_INT64 20

/-- The PrimitiveBlock loop of `parse_osm_data`: field 1 is the string table, field 2
a primitive group, field 17 ends the loop.  The result is the C return value with
the parameters as they stand at the exit. -/
def primitive_block_loop {σ : Type} :
    Nat → readosm_string_table → pbf_params σ → readosm_variant → List Nat →
      Outcome (Int × pbf_params σ)
  | 0, _, _, _, _ => .fuel
  | fuel + 1, string_table, params, variant, start =>
    match parse_field start (reset_variant variant) with
    | (none, variant) => if variant.valid = false then .ok (0, params) else .fault
    | (some base, variant) =>
      match (if variant.field_id = 1 ∧ variant.type = READOSM_LEN_BYTES then
              (parse_string_table string_table variant.pointer).bind fun t =>
                .ok (array_from_string_table t)
             else .ok string_table) with
      | .ok string_table =>
        (if variant.field_id = 2 ∧ variant.type = READOSM_LEN_BYTES then
          parse_primitive_group string_table variant.pointer params
         else .ok (1, params)).bind fun r =>
          if r.1 = 0 then .ok (0, r.2)
          else if variant.field_id = 17 ∧ variant.type = READOSM_VAR_INT32 then .ok (1, r.2)
          else
            match base with
            | [] => .ok (1, r.2)
            | _ :: _ => primitive_block_loop fuel string_table r.2 variant base
      | .error => .ok (0, params)
      | .fault => .fault
      | .fuel => .fuel

/-- The block "unZipping a compressed block" of `parse_osm_data`: the value of
`raw_ptr` after it, `error` when `unzip_compressed_block` fails.  A negative `raw_sz`
handed to `malloc` is `fault`. -/
def unzip_blob (inflate : List Nat → Option (List Nat)) (st : blob_state) :
    Outcome (Option (List Nat)) :=
  match st.zip_ptr with
  | some zip_ptr =>
    if st.zip_sz ≠ 0 ∧ st.raw_sz ≠ 0 then
      if st.raw_sz < 0 then .fault
      else
        match unzip_compressed_block inflate zip_ptr st.raw_sz.toNat with
        | some raw => .ok (some raw)
        | none => .error
    else .ok st.raw_ptr
  | none => .ok st.raw_ptr

/-- The part of `parse_osm_data` after the Blob loop: the block is unzipped if need
be and read as a PrimitiveBlock.  A window `raw_ptr .. raw_ptr + raw_sz - 1` that is
longer than the block at `raw_ptr` is `fault`. -/
def parse_primitive_block {σ : Type} (inflate : List Nat → Option (List Nat))
    (st : blob_state) (params : pbf_params σ) : Outcome (Int × pbf_params σ) :=
  match unzip_blob inflate st with
  | .ok none => .ok (0, params)
  | .ok (some raw) =>
    if st.raw_sz = 0 then .ok (0, params)
    else if (raw.length : Int) < st.raw_sz then .fault
    else
      primitive_block_loop (raw.length + 1) init_string_table params primitive_block_variant
        (raw.take st.raw_sz.toNat)
  | .error => .ok (0, params)
  | .fault => .fault
  | .fuel => .fuel

/-- Function `parse_osm_data` on a stream of which `input` is still unread: the
return value, the parameters and the unread rest of the stream. -/
def parse_osm_data {σ : Type} (inflate : List Nat → Option (List Nat)) (input : List Nat)
    (sz : Nat) (params : pbf_params σ) : Outcome (Int × pbf_params σ × List Nat) :=
  (read_blob OSMData input sz).bind fun r =>
    match r.1 with
    | none => .ok (0, params, r.2)
    | some buf =>
      match field_loop blob_field (buf.length + 1)
          { raw_ptr := none, raw_sz := 0, zip_ptr := none, zip_sz := 0 } blob_variant buf with
      | .ok st =>
        (parse_primitive_block inflate st params).bind fun res => .ok (res.1, res.2, r.2)
      | .error => .ok (0, params, r.2)
      | .fault => .fault
      | .fuel => .fuel

/-- The `while (1)` loop of `parse_osm_pbf`: the return code, the parameters and the
unread rest of the stream.  `rd == 0 && feof` is the stream having no byte left. -/
def parse_osm_pbf_loop {σ : Type} (inflate : List Nat → Option (List Nat)) :
    Nat → pbf_params σ → List Nat → Outcome (Int × pbf_params σ × List Nat)
  | 0, _, _ => .fuel
  | fuel + 1, params, input =>
    if params.stop ≠ 0 then .ok (READOSM_ABORT, params, input)
    else
      let r := fread 4 input
      if r.1.length = 0 then .ok (READOSM_OK, params, r.2)
      else if r.1.length ≠ 4 then .ok (READOSM_INVALID_PBF_HEADER, params, r.2)
      else
        (parse_osm_data inflate r.2 (get_header_size r.1) params).bind fun res =>
          if res.1 = 0 then .ok (READOSM_INVALID_PBF_HEADER, res.2.1, res.2.2)
          else parse_osm_pbf_loop inflate fuel res.2.1 res.2.2

/-- Function `parse_osm_pbf` on a stream of which `input` is unread. -/
def parse_osm_pbf {σ : Type} (inflate : List Nat → Option (List Nat)) (input : List Nat)
    (user_data : σ) (node_fnct : Option (σ → readosm_export_node → Int × σ))
    (way_fnct : Option (σ → readosm_export_way → Int × σ))
    (relation_fnct : Option (σ → readosm_export_relation → Int × σ)) :
    Outcome (Int × pbf_params σ × List Nat) :=
  let params : pbf_params σ :=
    { user_data := user_data, node_callback := node_fnct, way_callback := way_fnct,
      relation_callback := relation_fnct, stop := 0 }
  let r := fread 4 input
  if r.1.length ≠ 4 then .ok (READOSM_INVALID_PBF_HEADER, params, r.2)
  else
    (skip_osm_header r.2 (get_header_size r.1)).bind fun h =>
      if h.1 = 0 then .ok (READOSM_INVALID_PBF_HEADER, params, h.2)
      else parse_osm_pbf_loop inflate (h.2.length + 1) params h.2

/-! ## Byte order -/

/-- Union `readosm_endian4` (declared in the absent internal header, four `bytes`
overlaid with `uint32_value`): the value read from `uint32_value` after `bytes[0]`,
.., `bytes[3]` were written, on a host that is little-endian or not. -/
def endian4_uint32_value (host_little : Bool) (bytes : List Nat) : Nat :=
  if host_little then
    bytes.getD 0 0 + bytes.getD 1 0 * 2 ^ 8 + bytes.getD 2 0 * 2 ^ 16 + bytes.getD 3 0 * 2 ^ 24
  else
    bytes.getD 0 0 * 2 ^ 24 + bytes.getD 1 0 * 2 ^ 16 + bytes.getD 2 0 * 2 ^ 8 + bytes.getD 3 0

/-- Function `test_endianness` on a host of the given byte order; `true` stands for
the return value `READOSM_LITTLE_ENDIAN`, which `if (little_endian_cpu)` takes as
true. -/
def test_endianness (host_little : Bool) : Bool :=
  endian4_uint32_value host_little [0x01, 0x00, 0x00, 0x00] == 1

/-- Function `get_header_size` with its flag `little_endian_cpu`, on a host of the
given byte order. -/
def get_header_size_on_host (host_little : Bool) (buf : List Nat) (little_endian_cpu : Bool) :
    Nat :=
  if little_endian_cpu then
    endian4_uint32_value host_little [buf.getD 3 0, buf.getD 2 0, buf.getD 1 0, buf.getD 0 0]
  else
    endian4_uint32_value host_little [buf.getD 0 0, buf.getD 1 0, buf.getD 2 0, buf.getD 3 0]

/-! ## The export objects as the callback functions set them up -/

/-- The loops `while (tag) { count++; tag = tag->next; }` of the three callback
functions, started with the count at hand. -/
def count_loop {α : Type} : List α → Nat → Nat
  | [], count => count
  | _ :: next, count => count_loop next (count + 1)

/-- Function `init_export_tag`. -/
def init_export_tag : readosm_export_tag := { key := none, value := none }

/-- Function `init_export_member`. -/
def init_export_member : readosm_export_member :=
  { member_type := READOSM_UNDEFINED, id := 0, role := none }

/-- The loop `i = 0; while (tag) { p_tag = tags + i; ..; i++; tag = tag->next; }`
that copies the tags into the array; a write behind the end of the array is a
`fault`. -/
def copy_tags_loop : List readosm_internal_tag → Nat → List readosm_export_tag →
    Outcome (List readosm_export_tag)
  | [], _, tags => .ok tags
  | tag :: next, i, tags =>
    if i < tags.length then
      let p_tag := tags.getD i init_export_tag
      let p_tag :=
        match tag.key with
        | some key => { p_tag with key := some (c_string key) }
        | none => p_tag
      let p_tag :=
        match tag.value with
        | some value => { p_tag with value := some (c_string value) }
        | none => p_tag
      copy_tags_loop next (i + 1) (tags.set i p_tag)
    else .fault

/-- The loop `while (ref) { *(node_refs + i) = ref->node_ref; i++; .. }`. -/
def copy_refs_loop : List Int → Nat → List Int → Outcome (List Int)
  | [], _, node_refs => .ok node_refs
  | ref :: next, i, node_refs =>
    if i < node_refs.length then copy_refs_loop next (i + 1) (node_refs.set i ref)
    else .fault

/-- The loop that copies the members of a relation into the array. -/
def copy_members_loop : List readosm_internal_member → Nat → List readosm_export_member →
    Outcome (List readosm_export_member)
  | [], _, members => .ok members
  | member :: next, i, members =>
    if i < members.length then
      let p_member := members.getD i init_export_member
      let p_member := { p_member with member_type := member.member_type, id := member.id }
      let p_member :=
        match member.role with
        | some role => { p_member with role := some (c_string role) }
        | none => p_member
      copy_members_loop next (i + 1) (members.set i p_member)
    else .fault

/-- The tag array of an export object: `tag_count` entries from `malloc`, each
initialised with `init_export_tag`, then filled from the list; no array when
`tag_count` is 0. -/
def setup_export_tags (tags : List readosm_internal_tag) (tag_count : Nat) :
    Outcome (List readosm_export_tag) :=
  if tag_count > 0 then copy_tags_loop tags 0 (List.replicate tag_count init_export_tag)
  else .ok []

/-- The export object of `call_node_callback` at the call of the user function. -/
def setup_export_node (node : readosm_internal_node) : Outcome readosm_export_node :=
  let exp_node := init_export_node
  let exp_node :=
    { exp_node with id := node.id, latitude := node.latitude, longitude := node.longitude,
                    version := node.version, changeset := node.changeset }
  let exp_node :=
    match node.user with
    | some user => { exp_node with user := some (c_string user) }
    | none => exp_node
  let exp_node := { exp_node with uid := node.uid }
  let exp_node :=
    match node.timestamp with
    | some timestamp => { exp_node with timestamp := some timestamp }
    | none => exp_node
  let exp_node := { exp_node with tag_count := count_loop node.tags exp_node.tag_count }
  (setup_export_tags node.tags exp_node.tag_count).bind fun tags =>
    .ok { exp_node with tags := tags }

/-- The export object of `call_way_callback` at the call of the user function; the
entries of the array of node references come from `malloc` and are written by the
copy loop before they are read. -/
def setup_export_way (way : readosm_internal_way) : Outcome readosm_export_way :=
  let exp_way := init_export_way
  let exp_way := { exp_way with id := way.id, version := way.version,
                                changeset := way.changeset }
  let exp_way :=
    match way.user with
    | some user => { exp_way with user := some (c_string user) }
    | none => exp_way
  let exp_way := { exp_way with uid := way.uid }
  let exp_way :=
    match way.timestamp with
    | some timestamp => { exp_way with timestamp := some timestamp }
    | none => exp_way
  let exp_way := { exp_way with node_ref_count := count_loop way.refs exp_way.node_ref_count }
  (if exp_way.node_ref_count > 0 then
    copy_refs_loop way.refs 0 (List.replicate exp_way.node_ref_count 0)
   else .ok []).bind fun node_refs =>
    let exp_way := { exp_way with node_refs := node_refs }
    let exp_way := { exp_way with tag_count := count_loop way.tags exp_way.tag_count }
    (setup_export_tags way.tags exp_way.tag_count).bind fun tags =>
      .ok { exp_way with tags := tags }

/-- The export object of `call_relation_callback` at the call of the user
function. -/
def setup_export_relation (relation : readosm_internal_relation) :
    Outcome readosm_export_relation :=
  let exp_relation := init_export_relation
  let exp_relation :=
    { exp_relation with id := relation.id, version := relation.version,
                        changeset := relation.changeset }
  let exp_relation :=
    match relation.user with
    | some user => { exp_relation with user := some (c_string user) }
    | none => exp_relation
  let exp_relation := { exp_relation with uid := relation.uid }
  let exp_relation :=
    match relation.timestamp with
    | some timestamp => { exp_relation with timestamp := some timestamp }
    | none => exp_relation
  let exp_relation :=
    { exp_relation with
      member_count := count_loop relation.members exp_relation.member_count }
  (if exp_relation.member_count > 0 then
    copy_members_loop relation.members 0
      (List.replicate exp_relation.member_count init_export_member)
   else .ok []).bind fun members =>
    let exp_relation := { exp_relation with members := members }
    let exp_relation :=
      { exp_relation with tag_count := count_loop relation.tags exp_relation.tag_count }
    (setup_export_tags relation.tags exp_relation.tag_count).bind fun tags =>
      .ok { exp_relation with tags := tags }

/-! ## The handle -/

/-- Modelled from the spec: constant `READOSM_NULL_HANDLE` of the absent `readosm.h`;
the specification names the code without a number. -/
def READOSM_NULL_HANDLE : Int := -3

/-- Modelled from the spec: constant `READOSM_INVALID_HANDLE` of the absent
`readosm.h`; the specification names the code without a number. -/
def READOSM_INVALID_HANDLE : Int := -4

/-- Modelled from the spec: constant `READOSM_MAGIC_START` of the absent internal
header, the value of the sentinel `magic_start` of a live handle. -/
def READOSM_MAGIC_START : Int := 945371767

/-- Modelled from the spec: constant `READOSM_MAGIC_END` of the absent internal
header, the value of the sentinel `magic_end` of a live handle. -/
def READOSM_MAGIC_END : Int := 1372436487

/-- Modelled from the spec: constant `READOSM_OSM_FORMAT` of the absent internal
header, the mark of the XML mode. -/
def READOSM_OSM_FORMAT : Int := 4589

/-- Modelled from the spec: constant `READOSM_PBF_FORMAT` of the absent internal
header, the mark of the PBF mode. -/
def READOSM_PBF_FORMAT : Int := 7491

/-- Struct `readosm_file` (declared in the absent internal header; the members are
those the functions of the source use).  The member `in` is `in_stream`: `none` for
a null `FILE *`, otherwise the bytes of the file that are still unread. -/
structure readosm_file where
  magic1 : Int
  file_format : Int
  little_endian_cpu : Bool
  magic2 : Int
  in_stream : Option (List Nat)
  deriving DecidableEq, Repr

/-- Function `alloc_osm_file` (allocation failure is left out). -/
def alloc_osm_file (little_endian_cpu : Bool) (format : Int) : readosm_file :=
  { magic1 := READOSM_MAGIC_START, file_format := format,
    little_endian_cpu := little_endian_cpu, magic2 := READOSM_MAGIC_END, in_stream := none }

/-- Function `destroy_osm_file`: the file is closed and the struct freed, so that
no handle is left (`none`). -/
def destroy_osm_file (_ : Option readosm_file) : Option readosm_file := none

/-- Function `readosm_close`: the return value and the handle as the call leaves
it. -/
def readosm_close (osm_handle : Option readosm_file) : Int × Option readosm_file :=
  match osm_handle with
  | none => (READOSM_NULL_HANDLE, none)
  | some input =>
    if input.magic1 = READOSM_MAGIC_START ∧ input.magic2 = READOSM_MAGIC_END then
      (READOSM_OK, destroy_osm_file (some input))
    else (READOSM_INVALID_HANDLE, some input)

/-- Function `readosm_parse`: the return value, the handle and the user data as the
call leaves them.  The XML parser is a parameter (`parse_osm_xml`).  The PBF parser
reads from `input->in`, a null `FILE *` handed to `fread` being `fault`; it is
embedded for a flag `little_endian_cpu` that describes the host, which is how
`readosm_open` sets it. -/
def readosm_parse {σ : Type} (inflate : List Nat → Option (List Nat))
    (parse_osm_xml : readosm_file → σ → Outcome (Int × readosm_file × σ))
    (osm_handle : Option readosm_file) (user_data : σ)
    (node_fnct : Option (σ → readosm_export_node → Int × σ))
    (way_fnct : Option (σ → readosm_export_way → Int × σ))
    (relation_fnct : Option (σ → readosm_export_relation → Int × σ)) :
    Outcome (Int × Option readosm_file × σ) :=
  match osm_handle with
  | none => .ok (READOSM_NULL_HANDLE, none, user_data)
  | some input =>
    if input.magic1 = READOSM_MAGIC_START ∧ input.magic2 = READOSM_MAGIC_END then
      if input.file_format = READOSM_OSM_FORMAT then
        (parse_osm_xml input user_data).bind fun r => .ok (r.1, some r.2.1, r.2.2)
      else if input.file_format = READOSM_PBF_FORMAT then
        match input.in_stream with
        | none => .fault
        | some bytes =>
          (parse_osm_pbf inflate bytes user_data node_fnct way_fnct relation_fnct).bind
            fun r => .ok (r.1, some { input with in_stream := some r.2.2 }, r.2.1.user_data)
      else .ok (READOSM_INVALID_HANDLE, some input, user_data)
    else .ok (READOSM_INVALID_HANDLE, some input, user_data)

/-! ## The XML path -/

/-- A C string literal as the list of its bytes (the literals of the source are
ASCII). -/
def c_literal (s : String) : List Nat := s.toList.map Char.toNat

/-- Modelled from the spec: constant `READOSM_CREATE_XML_PARSER_ERROR` of the absent
`readosm.h`; the specification names the code without a number. -/
def READOSM_CREATE_XML_PARSER_ERROR : Int := -6

/-- Modelled from the spec: constant `READOSM_XML_ERROR` of the absent `readosm.h`;
the specification names the code without a number. -/
def READOSM_XML_ERROR : Int := -8

/-- Modelled from the spec: constant `READOSM_CURRENT_TAG_UNKNOWN` of the absent
internal header; the four marks of the current element are kept distinct. -/
def READOSM_CURRENT_TAG_UNKNOWN : Int := 0

/-- Modelled from the spec: constant `READOSM_CURRENT_TAG_IS_NODE` of the absent
internal header. -/
def READOSM_CURRENT_TAG_IS_NODE : Int := 101

/-- Modelled from the spec: constant `READOSM_CURRENT_TAG_IS_WAY` of the absent
internal header. -/
def READOSM_CURRENT_TAG_IS_WAY : Int := 102

/-- Modelled from the spec: constant `READOSM_CURRENT_TAG_IS_RELATION` of the absent
internal header. -/
def READOSM_CURRENT_TAG_IS_RELATION : Int := 103

/-- Macro `BUFFSIZE`. -/
def BUFFSIZE : Nat := 8192

/-- The conversions of the C library that the XML handlers apply to attribute
values: `atol_64` (a macro for `atoll`), `atoi`, and `atof`, whose double is kept as
a rational. -/
structure xml_conversions where
  atol_64 : List Nat → Int
  atoi : List Nat → Int
  atof : List Nat → ℚ

/-- Struct `readosm_internal_node` as the XML path holds it in `params->node`:
`latitude` and `longitude` are the doubles that `atof` returns, `timestamp` is the C
string copied from the attribute, `tags` the list `first_tag .. last_tag`. -/
structure xml_internal_node where
  id : Int
  latitude : ℚ
  longitude : ℚ
  version : Int
  changeset : Int
  user : Option (List Nat)
  uid : Int
  timestamp : Option (List Nat)
  tag_count : Nat
  tags : List readosm_internal_tag
  deriving DecidableEq, Repr

/-- Struct `readosm_internal_way` as the XML path holds it in `params->way`. -/
structure xml_internal_way where
  id : Int
  version : Int
  changeset : Int
  user : Option (List Nat)
  uid : Int
  timestamp : Option (List Nat)
  ref_count : Nat
  refs : List Int
  tag_count : Nat
  tags : List readosm_internal_tag
  deriving DecidableEq, Repr

/-- Struct `readosm_internal_relation` as the XML path holds it in
`params->relation`. -/
structure xml_internal_relation where
  id : Int
  version : Int
  changeset : Int
  user : Option (List Nat)
  uid : Int
  timestamp : Option (List Nat)
  member_count : Nat
  members : List readosm_internal_member
  tag_count : Nat
  tags : List readosm_internal_tag
  deriving DecidableEq, Repr

/-- Struct `readosm_export_node` as a callback of the XML path receives it. -/
structure xml_export_node where
  id : Int
  latitude : ℚ
  longitude : ℚ
  version : Int
  changeset : Int
  user : Option (List Nat)
  uid : Int
  timestamp : Option (List Nat)
  tag_count : Nat
  tags : List readosm_export_tag
  deriving DecidableEq, Repr

/-- Struct `readosm_export_way` as a callback of the XML path receives it. -/
structure xml_export_way where
  id : Int
  version : Int
  changeset : Int
  user : Option (List Nat)
  uid : Int
  timestamp : Option (List Nat)
  node_ref_count : Nat
  node_refs : List Int
  tag_count : Nat
  tags : List readosm_export_tag
  deriving DecidableEq, Repr

/-- Struct `readosm_export_relation` as a callback of the XML path receives it. -/
structure xml_export_relation where
  id : Int
  version : Int
  changeset : Int
  user : Option (List Nat)
  uid : Int
  timestamp : Option (List Nat)
  member_count : Nat
  members : List readosm_export_member
  tag_count : Nat
  tags : List readosm_export_tag
  deriving DecidableEq, Repr

/-- Struct `xml_params`; a null callback is `none`. -/
structure xml_params (σ : Type) where
  current_tag : Int
  user_data : σ
  node_callback : Option (σ → xml_export_node → Int × σ)
  way_callback : Option (σ → xml_export_way → Int × σ)
  relation_callback : Option (σ → xml_export_relation → Int × σ)
  node : xml_internal_node
  way : xml_internal_way
  relation : xml_internal_relation
  stop : Int

/-- Function `xml_init_params`. -/
def xml_init_params {σ : Type} (user_data : σ)
    (node_fnct : Option (σ → xml_export_node → Int × σ))
    (way_fnct : Option (σ → xml_export_way → Int × σ))
    (relation_fnct : Option (σ → xml_export_relation → Int × σ)) (stop : Int) :
    xml_params σ :=
  { current_tag := READOSM_CURRENT_TAG_UNKNOWN,
    user_data := user_data,
    node_callback := node_fnct,
    way_callback := way_fnct,
    relation_callback := relation_fnct,
    node :=
      { id := READOSM_UNDEFINED, latitude := READOSM_UNDEFINED,
        longitude := READOSM_UNDEFINED, version := READOSM_UNDEFINED,
        changeset := READOSM_UNDEFINED, user := none, uid := READOSM_UNDEFINED,
        timestamp := none, tag_count := 0, tags := [] },
    way :=
      { id := READOSM_UNDEFINED, version := READOSM_UNDEFINED,
        changeset := READOSM_UNDEFINED, user := none, uid := READOSM_UNDEFINED,
        timestamp := none, ref_count := 0, refs := [], tag_count := 0, tags := [] },
    relation :=
      { id := READOSM_UNDEFINED, version := READOSM_UNDEFINED,
        changeset := READOSM_UNDEFINED, user := none, uid := READOSM_UNDEFINED,
        timestamp := none, member_count := 0, members := [], tag_count := 0, tags := [] },
    stop := stop }

/-- Function `xml_reset_params`: the strings and lists are freed, then the struct
is initialised again with its own user data, callbacks and stop flag. -/
def xml_reset_params {σ : Type} (params : xml_params σ) : xml_params σ :=
  xml_init_params params.user_data params.node_callback params.way_callback
    params.relation_callback params.stop

/-- The tag array that the callback marshallers build from a tag list. -/
def xml_export_tags (tags : List readosm_internal_tag) : List readosm_export_tag :=
  tags.map fun tag => { key := tag.key.map c_string, value := tag.value.map c_string }

/-- Function `call_node_callback` on a node of the XML path. -/
def xml_call_node_callback {σ : Type} (node_callback : σ → xml_export_node → Int × σ)
    (user_data : σ) (node : xml_internal_node) : Int × σ :=
  node_callback user_data
    { id := node.id, latitude := node.latitude, longitude := node.longitude,
      version := node.version, changeset := node.changeset,
      user := node.user.map c_string, uid := node.uid,
      timestamp := node.timestamp.map c_string, tag_count := node.tags.length,
      tags := xml_export_tags node.tags }

/-- Function `call_way_callback` on a way of the XML path. -/
def xml_call_way_callback {σ : Type} (way_callback : σ → xml_export_way → Int × σ)
    (user_data : σ) (way : xml_internal_way) : Int × σ :=
  way_callback user_data
    { id := way.id, version := way.version, changeset := way.changeset,
      user := way.user.map c_string, uid := way.uid,
      timestamp := way.timestamp.map c_string, node_ref_count := way.refs.length,
      node_refs := way.refs, tag_count := way.tags.length,
      tags := xml_export_tags way.tags }

/-- Function `call_relation_callback` on a relation of the XML path. -/
def xml_call_relation_callback {σ : Type}
    (relation_callback : σ → xml_export_relation → Int × σ)
    (user_data : σ) (relation : xml_internal_relation) : Int × σ :=
  relation_callback user_data
    { id := relation.id, version := relation.version, changeset := relation.changeset,
      user := relation.user.map c_string, uid := relation.uid,
      timestamp := relation.timestamp.map c_string,
      member_count := relation.members.length,
      members := relation.members.map fun member =>
        { member_type := member.member_type, id := member.id,
          role := member.role.map c_string },
      tag_count := relation.tags.length, tags := xml_export_tags relation.tags }

/-- The body of the attribute loop of `xml_start_node` for one name and value. -/
def xml_node_attr (lib : xml_conversions) (node : xml_internal_node)
    (attr : List Nat × List Nat) : xml_internal_node :=
  let node := if attr.1 = c_literal "id" then { node with id := lib.atol_64 attr.2 } else node
  let node :=
    if attr.1 = c_literal "lat" then { node with latitude := lib.atof attr.2 } else node
  let node :=
    if attr.1 = c_literal "lon" then { node with longitude := lib.atof attr.2 } else node
  let node :=
    if attr.1 = c_literal "version" then { node with version := lib.atoi attr.2 } else node
  let node :=
    if attr.1 = c_literal "changeset" then { node with changeset := lib.atol_64 attr.2 }
    else node
  let node :=
    if attr.1 = c_literal "user" then { node with user := some (c_string attr.2) } else node
  let node := if attr.1 = c_literal "uid" then { node with uid := lib.atoi attr.2 } else node
  if attr.1 = c_literal "timestamp" then { node with timestamp := some (c_string attr.2) }
  else node

/-- Function `xml_start_node`; `attr` is the array of names and values that the
tokenizer hands over, as a list of pairs. -/
def xml_start_node {σ : Type} (lib : xml_conversions) (params : xml_params σ)
    (attr : List (List Nat × List Nat)) : xml_params σ :=
  let params := xml_reset_params params
  { params with
    node := attr.foldl (xml_node_attr lib) params.node,
    current_tag := READOSM_CURRENT_TAG_IS_NODE }

/-- Function `xml_end_node`. -/
def xml_end_node {σ : Type} (params : xml_params σ) : xml_params σ :=
  let params :=
    match params.node_callback with
    | some node_callback =>
      if params.stop = 0 then
        let r := xml_call_node_callback node_callback params.user_data params.node
        if r.1 ≠ READOSM_OK then { params with user_data := r.2, stop := 1 }
        else { params with user_data := r.2 }
      else params
    | none => params
  xml_reset_params params

/-- The body of the attribute loop of `xml_start_way` for one name and value. -/
def xml_way_attr (lib : xml_conversions) (way : xml_internal_way)
    (attr : List Nat × List Nat) : xml_internal_way :=
  let way := if attr.1 = c_literal "id" then { way with id := lib.atol_64 attr.2 } else way
  let way :=
    if attr.1 = c_literal "version" then { way with version := lib.atoi attr.2 } else way
  let way :=
    if attr.1 = c_literal "changeset" then { way with changeset := lib.atol_64 attr.2 }
    else way
  let way :=
    if attr.1 = c_literal "user" then { way with user := some (c_string attr.2) } else way
  let way := if attr.1 = c_literal "uid" then { way with uid := lib.atoi attr.2 } else way
  if attr.1 = c_literal "timestamp" then { way with timestamp := some (c_string attr.2) }
  else way

/-- Function `xml_start_way`. -/
def xml_start_way {σ : Type} (lib : xml_conversions) (params : xml_params σ)
    (attr : List (List Nat × List Nat)) : xml_params σ :=
  let params := xml_reset_params params
  { params with
    way := attr.foldl (xml_way_attr lib) params.way,
    current_tag := READOSM_CURRENT_TAG_IS_WAY }

/-- Function `xml_end_way`. -/
def xml_end_way {σ : Type} (params : xml_params σ) : xml_params σ :=
  let params :=
    match params.way_callback with
    | some way_callback =>
      if params.stop = 0 then
        let r := xml_call_way_callback way_callback params.user_data params.way
        if r.1 ≠ READOSM_OK then { params with user_data := r.2, stop := 1 }
        else { params with user_data := r.2 }
      else params
    | none => params
  xml_reset_params params

/-- The body of the attribute loop of `xml_start_relation` for one name and
value. -/
def xml_relation_attr (lib : xml_conversions) (relation : xml_internal_relation)
    (attr : List Nat × List Nat) : xml_internal_relation :=
  let relation :=
    if attr.1 = c_literal "id" then { relation with id := lib.atol_64 attr.2 } else relation
  let relation :=
    if attr.1 = c_literal "version" then { relation with version := lib.atoi attr.2 }
    else relation
  let relation :=
    if attr.1 = c_literal "changeset" then { relation with changeset := lib.atol_64 attr.2 }
    else relation
  let relation :=
    if attr.1 = c_literal "user" then { relation with user := some (c_string attr.2) }
    else relation
  let relation :=
    if attr.1 = c_literal "uid" then { relation with uid := lib.atoi attr.2 } else relation
  if attr.1 = c_literal "timestamp" then
    { relation with timestamp := some (c_string attr.2) }
  else relation

/-- Function `xml_start_relation`. -/
def xml_start_relation {σ : Type} (lib : xml_conversions) (params : xml_params σ)
    (attr : List (List Nat × List Nat)) : xml_params σ :=
  let params := xml_reset_params params
  { params with
    relation := attr.foldl (xml_relation_attr lib) params.relation,
    current_tag := READOSM_CURRENT_TAG_IS_RELATION }

/-- Function `xml_end_relation`. -/
def xml_end_relation {σ : Type} (params : xml_params σ) : xml_params σ :=
  let params :=
    match params.relation_callback with
    | some relation_callback =>
      if params.stop = 0 then
        let r :=
          xml_call_relation_callback relation_callback params.user_data params.relation
        if r.1 ≠ READOSM_OK then { params with user_data := r.2, stop := 1 }
        else { params with user_data := r.2 }
      else params
    | none => params
  xml_reset_params params

/-- The body of the attribute loop of `xml_start_xtag` for one name and value. -/
def xml_xtag_attr (tag : readosm_internal_tag) (attr : List Nat × List Nat) :
    readosm_internal_tag :=
  let tag := if attr.1 = c_literal "k" then { tag with key := some (c_string attr.2) } else tag
  if attr.1 = c_literal "v" then { tag with value := some (c_string attr.2) } else tag

/-- Function `xml_start_xtag`: inside a node, a way or a relation the tag is
appended to the tag list of that entity. -/
def xml_start_xtag {σ : Type} (params : xml_params σ) (attr : List (List Nat × List Nat)) :
    xml_params σ :=
  if params.current_tag = READOSM_CURRENT_TAG_IS_NODE ∨
      params.current_tag = READOSM_CURRENT_TAG_IS_WAY ∨
      params.current_tag = READOSM_CURRENT_TAG_IS_RELATION then
    let tag := attr.foldl xml_xtag_attr { key := none, value := none }
    let params :=
      if params.current_tag = READOSM_CURRENT_TAG_IS_NODE then
        { params with node := { params.node with tags := params.node.tags ++ [tag] } }
      else params
    let params :=
      if params.current_tag = READOSM_CURRENT_TAG_IS_WAY then
        { params with way := { params.way with tags := params.way.tags ++ [tag] } }
      else params
    if params.current_tag = READOSM_CURRENT_TAG_IS_RELATION then
      { params with
        relation := { params.relation with tags := params.relation.tags ++ [tag] } }
    else params
  else params

/-- Function `xml_start_nd`: the reference starts as `alloc_internal_ref` leaves it
(0). -/
def xml_start_nd {σ : Type} (lib : xml_conversions) (params : xml_params σ)
    (attr : List (List Nat × List Nat)) : xml_params σ :=
  if params.current_tag = READOSM_CURRENT_TAG_IS_WAY then
    let ref := attr.foldl
      (fun ref a => if a.1 = c_literal "ref" then lib.atol_64 a.2 else ref) (0 : Int)
    { params with way := { params.way with refs := params.way.refs ++ [ref] } }
  else params

/-- The body of the attribute loop of `xml_start_member` for one name and value. -/
def xml_member_attr (lib : xml_conversions) (member : readosm_internal_member)
    (attr : List Nat × List Nat) : readosm_internal_member :=
  let member :=
    if attr.1 = c_literal "ref" then { member with id := lib.atol_64 attr.2 } else member
  let member :=
    if attr.1 = c_literal "type" then
      let member :=
        if attr.2 = c_literal "node" then { member with member_type := READOSM_MEMBER_NODE }
        else member
      let member :=
        if attr.2 = c_literal "way" then { member with member_type := READOSM_MEMBER_WAY }
        else member
      if attr.2 = c_literal "relation" then
        { member with member_type := READOSM_MEMBER_RELATION }
      else member
    else member
  if attr.1 = c_literal "role" then { member with role := some (c_string attr.2) }
  else member

/-- Function `xml_start_member`. -/
def xml_start_member {σ : Type} (lib : xml_conversions) (params : xml_params σ)
    (attr : List (List Nat × List Nat)) : xml_params σ :=
  if params.current_tag = READOSM_CURRENT_TAG_IS_RELATION then
    let member := attr.foldl (xml_member_attr lib) alloc_internal_member
    { params with
      relation := { params.relation with members := params.relation.members ++ [member] } }
  else params

/-- Function `xml_start_tag`, the start-element handler. -/
def xml_start_tag {σ : Type} (lib : xml_conversions) (params : xml_params σ)
    (el : List Nat) (attr : List (List Nat × List Nat)) : xml_params σ :=
  let params := if el = c_literal "node" then xml_start_node lib params attr else params
  let params := if el = c_literal "tag" then xml_start_xtag params attr else params
  let params := if el = c_literal "way" then xml_start_way lib params attr else params
  let params := if el = c_literal "nd" then xml_start_nd lib params attr else params
  let params :=
    if el = c_literal "relation" then xml_start_relation lib params attr else params
  if el = c_literal "member" then xml_start_member lib params attr else params

/-- Function `xml_end_tag`, the end-element handler. -/
def xml_end_tag {σ : Type} (params : xml_params σ) (el : List Nat) : xml_params σ :=
  let params := if el = c_literal "node" then xml_end_node params else params
  let params := if el = c_literal "way" then xml_end_way params else params
  if el = c_literal "relation" then xml_end_relation params else params

/-- An event of the tokenizer: the start of an element with its attributes, or the
end of an element. -/
inductive xml_event where
  | start_element (el : List Nat) (attr : List (List Nat × List Nat))
  | end_element (el : List Nat)
  deriving DecidableEq, Repr

/-- The handler that the tokenizer calls for an event. -/
def xml_handle_event {σ : Type} (lib : xml_conversions) (params : xml_params σ) :
    xml_event → xml_params σ
  | .start_element el attr => xml_start_tag lib params el attr
  | .end_element el => xml_end_tag params el

/-- What a call of `XML_Parse` (the tokenizer, an external library) does: its
return value (0 for an error), the events for which it has called the handlers, in
order, and the parser as the call leaves it. -/
structure xml_parse_result (π : Type) where
  status : Int
  events : List xml_event
  parser : π

/-- The `while (!done)` loop of `parse_osm_xml` over `XML_Parse`, the tokenizer: the
return code, the parameters and the unread rest of the file.  `feof` holds once a
read has returned fewer than `BUFFSIZE` bytes; read errors are left out. -/
def parse_osm_xml_loop {σ π : Type} (lib : xml_conversions)
    (XML_Parse : π → List Nat → Bool → xml_parse_result π) :
    Nat → π → xml_params σ → List Nat → Outcome (Int × xml_params σ × List Nat)
  | 0, _, _, _ => .fuel
  | fuel + 1, parser, params, input =>
    let r := fread BUFFSIZE input
    let done := decide (r.1.length < BUFFSIZE)
    let x := XML_Parse parser r.1 done
    let params := x.events.foldl (xml_handle_event lib) params
    if x.status = 0 then .ok (READOSM_XML_ERROR, params, r.2)
    else if params.stop ≠ 0 then .ok (READOSM_ABORT, params, r.2)
    else if done then .ok (READOSM_OK, params, r.2)
    else parse_osm_xml_loop lib XML_Parse fuel x.parser params r.2

/-- Function `parse_osm_xml` on a file of which `input` is unread; `parser` is what
`XML_ParserCreate` returns, `none` for a null pointer. -/
def parse_osm_xml {σ π : Type} (lib : xml_conversions)
    (XML_Parse : π → List Nat → Bool → xml_parse_result π) (parser : Option π)
    (input : List Nat) (user_data : σ)
    (node_fnct : Option (σ → xml_export_node → Int × σ))
    (way_fnct : Option (σ → xml_export_way → Int × σ))
    (relation_fnct : Option (σ → xml_export_relation → Int × σ)) :
    Outcome (Int × xml_params σ × List Nat) :=
  let params := xml_init_params user_data node_fnct way_fnct relation_fnct 0
  match parser with
  | none => .ok (READOSM_CREATE_XML_PARSER_ERROR, params, input)
  | some parser => parse_osm_xml_loop lib XML_Parse (input.length + 1) parser params input

/-! ## Opening a file -/

/-- Modelled from the spec: constant `READOSM_INVALID_SUFFIX` of the absent
`readosm.h`; the specification names the code without a number. -/
def READOSM_INVALID_SUFFIX : Int := -1

/-- Modelled from the spec: constant `READOSM_FILE_NOT_FOUND` of the absent
`readosm.h`; the specification names the code without a number. -/
def READOSM_FILE_NOT_FOUND : Int := -2

/-- Function `tolower` of the C library in the C locale. -/
def tolower (c : Nat) : Nat := if 65 ≤ c ∧ c ≤ 90 then c + 32 else c

/-- Function `strcasecmp` of the C library in the C locale, on two C strings given
by their bytes: 0 when they agree up to the case of letters, otherwise the
difference of the first two characters that differ after `tolower`. -/
def strcasecmp : List Nat → List Nat → Int
  | [], [] => 0
  | [], b :: _ => 0 - (tolower b : Int)
  | a :: _, [] => (tolower a : Int)
  | a :: rest1, b :: rest2 =>
    if tolower a = tolower b then strcasecmp rest1 rest2
    else (tolower a : Int) - (tolower b : Int)

/-- Function `readosm_open` for a non-null `osm_handle` (the function writes through
it before it tests it): the return value and the handle stored in `*osm_handle`.
`path` is `none` for a null pointer; `fopen` yields the bytes of the file, `none`
when it cannot be opened; allocation failure is left out. -/
def readosm_open (fopen : List Nat → Option (List Nat)) (host_little : Bool)
    (path : Option (List Nat)) : Int × Option readosm_file :=
  let little_endian_cpu := test_endianness host_little
  match path with
  | none => (READOSM_NULL_HANDLE, none)
  | some path =>
    let path := c_string path
    let len := path.length
    let format : Option Int :=
      if len > 4 ∧ strcasecmp (path.drop (len - 4)) (c_literal ".osm") = 0 then
        some READOSM_OSM_FORMAT
      else if len > 8 ∧ strcasecmp (path.drop (len - 8)) (c_literal ".osm.pbf") = 0 then
        some READOSM_PBF_FORMAT
      else none
    match format with
    | none => (READOSM_INVALID_SUFFIX, none)
    | some format =>
      let input := alloc_osm_file little_endian_cpu format
      match fopen path with
      | none => (READOSM_FILE_NOT_FOUND, some input)
      | some bytes => (READOSM_OK, some { input with in_stream := some bytes })

/-! ## Reference notions for the varint codec -/

/-- The 32-bit declared types (first group of cases of `read_var`). -/
def Is32 (ty : VarType) : Prop :=
  ty = READOSM_VAR_INT32 ∨ ty = READOSM_VAR_UINT32 ∨ ty = READOSM_VAR_SINT32

/-- The 64-bit declared types (second group of cases of `read_var`). -/
def Is64 (ty : VarType) : Prop :=
  ty = READOSM_VAR_INT64 ∨ ty = READOSM_VAR_UINT64 ∨ ty = READOSM_VAR_SINT64

instance (ty : VarType) : Decidable (Is32 ty) := by unfold Is32; infer_instance

instance (ty : VarType) : Decidable (Is64 ty) := by unfold Is64; infer_instance

/-- The number a base-128 byte sequence denotes, least significant group
first: the sum of `(b_i & 0x7f) * 2 ^ (7 * i)`. -/
def base128_sum : List Nat → Nat
  | [] => 0
  | b :: bs => (b &&& 0x7f) + 128 * base128_sum bs

/-- Reference encoder, following the specification ("conforming encoder"): the
minimal base-128 encoding of `x` in at most `n + 1` bytes, low group first, the
high bit marking continuation. -/
def spec_base128_encode : Nat → Nat → List Nat
  | 0, x => [x % 128]
  | n + 1, x =>
    if x < 128 then [x] else (x % 128 + 128) :: spec_base128_encode n (x / 128)

/-- Reference varint encoder of the specification: at most 10 bytes, which
covers every 64-bit value. -/
def spec_encode_varint (x : Nat) : List Nat := spec_base128_encode 9 x

/-- Reference ZigZag encoder of the specification: `0, -1, 1, -2, 2, ...` are sent
to `0, 1, 2, 3, 4, ...`. -/
def spec_zigzag_encode (x : Int) : Nat :=
  if 0 ≤ x then (2 * x).toNat else (-2 * x - 1).toNat

/-- Canonical ZigZag decoding in the specification's words,
`(u >> 1) ^ -(u & 1)` on `w`-bit words (the bit pattern of the result). -/
def spec_zigzag_decode_bits (w u : Nat) : Nat :=
  (u >>> 1) ^^^ ((2 ^ w - (u &&& 1)) % 2 ^ w)

/-- Reference encoder of a length-delimited field, following the specification:
one tag byte (field id in the high five bits, wire type 2), the length as a varint,
then the payload. -/
def spec_encode_field (field_id : Nat) (payload : List Nat) : List Nat :=
  (field_id * 8 + 2) :: (spec_encode_varint payload.length ++ payload)

/-- A message made of length-delimited fields `(field id, payload)` in order. -/
def spec_encode_fields : List (Nat × List Nat) → List Nat
  | [] => []
  | f :: fs => spec_encode_field f.1 f.2 ++ spec_encode_fields fs

/-- The sum of entries `0 .. i` of `l` in 32-bit two's complement arithmetic. -/
def spec_sum32 (l : List Int) (i : Nat) : Int :=
  int32_of_bits (((l.take (i + 1)).sum % 2 ^ 32).toNat)

/-- The sum of entries `0 .. i` of `l` in 64-bit two's complement arithmetic. -/
def spec_sum64 (l : List Int) (i : Nat) : Int :=
  int64_of_bits (((l.take (i + 1)).sum % 2 ^ 64).toNat)

/-- What one DenseInfo field of id `field_id` is to leave in the packed infos, when
the payloads of fields 1 .. 5 decode to `vs`, `ts`, `cs`, `us` and `ns`: versions as
they are, the other four as running sums; any other field changes nothing. -/
def spec_infos_field (vs ts cs us ns : List Int) (infos : readosm_packed_infos)
    (field_id : Nat) : readosm_packed_infos :=
  if field_id = 1 then { infos with ver_count := vs.length, versions := vs }
  else if field_id = 2 then
    { infos with tim_count := ts.length,
                 timestamps := (List.range ts.length).map (spec_sum32 ts) }
  else if field_id = 3 then
    { infos with cng_count := cs.length,
                 changesets := (List.range cs.length).map (spec_sum64 cs) }
  else if field_id = 4 then
    { infos with uid_count := us.length,
                 uids := (List.range us.length).map (spec_sum32 us) }
  else if field_id = 5 then
    { infos with usr_count := ns.length,
                 users := (List.range ns.length).map (spec_sum32 ns) }
  else infos

/-- The payload of a DenseInfo field `f` decodes, with the packed decoder of its
field id, to the corresponding one of `vs`, `ts`, `cs`, `us`, `ns`. -/
def spec_payload_decodes (vs ts cs us ns : List Int) (f : Nat × List Nat) : Prop :=
  (f.1 = 1 → parse_uint32_packed init_packed f.2 = .ok { init_packed with first := vs }) ∧
  (f.1 = 2 → parse_sint32_packed init_packed f.2 = .ok { init_packed with first := ts }) ∧
  (f.1 = 3 → parse_sint64_packed init_packed f.2 = .ok { init_packed with first := cs }) ∧
  (f.1 = 4 → parse_sint32_packed init_packed f.2 = .ok { init_packed with first := us }) ∧
  (f.1 = 5 → parse_sint32_packed init_packed f.2 = .ok { init_packed with first := ns })

/-! ## Reference notions for DenseNodes -/

/-- The packed arrays of a DenseNodes message are parallel with `N` entries: each
of the eight arrays has count `N` and `N` entries written, and the key/value array
has as many entries written as its count says. -/
def dense_aligned (st : dense_nodes_state) (N : Nat) : Prop :=
  (st.packed_ids.count = N ∧ st.packed_ids.values.length = N) ∧
  (st.packed_lats.count = N ∧ st.packed_lats.values.length = N) ∧
  (st.packed_lons.count = N ∧ st.packed_lons.values.length = N) ∧
  (st.packed_infos.ver_count = N ∧ st.packed_infos.versions.length = N) ∧
  (st.packed_infos.tim_count = N ∧ st.packed_infos.timestamps.length = N) ∧
  (st.packed_infos.cng_count = N ∧ st.packed_infos.changesets.length = N) ∧
  (st.packed_infos.uid_count = N ∧ st.packed_infos.uids.length = N) ∧
  (st.packed_infos.usr_count = N ∧ st.packed_infos.users.length = N) ∧
  st.packed_keys.count = st.packed_keys.values.length

instance (st : dense_nodes_state) (N : Nat) : Decidable (dense_aligned st N) := by
  unfold dense_aligned; infer_instance

/-- The string indices of a DenseNodes message are in range: the table has fewer
than `2 ^ 31` strings, every entry of the key/value array is the sentinel 0 or the
index of a string, and so is every user index that is positive. -/
def indices_in_range (strings : readosm_string_table) (st : dense_nodes_state) : Prop :=
  strings.strings.length < 2 ^ 31 ∧
  (∀ k ∈ st.packed_keys.values, k = 0 ∨ (0 < k ∧ k < strings.strings.length)) ∧
  (∀ u ∈ st.packed_infos.users, u ≤ 0 ∨ u < strings.strings.length)

instance (strings : readosm_string_table) (st : dense_nodes_state) :
    Decidable (indices_in_range strings st) := by
  unfold indices_in_range; infer_instance

/-- Segment `i` of a key/value index sequence split at its zero entries (empty when
the sequence has fewer segments). -/
def spec_segment : List Int → Nat → List Int
  | l, 0 => l.takeWhile (fun k => k != 0)
  | l, i + 1 => spec_segment ((l.dropWhile (fun k => k != 0)).drop 1) i

/-- The consecutive pairs `(s[0], s[1]), (s[2], s[3]), ...` of a segment. -/
def spec_pairs : List Int → List (Int × Int)
  | k :: v :: rest => (k, v) :: spec_pairs rest
  | _ => []

/-- The string `st[k]` of the block's string table, as a C string. -/
def spec_string (strings : readosm_string_table) (k : Int) : List Nat :=
  c_string (strings.strings.getD k.toNat [])

/-- The tags `(st[s[0]], st[s[1]]), (st[s[2]], st[s[3]]), ...` of a segment `s`. -/
def spec_tags (strings : readosm_string_table) (seg : List Int) : List readosm_internal_tag :=
  (spec_pairs seg).map fun kv =>
    { key := some (spec_string strings kv.1), value := some (spec_string strings kv.2) }

/-- The character buffer of entry `k` of the string table (empty outside it). -/
def table_buffer (strings : readosm_string_table) (k : Int) : List Nat :=
  strings.strings.getD k.toNat []

/-- Consecutive buffers paired into tags, as `append_tag_to_node` stores them. -/
def tag_pairs : List (List Nat) → List readosm_internal_tag
  | k :: v :: rest => { key := some (c_string k), value := some (c_string v) } :: tag_pairs rest
  | _ => []

/-- The user of a node with user index `s_id`: nil for an index that is not
positive or that names the empty string. -/
def spec_user (strings : readosm_string_table) (s_id : Int) : Option (List Nat) :=
  if s_id > 0 ∧ (spec_string strings s_id).length > 0 then some (spec_string strings s_id)
  else none

/-- Node `j` of a DenseNodes block in the specification's terms, from the accumulators
`d_id`, `d_lat`, `d_lon` and the (remaining) arrays: running sums for id, latitude
and longitude, the entries `j` of the DenseInfo arrays, the tags of segment `j`. -/
def spec_node (strings : readosm_string_table) (d_id d_lat d_lon : Int)
    (ids lats lons versions timestamps changesets uids users keys : List Int) (j : Nat) :
    readosm_internal_node :=
  { id := int64_add d_id ((ids.take (j + 1)).sum),
    latitude := int64_add d_lat ((lats.take (j + 1)).sum),
    longitude := int64_add d_lon ((lons.take (j + 1)).sum),
    version := versions.getD j 0,
    changeset := changesets.getD j 0,
    user := spec_user strings (users.getD j 0),
    uid := if uids.getD j 0 ≥ 0 then uids.getD j 0 else READOSM_UNDEFINED,
    timestamp := some (timestamps.getD j 0),
    tag_count := 0,
    tags := spec_tags strings (spec_segment keys j) }

/-- The nodes of a DenseNodes block with the arrays of `st`, in the specification's
terms. -/
def spec_nodes (strings : readosm_string_table) (st : dense_nodes_state) (N : Nat) :
    List readosm_internal_node :=
  (List.range N).map
    (spec_node strings 0 0 0 st.packed_ids.values st.packed_lats.values st.packed_lons.values
      st.packed_infos.versions st.packed_infos.timestamps st.packed_infos.changesets
      st.packed_infos.uids st.packed_infos.users st.packed_keys.values)

/-- A node callback that records the views it receives and returns `READOSM_OK`. -/
def record_nodes (seen : List readosm_export_node) (node : readosm_export_node) :
    Int × List readosm_export_node :=
  (READOSM_OK, seen ++ [node])

/-! ## The DenseNodes scenario of the specification -/

/-- The DenseNodes message of scenario S3: id deltas `[10, 5, -3]`, the DenseInfo of
the scenario (without the visible-flag field), latitude and longitude deltas
`[0, 0, 0]`, `keys_vals = [3, 4, 0, 0, 5, 6, 0]`. -/
def s3_dense_nodes : List Nat :=
  [10, 3, 20, 10, 5,
   42, 29, 10, 3, 1, 1, 2, 18, 7, 128, 192, 240, 245, 11, 4, 2, 26, 3, 2, 0, 0,
     34, 3, 2, 0, 0, 42, 3, 2, 0, 0,
   66, 3, 0, 0, 0,
   74, 3, 0, 0, 0,
   82, 7, 3, 4, 0, 0, 5, 6, 0]

/-- The string table of scenario S3: `"", "u1", "u2", "k1", "v1", "k2", "v2"`. -/
def s3_strings : readosm_string_table :=
  { first := [[], [117, 49], [117, 50], [107, 49], [118, 49], [107, 50], [118, 50]],
    count := 7,
    strings := [[], [117, 49], [117, 50], [107, 49], [118, 49], [107, 50], [118, 50]] }

/-- The packed arrays that `parse_pbf_nodes` holds after reading `s3_dense_nodes`. -/
def s3_state : dense_nodes_state :=
  { packed_keys := { first := [3, 4, 0, 0, 5, 6, 0], count := 7,
                     values := [3, 4, 0, 0, 5, 6, 0] },
    packed_ids := { first := [10, 5, -3], count := 3, values := [10, 5, -3] },
    packed_lats := { first := [0, 0, 0], count := 3, values := [0, 0, 0] },
    packed_lons := { first := [0, 0, 0], count := 3, values := [0, 0, 0] },
    packed_infos :=
      { ver_count := 3, versions := [1, 1, 2],
        tim_count := 3, timestamps := [1600000000, 1600000002, 1600000003],
        cng_count := 3, changesets := [1, 1, 1],
        uid_count := 3, uids := [1, 1, 1],
        usr_count := 3, users := [1, 1, 1] } }

/-- A DenseNodes message of two nodes with id deltas `[-5, 3]`: versions `[1, 1]`,
every other delta 0, no tags. -/
def negative_first_delta_nodes : List Nat :=
  [10, 2, 9, 6,
   42, 20, 10, 2, 1, 1, 18, 2, 0, 0, 26, 2, 0, 0, 34, 2, 0, 0, 42, 2, 0, 0,
   66, 2, 0, 0,
   74, 2, 0, 0]

/-- The packed arrays that `parse_pbf_nodes` holds after reading
`negative_first_delta_nodes`. -/
def negative_first_delta_state : dense_nodes_state :=
  { packed_keys := init_packed,
    packed_ids := { first := [-5, 3], count := 2, values := [-5, 3] },
    packed_lats := { first := [0, 0], count := 2, values := [0, 0] },
    packed_lons := { first := [0, 0], count := 2, values := [0, 0] },
    packed_infos :=
      { ver_count := 2, versions := [1, 1], tim_count := 2, timestamps := [0, 0],
        cng_count := 2, changesets := [0, 0], uid_count := 2, uids := [0, 0],
        usr_count := 2, users := [0, 0] } }

/-- A DenseNodes message that holds one id (delta 1) and no other field. -/
def ids_only_nodes : List Nat := [0x0A, 0x01, 0x02]

/-- The packed arrays that `parse_pbf_nodes` holds after reading `ids_only_nodes`. -/
def ids_only_state : dense_nodes_state :=
  { init_dense_nodes_state with packed_ids := { first := [1], count := 1, values := [1] } }

/-- Parameters with the recording node callback and no other callback. -/
def record_params : pbf_params (List readosm_export_node) :=
  { user_data := [], node_callback := some record_nodes, way_callback := none,
    relation_callback := none, stop := 0 }


/-- The DenseInfo fields of scenario S3: versions `[1, 1, 2]`, a visible-flag field,
timestamp deltas `[1600000000, 2, 1]`, changeset, uid and user-index deltas
`[1, 0, 0]`. -/
def s3_info_fields : List (Nat × List Nat) :=
  [(1, [1, 1, 2]), (6, [1, 1, 1]), (2, [128, 192, 240, 245, 11, 4, 2]), (3, [2, 0, 0]),
   (4, [2, 0, 0]), (5, [2, 0, 0])]

/-! ## Reference notions for tag bytes and packed payloads -/

/-- The wire type of a tag byte in the specification's words: its low 3 bits. -/
def spec_wire_type (t : Nat) : Nat := t % 8

/-- The field id of a tag byte in the specification's words: its high 5 bits,
shifted down. -/
def spec_field_id (t : Nat) : Nat := t / 8 % 32

/-- Compatibility of a wire type with the logical type of a hint, in the
specification's words: wire type 0 goes with the varint family, wire type 2 with
length-delimited bytes, and no other wire type goes with anything. -/
def spec_compatible (w : Nat) (ty : VarType) : Bool :=
  (w = 0 ∧ ty ∈ [READOSM_VAR_INT32, READOSM_VAR_INT64, READOSM_VAR_UINT32, READOSM_VAR_UINT64,
      READOSM_VAR_SINT32, READOSM_VAR_SINT64, READOSM_VAR_BOOL, READOSM_VAR_ENUM]) ∨
  (w = 2 ∧ ty = READOSM_LEN_BYTES)

/-- A packed payload in the specification's words: the concatenation of the varint
encodings of the raw values. -/
def spec_encode_packed : List Nat → List Nat
  | [] => []
  | x :: xs => spec_encode_varint x ++ spec_encode_packed xs

/-- A variant carrying the three hints `INT32 1`, `LEN_BYTES 2`, `SINT64 3`. -/
def sample_variant : readosm_variant :=
  add_variant_hints (add_variant_hints (add_variant_hints init_variant READOSM_VAR_INT32 1)
    READOSM_LEN_BYTES 2) READOSM_VAR_SINT64 3

/-! ## Reference notions for messages -/

/-- A field of a message as the specification describes it: a varint field (wire
type 0) carrying the unsigned number `raw`, or a length-delimited field (wire
type 2) carrying `payload`. -/
inductive spec_field where
  | varint (field_id raw : Nat)
  | bytes (field_id : Nat) (payload : List Nat)
  deriving DecidableEq, Repr

/-- The field id of a field. -/
def spec_field.field_id : spec_field → Nat
  | .varint field_id _ => field_id
  | .bytes field_id _ => field_id

/-- Reference encoder of a field: the tag byte, then the varint, or the length and
the payload. -/
def spec_field.encode : spec_field → List Nat
  | .varint field_id raw => (field_id * 8) :: spec_encode_varint raw
  | .bytes field_id payload => spec_encode_field field_id payload

/-- A message: its fields one after the other. -/
def spec_encode_message : List spec_field → List Nat
  | [] => []
  | f :: fs => f.encode ++ spec_encode_message fs

/-- The field ids of a message, in order. -/
def spec_field_ids (fs : List spec_field) : List Nat := fs.map spec_field.field_id

/-- A field is readable under a hint table: its id is below 32, and the table
declares a varint field as `INT32` (with `raw` below `2 ^ 32`) or as `INT64` (with
`raw` below `2 ^ 64`), a length-delimited field as `LEN_BYTES` (with a payload
shorter than `2 ^ 32`). -/
def spec_field_ok (hints : List readosm_variant_hint) : spec_field → Prop
  | .varint field_id raw =>
    field_id < 32 ∧
    ((find_type_hint_loop field_id 0 hints = some READOSM_VAR_INT32 ∧ raw < 2 ^ 32) ∨
     (find_type_hint_loop field_id 0 hints = some READOSM_VAR_INT64 ∧ raw < 2 ^ 64))
  | .bytes field_id payload =>
    field_id < 32 ∧ payload.length < 2 ^ 32 ∧
    find_type_hint_loop field_id 2 hints = some READOSM_LEN_BYTES

instance (hints : List readosm_variant_hint) (f : spec_field) :
    Decidable (spec_field_ok hints f) := by
  cases f <;> unfold spec_field_ok <;> infer_instance

/-- The variant as a message parser sees it after a readable field: the hinted
type, the field id, and the value (the number `raw` converted to `int`) or the
payload. -/
def spec_field_variant (v : readosm_variant) : spec_field → readosm_variant
  | .varint field_id raw =>
    { reset_variant v with
      type := (find_type_hint_loop field_id 0 v.hints).getD READOSM_VAR_UNDEFINED,
      field_id := field_id, value := int32_of_bits raw, valid := true }
  | .bytes field_id payload =>
    { reset_variant v with
      type := READOSM_LEN_BYTES, field_id := field_id, pointer := payload,
      length := payload.length, valid := true }

/-- A handler run over the fields of a message in order. -/
def spec_fold {S : Type} (handler : S → readosm_variant → Outcome S) :
    S → readosm_variant → List spec_field → Outcome S
  | s, _, [] => .ok s
  | s, v, f :: fs =>
    (handler s (spec_field_variant v f)).bind fun s =>
      spec_fold handler s (spec_field_variant v f) fs

/-! ## Reference notions for ways and relations -/

/-- A field of a WayInfo or RelationInfo message: a varint field with an id from 1
to 6, the changeset (id 3) within 64 bits, the others within 32 bits. -/
def spec_info_field_ok : spec_field → Prop
  | .varint field_id raw =>
    (field_id = 3 ∧ raw < 2 ^ 64) ∨
    ((field_id = 1 ∨ field_id = 2 ∨ field_id = 4 ∨ field_id = 5 ∨ field_id = 6) ∧ raw < 2 ^ 32)
  | .bytes _ _ => False

instance (f : spec_field) : Decidable (spec_info_field_ok f) := by
  cases f <;> unfold spec_info_field_ok <;> infer_instance

/-- A payload is an info message: the encoding of at least one info field. -/
def spec_info_payload (payload : List Nat) : Prop :=
  ∃ info : List spec_field,
    info ≠ [] ∧ (∀ g ∈ info, spec_info_field_ok g) ∧ payload = spec_encode_message info

/-- A field of a Way message with keys `ks`, values `vs` and ref deltas `ds`: the id
(field 1, a varint), or a length-delimited field shorter than `2 ^ 32` that is the
keys (field 2, decoding to `ks`), the values (field 3, decoding to `vs`), an info
message (field 4) or the refs (field 8, decoding to `ds`). -/
def spec_way_field_ok (ks vs ds : List Int) : spec_field → Prop
  | .varint field_id raw => field_id = 1 ∧ raw < 2 ^ 64
  | .bytes field_id payload =>
    payload.length < 2 ^ 32 ∧
    ((field_id = 2 ∧
        parse_uint32_packed init_packed payload = .ok { init_packed with first := ks }) ∨
     (field_id = 3 ∧
        parse_uint32_packed init_packed payload = .ok { init_packed with first := vs }) ∨
     (field_id = 4 ∧ spec_info_payload payload) ∨
     (field_id = 8 ∧
        parse_sint64_packed init_packed payload = .ok { init_packed with first := ds }))

/-- A Way message in the specification's terms: at least one field, no field id
twice, every field one of the five kinds, and `ks`, `vs`, `ds` empty when the message
has no keys, values or refs field. -/
def spec_way_message (ks vs ds : List Int) (fs : List spec_field) : Prop :=
  fs ≠ [] ∧ (spec_field_ids fs).Nodup ∧ (∀ f ∈ fs, spec_way_field_ok ks vs ds f) ∧
  (2 ∉ spec_field_ids fs → ks = []) ∧ (3 ∉ spec_field_ids fs → vs = []) ∧
  (8 ∉ spec_field_ids fs → ds = [])

/-- The string table can serve lookups: `count` does not exceed the number of
entries of the pointer array, and there are fewer than `2 ^ 31` of them. -/
def spec_table_ok (strings : readosm_string_table) : Prop :=
  strings.count ≤ strings.strings.length ∧ strings.strings.length < 2 ^ 31

instance (strings : readosm_string_table) : Decidable (spec_table_ok strings) := by
  unfold spec_table_ok; infer_instance

/-- Every index of the list names a string of the table. -/
def spec_indices_ok (strings : readosm_string_table) (l : List Int) : Prop :=
  ∀ k ∈ l, 0 ≤ k ∧ k < strings.strings.length

instance (strings : readosm_string_table) (l : List Int) :
    Decidable (spec_indices_ok strings l) := by
  unfold spec_indices_ok; infer_instance

/-- The tags `(st[k_i], st[v_i])` of parallel key and value index lists. -/
def spec_zip_tags (strings : readosm_string_table) (ks vs : List Int) :
    List readosm_export_tag :=
  (List.zip ks vs).map fun kv =>
    { key := some (spec_string strings kv.1), value := some (spec_string strings kv.2) }

/-- A way callback that records the views it receives and returns `READOSM_OK`. -/
def record_ways (seen : List readosm_export_way) (way : readosm_export_way) :
    Int × List readosm_export_way :=
  (READOSM_OK, seen ++ [way])

/-- Parameters with the recording way callback and no other callback. -/
def record_way_params : pbf_params (List readosm_export_way) :=
  { user_data := [], node_callback := none, way_callback := some record_ways,
    relation_callback := none, stop := 0 }

/-! ## The Way scenario of the specification -/

/-- The string table of scenario S4: `"", "highway", "residential", "name",
"Main"`. -/
def s4_strings : readosm_string_table :=
  { first := [[], [104, 105, 103, 104, 119, 97, 121],
      [114, 101, 115, 105, 100, 101, 110, 116, 105, 97, 108], [110, 97, 109, 101],
      [77, 97, 105, 110]],
    count := 5,
    strings := [[], [104, 105, 103, 104, 119, 97, 121],
      [114, 101, 115, 105, 100, 101, 110, 116, 105, 97, 108], [110, 97, 109, 101],
      [77, 97, 105, 110]] }

/-- The Way message of scenario S4: id 42, keys `[1, 3]`, values `[2, 4]`, an info
message with version 1 and changeset 7, ref deltas `[100, 1, 2]`. -/
def s4_way : List spec_field :=
  [.varint 1 42, .bytes 2 [1, 3], .bytes 3 [2, 4], .bytes 4 [8, 1, 24, 7],
   .bytes 8 [200, 1, 2, 4]]

/-! ## Reference notions for relations -/

/-- A field of a Relation message with keys `ks`, values `vs`, roles `rs`, member id
deltas `ds` and member types `ts`: the id (field 1, a varint), or a length-delimited
field shorter than `2 ^ 32` that is the keys (field 2), the values (field 3), an info
message (field 4), the roles (field 8), the member ids (field 9) or the types
(field 10), each decoding to its list. -/
def spec_relation_field_ok (ks vs rs ds ts : List Int) : spec_field → Prop
  | .varint field_id raw => field_id = 1 ∧ raw < 2 ^ 64
  | .bytes field_id payload =>
    payload.length < 2 ^ 32 ∧
    ((field_id = 2 ∧
        parse_uint32_packed init_packed payload = .ok { init_packed with first := ks }) ∨
     (field_id = 3 ∧
        parse_uint32_packed init_packed payload = .ok { init_packed with first := vs }) ∨
     (field_id = 4 ∧ spec_info_payload payload) ∨
     (field_id = 8 ∧
        parse_uint32_packed init_packed payload = .ok { init_packed with first := rs }) ∨
     (field_id = 9 ∧
        parse_sint64_packed init_packed payload = .ok { init_packed with first := ds }) ∨
     (field_id = 10 ∧
        parse_uint32_packed init_packed payload = .ok { init_packed with first := ts }))

/-- A Relation message in the specification's terms: at least one field, no field id
twice, every field one of the seven kinds, and a list empty when the message has no
field for it. -/
def spec_relation_message (ks vs rs ds ts : List Int) (fs : List spec_field) : Prop :=
  fs ≠ [] ∧ (spec_field_ids fs).Nodup ∧ (∀ f ∈ fs, spec_relation_field_ok ks vs rs ds ts f) ∧
  (2 ∉ spec_field_ids fs → ks = []) ∧ (3 ∉ spec_field_ids fs → vs = []) ∧
  (8 ∉ spec_field_ids fs → rs = []) ∧ (9 ∉ spec_field_ids fs → ds = []) ∧
  (10 ∉ spec_field_ids fs → ts = [])

/-- The packed object of `parse_pbf_relation` that the field of id `c` fills. -/
def relation_packed (c : Nat) (st : relation_state) : readosm_packed :=
  if c = 2 then st.packed_keys
  else if c = 3 then st.packed_values
  else if c = 8 then st.packed_roles
  else if c = 9 then st.packed_refs
  else st.packed_types

/-- The list that the field of id `c` of a Relation message decodes to. -/
def spec_relation_list (ks vs rs ds ts : List Int) (c : Nat) : List Int :=
  if c = 2 then ks
  else if c = 3 then vs
  else if c = 8 then rs
  else if c = 9 then ds
  else ts

/-- The member type for a wire value of the types array, in the specification's
words: `0 = NODE, 1 = WAY, 2 = RELATION`; for any other value the member type stays
undefined. -/
def spec_member_type (t : Int) : Int :=
  if t = 0 then READOSM_MEMBER_NODE
  else if t = 1 then READOSM_MEMBER_WAY
  else if t = 2 then READOSM_MEMBER_RELATION
  else READOSM_UNDEFINED

/-- The members for roles, types and member id deltas that remain, `delta` being the
sum of the deltas before them. -/
def spec_members_from (strings : readosm_string_table) :
    Int → List Int → List Int → List Int → List readosm_internal_member
  | delta, r :: rs, t :: ts, d :: ds =>
    { member_type := spec_member_type t, id := int64_add delta d,
      role := some (spec_string strings r) } ::
      spec_members_from strings (int64_add delta d) rs ts ds
  | _, _, _, _ => []

/-- Member `i` of a relation in the specification's terms: the type of entry `i`,
the sum of the member id deltas `0 .. i`, the role string of entry `i`. -/
def spec_member (strings : readosm_string_table) (rs ds ts : List Int) (i : Nat) :
    readosm_export_member :=
  { member_type := spec_member_type (ts.getD i 0), id := spec_sum64 ds i,
    role := some (spec_string strings (rs.getD i 0)) }

/-- A relation callback that records the views it receives and returns
`READOSM_OK`. -/
def record_relations (seen : List readosm_export_relation) (relation : readosm_export_relation) :
    Int × List readosm_export_relation :=
  (READOSM_OK, seen ++ [relation])

/-- Parameters with the recording relation callback and no other callback. -/
def record_relation_params : pbf_params (List readosm_export_relation) :=
  { user_data := [], node_callback := none, way_callback := none,
    relation_callback := some record_relations, stop := 0 }

/-- A Relation message: id 7, keys `[1]`, values `[2]`, roles `[3, 4, 3]`, member id
deltas `[10, 5, -3]`, types `[0, 1, 2]`. -/
def sample_relation : List spec_field :=
  [.varint 1 7, .bytes 2 [1], .bytes 3 [2], .bytes 8 [3, 4, 3], .bytes 9 [20, 10, 5],
   .bytes 10 [0, 1, 2]]

/-! ## Sample messages for ways and relations -/

/-- A Way message with two keys and one value. -/
def mismatch_way : List spec_field := [.varint 1 42, .bytes 2 [1, 3], .bytes 3 [2]]

/-- A Relation message with two roles, one member id and two types. -/
def mismatch_relation : List spec_field :=
  [.varint 1 7, .bytes 8 [3, 4], .bytes 9 [20], .bytes 10 [0, 1]]

/-- A Way message with the id 3000000000 and an info message whose changeset is
3000000000. -/
def big_id_way : List spec_field :=
  [.varint 1 3000000000, .bytes 4 (spec_encode_message [.varint 3 3000000000])]

/-- A Relation message with the id 3000000000 and an info message whose changeset is
3000000000. -/
def big_id_relation : List spec_field :=
  [.varint 1 3000000000, .bytes 4 (spec_encode_message [.varint 3 3000000000])]

/-- A Way message with the id 42 and an info message whose user index is 9. -/
def user_index_way : List spec_field := [.varint 1 42, .bytes 4 [40, 9]]

/-- A Way message with the id 42, the key index 9 and the value index 2. -/
def key_index_way : List spec_field := [.varint 1 42, .bytes 2 [9], .bytes 3 [2]]

/-! ## Reference notions for the stream and for callbacks -/

/-- A property of the parameters that every dispatch keeps: the loop over the nodes
of a block (entered with the stop flag clear), the dispatch of a way and the
dispatch of a relation. -/
def dispatch_invariant {σ : Type} (P : pbf_params σ → Prop) : Prop :=
  (∀ cb nodes p, P p → p.node_callback = some cb → p.stop = 0 →
    P (dispatch_nodes cb nodes p)) ∧
  (∀ way p, P p → P (dispatch_way way p)) ∧
  (∀ relation p, P p → P (dispatch_relation relation p))

/-- A callback with a journal: the user data carries, next to the user's own state,
the list of the values that the invocations so far have returned. -/
def logged {σ α : Type} (cb : σ → α → Int × σ) (s : σ × List Int) (a : α) :
    Int × (σ × List Int) :=
  ((cb s.1 a).1, ((cb s.1 a).2, s.2 ++ [(cb s.1 a).1]))

/-- The journal of a run in which no invocation follows one that returned a value
other than `READOSM_OK`: every entry but the last is `READOSM_OK`, and the stop flag
is set exactly when the last entry is not. -/
def journal_ok (stop : Int) (journal : List Int) : Prop :=
  (∀ r ∈ journal.dropLast, r = READOSM_OK) ∧
  (stop = 0 → ∀ r ∈ journal, r = READOSM_OK) ∧
  (stop ≠ 0 → ∃ r, journal.getLast? = some r ∧ r ≠ READOSM_OK)

/-- The four bytes of a size, most significant first. -/
def spec_encode_size (n : Nat) : List Nat :=
  [n / 2 ^ 24 % 256, n / 2 ^ 16 % 256, n / 2 ^ 8 % 256, n % 256]

/-- A blob of the stream in the specification's terms: the size of the BlobHeader,
the BlobHeader (type name and data size), the data. -/
def spec_encode_blob (name data : List Nat) : List Nat :=
  spec_encode_size (spec_encode_message [.bytes 1 name, .varint 3 data.length]).length ++
    spec_encode_message [.bytes 1 name, .varint 3 data.length] ++ data

/-- An OSMData blob holding the PrimitiveBlock `block` uncompressed. -/
def spec_encode_data_blob (block : List Nat) : List Nat :=
  spec_encode_blob OSMData (spec_encode_message [.bytes 1 block])

/-- A DenseNodes message of `n` nodes with the ids `1 .. n` (every id delta is 1),
version 1, and every other value 0. -/
def spec_dense_nodes (n : Nat) : List Nat :=
  spec_encode_message
    [.bytes 1 (List.replicate n 2),
     .bytes 5 (spec_encode_message
       [.bytes 1 (List.replicate n 1), .bytes 2 (List.replicate n 0),
        .bytes 3 (List.replicate n 0), .bytes 4 (List.replicate n 0),
        .bytes 5 (List.replicate n 0)]),
     .bytes 8 (List.replicate n 0), .bytes 9 (List.replicate n 0)]

/-- A PrimitiveBlock: a string table with the empty string, and one primitive group
with the DenseNodes message of `n` nodes. -/
def spec_nodes_block (n : Nat) : List Nat :=
  spec_encode_message
    [.bytes 1 [0x0A, 0x00], .bytes 2 (spec_encode_message [.bytes 2 (spec_dense_nodes n)])]

/-- The stream of scenario S5: the OSMHeader blob, an OSMData blob with 10 nodes, and
a further OSMData blob with 1 node. -/
def s5_stream : List Nat :=
  spec_encode_blob OSMHeader [0] ++ spec_encode_data_blob (spec_nodes_block 10) ++
    spec_encode_data_blob (spec_nodes_block 1)

/-- A stream whose only OSMData blob holds a group of 10 nodes followed by a
primitive group that does not decode (its payload is the byte `FF`). -/
def abort_then_corrupt_stream : List Nat :=
  spec_encode_blob OSMHeader [0] ++
    spec_encode_data_blob (spec_encode_message
      [.bytes 1 [0x0A, 0x00], .bytes 2 (spec_encode_message [.bytes 2 (spec_dense_nodes 10)]),
       .bytes 2 [0xFF]])

/-- A node callback that records the ids it receives and returns a value other than
`READOSM_OK` on its third invocation. -/
def abort_on_third (seen : List Int) (node : readosm_export_node) : Int × List Int :=
  (if seen.length + 1 = 3 then 1 else READOSM_OK, seen ++ [node.id])

/-- A decompression that accepts nothing (the sample streams hold no compressed
block). -/
def no_inflate (_ : List Nat) : Option (List Nat) := none

/-- The observable result of a run of `parse_osm_pbf`: the return code, the user
data, the stop flag, and the number of bytes of the stream left unread. -/
def run_result {σ : Type} (r : Outcome (Int × pbf_params σ × List Nat)) :
    Outcome (Int × σ × Int × Nat) :=
  r.map fun x => (x.1, x.2.1.user_data, x.2.1.stop, x.2.2.length)

/-- Parameters whose stop flag is set, with the callback of scenario S5. -/
def stopped_params : pbf_params (List Int) :=
  { user_data := [1, 2, 3], node_callback := some abort_on_third, way_callback := none,
    relation_callback := none, stop := 1 }

/-! ## Reference notions for the export view -/

/-- The string is a C string: it holds no zero byte, so that copying it with
`strcpy` gives the same string. -/
def spec_c_string (s : Option (List Nat)) : Prop := s.map c_string = s

instance (s : Option (List Nat)) : Decidable (spec_c_string s) := by
  unfold spec_c_string; infer_instance

/-- The keys and values of a tag list are C strings. -/
def spec_c_string_tags (tags : List readosm_internal_tag) : Prop :=
  ∀ tag ∈ tags, spec_c_string tag.key ∧ spec_c_string tag.value

instance (tags : List readosm_internal_tag) : Decidable (spec_c_string_tags tags) := by
  unfold spec_c_string_tags; infer_instance

/-- The roles of a member list are C strings. -/
def spec_c_string_members (members : List readosm_internal_member) : Prop :=
  ∀ member ∈ members, spec_c_string member.role

instance (members : List readosm_internal_member) :
    Decidable (spec_c_string_members members) := by
  unfold spec_c_string_members; infer_instance

/-- The export tag that mirrors an internal tag. -/
def spec_mirror_tag (tag : readosm_internal_tag) : readosm_export_tag :=
  { key := tag.key, value := tag.value }

/-- The export member that mirrors an internal member. -/
def spec_mirror_member (member : readosm_internal_member) : readosm_export_member :=
  { member_type := member.member_type, id := member.id, role := member.role }

/-- The export node that mirrors an internal node: the scalar members, the user and
the timestamp unchanged, `tag_count` the number of tags of the list and `tags[i]` the
mirror of the tag at position `i`. -/
def spec_mirror_node (node : readosm_internal_node) : readosm_export_node :=
  { id := node.id, latitude := node.latitude, longitude := node.longitude,
    version := node.version, changeset := node.changeset, user := node.user,
    uid := node.uid, timestamp := node.timestamp,
    tag_count := node.tags.length, tags := node.tags.map spec_mirror_tag }

/-- The export way that mirrors an internal way. -/
def spec_mirror_way (way : readosm_internal_way) : readosm_export_way :=
  { id := way.id, version := way.version, changeset := way.changeset, user := way.user,
    uid := way.uid, timestamp := way.timestamp,
    node_ref_count := way.refs.length, node_refs := way.refs,
    tag_count := way.tags.length, tags := way.tags.map spec_mirror_tag }

/-- The export relation that mirrors an internal relation. -/
def spec_mirror_relation (relation : readosm_internal_relation) : readosm_export_relation :=
  { id := relation.id, version := relation.version, changeset := relation.changeset,
    user := relation.user, uid := relation.uid, timestamp := relation.timestamp,
    member_count := relation.members.length,
    members := relation.members.map spec_mirror_member,
    tag_count := relation.tags.length, tags := relation.tags.map spec_mirror_tag }

/-- A node with a user, a timestamp and two tags. -/
def sample_internal_node : readosm_internal_node :=
  { init_internal_node with
    id := 7, latitude := 451234567, longitude := -91234567, version := 2, changeset := 31,
    user := some [117, 49], uid := 5, timestamp := some 1000,
    tags := [{ key := some [107], value := some [118] }, { key := some [97], value := some [] }] }

/-- A way with two node references and a tag. -/
def sample_internal_way : readosm_internal_way :=
  { alloc_internal_way with
    id := 8, version := 1, changeset := 32, user := some [117, 50], uid := 6,
    timestamp := some 2000, refs := [10, 11],
    tags := [{ key := some [107], value := some [118] }] }

/-- A relation with two members and a tag. -/
def sample_internal_relation : readosm_internal_relation :=
  { alloc_internal_relation with
    id := 9, version := 3, changeset := 33, user := none, uid := 7, timestamp := none,
    members := [{ member_type := READOSM_MEMBER_NODE, id := 7, role := some [114] },
                { member_type := READOSM_MEMBER_WAY, id := 8, role := none }],
    tags := [{ key := some [107], value := some [118] }] }

/-! ## Reference notions for a DenseNodes block built from its values -/

/-- The values of a DenseNodes block in the specification's terms: the deltas of the
ids, latitudes and longitudes, the key/value indices, and the DenseInfo arrays
(versions, and the deltas of timestamps, changesets, user ids and user-name
indices). -/
structure spec_dense where
  ids : List Int
  lats : List Int
  lons : List Int
  keys_vals : List Nat
  versions : List Nat
  timestamps : List Int
  changesets : List Int
  uids : List Int
  user_sids : List Int
  deriving DecidableEq, Repr

/-- A packed payload of signed values: the varints of their ZigZag codes. -/
def spec_encode_signed (xs : List Int) : List Nat :=
  spec_encode_packed (xs.map spec_zigzag_encode)

/-- The fields of the DenseInfo message of the block. -/
def spec_dense_info (d : spec_dense) : List spec_field :=
  [.bytes 1 (spec_encode_packed d.versions), .bytes 2 (spec_encode_signed d.timestamps),
   .bytes 3 (spec_encode_signed d.changesets), .bytes 4 (spec_encode_signed d.uids),
   .bytes 5 (spec_encode_signed d.user_sids)]

/-- The fields of the DenseNodes message of the block; the `keys_vals` field is left
out when there are no indices. -/
def spec_dense_fields (d : spec_dense) : List spec_field :=
  [.bytes 1 (spec_encode_signed d.ids), .bytes 5 (spec_encode_message (spec_dense_info d)),
   .bytes 8 (spec_encode_signed d.lats), .bytes 9 (spec_encode_signed d.lons)] ++
    (if d.keys_vals = [] then [] else [.bytes 10 (spec_encode_packed d.keys_vals)])

/-- The DenseNodes message of the block. -/
def spec_dense_message (d : spec_dense) : List Nat := spec_encode_message (spec_dense_fields d)

/-- The block describes `N ≥ 1` nodes: the eight parallel arrays have `N` entries,
the 64-bit values lie strictly between `-2 ^ 63` and `2 ^ 63`, the 32-bit values
strictly between `-2 ^ 31` and `2 ^ 31`, versions and indices are below `2 ^ 32`, and
every payload is shorter than `2 ^ 32` bytes. -/
def spec_dense_ok (d : spec_dense) (N : Nat) : Prop :=
  0 < N ∧
  (d.ids.length = N ∧ d.lats.length = N ∧ d.lons.length = N ∧ d.versions.length = N ∧
   d.timestamps.length = N ∧ d.changesets.length = N ∧ d.uids.length = N ∧
   d.user_sids.length = N) ∧
  ((∀ x ∈ d.ids, -2 ^ 63 < x ∧ x < 2 ^ 63) ∧ (∀ x ∈ d.lats, -2 ^ 63 < x ∧ x < 2 ^ 63) ∧
   (∀ x ∈ d.lons, -2 ^ 63 < x ∧ x < 2 ^ 63) ∧
   (∀ x ∈ d.changesets, -2 ^ 63 < x ∧ x < 2 ^ 63) ∧
   (∀ x ∈ d.timestamps, -2 ^ 31 < x ∧ x < 2 ^ 31) ∧
   (∀ x ∈ d.uids, -2 ^ 31 < x ∧ x < 2 ^ 31) ∧
   (∀ x ∈ d.user_sids, -2 ^ 31 < x ∧ x < 2 ^ 31) ∧
   (∀ x ∈ d.versions, x < 2 ^ 32) ∧ (∀ x ∈ d.keys_vals, x < 2 ^ 32)) ∧
  (∀ f ∈ spec_dense_info d, spec_field_ok node_infos_variant.hints f) ∧
  (∀ f ∈ spec_dense_fields d, spec_field_ok nodes_variant.hints f)

instance (d : spec_dense) (N : Nat) : Decidable (spec_dense_ok d N) := by
  unfold spec_dense_ok; infer_instance

/-- The packed arrays of the block as the specification describes them: the deltas
of ids, latitudes and longitudes as they are (they are summed at reassembly), the
versions as they are, and the running sums of the other DenseInfo arrays. -/
def spec_dense_state (d : spec_dense) : dense_nodes_state :=
  { packed_keys :=
      if d.keys_vals = [] then init_packed
      else { first := d.keys_vals.map Nat.cast, count := d.keys_vals.length,
             values := d.keys_vals.map Nat.cast },
    packed_ids := { first := d.ids, count := d.ids.length, values := d.ids },
    packed_lats := { first := d.lats, count := d.lats.length, values := d.lats },
    packed_lons := { first := d.lons, count := d.lons.length, values := d.lons },
    packed_infos :=
      { ver_count := d.versions.length, versions := d.versions.map Nat.cast,
        tim_count := d.timestamps.length,
        timestamps := (List.range d.timestamps.length).map (spec_sum32 d.timestamps),
        cng_count := d.changesets.length,
        changesets := (List.range d.changesets.length).map (spec_sum64 d.changesets),
        uid_count := d.uids.length,
        uids := (List.range d.uids.length).map (spec_sum32 d.uids),
        usr_count := d.user_sids.length,
        users := (List.range d.user_sids.length).map (spec_sum32 d.user_sids) } }

/-- The export views of the nodes of the block, in index order. -/
def spec_dense_views (strings : readosm_string_table) (d : spec_dense) (N : Nat) :
    List readosm_export_node :=
  (spec_nodes strings (spec_dense_state d) N).map export_node

/-- The block of scenario S3: id deltas `[10, 5, -3]`, `keys_vals`
`[3, 4, 0, 0, 5, 6, 0]`, versions `[1, 1, 2]`, and the deltas `[1, 0, 0]` for
changesets, user ids and user-name indices. -/
def s3_dense : spec_dense :=
  { ids := [10, 5, -3], lats := [0, 0, 0], lons := [0, 0, 0],
    keys_vals := [3, 4, 0, 0, 5, 6, 0], versions := [1, 1, 2],
    timestamps := [1600000000, 2, 1], changesets := [1, 0, 0], uids := [1, 0, 0],
    user_sids := [1, 0, 0] }

/-- A block of three nodes without tags whose user-id deltas `[5, -5, -7]` sum to 5,
0 and -7, and whose user-name index deltas `[2, -2, 1]` sum to 2, 0 and 1. -/
def uid_dense : spec_dense :=
  { ids := [1, 1, 1], lats := [0, 0, 0], lons := [0, 0, 0], keys_vals := [],
    versions := [1, 1, 1], timestamps := [0, 0, 0], changesets := [0, 0, 0],
    uids := [5, -5, -7], user_sids := [2, -2, 1] }

/-! ## Reference notions for the user name of a way or relation -/

/-- The user an info message leaves in an entity whose user was `u`: the user `U`
of its user index when the message has a field 5, and `u` otherwise. -/
def spec_info_user (info : List spec_field) (U u : Option (List Nat)) : Option (List Nat) :=
  if 5 ∈ spec_field_ids info then U else u

/-- A Way message with the id 42 and an info message with version 1 and the user
index `sid`. -/
def user_way (sid : Nat) : List spec_field :=
  [.varint 1 42, .bytes 4 (spec_encode_message [.varint 1 1, .varint 5 sid])]

/-- A Relation message with the id 7 and an info message with version 1 and the
user index `sid`. -/
def user_relation (sid : Nat) : List spec_field :=
  [.varint 1 7, .bytes 4 (spec_encode_message [.varint 1 1, .varint 5 sid])]

/-! ## Reference notions for streams of blobs -/

/-- The BlobHeader of a blob: the type name and the data size. -/
def spec_blob_header (name : List Nat) (datasize : Nat) : List Nat :=
  spec_encode_message [.bytes 1 name, .varint 3 datasize]

/-- What `parse_osm_data` makes of the data of an OSMData blob: the Blob message is
read and its block decoded; the return value and the parameters. -/
def spec_blob_result {σ : Type} (inflate : List Nat → Option (List Nat)) (data : List Nat)
    (params : pbf_params σ) : Outcome (Int × pbf_params σ) :=
  match field_loop blob_field (data.length + 1)
      { raw_ptr := none, raw_sz := 0, zip_ptr := none, zip_sz := 0 } blob_variant data with
  | .ok st => parse_primitive_block inflate st params
  | .error => .ok (0, params)
  | .fault => .fault
  | .fuel => .fuel

/-- The data of the blobs are valid one after the other: each is decoded without
error, starting from the parameters that the blob before it left; yields the
parameters after the last blob. -/
def spec_run_blobs {σ : Type} (inflate : List Nat → Option (List Nat)) :
    List (List Nat) → pbf_params σ → Option (pbf_params σ)
  | [], params => some params
  | data :: rest, params =>
    match spec_blob_result inflate data params with
    | .ok r => if r.1 ≠ 0 then spec_run_blobs inflate rest r.2 else none
    | _ => none

/-- The OSMData blobs with the given data, one after the other. -/
def spec_encode_data_blobs : List (List Nat) → List Nat
  | [] => []
  | data :: rest => spec_encode_blob OSMData data ++ spec_encode_data_blobs rest

/-- The size of a blob's data is acceptable: not 0 and below `2 ^ 31`. -/
def spec_data_size_ok (data : List Nat) : Prop := 0 < data.length ∧ data.length < 2 ^ 31

instance (data : List Nat) : Decidable (spec_data_size_ok data) := by
  unfold spec_data_size_ok; infer_instance

/-- The parameters `parse_osm_pbf` starts with. -/
def initial_params {σ : Type} (user_data : σ)
    (node_fnct : Option (σ → readosm_export_node → Int × σ))
    (way_fnct : Option (σ → readosm_export_way → Int × σ))
    (relation_fnct : Option (σ → readosm_export_relation → Int × σ)) : pbf_params σ :=
  { user_data := user_data, node_callback := node_fnct, way_callback := way_fnct,
    relation_callback := relation_fnct, stop := 0 }

/-- A stream whose OSMHeader blob declares the data size -1 (the varint
`FF FF FF FF 0F`) and is followed by one more byte. -/
def negative_datasize_stream : List Nat :=
  spec_encode_size (spec_blob_header OSMHeader (2 ^ 32 - 1)).length ++
    spec_blob_header OSMHeader (2 ^ 32 - 1) ++ [0]

/-- A live PBF handle on a file of which `bytes` are unread. -/
def pbf_handle (little_endian_cpu : Bool) (bytes : List Nat) : readosm_file :=
  { alloc_osm_file little_endian_cpu READOSM_PBF_FORMAT with in_stream := some bytes }

/-- An XML parser that is never reached by a PBF handle. -/
def no_xml {σ : Type} (input : readosm_file) (user_data : σ) :
    Outcome (Int × readosm_file × σ) :=
  .ok (READOSM_OK, input, user_data)

/-! ## Reference notions for messages with an empty packed field -/

/-- A DenseInfo message with an empty timestamp field. -/
def empty_packed_info : List spec_field := [.bytes 1 [1], .bytes 2 []]

/-- A DenseNodes message whose latitude field is empty. -/
def empty_packed_nodes : List spec_field := [.bytes 1 [2], .bytes 8 []]

/-- A Way message whose keys field is empty. -/
def empty_packed_way : List spec_field := [.varint 1 42, .bytes 2 []]

/-- A Relation message whose member-id field is empty. -/
def empty_packed_relation : List spec_field := [.varint 1 7, .bytes 9 []]

/-! ## Reference notions for coordinates, dangling keys and repeated fields -/

/-- The value in degrees of a coordinate held as a number of units of `1e-7`
degrees. -/
def spec_degrees (raw : Int) : ℚ := (raw : ℚ) / 10000000

/-- A block of two nodes without DenseInfo users: `keys_vals` is `[3, 4, 5, 0, 6, 1]`,
so the segment of node 0 holds three indices and the segment of node 1 runs to the
end of the array. -/
def dangling_dense : spec_dense :=
  { ids := [1, 1], lats := [0, 0], lons := [0, 0], keys_vals := [3, 4, 5, 0, 6, 1],
    versions := [1, 1], timestamps := [0, 0], changesets := [0, 0], uids := [0, 0],
    user_sids := [0, 0] }

/-- A block of three nodes with the latitude deltas `[451234567, -100, 7]` and the
longitude deltas `[-912345678, 5, -5]`. -/
def coordinate_dense : spec_dense :=
  { ids := [1, 1, 1], lats := [451234567, -100, 7], lons := [-912345678, 5, -5],
    keys_vals := [], versions := [1, 1, 1], timestamps := [0, 0, 0],
    changesets := [0, 0, 0], uids := [0, 0, 0], user_sids := [0, 0, 0] }

/-- A PrimitiveBlock with the string table of the empty string and one group with
the DenseNodes message `dense`, between the fields `pre` and `post`. -/
def spec_block_with (pre post : List spec_field) (dense : List Nat) : List Nat :=
  spec_encode_message
    (pre ++ [.bytes 1 [0x0A, 0x00], .bytes 2 (spec_encode_message [.bytes 2 dense])] ++ post)

/-- The return value of the PrimitiveBlock loop on `block` and the latitudes and
longitudes of the nodes it hands to a recording callback. -/
def block_coordinates (block : List Nat) : Outcome (Int × List (Int × Int)) :=
  (primitive_block_loop (block.length + 1) init_string_table record_params
    primitive_block_variant block).map
      fun r => (r.1, r.2.user_data.map fun n => (n.latitude, n.longitude))

/-- A Way message in which the keys field occurs twice (keys `[1]`, then `[3]`), with
the values `[2, 4]`. -/
def repeated_keys_way : List spec_field :=
  [.varint 1 42, .bytes 2 [1], .bytes 2 [3], .bytes 3 [2, 4]]

/-- A DenseNodes message in which the id field occurs twice (one id each time). -/
def repeated_ids_nodes : List spec_field := [.bytes 1 [2], .bytes 1 [2]]

/-! ## Reference notions for a block that holds the field 17 -/

/-- A PrimitiveBlock in which the fields `pre` are followed by the field 17 (a varint
holding `g`) and then by the bytes `rest`. -/
def spec_marked_block (pre : List spec_field) (g : Nat) (rest : List Nat) : List Nat :=
  spec_encode_message pre ++ ((spec_field.varint 17 g).encode ++ rest)

/-- The data of a blob that holds `block` uncompressed: a Blob message with the
field `raw`. -/
def spec_raw_blob (block : List Nat) : List Nat := spec_encode_message [.bytes 1 block]

/-- A string table with the empty string and a primitive group of two dense
nodes. -/
def two_nodes_fields : List spec_field :=
  [.bytes 1 [0x0A, 0x00], .bytes 2 (spec_encode_message [.bytes 2 (spec_dense_nodes 2)])]

/-- Bytes that follow the field 17 in the sample block: a primitive group that does
not decode, and a primitive group of one dense node. -/
def after_marker : List Nat :=
  spec_encode_message
    [.bytes 2 [0xFF], .bytes 2 (spec_encode_message [.bytes 2 (spec_dense_nodes 1)])]

/-! ## Reference notions for an abort in the middle of a stream -/

/-- The blobs before the one in which the consumer aborts: the data of each is
decoded without error and leaves the stop flag clear; yields the parameters after
the last of them. -/
def spec_run_clear {σ : Type} (inflate : List Nat → Option (List Nat)) :
    List (List Nat) → pbf_params σ → Option (pbf_params σ)
  | [], params => some params
  | data :: rest, params =>
    match spec_blob_result inflate data params with
    | .ok r => if r.1 ≠ 0 ∧ r.2.stop = 0 then spec_run_clear inflate rest r.2 else none
    | _ => none

/-- The parameters of the sample run before the blob in which the consumer aborts:
one node has been delivered. -/
def one_seen_params : pbf_params (List Int) :=
  { user_data := [1], node_callback := some abort_on_third, way_callback := none,
    relation_callback := none, stop := 0 }

/-- The parameters of the sample run after that blob: the third delivery has set the
stop flag. -/
def aborted_params : pbf_params (List Int) :=
  { user_data := [1, 1, 2], node_callback := some abort_on_third, way_callback := none,
    relation_callback := none, stop := 1 }

/-- A PrimitiveBlock with a group of 10 nodes followed by a primitive group that does
not decode. -/
def corrupt_tail_block : List Nat :=
  spec_encode_message
    [.bytes 1 [0x0A, 0x00], .bytes 2 (spec_encode_message [.bytes 2 (spec_dense_nodes 10)]),
     .bytes 2 [0xFF]]

/-! ## Reference notions for nil callbacks -/

/-- A callback that always returns OK and leaves the user data as they are. -/
def ok_callback {σ α : Type} (user_data : σ) (_ : α) : Int × σ := (READOSM_OK, user_data)

/-- The callback that stands in for a nil callback: the callback itself when there
is one, the callback that always returns OK otherwise. -/
def spec_fill_callback {σ α : Type} (callback : Option (σ → α → Int × σ)) :
    Option (σ → α → Int × σ) :=
  some (callback.getD ok_callback)

/-- The parameters with every nil callback replaced by a callback that always
returns OK. -/
def spec_fill_callbacks {σ : Type} (params : pbf_params σ) : pbf_params σ :=
  { params with
    node_callback := spec_fill_callback params.node_callback,
    way_callback := spec_fill_callback params.way_callback,
    relation_callback := spec_fill_callback params.relation_callback }

/-- A PrimitiveBlock with a string table, a group of two dense nodes, and a group
with the way of scenario S4. -/
def nodes_and_way_block : List Nat :=
  spec_encode_message
    [.bytes 1 (spec_encode_message [.bytes 1 [], .bytes 1 [104], .bytes 1 [114],
       .bytes 1 [117]]),
     .bytes 2 (spec_encode_message [.bytes 2 (spec_dense_nodes 2)]),
     .bytes 2 (spec_encode_message [.bytes 3 (spec_encode_message [.varint 1 42])])]

/-- A stream with the OSMHeader blob and one OSMData blob holding
`nodes_and_way_block`. -/
def nodes_and_way_stream : List Nat :=
  spec_encode_blob OSMHeader [0] ++ spec_encode_data_blob nodes_and_way_block

/-- A node callback that records the ids it receives and always returns OK. -/
def record_ids (seen : List Int) (node : readosm_export_node) : Int × List Int :=
  (READOSM_OK, seen ++ [node.id])

/-- The state of the XML path with every nil callback replaced by a callback that
always returns OK. -/
def xml_fill_callbacks {σ : Type} (params : xml_params σ) : xml_params σ :=
  { params with
    node_callback := spec_fill_callback params.node_callback,
    way_callback := spec_fill_callback params.way_callback,
    relation_callback := spec_fill_callback params.relation_callback }

/-! ## Reference notions for the stop flag of the XML path -/

/-- Two states of the XML path agree in what a consumer can observe or has set: the
user data, the stop flag and the three callbacks. -/
def xml_same_frame {σ : Type} (p q : xml_params σ) : Prop :=
  q.user_data = p.user_data ∧ q.stop = p.stop ∧ q.node_callback = p.node_callback ∧
    q.way_callback = p.way_callback ∧ q.relation_callback = p.relation_callback

/-- Conversions for the sample runs: a number is read from its first digit. -/
def sample_conversions : xml_conversions :=
  { atol_64 := fun s => (s.headD 48 : Int) - 48,
    atoi := fun s => (s.headD 48 : Int) - 48,
    atof := fun _ => 0 }

/-- The events of the sample runs: a node with id 7, then a node with id 8. -/
def two_node_events : List xml_event :=
  [.start_element (c_literal "node") [(c_literal "id", c_literal "7")],
   .end_element (c_literal "node"),
   .start_element (c_literal "node") [(c_literal "id", c_literal "8")],
   .end_element (c_literal "node")]

/-- A tokenizer for the sample runs: whatever it is fed, it calls the handlers for
`two_node_events` and returns `status`. -/
def sample_tokenizer (status : Int) (_ : Unit) (_ : List Nat) (_ : Bool) :
    xml_parse_result Unit :=
  { status := status, events := two_node_events, parser := () }

/-- A node callback of the XML path that records the ids it receives and never
returns OK. -/
def abort_xml_node (seen : List Int) (node : xml_export_node) : Int × List Int :=
  (1, seen ++ [node.id])

/-- The observable result of a run of `parse_osm_xml`: the return code, the user
data and the stop flag. -/
def xml_run_result {σ : Type} (r : Outcome (Int × xml_params σ × List Nat)) :
    Outcome (Int × σ × Int) :=
  r.map fun x => (x.1, x.2.1.user_data, x.2.1.stop)

/-! ## Reference notions for the suffix of a path -/

/-- The path is longer than the suffix and ends in it, the case of ASCII letters
being ignored. -/
def spec_has_suffix (path : List Nat) (suffix : String) : Prop :=
  (c_literal suffix).length < path.length ∧
    (path.drop (path.length - (c_literal suffix).length)).map tolower =
      (c_literal suffix).map tolower

instance (path : List Nat) (suffix : String) : Decidable (spec_has_suffix path suffix) := by
  unfold spec_has_suffix; infer_instance

/-- The path ends in the suffix, character for character. -/
def spec_ends_in (path : List Nat) (suffix : String) : Prop :=
  (c_literal suffix).length ≤ path.length ∧
    path.drop (path.length - (c_literal suffix).length) = c_literal suffix

instance (path : List Nat) (suffix : String) : Decidable (spec_ends_in path suffix) := by
  unfold spec_ends_in; infer_instance

/-- A file system for the sample calls: every path opens a file of three bytes. -/
def sample_fopen (_ : List Nat) : Option (List Nat) := some [1, 2, 3]

/-! # Theorems -/

/-! ## Bit-level facts -/

set_option maxRecDepth 100000 in
theorem read_var_v32_eq :
    ∀ k < 5, ∀ c < 128, read_var_v32 k c = some (c * 2 ^ (7 * k) % 2 ^ 32) := by
  decide

set_option maxRecDepth 100000 in
theorem read_var_v64_eq :
    ∀ k < 10, ∀ c < 128, read_var_v64 k c = some (c * 2 ^ (7 * k) % 2 ^ 64) := by
  decide

theorem payload_eq_mod (b : Nat) : b &&& 0x7f = b % 128 :=
  Nat.and_pow_two_sub_one_eq_mod b 7

theorem payload_lt (b : Nat) : b &&& 0x7f < 128 := by
  rw [payload_eq_mod]; omega

set_option maxRecDepth 100000 in
theorem high_bit_small : ∀ r < 256, r &&& 0x80 = r / 128 % 2 * 128 := by
  decide

theorem high_bit_eq (b : Nat) : b &&& 0x80 = b / 128 % 2 * 128 := by
  have h1 : b &&& 0x80 = b % 256 &&& 0x80 := by
    rw [← Nat.and_pow_two_sub_one_eq_mod b 8, Nat.and_assoc]
    rfl
  rw [h1, high_bit_small _ (Nat.mod_lt _ (by norm_num))]
  omega

theorem high_bit_cases (b : Nat) : b &&& 0x80 = 0 ∨ b &&& 0x80 = 0x80 := by
  rw [high_bit_eq]; omega

theorem or_eq_add_of_dvd {v t s : Nat} (hv : v < 2 ^ s) (ht : 2 ^ s ∣ t) :
    v ||| t = v + t := by
  obtain ⟨a, rfl⟩ := ht
  rw [Nat.or_comm, Nat.add_comm]
  exact (Nat.mul_add_lt_is_or hv a).symm

theorem read_var_accum_32 {ty : VarType} (hty : Is32 ty) {count c v : Nat} (v64 : Nat)
    (hk : count < 5) (hc : c < 128) (hv : v < 2 ^ (7 * count)) :
    read_var_accum ty count c v v64 = some (v + c * 2 ^ (7 * count) % 2 ^ 32, v64) := by
  have hd : 2 ^ (7 * count) ∣ c * 2 ^ (7 * count) % 2 ^ 32 :=
    (Nat.dvd_mod_iff (pow_dvd_pow 2 (by omega))).2 (Dvd.intro_left c rfl)
  rcases hty with h | h | h <;> subst h <;>
    simp only [read_var_accum, read_var_v32_eq count hk c hc, or_eq_add_of_dvd hv hd]

theorem read_var_accum_64 {ty : VarType} (hty : Is64 ty) {count c v : Nat} (v32 : Nat)
    (hk : count < 10) (hc : c < 128) (hv : v < 2 ^ (7 * count)) :
    read_var_accum ty count c v32 v = some (v32, v + c * 2 ^ (7 * count) % 2 ^ 64) := by
  have hd : 2 ^ (7 * count) ∣ c * 2 ^ (7 * count) % 2 ^ 64 :=
    (Nat.dvd_mod_iff (pow_dvd_pow 2 (by omega))).2 (Dvd.intro_left c rfl)
  rcases hty with h | h | h <;> subst h <;>
    simp only [read_var_accum, read_var_v64_eq count hk c hc, or_eq_add_of_dvd hv hd]

/-- The loop of `read_var` on a well-formed 32-bit varint: `bs` are the bytes
with the continuation bit, `last` the closing byte. -/
theorem read_var_loop_32 {ty : VarType} (hty : Is32 ty) (bs : List Nat) (last : Nat)
    (rest : List Nat) (count v v64 : Nat)
    (hbs : ∀ b ∈ bs, b &&& 0x80 = 0x80) (hlast : last &&& 0x80 = 0)
    (hlen : count + bs.length + 1 ≤ 5) (hv : v < 2 ^ (7 * count)) :
    read_var_loop ty (bs ++ last :: rest) count v v64 =
      some ((v + 2 ^ (7 * count) * base128_sum (bs ++ [last])) % 2 ^ 32, v64, rest) := by
  induction bs generalizing count v with
  | nil =>
    have hc := payload_lt last
    simp only [List.length_nil] at hlen
    simp only [List.nil_append, read_var_loop, hlast,
      read_var_accum_32 hty v64 (by omega) hc hv, base128_sum]
    generalize last &&& 0x7f = c at hc
    have h4 : count = 0 ∨ count = 1 ∨ count = 2 ∨ count = 3 ∨ count = 4 := by omega
    have h0 : ((0 : Nat) == 128) = false := rfl
    simp only [h0, Bool.false_eq_true, if_false, Option.some.injEq, Prod.mk.injEq, and_true]
    rcases h4 with h | h | h | h | h <;> subst h <;> norm_num at hv ⊢ <;> omega
  | cons b bs ih =>
    have hc := payload_lt b
    have hb : b &&& 0x80 = 0x80 := hbs b (List.mem_cons_self _ _)
    simp only [List.length_cons] at hlen
    have hk : count < 4 := by omega
    simp only [List.cons_append, read_var_loop, hb,
      read_var_accum_32 hty v64 (by omega) hc hv, base128_sum]
    have hsmall : (b &&& 0x7f) * 2 ^ (7 * count) % 2 ^ 32 = (b &&& 0x7f) * 2 ^ (7 * count) := by
      apply Nat.mod_eq_of_lt
      generalize b &&& 0x7f = c at hc
      have h4 : count = 0 ∨ count = 1 ∨ count = 2 ∨ count = 3 := by omega
      rcases h4 with h | h | h | h <;> subst h <;> norm_num <;> omega
    have hv2 : v + (b &&& 0x7f) * 2 ^ (7 * count) < 2 ^ (7 * (count + 1)) := by
      generalize b &&& 0x7f = c at hc
      have h4 : count = 0 ∨ count = 1 ∨ count = 2 ∨ count = 3 := by omega
      rcases h4 with h | h | h | h <;> subst h <;> norm_num at hv ⊢ <;> omega
    rw [hsmall]
    simp only [beq_self_eq_true, if_true, List.append_eq]
    rw [ih (count + 1) _ (fun x hx => hbs x (List.mem_cons_of_mem _ hx)) (by omega) hv2]
    have hsum : v + (b &&& 0x7f) * 2 ^ (7 * count)
          + 2 ^ (7 * (count + 1)) * base128_sum (bs ++ [last])
        = v + 2 ^ (7 * count) * ((b &&& 0x7f) + 128 * base128_sum (bs ++ [last])) := by
      rw [show 7 * (count + 1) = 7 * count + 7 by ring, pow_add]
      ring
    rw [hsum]

/-- The loop of `read_var` on a well-formed 64-bit varint. -/
theorem read_var_loop_64 {ty : VarType} (hty : Is64 ty) (bs : List Nat) (last : Nat)
    (rest : List Nat) (count v32 v : Nat)
    (hbs : ∀ b ∈ bs, b &&& 0x80 = 0x80) (hlast : last &&& 0x80 = 0)
    (hlen : count + bs.length + 1 ≤ 10) (hv : v < 2 ^ (7 * count)) :
    read_var_loop ty (bs ++ last :: rest) count v32 v =
      some (v32, (v + 2 ^ (7 * count) * base128_sum (bs ++ [last])) % 2 ^ 64, rest) := by
  induction bs generalizing count v with
  | nil =>
    have hc := payload_lt last
    simp only [List.length_nil] at hlen
    simp only [List.nil_append, read_var_loop, hlast,
      read_var_accum_64 hty v32 (by omega) hc hv, base128_sum]
    generalize last &&& 0x7f = c at hc
    have h4 : count = 0 ∨ count = 1 ∨ count = 2 ∨ count = 3 ∨ count = 4 ∨ count = 5
        ∨ count = 6 ∨ count = 7 ∨ count = 8 ∨ count = 9 := by omega
    have h0 : ((0 : Nat) == 128) = false := rfl
    simp only [h0, Bool.false_eq_true, if_false, Option.some.injEq, Prod.mk.injEq, and_true,
      true_and]
    rcases h4 with h | h | h | h | h | h | h | h | h | h <;> subst h <;>
      norm_num at hv ⊢ <;> omega
  | cons b bs ih =>
    have hc := payload_lt b
    have hb : b &&& 0x80 = 0x80 := hbs b (List.mem_cons_self _ _)
    simp only [List.length_cons] at hlen
    have hk : count < 9 := by omega
    simp only [List.cons_append, read_var_loop, hb,
      read_var_accum_64 hty v32 (by omega) hc hv, base128_sum]
    have h4 : count = 0 ∨ count = 1 ∨ count = 2 ∨ count = 3 ∨ count = 4 ∨ count = 5
        ∨ count = 6 ∨ count = 7 ∨ count = 8 := by omega
    have hsmall : (b &&& 0x7f) * 2 ^ (7 * count) % 2 ^ 64 = (b &&& 0x7f) * 2 ^ (7 * count) := by
      apply Nat.mod_eq_of_lt
      generalize b &&& 0x7f = c at hc
      rcases h4 with h | h | h | h | h | h | h | h | h <;> subst h <;> norm_num <;> omega
    have hv2 : v + (b &&& 0x7f) * 2 ^ (7 * count) < 2 ^ (7 * (count + 1)) := by
      generalize b &&& 0x7f = c at hc
      rcases h4 with h | h | h | h | h | h | h | h | h <;> subst h <;>
        norm_num at hv ⊢ <;> omega
    rw [hsmall]
    simp only [beq_self_eq_true, if_true, List.append_eq]
    rw [ih (count + 1) _ (fun x hx => hbs x (List.mem_cons_of_mem _ hx)) (by omega) hv2]
    have hsum : v + (b &&& 0x7f) * 2 ^ (7 * count)
          + 2 ^ (7 * (count + 1)) * base128_sum (bs ++ [last])
        = v + 2 ^ (7 * count) * ((b &&& 0x7f) + 128 * base128_sum (bs ++ [last])) := by
      rw [show 7 * (count + 1) = 7 * count + 7 by ring, pow_add]
      ring
    rw [hsum]

/-- The recursive reading of a base-128 sequence is the positional sum. -/
theorem base128_sum_eq_sum (l : List Nat) :
    base128_sum l = ∑ i ∈ Finset.range l.length, (l.getD i 0 &&& 0x7f) * 2 ^ (7 * i) := by
  induction l with
  | nil => simp [base128_sum]
  | cons b bs ih =>
    rw [base128_sum, List.length_cons, Finset.sum_range_succ', ih, Finset.mul_sum]
    simp only [List.getD_cons_succ, List.getD_cons_zero, Nat.mul_zero, pow_zero, Nat.mul_one]
    rw [Nat.add_comm]
    congr 1
    apply Finset.sum_congr rfl
    intro i _
    rw [show 7 * (i + 1) = 7 * i + 7 by ring, pow_add]
    ring

/-! ## C1: unsigned varint decoding -/

/-- Claim C1. For bytes `b_0 .. b_{k-1}` inside the buffer, the first `k - 1` with the
high bit set and the last with it clear, `read_var` with declared type UINT32
(`k ≤ 5`) succeeds, returns the position just past `b_{k-1}` and yields the sum of
`(b_i & 0x7F) * 2 ^ (7 i)` modulo `2 ^ 32`; with UINT64 (`k ≤ 10`) the same holds
modulo `2 ^ 64`; the bytes `0xAC 0x02` decoded as uint32 yield 300. -/
theorem read_var_unsigned_value (bs : List Nat) (last : Nat) (rest : List Nat)
    (hbs : ∀ b ∈ bs, b &&& 0x80 = 0x80) (hlast : last &&& 0x80 = 0) :
    (bs.length + 1 ≤ 5 →
      read_var READOSM_VAR_UINT32 (bs ++ last :: rest) =
        some ((((∑ i ∈ Finset.range (bs.length + 1),
          ((bs ++ [last]).getD i 0 &&& 0x7F) * 2 ^ (7 * i)) % 2 ^ 32 : Nat) : Int), rest)) ∧
    (bs.length + 1 ≤ 10 →
      read_var READOSM_VAR_UINT64 (bs ++ last :: rest) =
        some ((((∑ i ∈ Finset.range (bs.length + 1),
          ((bs ++ [last]).getD i 0 &&& 0x7F) * 2 ^ (7 * i)) % 2 ^ 64 : Nat) : Int), rest)) ∧
    read_var READOSM_VAR_UINT32 [0xAC, 0x02] = some (300, []) := by
  have hs := base128_sum_eq_sum (bs ++ [last])
  simp only [List.length_append, List.length_singleton] at hs
  refine ⟨fun hk => ?_, fun hk => ?_, by decide⟩
  · rw [read_var, read_var_loop_32 (Or.inr (Or.inl rfl)) bs last rest 0 0 0 hbs hlast
      (by omega) (by norm_num)]
    simp only [read_var_value, Nat.mul_zero, pow_zero, Nat.one_mul, Nat.zero_add, hs]
  · rw [read_var, read_var_loop_64 (Or.inr (Or.inl rfl)) bs last rest 0 0 0 hbs hlast
      (by omega) (by norm_num)]
    simp only [read_var_value, Nat.mul_zero, pow_zero, Nat.one_mul, Nat.zero_add, hs]

theorem read_var_unsigned_value_witness :
    (∀ b ∈ ([0xAC] : List Nat), b &&& 0x80 = 0x80) ∧ (0x02 : Nat) &&& 0x80 = 0 ∧
    (([0xAC] : List Nat).length + 1 ≤ 5 →
      read_var READOSM_VAR_UINT32 ([0xAC] ++ 0x02 :: [7]) =
        some ((((∑ i ∈ Finset.range (([0xAC] : List Nat).length + 1),
          (([0xAC] ++ [0x02]).getD i 0 &&& 0x7F) * 2 ^ (7 * i)) % 2 ^ 32 : Nat) : Int), [7])) ∧
    (([0xAC] : List Nat).length + 1 ≤ 10 →
      read_var READOSM_VAR_UINT64 ([0xAC] ++ 0x02 :: [7]) =
        some ((((∑ i ∈ Finset.range (([0xAC] : List Nat).length + 1),
          (([0xAC] ++ [0x02]).getD i 0 &&& 0x7F) * 2 ^ (7 * i)) % 2 ^ 64 : Nat) : Int), [7])) ∧
    read_var READOSM_VAR_UINT32 [0xAC, 0x02] = some (300, []) :=
  ⟨by decide, by decide, read_var_unsigned_value [0xAC] 0x02 [7] (by decide) (by decide)⟩

/-! ## The reference encoder -/

theorem spec_base128_encode_shape (n : Nat) :
    ∀ m x, m ≤ n → x < 128 ^ (m + 1) →
      ∃ bs last, spec_base128_encode n x = bs ++ [last] ∧
        (∀ b ∈ bs, b &&& 0x80 = 0x80) ∧ last &&& 0x80 = 0 ∧ bs.length ≤ m ∧
        base128_sum (bs ++ [last]) = x := by
  induction n with
  | zero =>
    intro m x hm hx
    obtain rfl : m = 0 := by omega
    have hx' : x < 128 := by simpa using hx
    refine ⟨[], x, ?_, by simp, ?_, by simp, ?_⟩
    · simp [spec_base128_encode, Nat.mod_eq_of_lt hx']
    · rw [high_bit_eq]; omega
    · simp only [List.nil_append, base128_sum, payload_eq_mod]; omega
  | succ n ih =>
    intro m x hm hx
    by_cases hsmall : x < 128
    · refine ⟨[], x, ?_, by simp, ?_, by simp, ?_⟩
      · simp [spec_base128_encode, hsmall]
      · rw [high_bit_eq]; omega
      · simp only [List.nil_append, base128_sum, payload_eq_mod]; omega
    · obtain ⟨m', rfl⟩ : ∃ m', m = m' + 1 := by
        rcases m with _ | m'
        · exact absurd (by simpa using hx) hsmall
        · exact ⟨m', rfl⟩
      have hdiv : x / 128 < 128 ^ (m' + 1) := by
        rw [Nat.div_lt_iff_lt_mul (by norm_num)]
        calc x < 128 ^ (m' + 1 + 1) := hx
          _ = 128 ^ (m' + 1) * 128 := by rw [pow_succ]
      obtain ⟨bs, last, henc, hbs, hlast, hlen, hsum⟩ := ih m' (x / 128) (by omega) hdiv
      refine ⟨(x % 128 + 128) :: bs, last, ?_, ?_, hlast, by simpa using hlen, ?_⟩
      · simp [spec_base128_encode, hsmall, henc]
      · intro b hb
        rcases List.mem_cons.1 hb with rfl | hb
        · rw [high_bit_eq]; omega
        · exact hbs b hb
      · simp only [List.cons_append, base128_sum, List.append_eq, hsum, payload_eq_mod]; omega

/-! ## C3: unsigned round trip -/

theorem read_var_uint32_encode (x : Nat) (rest : List Nat) (hx : x < 2 ^ 32) :
    read_var READOSM_VAR_UINT32 (spec_encode_varint x ++ rest) = some ((x : Int), rest) := by
  obtain ⟨bs, last, henc, hbs, hlast, hlen, hsum⟩ :=
    spec_base128_encode_shape 9 4 x (by norm_num) (by norm_num; omega)
  rw [spec_encode_varint, henc, List.append_assoc, List.singleton_append, read_var,
    read_var_loop_32 (Or.inr (Or.inl rfl)) bs last rest 0 0 0 hbs hlast (by omega)
      (by norm_num), hsum]
  simp only [read_var_value, Nat.mul_zero, pow_zero, Nat.one_mul, Nat.zero_add,
    Nat.mod_eq_of_lt hx]

theorem read_var_uint64_encode (x : Nat) (rest : List Nat) (hx : x < 2 ^ 64) :
    read_var READOSM_VAR_UINT64 (spec_encode_varint x ++ rest) = some ((x : Int), rest) := by
  obtain ⟨bs, last, henc, hbs, hlast, hlen, hsum⟩ :=
    spec_base128_encode_shape 9 9 x (by norm_num) (by norm_num; omega)
  rw [spec_encode_varint, henc, List.append_assoc, List.singleton_append, read_var,
    read_var_loop_64 (Or.inr (Or.inl rfl)) bs last rest 0 0 0 hbs hlast (by omega)
      (by norm_num), hsum]
  simp only [read_var_value, Nat.mul_zero, pow_zero, Nat.one_mul, Nat.zero_add,
    Nat.mod_eq_of_lt hx]

/-- Claim C3. For every `x < 2 ^ 32`, `read_var` with declared type UINT32 applied to
the minimal base-128 encoding of `x` returns `x` and consumes exactly the
encoding's bytes (what follows them is what remains); for every `x < 2 ^ 64` the
same holds with declared type UINT64. -/
theorem read_var_unsigned_roundtrip (x : Nat) (rest : List Nat) (hx : x < 2 ^ 64) :
    (x < 2 ^ 32 →
      read_var READOSM_VAR_UINT32 (spec_encode_varint x ++ rest) = some ((x : Int), rest)) ∧
    read_var READOSM_VAR_UINT64 (spec_encode_varint x ++ rest) = some ((x : Int), rest) :=
  ⟨fun hx32 => read_var_uint32_encode x rest hx32, read_var_uint64_encode x rest hx⟩

theorem read_var_unsigned_roundtrip_witness :
    (300 : Nat) < 2 ^ 64 ∧
    ((300 : Nat) < 2 ^ 32 →
      read_var READOSM_VAR_UINT32 (spec_encode_varint 300 ++ [1, 2]) =
        some (((300 : Nat) : Int), [1, 2])) ∧
    read_var READOSM_VAR_UINT64 (spec_encode_varint 300 ++ [1, 2]) =
      some (((300 : Nat) : Int), [1, 2]) :=
  ⟨by norm_num, read_var_unsigned_roundtrip 300 [1, 2] (by norm_num)⟩

/-! ## C4: the ZigZag reconstruction of the source against the canonical one -/

theorem xor_all_ones (w x : Nat) (hx : x < 2 ^ w) : x ^^^ (2 ^ w - 1) = 2 ^ w - 1 - x := by
  apply Nat.eq_of_testBit_eq
  intro i
  rw [Nat.testBit_xor, Nat.testBit_two_pow_sub_one,
    show 2 ^ w - 1 - x = 2 ^ w - (x + 1) by omega, Nat.testBit_two_pow_sub_succ hx]
  by_cases hi : i < w
  · simp [hi]
  · have hlt : x < 2 ^ i :=
      lt_of_lt_of_le hx (Nat.pow_le_pow_right (by norm_num) (by omega))
    simp [hi, Nat.testBit_lt_two_pow hlt]

theorem zigzag32_iff (u v64 : Nat) (hu : u < 2 ^ 32) :
    read_var_value READOSM_VAR_SINT32 u v64 =
      some (int32_of_bits (spec_zigzag_decode_bits 32 u)) ↔ u ≠ 2 ^ 32 - 1 := by
  by_cases hmax : u = 2 ^ 32 - 1
  · subst hmax
    simp only [read_var_value]
    decide
  · simp only [read_var_value, spec_zigzag_decode_bits, Nat.and_one_is_mod,
      Nat.shiftRight_eq_div_pow, pow_one, ne_eq, hmax, not_false_eq_true, iff_true]
    congr 2
    rcases Nat.mod_two_eq_zero_or_one u with h | h
    · rw [h]
      norm_num
      omega
    · rw [h]
      have hx := xor_all_ones 32 (u / 2) (by omega)
      have ht : (4294967295 : Int).toNat = 4294967295 := by decide
      norm_num at hx ⊢
      rw [hx, ht]
      have hm : (u + 1) % 4294967296 / 2 = u / 2 + 1 := by omega
      have hk : (u / 2 + 1) * 4294967295 = 4294967296 * (u / 2) + (4294967295 - u / 2) := by
        omega
      rw [hm, hk, Nat.mul_add_mod, Nat.mod_eq_of_lt (by omega)]

theorem zigzag64_iff (u v32 : Nat) (hu : u < 2 ^ 64) :
    read_var_value READOSM_VAR_SINT64 v32 u =
      some (int64_of_bits (spec_zigzag_decode_bits 64 u)) ↔ u ≠ 2 ^ 64 - 1 := by
  by_cases hmax : u = 2 ^ 64 - 1
  · subst hmax
    simp only [read_var_value]
    decide
  · simp only [read_var_value, spec_zigzag_decode_bits, Nat.and_one_is_mod,
      Nat.shiftRight_eq_div_pow, pow_one, ne_eq, hmax, not_false_eq_true, iff_true]
    congr 2
    rcases Nat.mod_two_eq_zero_or_one u with h | h
    · rw [h]
      norm_num
      omega
    · rw [h]
      have hx := xor_all_ones 64 (u / 2) (by omega)
      have ht : (18446744073709551615 : Int).toNat = 18446744073709551615 := by decide
      norm_num at hx ⊢
      rw [hx, ht]
      have hm : (u + 1) % 18446744073709551616 / 2 = u / 2 + 1 := by omega
      have hk : (u / 2 + 1) * 18446744073709551615
          = 18446744073709551616 * (u / 2) + (18446744073709551615 - u / 2) := by
        omega
      rw [hm, hk, Nat.mul_add_mod, Nat.mod_eq_of_lt (by omega)]

/-- Claim C4. For every `w`-bit value `u` assembled by `read_var` (`w = 32` for SINT32,
`w = 64` for SINT64) the result of the source, `((u + 1) / 2) * sign`, equals the
canonical ZigZag decoding `(u >> 1) ^ -(u & 1)` if and only if `u` is not `2 ^ w - 1`;
decode(0)=0, decode(1)=-1, decode(2)=1, decode(3)=-2, decode(4)=2, and the bytes
`0x96 0x01` decoded as sint32 yield 75. -/
theorem zigzag_code_vs_canonical (u v : Nat) (hu : u < 2 ^ 64) :
    (u < 2 ^ 32 →
      (read_var_value READOSM_VAR_SINT32 u v =
        some (int32_of_bits (spec_zigzag_decode_bits 32 u)) ↔ u ≠ 2 ^ 32 - 1)) ∧
    (read_var_value READOSM_VAR_SINT64 v u =
        some (int64_of_bits (spec_zigzag_decode_bits 64 u)) ↔ u ≠ 2 ^ 64 - 1) ∧
    (read_var_value READOSM_VAR_SINT32 0 0 = some 0 ∧
      read_var_value READOSM_VAR_SINT32 1 0 = some (-1) ∧
      read_var_value READOSM_VAR_SINT32 2 0 = some 1 ∧
      read_var_value READOSM_VAR_SINT32 3 0 = some (-2) ∧
      read_var_value READOSM_VAR_SINT32 4 0 = some 2) ∧
    (read_var_value READOSM_VAR_SINT64 0 0 = some 0 ∧
      read_var_value READOSM_VAR_SINT64 0 1 = some (-1) ∧
      read_var_value READOSM_VAR_SINT64 0 2 = some 1 ∧
      read_var_value READOSM_VAR_SINT64 0 3 = some (-2) ∧
      read_var_value READOSM_VAR_SINT64 0 4 = some 2) ∧
    read_var READOSM_VAR_SINT32 [0x96, 0x01] = some (75, []) :=
  ⟨fun h => zigzag32_iff u v h, zigzag64_iff u v hu, by decide, by decide, by decide⟩

theorem zigzag_code_vs_canonical_witness :
    (3 : Nat) < 2 ^ 64 ∧
    ((3 : Nat) < 2 ^ 32 →
      (read_var_value READOSM_VAR_SINT32 3 0 =
        some (int32_of_bits (spec_zigzag_decode_bits 32 3)) ↔ (3 : Nat) ≠ 2 ^ 32 - 1)) ∧
    (read_var_value READOSM_VAR_SINT64 0 3 =
        some (int64_of_bits (spec_zigzag_decode_bits 64 3)) ↔ (3 : Nat) ≠ 2 ^ 64 - 1) :=
  ⟨by norm_num, (zigzag_code_vs_canonical 3 0 (by norm_num)).1,
    (zigzag_code_vs_canonical 3 0 (by norm_num)).2.1⟩

/-! ## C2: signed round trip -/

/-- Claim C2, evaluated where it fails. The ZigZag encoding of the least 32-bit integer
is `2 ^ 32 - 1`, sent as `FF FF FF FF 0F`; `read_var` with declared type SINT32 yields 0
for it, not `-2147483648`. Likewise the least 64-bit integer decodes to 0 under
SINT64. -/
theorem read_var_signed_min_decodes_to_zero :
    spec_encode_varint (spec_zigzag_encode (-2147483648)) = [0xFF, 0xFF, 0xFF, 0xFF, 0x0F] ∧
    read_var READOSM_VAR_SINT32 (spec_encode_varint (spec_zigzag_encode (-2147483648)))
      = some (0, []) ∧
    read_var READOSM_VAR_SINT64
      (spec_encode_varint (spec_zigzag_encode (-9223372036854775808))) = some (0, []) := by
  decide

/-! ## C5: when `read_var` fails -/

theorem read_var_v32_none {count : Nat} (c : Nat) (h : 5 ≤ count) :
    read_var_v32 count c = none := by
  obtain ⟨k, rfl⟩ : ∃ k, count = k + 5 := ⟨count - 5, by omega⟩
  rfl

theorem read_var_v64_none {count : Nat} (c : Nat) (h : 10 ≤ count) :
    read_var_v64 count c = none := by
  obtain ⟨k, rfl⟩ : ∃ k, count = k + 10 := ⟨count - 10, by omega⟩
  rfl

theorem read_var_accum_32_some {ty : VarType} (hty : Is32 ty) {count : Nat} (b v v64 : Nat)
    (hk : count < 5) :
    ∃ v2, read_var_accum ty count (b &&& 0x7f) v v64 = some (v2, v64) := by
  rcases hty with h | h | h <;> subst h <;>
    simp only [read_var_accum, read_var_v32_eq count hk _ (payload_lt b)] <;>
    exact ⟨_, rfl⟩

theorem read_var_accum_64_some {ty : VarType} (hty : Is64 ty) {count : Nat} (b v32 v : Nat)
    (hk : count < 10) :
    ∃ v2, read_var_accum ty count (b &&& 0x7f) v32 v = some (v32, v2) := by
  rcases hty with h | h | h <;> subst h <;>
    simp only [read_var_accum, read_var_v64_eq count hk _ (payload_lt b)] <;>
    exact ⟨_, rfl⟩

theorem read_var_accum_32_none {ty : VarType} (hty : Is32 ty) {count : Nat} (c v v64 : Nat)
    (hk : 5 ≤ count) : read_var_accum ty count c v v64 = none := by
  rcases hty with h | h | h <;> subst h <;>
    simp only [read_var_accum, read_var_v32_none c hk]

theorem read_var_accum_64_none {ty : VarType} (hty : Is64 ty) {count : Nat} (c v32 v : Nat)
    (hk : 10 ≤ count) : read_var_accum ty count c v32 v = none := by
  rcases hty with h | h | h <;> subst h <;>
    simp only [read_var_accum, read_var_v64_none c hk]

theorem read_var_loop_none_iff_32 {ty : VarType} (hty : Is32 ty) (bytes : List Nat) :
    ∀ count v v64, count ≤ 5 →
      (read_var_loop ty bytes count v v64 = none ↔
        ∀ b ∈ bytes.take (5 - count), b &&& 0x80 ≠ 0) := by
  induction bytes with
  | nil => intro count v v64 _; simp [read_var_loop]
  | cons b rest ih =>
    intro count v v64 hcount
    by_cases h5 : count = 5
    · subst h5
      simp [read_var_loop, read_var_accum_32_none hty _ _ _ (le_refl 5)]
    · have hk : count < 5 := by omega
      obtain ⟨v2, hacc⟩ := read_var_accum_32_some hty b v v64 hk
      have htake : 5 - count = (5 - (count + 1)) + 1 := by omega
      rw [htake, List.take_succ_cons]
      simp only [read_var_loop, hacc, List.mem_cons, forall_eq_or_imp]
      rcases high_bit_cases b with hb | hb
      · simp [hb]
      · simp [hb, ih (count + 1) v2 v64 (by omega)]

theorem read_var_loop_none_iff_64 {ty : VarType} (hty : Is64 ty) (bytes : List Nat) :
    ∀ count v32 v, count ≤ 10 →
      (read_var_loop ty bytes count v32 v = none ↔
        ∀ b ∈ bytes.take (10 - count), b &&& 0x80 ≠ 0) := by
  induction bytes with
  | nil => intro count v32 v _; simp [read_var_loop]
  | cons b rest ih =>
    intro count v32 v hcount
    by_cases h10 : count = 10
    · subst h10
      simp [read_var_loop, read_var_accum_64_none hty _ _ _ (le_refl 10)]
    · have hk : count < 10 := by omega
      obtain ⟨v2, hacc⟩ := read_var_accum_64_some hty b v32 v hk
      have htake : 10 - count = (10 - (count + 1)) + 1 := by omega
      rw [htake, List.take_succ_cons]
      simp only [read_var_loop, hacc, List.mem_cons, forall_eq_or_imp]
      rcases high_bit_cases b with hb | hb
      · simp [hb]
      · simp [hb, ih (count + 1) v32 v2 (by omega)]

theorem read_var_none_iff_loop {ty : VarType} (hty : Is32 ty ∨ Is64 ty) (bytes : List Nat) :
    read_var ty bytes = none ↔ read_var_loop ty bytes 0 0 0 = none := by
  unfold read_var
  rcases h : read_var_loop ty bytes 0 0 0 with _ | ⟨v32, v64, rest⟩
  · simp
  · rcases hty with (h1 | h1 | h1) | (h1 | h1 | h1) <;> subst h1 <;> simp [read_var_value]

/-- Claim C5. For the 32-bit declared types (`M = 5`) and the 64-bit declared types
(`M = 10`), `read_var` fails exactly when no byte with a clear continuation bit occurs
among the first `min (n, M)` bytes of the window: the buffer ends mid-value, or the
continuation bit is still set after the maximum byte count. -/
theorem read_var_fails_iff (ty : VarType) (bytes : List Nat) (hty : Is32 ty ∨ Is64 ty) :
    read_var ty bytes = none ↔
      ∀ b ∈ bytes.take (if Is32 ty then 5 else 10), b &&& 0x80 ≠ 0 := by
  rw [read_var_none_iff_loop hty]
  rcases hty with h | h
  · rw [if_pos h]
    exact read_var_loop_none_iff_32 h bytes 0 0 0 (by norm_num)
  · have hn : ¬ Is32 ty := by
      rcases h with h | h | h <;> subst h <;> decide
    rw [if_neg hn]
    exact read_var_loop_none_iff_64 h bytes 0 0 0 (by norm_num)

theorem read_var_fails_iff_witness :
    (Is32 READOSM_VAR_SINT32 ∨ Is64 READOSM_VAR_SINT32) ∧
    (read_var READOSM_VAR_SINT32 [0x80, 0x80, 0x80, 0x80, 0x80, 0x01] = none ↔
      ∀ b ∈ ([0x80, 0x80, 0x80, 0x80, 0x80, 0x01] : List Nat).take
        (if Is32 READOSM_VAR_SINT32 then 5 else 10), b &&& 0x80 ≠ 0) :=
  ⟨by decide, read_var_fails_iff READOSM_VAR_SINT32 [0x80, 0x80, 0x80, 0x80, 0x80, 0x01]
    (by decide)⟩

/-! ## Two's complement sums -/

theorem int32_of_bits_emod (n : Nat) : int32_of_bits n % 2 ^ 32 = (n : Int) % 2 ^ 32 := by
  unfold int32_of_bits
  split_ifs <;> omega

theorem int64_of_bits_emod (n : Nat) : int64_of_bits n % 2 ^ 64 = (n : Int) % 2 ^ 64 := by
  unfold int64_of_bits
  split_ifs <;> omega

theorem int32_add_emod (a b : Int) : int32_add a b % 2 ^ 32 = (a + b) % 2 ^ 32 := by
  unfold int32_add
  rw [int32_of_bits_emod]
  omega

theorem int64_add_emod (a b : Int) : int64_add a b % 2 ^ 64 = (a + b) % 2 ^ 64 := by
  unfold int64_add
  rw [int64_of_bits_emod]
  omega

theorem int32_add_congr {a b c d : Int} (h : (a + b) % 2 ^ 32 = (c + d) % 2 ^ 32) :
    int32_add a b = int32_add c d := by
  unfold int32_add; rw [h]

theorem int64_add_congr {a b c d : Int} (h : (a + b) % 2 ^ 64 = (c + d) % 2 ^ 64) :
    int64_add a b = int64_add c d := by
  unfold int64_add; rw [h]

theorem delta_int32_eq (l : List Int) :
    ∀ d : Int, delta_int32 d l =
      (List.range l.length).map (fun i => int32_add d ((l.take (i + 1)).sum)) := by
  induction l with
  | nil => intro d; simp [delta_int32]
  | cons v vs ih =>
    intro d
    rw [delta_int32, ih, List.length_cons, List.range_succ_eq_map, List.map_cons, List.map_map]
    congr 1
    · simp
    · apply List.map_congr_left
      intro i _
      simp only [Function.comp, List.take_succ_cons, List.sum_cons]
      apply int32_add_congr
      have := int32_add_emod d v
      omega

theorem delta_int64_eq (l : List Int) :
    ∀ d : Int, delta_int64 d l =
      (List.range l.length).map (fun i => int64_add d ((l.take (i + 1)).sum)) := by
  induction l with
  | nil => intro d; simp [delta_int64]
  | cons v vs ih =>
    intro d
    rw [delta_int64, ih, List.length_cons, List.range_succ_eq_map, List.map_cons, List.map_map]
    congr 1
    · simp
    · apply List.map_congr_left
      intro i _
      simp only [Function.comp, List.take_succ_cons, List.sum_cons]
      apply int64_add_congr
      have := int64_add_emod d v
      omega

theorem delta_int32_zero (l : List Int) :
    delta_int32 0 l = (List.range l.length).map (spec_sum32 l) := by
  rw [delta_int32_eq]
  apply List.map_congr_left
  intro i _
  simp [int32_add, spec_sum32]

theorem delta_int64_zero (l : List Int) :
    delta_int64 0 l = (List.range l.length).map (spec_sum64 l) := by
  rw [delta_int64_eq]
  apply List.map_congr_left
  intro i _
  simp [int64_add, spec_sum64]

/-! ## Length-delimited fields -/

theorem tag_byte_fields :
    ∀ id < 32, (id * 8 + 2) &&& 0x07 = 2 ∧ ((id * 8 + 2) &&& 0xf8) >>> 3 = id := by
  decide

theorem parse_field_encoded (v : readosm_variant) (id : Nat) (p rest : List Nat)
    (hid : id < 32) (hlen : p.length < 2 ^ 32)
    (hhint : find_type_hint v id 2 = some READOSM_LEN_BYTES) :
    parse_field (spec_encode_field id p ++ rest) v =
      (some rest, { v with type := READOSM_LEN_BYTES, field_id := id, pointer := p,
                           length := p.length, valid := true }) := by
  obtain ⟨h1, h2⟩ := tag_byte_fields id hid
  simp only [spec_encode_field, List.cons_append, parse_field, h1, h2, hhint, read_bytes,
    List.append_assoc, read_var_uint32_encode p.length (p ++ rest) hlen]
  simp

theorem spec_encode_fields_length (fs : List (Nat × List Nat)) :
    fs.length ≤ (spec_encode_fields fs).length := by
  induction fs with
  | nil => simp [spec_encode_fields]
  | cons f fs ih =>
    simp only [spec_encode_fields, spec_encode_field, List.length_append, List.length_cons]
    omega

/-! ## C9: DenseInfo -/

theorem node_infos_hint (v : readosm_variant) (hv : v.hints = node_infos_variant.hints)
    (id : Nat) (h1 : 1 ≤ id) (h6 : id ≤ 6) :
    find_type_hint (reset_variant v) id 2 = some READOSM_LEN_BYTES := by
  simp only [find_type_hint, reset_variant, hv]
  interval_cases id <;> decide

theorem if_length_pos {α : Type} (l m : List α) (h : l.length = m.length) :
    (if l.length > 0 then m else []) = m := by
  rcases m with _ | ⟨a, m⟩
  · simp
  · simp [h]

theorem node_infos_field_encoded (vs ts cs us ns : List Int) (infos : readosm_packed_infos)
    (v : readosm_variant) (f : Nat × List Nat) (hf : 1 ≤ f.1 ∧ f.1 ≤ 6)
    (hdec : spec_payload_decodes vs ts cs us ns f) :
    node_infos_field infos { v with type := READOSM_LEN_BYTES, field_id := f.1,
                                     pointer := f.2, length := f.2.length, valid := true } =
      .ok (spec_infos_field vs ts cs us ns infos f.1) := by
  obtain ⟨d1, d2, d3, d4, d5⟩ := hdec
  obtain ⟨id, p⟩ := f
  simp only at hf d1 d2 d3 d4 d5 ⊢
  obtain ⟨h1, h6⟩ := hf
  interval_cases id
  · simp only [node_infos_field, spec_infos_field, d1 rfl, Outcome.bind, true_and, if_true,
      if_length_pos _ _ rfl]
  · have hl : ∀ l : List Int, (if l.length > 0 then delta_int32 0 l else []) =
        (List.range l.length).map (spec_sum32 l) := fun l => by
      rw [← delta_int32_zero]
      exact if_length_pos _ _ (by simp [delta_int32_zero])
    simp [node_infos_field, spec_infos_field, d2 rfl, Outcome.bind, hl]
  · have hl : ∀ l : List Int, (if l.length > 0 then delta_int64 0 l else []) =
        (List.range l.length).map (spec_sum64 l) := fun l => by
      rw [← delta_int64_zero]
      exact if_length_pos _ _ (by simp [delta_int64_zero])
    simp [node_infos_field, spec_infos_field, d3 rfl, Outcome.bind, hl]
  · have hl : ∀ l : List Int, (if l.length > 0 then delta_int32 0 l else []) =
        (List.range l.length).map (spec_sum32 l) := fun l => by
      rw [← delta_int32_zero]
      exact if_length_pos _ _ (by simp [delta_int32_zero])
    simp [node_infos_field, spec_infos_field, d4 rfl, Outcome.bind, hl]
  · have hl : ∀ l : List Int, (if l.length > 0 then delta_int32 0 l else []) =
        (List.range l.length).map (spec_sum32 l) := fun l => by
      rw [← delta_int32_zero]
      exact if_length_pos _ _ (by simp [delta_int32_zero])
    simp [node_infos_field, spec_infos_field, d5 rfl, Outcome.bind, hl]
  · simp [node_infos_field, spec_infos_field]

theorem node_infos_loop_encoded (vs ts cs us ns : List Int) (fs : List (Nat × List Nat)) :
    ∀ (fuel : Nat) (infos : readosm_packed_infos) (v : readosm_variant),
      fs ≠ [] → fs.length ≤ fuel → v.hints = node_infos_variant.hints →
      (∀ f ∈ fs, (1 ≤ f.1 ∧ f.1 ≤ 6) ∧ f.2.length < 2 ^ 32 ∧
        spec_payload_decodes vs ts cs us ns f) →
      parse_pbf_node_infos_loop fuel infos v (spec_encode_fields fs) =
        .ok (fs.foldl (fun i f => spec_infos_field vs ts cs us ns i f.1) infos) := by
  induction fs with
  | nil => intro _ _ _ h; exact absurd rfl h
  | cons f fs ih =>
    intro fuel infos v _ hfuel hv hall
    obtain ⟨fuel, rfl⟩ : ∃ k, fuel = k + 1 := ⟨fuel - 1, by simp at hfuel; omega⟩
    obtain ⟨hf, hlen, hdec⟩ := hall f (List.mem_cons_self _ _)
    have hpf := parse_field_encoded (reset_variant v) f.1 f.2 (spec_encode_fields fs)
      (by omega) hlen (node_infos_hint v hv f.1 hf.1 hf.2)
    simp only [spec_encode_fields, parse_pbf_node_infos_loop, hpf,
      node_infos_field_encoded vs ts cs us ns infos (reset_variant v) f hf hdec, Outcome.bind,
      List.foldl_cons]
    rcases fs with _ | ⟨g, gs⟩
    · simp [spec_encode_fields]
    · have hne : spec_encode_fields (g :: gs) =
          (g.1 * 8 + 2) :: (spec_encode_varint g.2.length ++ g.2 ++ spec_encode_fields gs) := by
        simp [spec_encode_fields, spec_encode_field]
      rw [hne]
      simp only
      rw [← hne]
      exact ih fuel _ _ (by simp) (by simpa using hfuel) (by simpa [reset_variant] using hv)
        (fun f hf => hall f (List.mem_cons_of_mem _ hf))

theorem spec_infos_fold (vs ts cs us ns : List Int) (fs : List (Nat × List Nat)) :
    ∀ infos : readosm_packed_infos,
      fs.foldl (fun i f => spec_infos_field vs ts cs us ns i f.1) infos =
        { ver_count := if 1 ∈ fs.map Prod.fst then vs.length else infos.ver_count,
          versions := if 1 ∈ fs.map Prod.fst then vs else infos.versions,
          tim_count := if 2 ∈ fs.map Prod.fst then ts.length else infos.tim_count,
          timestamps := if 2 ∈ fs.map Prod.fst then (List.range ts.length).map (spec_sum32 ts)
            else infos.timestamps,
          cng_count := if 3 ∈ fs.map Prod.fst then cs.length else infos.cng_count,
          changesets := if 3 ∈ fs.map Prod.fst then (List.range cs.length).map (spec_sum64 cs)
            else infos.changesets,
          uid_count := if 4 ∈ fs.map Prod.fst then us.length else infos.uid_count,
          uids := if 4 ∈ fs.map Prod.fst then (List.range us.length).map (spec_sum32 us)
            else infos.uids,
          usr_count := if 5 ∈ fs.map Prod.fst then ns.length else infos.usr_count,
          users := if 5 ∈ fs.map Prod.fst then (List.range ns.length).map (spec_sum32 ns)
            else infos.users } := by
  induction fs with
  | nil => intro infos; simp
  | cons f fs ih =>
    intro infos
    rw [List.foldl_cons, ih]
    obtain ⟨id, p⟩ := f
    have hne : ∀ a b : ℕ, a ≠ b → ((a = b ∨ a ∈ List.map Prod.fst fs) ↔
        a ∈ List.map Prod.fst fs) := by
      intro a b h
      simp [h]
    by_cases e1 : id = 1
    · subst e1
      simp [spec_infos_field]
      simp only [List.mem_cons, hne 2 1 (by decide), hne 3 1 (by decide), hne 4 1 (by decide), hne 5 1 (by decide),
        and_self]
    by_cases e2 : id = 2
    · subst e2
      simp [spec_infos_field]
      simp only [List.mem_cons, hne 1 2 (by decide), hne 3 2 (by decide), hne 4 2 (by decide), hne 5 2 (by decide),
        and_self]
    by_cases e3 : id = 3
    · subst e3
      simp [spec_infos_field]
      simp only [List.mem_cons, hne 1 3 (by decide), hne 2 3 (by decide), hne 4 3 (by decide), hne 5 3 (by decide),
        and_self]
    by_cases e4 : id = 4
    · subst e4
      simp [spec_infos_field]
      simp only [List.mem_cons, hne 1 4 (by decide), hne 2 4 (by decide), hne 3 4 (by decide), hne 5 4 (by decide),
        and_self]
    by_cases e5 : id = 5
    · subst e5
      simp [spec_infos_field]
      simp only [List.mem_cons, hne 1 5 (by decide), hne 2 5 (by decide), hne 3 5 (by decide), hne 4 5 (by decide),
        and_self]
    simp [spec_infos_field, e1, e2, e3, e4, e5]
    simp only [List.mem_cons, hne 1 id (Ne.symm e1), hne 2 id (Ne.symm e2),
      hne 3 id (Ne.symm e3), hne 4 id (Ne.symm e4), hne 5 id (Ne.symm e5), and_self]

theorem mem_of_filter_eq_singleton {fs : List (Nat × List Nat)} {k : Nat} {p : List Nat}
    (h : fs.filter (fun f => f.1 = k) = [(k, p)]) :
    k ∈ fs.map Prod.fst ∧ ∀ f ∈ fs, f.1 = k → f.2 = p := by
  constructor
  · have hm : (k, p) ∈ fs.filter (fun f => f.1 = k) := by rw [h]; simp
    exact List.mem_map.2 ⟨(k, p), (List.mem_filter.1 hm).1, rfl⟩
  · intro f hf hk
    have hm : f ∈ fs.filter (fun f => f.1 = k) := List.mem_filter.2 ⟨hf, by simpa using hk⟩
    rw [h] at hm
    rw [List.mem_singleton.1 hm]

/-- Claim C9. For every DenseInfo message in which each of the fields 1 .. 5 occurs once
(field 6 any number of times, in any order) and whose packed payloads decode to `vs`,
`ts`, `cs`, `us`, `ns`, `parse_pbf_node_infos` succeeds with `versions` equal to `vs`
unchanged, and `timestamps`, `changesets`, `uids`, `users` equal to the running sums of
`ts`, `cs`, `us`, `ns` (32-bit wrap-around, 64-bit for the changesets), every count being
the number of values of its field; field 6 changes nothing. -/
theorem parse_pbf_node_infos_arrays (fs : List (Nat × List Nat)) (p1 p2 p3 p4 p5 : List Nat)
    (vs ts cs us ns : List Int) (infos0 : readosm_packed_infos)
    (hfs : ∀ f ∈ fs, (1 ≤ f.1 ∧ f.1 ≤ 6) ∧ f.2.length < 2 ^ 32)
    (h1 : fs.filter (fun f => f.1 = 1) = [(1, p1)])
    (h2 : fs.filter (fun f => f.1 = 2) = [(2, p2)])
    (h3 : fs.filter (fun f => f.1 = 3) = [(3, p3)])
    (h4 : fs.filter (fun f => f.1 = 4) = [(4, p4)])
    (h5 : fs.filter (fun f => f.1 = 5) = [(5, p5)])
    (hv : parse_uint32_packed init_packed p1 = .ok { init_packed with first := vs })
    (ht : parse_sint32_packed init_packed p2 = .ok { init_packed with first := ts })
    (hc : parse_sint64_packed init_packed p3 = .ok { init_packed with first := cs })
    (hu : parse_sint32_packed init_packed p4 = .ok { init_packed with first := us })
    (hn : parse_sint32_packed init_packed p5 = .ok { init_packed with first := ns }) :
    parse_pbf_node_infos infos0 (spec_encode_fields fs) =
      .ok { ver_count := vs.length, versions := vs,
            tim_count := ts.length, timestamps := (List.range ts.length).map (spec_sum32 ts),
            cng_count := cs.length, changesets := (List.range cs.length).map (spec_sum64 cs),
            uid_count := us.length, uids := (List.range us.length).map (spec_sum32 us),
            usr_count := ns.length, users := (List.range ns.length).map (spec_sum32 ns) } := by
  obtain ⟨m1, u1⟩ := mem_of_filter_eq_singleton h1
  obtain ⟨m2, u2⟩ := mem_of_filter_eq_singleton h2
  obtain ⟨m3, u3⟩ := mem_of_filter_eq_singleton h3
  obtain ⟨m4, u4⟩ := mem_of_filter_eq_singleton h4
  obtain ⟨m5, u5⟩ := mem_of_filter_eq_singleton h5
  have hne : fs ≠ [] := by
    rintro rfl
    simp at m1
  have hall : ∀ f ∈ fs, (1 ≤ f.1 ∧ f.1 ≤ 6) ∧ f.2.length < 2 ^ 32 ∧
      spec_payload_decodes vs ts cs us ns f := by
    intro f hf
    refine ⟨(hfs f hf).1, (hfs f hf).2, ?_, ?_, ?_, ?_, ?_⟩
    · intro e; rw [u1 f hf e]; exact hv
    · intro e; rw [u2 f hf e]; exact ht
    · intro e; rw [u3 f hf e]; exact hc
    · intro e; rw [u4 f hf e]; exact hu
    · intro e; rw [u5 f hf e]; exact hn
  rw [parse_pbf_node_infos, node_infos_loop_encoded vs ts cs us ns fs _ infos0 node_infos_variant
    hne (by have := spec_encode_fields_length fs; omega) rfl hall, spec_infos_fold]
  simp only [m1, m2, m3, m4, m5, if_true]

theorem parse_pbf_node_infos_arrays_witness :
    (∀ f ∈ s3_info_fields, (1 ≤ f.1 ∧ f.1 ≤ 6) ∧ f.2.length < 2 ^ 32) ∧
    s3_info_fields.filter (fun f => f.1 = 1) = [(1, [1, 1, 2])] ∧
    s3_info_fields.filter (fun f => f.1 = 2) = [(2, [128, 192, 240, 245, 11, 4, 2])] ∧
    s3_info_fields.filter (fun f => f.1 = 3) = [(3, [2, 0, 0])] ∧
    s3_info_fields.filter (fun f => f.1 = 4) = [(4, [2, 0, 0])] ∧
    s3_info_fields.filter (fun f => f.1 = 5) = [(5, [2, 0, 0])] ∧
    parse_uint32_packed init_packed [1, 1, 2] = .ok { init_packed with first := [1, 1, 2] } ∧
    parse_sint32_packed init_packed [128, 192, 240, 245, 11, 4, 2] =
      .ok { init_packed with first := [1600000000, 2, 1] } ∧
    parse_sint64_packed init_packed [2, 0, 0] = .ok { init_packed with first := [1, 0, 0] } ∧
    parse_sint32_packed init_packed [2, 0, 0] = .ok { init_packed with first := [1, 0, 0] } ∧
    parse_pbf_node_infos init_packed_infos (spec_encode_fields s3_info_fields) =
      .ok { ver_count := 3, versions := [1, 1, 2],
            tim_count := 3, timestamps := [1600000000, 1600000002, 1600000003],
            cng_count := 3, changesets := [1, 1, 1],
            uid_count := 3, uids := [1, 1, 1],
            usr_count := 3, users := [1, 1, 1] } :=
  ⟨by decide, by decide, by decide, by decide, by decide, by decide, by decide, by decide,
    by decide, by decide,
    parse_pbf_node_infos_arrays s3_info_fields [1, 1, 2] [128, 192, 240, 245, 11, 4, 2]
      [2, 0, 0] [2, 0, 0] [2, 0, 0] [1, 1, 2] [1600000000, 2, 1] [1, 0, 0] [1, 0, 0] [1, 0, 0]
      init_packed_infos (by decide) (by decide) (by decide) (by decide) (by decide) (by decide)
      (by decide) (by decide) (by decide) (by decide) (by decide)⟩

/-! ## DenseNodes: the tag loop -/

theorem c_string_idem (s : List Nat) : c_string (c_string s) = c_string s := by
  unfold c_string
  induction s with
  | nil => rfl
  | cons a s ih =>
    by_cases h : (a != 0) = true
    · simp only [List.takeWhile_cons, h, if_true, ih]
    · simp [List.takeWhile_cons, h]

theorem string_at_in_range (strings : readosm_string_table) (k : Int)
    (hlen : strings.strings.length < 2 ^ 31) (hk : 0 < k ∧ k < strings.strings.length) :
    int32_of_bits k.toNat = k ∧ string_at strings k = some (table_buffer strings k) := by
  obtain ⟨h0, h1⟩ := hk
  have hk2 : k.toNat < strings.strings.length := by omega
  constructor
  · unfold int32_of_bits
    have : k.toNat % 2 ^ 32 = k.toNat := Nat.mod_eq_of_lt (by omega)
    rw [this, if_pos (by omega)]
    omega
  · unfold string_at table_buffer
    rw [if_pos (by omega), List.getD_eq_getElem?_getD, List.get?_eq_getElem?,
      List.getElem?_eq_getElem hk2]
    rfl

theorem tag_pairs_map (strings : readosm_string_table) :
    ∀ seg : List Int, tag_pairs (seg.map (table_buffer strings)) = spec_tags strings seg
  | [] => rfl
  | [_] => rfl
  | k :: v :: rest => by
    have ih := tag_pairs_map strings rest
    simp only [List.map_cons, tag_pairs, ih, spec_tags, spec_pairs, spec_string, table_buffer]

theorem node_tags_loop_spec (strings : readosm_string_table) (keys : readosm_packed)
    (hlen : strings.strings.length < 2 ^ 31)
    (hr : ∀ k ∈ keys.values, k = 0 ∨ (0 < k ∧ k < strings.strings.length)) :
    ∀ (l : List Int) (i_keys : Nat) (key : Option (List Nat)) (nd : readosm_internal_node),
      keys.values.drop i_keys = l →
      ∃ i2, node_tags_loop strings keys l.length i_keys key nd =
          .ok (i2, { nd with
            tags := (nd.tags ++ tag_pairs
              (key.toList ++ (l.takeWhile (fun k => k != 0)).map (table_buffer strings))) })
        ∧ keys.values.drop i2 = (l.dropWhile (fun k => k != 0)).drop 1 := by
  intro l
  induction l with
  | nil =>
    intro i_keys key nd hd
    refine ⟨i_keys, ?_, by simpa using hd⟩
    rcases key with _ | k <;> simp [node_tags_loop, tag_pairs]
  | cons raw l ih =>
    intro i_keys key nd hd
    have hget : keys.values[i_keys]? = some raw := by
      have := congrArg List.head? hd
      simpa [List.head?_drop] using this
    have hdrop : keys.values.drop (i_keys + 1) = l := by
      have := congrArg List.tail hd
      simpa [List.tail_drop] using this
    have hmem : raw ∈ keys.values := List.getElem?_mem hget
    by_cases h0 : raw = 0
    · subst h0
      have hz : int32_of_bits 0 = 0 := by decide
      refine ⟨i_keys + 1, ?_, by simpa using hdrop⟩
      rcases key with _ | k <;>
        simp [node_tags_loop, hget, tag_pairs, hz]
    · obtain ⟨hconv, hstr⟩ := string_at_in_range strings raw hlen ((hr raw hmem).resolve_left h0)
      have hb : (raw != 0) = true := by simpa using h0
      rcases key with _ | k
      · obtain ⟨i2, hloop, hd2⟩ := ih (i_keys + 1) (some (table_buffer strings raw)) nd hdrop
        refine ⟨i2, ?_, by simpa [List.dropWhile_cons, hb] using hd2⟩
        simp only [List.length_cons, node_tags_loop, List.get?_eq_getElem?, hget, hconv, h0,
          if_false, hstr, hloop, List.takeWhile_cons, hb, if_true, List.map_cons, Option.toList,
          List.nil_append, List.singleton_append]
      · obtain ⟨i2, hloop, hd2⟩ := ih (i_keys + 1) none
          (append_tag_to_node nd k (table_buffer strings raw)) hdrop
        refine ⟨i2, ?_, by simpa [List.dropWhile_cons, hb] using hd2⟩
        simp only [List.length_cons, node_tags_loop, List.get?_eq_getElem?, hget, hconv, h0,
          if_false, hstr, hloop]
        simp [append_tag_to_node, tag_pairs, hb]

/-! ## DenseNodes: the reassembly loop -/

theorem node_user_spec (strings : readosm_string_table) (s_id : Int)
    (hlen : strings.strings.length < 2 ^ 31)
    (hr : s_id ≤ 0 ∨ s_id < strings.strings.length) :
    node_user strings s_id = .ok (spec_user strings s_id) := by
  unfold node_user spec_user
  by_cases hpos : s_id > 0
  · obtain ⟨_, hstr⟩ := string_at_in_range strings s_id hlen ⟨hpos, by omega⟩
    simp only [hpos, if_true, hstr, true_and, spec_string, table_buffer]
    split_ifs <;> rfl
  · simp [hpos]

theorem int64_add_assoc (d a b : Int) : int64_add (int64_add d a) b = int64_add d (a + b) := by
  apply int64_add_congr
  have := int64_add_emod d a
  omega

theorem spec_node_succ (strings : readosm_string_table) (d_id d_lat d_lon a b c v t g u s : Int)
    (ids lats lons vers tims cngs uids usrs l : List Int) (j : Nat) :
    spec_node strings (int64_add d_id a) (int64_add d_lat b) (int64_add d_lon c)
        ids lats lons vers tims cngs uids usrs ((l.dropWhile (fun k => k != 0)).drop 1) j =
      spec_node strings d_id d_lat d_lon (a :: ids) (b :: lats) (c :: lons) (v :: vers)
        (t :: tims) (g :: cngs) (u :: uids) (s :: usrs) l (j + 1) := by
  simp only [spec_node, List.take_succ_cons, List.sum_cons, int64_add_assoc, spec_segment,
    List.getD_cons_succ]

theorem drop_cons_of_lt {α : Type} (l : List α) (i : Nat) (h : i < l.length) :
    ∃ x, l[i]? = some x ∧ l.drop i = x :: l.drop (i + 1) :=
  ⟨l[i], List.getElem?_eq_getElem h, List.drop_eq_getElem_cons h⟩

theorem reassemble_loop_spec (strings : readosm_string_table) (st : dense_nodes_state)
    (hlen : strings.strings.length < 2 ^ 31)
    (hk : ∀ k ∈ st.packed_keys.values, k = 0 ∨ (0 < k ∧ k < strings.strings.length))
    (hu : ∀ u ∈ st.packed_infos.users, u ≤ 0 ∨ u < strings.strings.length)
    (hcount : st.packed_keys.count = st.packed_keys.values.length) :
    ∀ (n i i_keys : Nat) (d_id d_lat d_lon : Int),
      i + n ≤ st.packed_ids.values.length → i + n ≤ st.packed_lats.values.length →
      i + n ≤ st.packed_lons.values.length → i + n ≤ st.packed_infos.versions.length →
      i + n ≤ st.packed_infos.timestamps.length → i + n ≤ st.packed_infos.changesets.length →
      i + n ≤ st.packed_infos.uids.length → i + n ≤ st.packed_infos.users.length →
      reassemble_loop strings st n i i_keys d_id d_lat d_lon =
        .ok ((List.range n).map (spec_node strings d_id d_lat d_lon
          (st.packed_ids.values.drop i) (st.packed_lats.values.drop i)
          (st.packed_lons.values.drop i) (st.packed_infos.versions.drop i)
          (st.packed_infos.timestamps.drop i) (st.packed_infos.changesets.drop i)
          (st.packed_infos.uids.drop i) (st.packed_infos.users.drop i)
          (st.packed_keys.values.drop i_keys))) := by
  intro n
  induction n with
  | zero => intro i i_keys d_id d_lat d_lon _ _ _ _ _ _ _ _; simp [reassemble_loop]
  | succ n ih =>
    intro i i_keys d_id d_lat d_lon h1 h2 h3 h4 h5 h6 h7 h8
    obtain ⟨a, ha, hda⟩ := drop_cons_of_lt st.packed_ids.values i (by omega)
    obtain ⟨b, hb, hdb⟩ := drop_cons_of_lt st.packed_lats.values i (by omega)
    obtain ⟨c, hc, hdc⟩ := drop_cons_of_lt st.packed_lons.values i (by omega)
    obtain ⟨v, hv, hdv⟩ := drop_cons_of_lt st.packed_infos.versions i (by omega)
    obtain ⟨t, ht, hdt⟩ := drop_cons_of_lt st.packed_infos.timestamps i (by omega)
    obtain ⟨g, hg, hdg⟩ := drop_cons_of_lt st.packed_infos.changesets i (by omega)
    obtain ⟨u, hgu, hdu⟩ := drop_cons_of_lt st.packed_infos.uids i (by omega)
    obtain ⟨s, hs, hds⟩ := drop_cons_of_lt st.packed_infos.users i (by omega)
    have huser := node_user_spec strings s hlen (hu s (List.getElem?_mem hs))
    obtain ⟨i2, htags, hd2⟩ := node_tags_loop_spec strings st.packed_keys hlen hk
      (st.packed_keys.values.drop i_keys) i_keys none
      { init_internal_node with
        id := int64_add d_id a, latitude := int64_add d_lat b, longitude := int64_add d_lon c,
        version := v, timestamp := some t, changeset := g,
        uid := if u ≥ 0 then u else init_internal_node.uid,
        user := spec_user strings s } rfl
    have hn : st.packed_keys.count - i_keys = (st.packed_keys.values.drop i_keys).length := by
      rw [List.length_drop, hcount]
    have hnode : reassemble_node strings st i i_keys d_id d_lat d_lon =
        .ok (spec_node strings d_id d_lat d_lon (a :: st.packed_ids.values.drop (i + 1))
          (b :: st.packed_lats.values.drop (i + 1)) (c :: st.packed_lons.values.drop (i + 1))
          (v :: st.packed_infos.versions.drop (i + 1))
          (t :: st.packed_infos.timestamps.drop (i + 1))
          (g :: st.packed_infos.changesets.drop (i + 1))
          (u :: st.packed_infos.uids.drop (i + 1)) (s :: st.packed_infos.users.drop (i + 1))
          (st.packed_keys.values.drop i_keys) 0,
          i2, int64_add d_id a, int64_add d_lat b, int64_add d_lon c) := by
      simp only [reassemble_node, List.get?_eq_getElem?, ha, hb, hc, hv, ht, hg, hgu, hs, huser,
        Outcome.bind, hn, htags]
      simp [spec_node, init_internal_node, tag_pairs_map, spec_segment]
    rw [reassemble_loop, hnode]
    simp only [Outcome.bind]
    rw [ih (i + 1) i2 _ _ _ (by omega) (by omega) (by omega) (by omega) (by omega) (by omega)
      (by omega) (by omega)]
    simp only [Outcome.bind, hda, hdb, hdc, hdv, hdt, hdg, hdu, hds, hd2, List.range_succ_eq_map,
      List.map_cons, List.map_map]
    congr 2
    apply List.map_congr_left
    intro j _
    exact spec_node_succ strings d_id d_lat d_lon a b c v t g u s _ _ _ _ _ _ _ _ _ j

theorem dispatch_nodes_all_ok {σ : Type} (cb : σ → readosm_export_node → Int × σ)
    (hok : ∀ s n, (cb s n).1 = READOSM_OK) (nodes : List readosm_internal_node) :
    ∀ params : pbf_params σ,
      dispatch_nodes cb nodes params =
        { params with
          user_data := nodes.foldl (fun s nd => (cb s (export_node nd)).2) params.user_data } := by
  induction nodes with
  | nil => intro params; rfl
  | cons nd nodes ih =>
    intro params
    simp only [dispatch_nodes, call_node_callback, hok, ne_eq, not_true_eq_false, if_false, ih,
      List.foldl_cons]

theorem s3_fields : parse_pbf_nodes_fields s3_dense_nodes = .ok s3_state := by decide

theorem s3_aligned : dense_aligned s3_state 3 := by decide

theorem s3_in_range : indices_in_range s3_strings s3_state := by decide

theorem negative_first_delta_fields :
    parse_pbf_nodes_fields negative_first_delta_nodes = .ok negative_first_delta_state := by
  decide

theorem nodes_counts_agree_of_aligned (st : dense_nodes_state) (N : Nat)
    (hal : dense_aligned st N) : nodes_counts_agree st = true := by
  obtain ⟨⟨a, _⟩, ⟨b, _⟩, ⟨c, _⟩, ⟨d, _⟩, ⟨e, _⟩, ⟨f, _⟩, ⟨g, _⟩, ⟨h, _⟩, _⟩ := hal
  simp [nodes_counts_agree, a, b, c, d, e, f, g, h]

theorem reassemble_nodes_spec (strings : readosm_string_table) (st : dense_nodes_state)
    (N : Nat) (hal : dense_aligned st N) (hrange : indices_in_range strings st) :
    reassemble_nodes strings st = .ok (spec_nodes strings st N) := by
  have hagree := nodes_counts_agree_of_aligned st N hal
  obtain ⟨⟨a, a2⟩, ⟨_, b2⟩, ⟨_, c2⟩, ⟨_, d2⟩, ⟨_, e2⟩, ⟨_, f2⟩, ⟨_, g2⟩, ⟨_, h2⟩, hc⟩ := hal
  obtain ⟨hlen, hk, hu⟩ := hrange
  rw [reassemble_nodes, if_pos hagree, a,
    reassemble_loop_spec strings st hlen hk hu hc N 0 0 0 0 0 (by omega) (by omega) (by omega)
      (by omega) (by omega) (by omega) (by omega) (by omega)]
  simp only [List.drop_zero, spec_nodes]

theorem parse_pbf_nodes_spec {σ : Type} (strings : readosm_string_table) (msg : List Nat)
    (st : dense_nodes_state) (N : Nat) (params : pbf_params σ)
    (cb : σ → readosm_export_node → Int × σ)
    (hfields : parse_pbf_nodes_fields msg = .ok st) (hal : dense_aligned st N)
    (hrange : indices_in_range strings st) (hcb : params.node_callback = some cb)
    (hok : ∀ s n, (cb s n).1 = READOSM_OK) (hstop : params.stop = 0) :
    parse_pbf_nodes strings msg params =
      .ok { params with
            user_data := (spec_nodes strings st N).foldl
              (fun s nd => (cb s (export_node nd)).2) params.user_data } := by
  simp only [parse_pbf_nodes, hfields, Outcome.bind, reassemble_nodes_spec strings st N hal hrange,
    hcb, hstop, if_true, dispatch_nodes_all_ok cb hok]

theorem spec_nodes_length (strings : readosm_string_table) (st : dense_nodes_state) (N : Nat) :
    (spec_nodes strings st N).length = N := by
  simp [spec_nodes]

theorem spec_nodes_ids (strings : readosm_string_table) (st : dense_nodes_state) (N : Nat) :
    (spec_nodes strings st N).map (fun nd => (export_node nd).id) =
      (List.range N).map (spec_sum64 st.packed_ids.values) := by
  simp only [spec_nodes, List.map_map]
  apply List.map_congr_left
  intro i _
  simp [export_node, spec_node, int64_add, spec_sum64]

/-! ## C6: the nodes of a DenseNodes block are delivered in index order -/

/-- Claim C6. For every DenseNodes message whose eight parallel arrays all have `N`
entries and whose string indices are in range, when the node callback is non-nil,
always returns OK and the stop flag is clear, `parse_pbf_nodes` succeeds and hands
the callback the `N` reassembled nodes one after the other in index order (the
user data it leaves are the callback folded over the export views of nodes
`0 .. N-1`), node `i` having as id the sum of `ids[0..i]` in 64-bit arithmetic.  With
id deltas `[10, 5, -3]` the delivered ids are 10, 15, 12. -/
theorem dense_nodes_delivered_in_order {σ : Type} (strings : readosm_string_table)
    (msg : List Nat) (st : dense_nodes_state) (N : Nat) (params : pbf_params σ)
    (cb : σ → readosm_export_node → Int × σ)
    (hfields : parse_pbf_nodes_fields msg = .ok st) (hal : dense_aligned st N)
    (hrange : indices_in_range strings st) (hcb : params.node_callback = some cb)
    (hok : ∀ s n, (cb s n).1 = READOSM_OK) (hstop : params.stop = 0) :
    reassemble_nodes strings st = .ok (spec_nodes strings st N) ∧
    parse_pbf_nodes strings msg params =
      .ok { params with
            user_data := (spec_nodes strings st N).foldl
              (fun s nd => (cb s (export_node nd)).2) params.user_data } ∧
    (spec_nodes strings st N).length = N ∧
    (spec_nodes strings st N).map (fun nd => (export_node nd).id) =
      (List.range N).map (spec_sum64 st.packed_ids.values) ∧
    (∃ p, parse_pbf_nodes s3_strings s3_dense_nodes record_params = .ok p ∧
      p.user_data.map (fun n => n.id) = [10, 15, 12] ∧ p.stop = 0) :=
  ⟨reassemble_nodes_spec strings st N hal hrange,
    parse_pbf_nodes_spec strings msg st N params cb hfields hal hrange hcb hok hstop,
    spec_nodes_length strings st N, spec_nodes_ids strings st N,
    ⟨_, parse_pbf_nodes_spec s3_strings s3_dense_nodes s3_state 3 record_params record_nodes
      s3_fields s3_aligned s3_in_range rfl (fun _ _ => rfl) rfl, by decide, rfl⟩⟩

theorem dense_nodes_delivered_in_order_witness :
    parse_pbf_nodes_fields s3_dense_nodes = .ok s3_state ∧
    dense_aligned s3_state 3 ∧ indices_in_range s3_strings s3_state ∧
    record_params.node_callback = some record_nodes ∧
    (∀ s n, (record_nodes s n).1 = READOSM_OK) ∧ record_params.stop = 0 ∧
    parse_pbf_nodes s3_strings s3_dense_nodes record_params =
      .ok { record_params with
            user_data := (spec_nodes s3_strings s3_state 3).foldl
              (fun s nd => (record_nodes s (export_node nd)).2) record_params.user_data } ∧
    (spec_nodes s3_strings s3_state 3).map (fun nd => (export_node nd).id) = [10, 15, 12] :=
  ⟨s3_fields, s3_aligned, s3_in_range, rfl, fun _ _ => rfl, rfl,
    (dense_nodes_delivered_in_order s3_strings s3_dense_nodes s3_state 3 record_params
      record_nodes s3_fields s3_aligned s3_in_range rfl (fun _ _ => rfl) rfl).2.1,
    by decide⟩

/-! ## C7: a DenseNodes block whose arrays are not parallel -/

theorem parse_pbf_nodes_counts_disagree {σ : Type} (strings : readosm_string_table)
    (msg : List Nat) (st : dense_nodes_state) (params : pbf_params σ)
    (hfields : parse_pbf_nodes_fields msg = .ok st) (hno : nodes_counts_agree st = false) :
    parse_pbf_nodes strings msg params = .ok params := by
  simp only [parse_pbf_nodes, hfields, Outcome.bind, reassemble_nodes, hno]
  rcases params.node_callback with _ | cb
  · rfl
  · simp only [Bool.false_eq_true, if_false, dispatch_nodes]
    split_ifs <;> rfl

/-- Claim C7, evaluated where it fails. The DenseNodes message `0A 01 02` holds one id
and no other array, so the item counts differ; `parse_pbf_nodes` skips the
reassembly, delivers no node (the parameters, user data included, are left as they
were) and returns 1, the success value, where the claim requires a failure. -/
theorem parse_pbf_nodes_mismatch_returns_success {σ : Type}
    (strings : readosm_string_table) (params : pbf_params σ) :
    parse_pbf_nodes_fields ids_only_nodes = .ok ids_only_state ∧
    ids_only_state.packed_ids.count = 1 ∧ ids_only_state.packed_lats.count = 0 ∧
    nodes_counts_agree ids_only_state = false ∧
    parse_pbf_nodes strings ids_only_nodes params = .ok params :=
  ⟨by decide, rfl, rfl, by decide,
    parse_pbf_nodes_counts_disagree strings ids_only_nodes ids_only_state params (by decide)
      (by decide)⟩

/-! ## C8: the tags of the nodes of a DenseNodes block -/

theorem export_spec_node_tags (strings : readosm_string_table) (d_id d_lat d_lon : Int)
    (ids lats lons vers tims cngs uids usrs keys : List Int) (j : Nat) :
    (export_node (spec_node strings d_id d_lat d_lon ids lats lons vers tims cngs uids usrs
        keys j)).tags =
      (spec_pairs (spec_segment keys j)).map (fun kv =>
        ({ key := some (spec_string strings kv.1),
           value := some (spec_string strings kv.2) } : readosm_export_tag)) := by
  simp only [export_node, spec_node, spec_tags, List.map_map]
  apply List.map_congr_left
  intro kv _
  simp [spec_string, c_string_idem]

/-- Claim C8. For every DenseNodes message that passes the parallel-array check with `N`
nodes (string indices in range), splitting `keys_vals` at its zero entries into
segments `s_0, s_1, ...`, node `i` is delivered with exactly the tags
`(st[s_i[0]], st[s_i[1]]), (st[s_i[2]], st[s_i[3]]), ...` in that order.  With
`keys_vals = [3, 4, 0, 0, 5, 6, 0]` and the string table
`"", "u1", "u2", "k1", "v1", "k2", "v2"`, node 0 has the single tag `(k1, v1)`, node 1
has no tags and node 2 has the single tag `(k2, v2)`. -/
theorem dense_nodes_tags {σ : Type} (strings : readosm_string_table)
    (msg : List Nat) (st : dense_nodes_state) (N : Nat) (params : pbf_params σ)
    (cb : σ → readosm_export_node → Int × σ)
    (hfields : parse_pbf_nodes_fields msg = .ok st) (hal : dense_aligned st N)
    (hrange : indices_in_range strings st) (hcb : params.node_callback = some cb)
    (hok : ∀ s n, (cb s n).1 = READOSM_OK) (hstop : params.stop = 0) :
    parse_pbf_nodes strings msg params =
      .ok { params with
            user_data := (spec_nodes strings st N).foldl
              (fun s nd => (cb s (export_node nd)).2) params.user_data } ∧
    (∀ i, i < N →
      (((spec_nodes strings st N).map export_node).get? i).map (fun n => n.tags) =
        some ((spec_pairs (spec_segment st.packed_keys.values i)).map (fun kv =>
          ({ key := some (spec_string strings kv.1),
             value := some (spec_string strings kv.2) } : readosm_export_tag)))) ∧
    (spec_segment [3, 4, 0, 0, 5, 6, 0] 0 = [3, 4] ∧ spec_segment [3, 4, 0, 0, 5, 6, 0] 1 = [] ∧
      spec_segment [3, 4, 0, 0, 5, 6, 0] 2 = [5, 6]) ∧
    (∃ p, parse_pbf_nodes s3_strings s3_dense_nodes record_params = .ok p ∧
      p.user_data.map (fun n => n.tags) =
        [[{ key := some [107, 49], value := some [118, 49] }], [],
         [{ key := some [107, 50], value := some [118, 50] }]]) := by
  refine ⟨parse_pbf_nodes_spec strings msg st N params cb hfields hal hrange hcb hok hstop,
    ?_, by decide, ⟨_, parse_pbf_nodes_spec s3_strings s3_dense_nodes s3_state 3 record_params
      record_nodes s3_fields s3_aligned s3_in_range rfl (fun _ _ => rfl) rfl, by decide⟩⟩
  intro i hi
  simp only [spec_nodes, List.map_map, List.get?_eq_getElem?, List.getElem?_map,
    List.getElem?_range hi, Option.map_some', Function.comp, export_spec_node_tags]

theorem dense_nodes_tags_witness :
    parse_pbf_nodes_fields s3_dense_nodes = .ok s3_state ∧
    dense_aligned s3_state 3 ∧ indices_in_range s3_strings s3_state ∧
    record_params.node_callback = some record_nodes ∧
    (∀ s n, (record_nodes s n).1 = READOSM_OK) ∧ record_params.stop = 0 ∧
    (∀ i, i < 3 →
      (((spec_nodes s3_strings s3_state 3).map export_node).get? i).map (fun n => n.tags) =
        some ((spec_pairs (spec_segment s3_state.packed_keys.values i)).map (fun kv =>
          ({ key := some (spec_string s3_strings kv.1),
             value := some (spec_string s3_strings kv.2) } : readosm_export_tag)))) :=
  ⟨s3_fields, s3_aligned, s3_in_range, rfl, fun _ _ => rfl, rfl,
    (dense_nodes_tags s3_strings s3_dense_nodes s3_state 3 record_params
      record_nodes s3_fields s3_aligned s3_in_range rfl (fun _ _ => rfl) rfl).2.1⟩

/-! ## C10: ascending ids -/

theorem int64_of_bits_exact (x : Int) (h1 : -2 ^ 63 ≤ x) (h2 : x < 2 ^ 63) :
    int64_of_bits ((x % 2 ^ 64).toNat) = x := by
  unfold int64_of_bits
  split_ifs <;> omega

theorem chain_prefix_sums (l : List Int) :
    ∀ d : Int, List.Chain' (· ≤ ·) ((List.range l.length).map (fun j => d + (l.take (j + 1)).sum))
      ↔ ∀ x ∈ l.drop 1, 0 ≤ x := by
  induction l with
  | nil => intro d; simp
  | cons a r ih =>
    intro d
    rcases r with _ | ⟨b, r⟩
    · simp
    · have h := ih (d + a)
      rw [List.length_cons, List.range_succ_eq_map, List.map_cons, List.map_map,
        List.chain'_cons']
      have hL : (List.map ((fun j => d + (List.take (j + 1) (a :: b :: r)).sum) ∘ Nat.succ)
          (List.range (b :: r).length)) =
          (List.range (b :: r).length).map (fun j => d + a + (List.take (j + 1) (b :: r)).sum) := by
        apply List.map_congr_left
        intro j _
        simp only [Function.comp, Nat.succ_eq_add_one, List.take_succ_cons, List.sum_cons]
        ring
      rw [hL, h]
      simp only [List.length_cons, List.range_succ_eq_map, List.map_cons, List.head?_cons,
        Option.mem_def, Option.some.injEq, forall_eq', List.take_succ_cons, List.take_zero,
        List.sum_cons, List.sum_nil, List.drop_succ_cons, List.drop_zero, List.mem_cons,
        forall_eq_or_imp]
      constructor
      · rintro ⟨h1, h2⟩
        exact ⟨by omega, h2⟩
      · rintro ⟨h1, h2⟩
        exact ⟨by omega, h2⟩

/-- Claim C10, as the code has it. For every DenseNodes message that passes the
parallel-array check and whose id sums do not overflow 64 bits, the sequence of
reconstructed node ids is ascending (each id is greater than or equal to its
predecessor) if and only if all source id deltas after the first are
non-negative. -/
theorem dense_ids_ascending_iff (strings : readosm_string_table) (msg : List Nat)
    (st : dense_nodes_state) (N : Nat)
    (hfields : parse_pbf_nodes_fields msg = .ok st) (hal : dense_aligned st N)
    (hrange : indices_in_range strings st)
    (hno : ∀ i, i < N → -2 ^ 63 ≤ (st.packed_ids.values.take (i + 1)).sum ∧
      (st.packed_ids.values.take (i + 1)).sum < 2 ^ 63) :
    parse_pbf_nodes_fields msg = .ok st ∧
    reassemble_nodes strings st = .ok (spec_nodes strings st N) ∧
    (List.Chain' (· ≤ ·) ((spec_nodes strings st N).map (fun nd => (export_node nd).id)) ↔
      ∀ d ∈ st.packed_ids.values.drop 1, 0 ≤ d) := by
  refine ⟨hfields, reassemble_nodes_spec strings st N hal hrange, ?_⟩
  have hN : st.packed_ids.values.length = N := hal.1.2
  have hids : (spec_nodes strings st N).map (fun nd => (export_node nd).id) =
      (List.range st.packed_ids.values.length).map
        (fun j => 0 + (st.packed_ids.values.take (j + 1)).sum) := by
    rw [spec_nodes_ids, hN]
    apply List.map_congr_left
    intro i hi
    have hi2 : i < N := List.mem_range.1 hi
    rw [spec_sum64, int64_of_bits_exact _ (hno i hi2).1 (hno i hi2).2, zero_add]
  rw [hids]
  exact chain_prefix_sums st.packed_ids.values 0

theorem dense_ids_ascending_iff_witness :
    parse_pbf_nodes_fields negative_first_delta_nodes = .ok negative_first_delta_state ∧
    dense_aligned negative_first_delta_state 2 ∧
    indices_in_range s3_strings negative_first_delta_state ∧
    (∀ i, i < 2 → -2 ^ 63 ≤ (negative_first_delta_state.packed_ids.values.take (i + 1)).sum ∧
      (negative_first_delta_state.packed_ids.values.take (i + 1)).sum < 2 ^ 63) ∧
    (List.Chain' (· ≤ ·) ((spec_nodes s3_strings negative_first_delta_state 2).map
        (fun nd => (export_node nd).id)) ↔
      ∀ d ∈ negative_first_delta_state.packed_ids.values.drop 1, 0 ≤ d) :=
  ⟨negative_first_delta_fields, by decide, by decide, by decide,
    (dense_ids_ascending_iff s3_strings negative_first_delta_nodes negative_first_delta_state 2
      negative_first_delta_fields (by decide) (by decide) (by decide)).2.2⟩

/-- Claim C10 as stated fails: the DenseNodes message with id deltas `[-5, 3]` passes the
parallel-array check without overflow and yields the ids `-5, -2`, an ascending
sequence, although the first delta is negative. -/
theorem dense_ids_ascending_counterexample :
    parse_pbf_nodes_fields negative_first_delta_nodes = .ok negative_first_delta_state ∧
    dense_aligned negative_first_delta_state 2 ∧
    (∃ nodes, reassemble_nodes s3_strings negative_first_delta_state = .ok nodes ∧
      nodes.map (fun nd => (export_node nd).id) = [-5, -2] ∧
      ¬ (List.Chain' (· ≤ ·) (nodes.map (fun nd => (export_node nd).id)) ↔
        ∀ d ∈ negative_first_delta_state.packed_ids.values, 0 ≤ d)) :=
  ⟨negative_first_delta_fields, by decide,
    spec_nodes s3_strings negative_first_delta_state 2, by decide, by decide, by
      have hids : (spec_nodes s3_strings negative_first_delta_state 2).map
          (fun nd => (export_node nd).id) = [-5, -2] := by decide
      have hvals : negative_first_delta_state.packed_ids.values = [-5, 3] := rfl
      rw [hids, hvals]
      intro h
      have hchain : List.Chain' (· ≤ ·) ([-5, -2] : List Int) := by
        simp [List.chain'_cons]
      have := h.1 hchain (-5) (by simp)
      omega⟩

/-! ## C19: the tag byte -/

theorem tag_byte_wire_type (t : Nat) : t &&& 0x07 = spec_wire_type t := by
  have h := Nat.and_pow_two_sub_one_eq_mod t 3
  norm_num at h
  exact h

theorem tag_byte_field_id (t : Nat) : (t &&& 0xf8) >>> 3 = spec_field_id t := by
  apply Nat.eq_of_testBit_eq
  intro i
  rw [spec_field_id, show (32 : Nat) = 2 ^ 5 from rfl, Nat.testBit_mod_two_pow,
    Nat.testBit_shiftRight, Nat.testBit_and, ← Nat.shiftRight_eq_div_pow t 3,
    Nat.testBit_shiftRight]
  by_cases hi : i < 5
  · have h5 : i = 0 ∨ i = 1 ∨ i = 2 ∨ i = 3 ∨ i = 4 := by omega
    rcases h5 with rfl | rfl | rfl | rfl | rfl <;> simp <;> intro _ <;> decide
  · have hlt : (0xf8 : Nat) < 2 ^ (3 + i) :=
      lt_of_lt_of_le (by norm_num) (Nat.pow_le_pow_right (by norm_num) (by omega : 8 ≤ 3 + i))
    simp [hi, Nat.testBit_lt_two_pow hlt]

/-- Claim C19. For every tag byte `t`, every continuation `ptr` and every variant,
`parse_field` looks the hint up under the field id `(t & 0xF8) >> 3` (the high five
bits of `t`) and the wire type `t & 0x07` (the low three bits); the field id lies in
`0 .. 31`; when a hint is found the variant records that field id and the value is
decoded from `ptr`, the byte after the tag: by `read_bytes` for a length-delimited
hint, by `read_var` in the hinted type for the six integer types. -/
theorem parse_field_tag_byte (t : Nat) (ptr : List Nat) (v : readosm_variant) :
    spec_field_id t < 32 ∧ spec_wire_type t = t &&& 0x07 ∧
    spec_field_id t = (t &&& 0xf8) >>> 3 ∧
    (find_type_hint v (spec_field_id t) (spec_wire_type t) = none →
      parse_field (t :: ptr) v = (none, v)) ∧
    (∀ ty, find_type_hint v (spec_field_id t) (spec_wire_type t) = some ty →
      (ty = READOSM_LEN_BYTES →
        parse_field (t :: ptr) v =
          read_bytes ptr { v with type := ty, field_id := spec_field_id t }) ∧
      (Is32 ty ∨ Is64 ty →
        parse_field (t :: ptr) v =
          match read_var ty ptr with
          | some (x, rest) =>
            (some rest, { v with type := ty, field_id := spec_field_id t, value := x,
                                 valid := true })
          | none => (none, { v with type := ty, field_id := spec_field_id t }))) := by
  refine ⟨Nat.mod_lt _ (by norm_num), (tag_byte_wire_type t).symm, (tag_byte_field_id t).symm,
    ?_, ?_⟩
  · intro h
    simp only [parse_field, tag_byte_wire_type, tag_byte_field_id, h]
  · intro ty h
    constructor
    · rintro rfl
      simp only [parse_field, tag_byte_wire_type, tag_byte_field_id, h]
    · intro hty
      simp only [parse_field, tag_byte_wire_type, tag_byte_field_id, h]
      rcases hty with (rfl | rfl | rfl) | (rfl | rfl | rfl) <;> rfl

theorem parse_field_tag_byte_witness :
    spec_field_id 0x1A < 32 ∧ spec_wire_type 0x1A = 0x1A &&& 0x07 ∧
    spec_field_id 0x1A = (0x1A &&& 0xf8) >>> 3 ∧
    find_type_hint sample_variant (spec_field_id 0x1A) (spec_wire_type 0x1A) = none ∧
    find_type_hint sample_variant (spec_field_id 0x08) (spec_wire_type 0x08) =
      some READOSM_VAR_INT32 ∧
    parse_field [0x1A, 1] sample_variant = (none, sample_variant) ∧
    parse_field [0x08, 0xAC, 0x02, 7] sample_variant =
      (some [7], { sample_variant with type := READOSM_VAR_INT32, field_id := 1, value := 300,
                                       valid := true }) :=
  ⟨(parse_field_tag_byte 0x1A [1] sample_variant).1,
    (parse_field_tag_byte 0x1A [1] sample_variant).2.1,
    (parse_field_tag_byte 0x1A [1] sample_variant).2.2.1, by decide, by decide,
    (parse_field_tag_byte 0x1A [1] sample_variant).2.2.2.1 (by decide),
    (((parse_field_tag_byte 0x08 [0xAC, 0x02, 7] sample_variant).2.2.2.2 READOSM_VAR_INT32
      (by decide)).2 (Or.inl (Or.inl rfl))).trans (by decide)⟩

/-! ## C20: fields without a compatible hint -/

theorem find_type_hint_loop_none (f w : Nat) :
    ∀ hints : List readosm_variant_hint,
      (∀ h ∈ hints, h.field_id = f → spec_compatible w h.type = false) →
      find_type_hint_loop f w hints = none := by
  intro hints
  induction hints with
  | nil => intro _; rfl
  | cons h hs ih =>
    intro hall
    have ihs := ih (fun g hg => hall g (List.mem_cons_of_mem _ hg))
    have hh := hall h (List.mem_cons_self _ _)
    unfold find_type_hint_loop
    by_cases hf : h.field_id = f
    · have hc := hh hf
      rw [if_pos hf]
      rcases w with _ | _ | _ | w
      · cases hty : h.type <;> simp [spec_compatible, hty] at hc <;> simp [ihs]
      · simp [ihs]
      · cases hty : h.type <;> simp [spec_compatible, hty] at hc <;> simp [ihs]
      · simp [ihs]
    · rw [if_neg hf]
      exact ihs

theorem find_type_hint_loop_wire (f w : Nat) (h0 : w ≠ 0) (h2 : w ≠ 2) :
    ∀ hints : List readosm_variant_hint, find_type_hint_loop f w hints = none := by
  intro hints
  apply find_type_hint_loop_none
  intro h _ _
  simp [spec_compatible, h0, h2]

/-- Claim C20. For every hint table (the hints of the variant `v`) and every tag byte `t`
with field id `f` and wire type `w`: when no hint of the table for `f` has a logical type
compatible with `w`, `parse_field` returns `NULL` and leaves the variant as it was, so a
variant that is not valid before the call (as `reset_variant` leaves it) is not valid
after it; and when `w` is neither 0 nor 2 this is so for every hint table. -/
theorem parse_field_no_compatible_hint (t : Nat) (ptr : List Nat) (v : readosm_variant) :
    ((∀ h ∈ v.hints, h.field_id = spec_field_id t →
        spec_compatible (spec_wire_type t) h.type = false) →
      parse_field (t :: ptr) v = (none, v) ∧
      (parse_field (t :: ptr) (reset_variant v)).1 = none ∧
      (parse_field (t :: ptr) (reset_variant v)).2.valid = false) ∧
    (spec_wire_type t ≠ 0 → spec_wire_type t ≠ 2 →
      parse_field (t :: ptr) v = (none, v) ∧
      (parse_field (t :: ptr) (reset_variant v)).1 = none ∧
      (parse_field (t :: ptr) (reset_variant v)).2.valid = false) := by
  have key : ∀ u : readosm_variant, u.hints = v.hints →
      find_type_hint_loop (spec_field_id t) (spec_wire_type t) v.hints = none →
      parse_field (t :: ptr) u = (none, u) := by
    intro u hu h
    simp only [parse_field, tag_byte_wire_type, tag_byte_field_id, find_type_hint, hu, h]
  constructor
  · intro hall
    have h := find_type_hint_loop_none _ _ v.hints hall
    refine ⟨key v rfl h, ?_, ?_⟩ <;> (rw [key (reset_variant v) rfl h]; try rfl)
  · intro h0 h2
    have h := find_type_hint_loop_wire (spec_field_id t) _ h0 h2 v.hints
    refine ⟨key v rfl h, ?_, ?_⟩ <;> (rw [key (reset_variant v) rfl h]; try rfl)

theorem parse_field_no_compatible_hint_witness :
    (∀ h ∈ sample_variant.hints, h.field_id = spec_field_id 0x0A →
      spec_compatible (spec_wire_type 0x0A) h.type = false) ∧
    spec_wire_type 0x0D ≠ 0 ∧ spec_wire_type 0x0D ≠ 2 ∧
    parse_field [0x0A, 1, 5] sample_variant = (none, sample_variant) ∧
    parse_field [0x0D, 1, 5, 0, 0] sample_variant = (none, sample_variant) ∧
    (parse_field [0x0D, 1, 5, 0, 0] (reset_variant sample_variant)).2.valid = false :=
  ⟨by decide, by decide, by decide,
    ((parse_field_no_compatible_hint 0x0A [1, 5] sample_variant).1 (by decide)).1,
    ((parse_field_no_compatible_hint 0x0D [1, 5, 0, 0] sample_variant).2 (by decide)
      (by decide)).1,
    ((parse_field_no_compatible_hint 0x0D [1, 5, 0, 0] sample_variant).2 (by decide)
      (by decide)).2.2⟩

/-! ## C17 and C18: packed payloads -/

theorem parse_packed_loop_uint32_encode :
    ∀ (xs : List Nat) (fuel : Nat) (packed : List Int) (valid : Bool),
      xs ≠ [] → xs.length ≤ fuel → (∀ x ∈ xs, x < 2 ^ 32) →
      parse_packed_loop READOSM_VAR_UINT32 fuel packed valid (spec_encode_packed xs) =
        .ok (packed ++ xs.map Nat.cast) := by
  intro xs
  induction xs with
  | nil => intro _ _ _ h; exact absurd rfl h
  | cons x xs ih =>
    intro fuel packed valid _ hfuel hall
    obtain ⟨fuel, rfl⟩ : ∃ k, fuel = k + 1 := ⟨fuel - 1, by simp at hfuel; omega⟩
    have hx := hall x (List.mem_cons_self _ _)
    simp only [spec_encode_packed, parse_packed_loop, read_var_uint32_encode x _ hx]
    rcases xs with _ | ⟨y, ys⟩
    · simp [spec_encode_packed]
    · have hne : ∃ b bs, spec_encode_packed (y :: ys) = b :: bs := by
        simp only [spec_encode_packed, spec_encode_varint]
        obtain ⟨bs, last, henc, -⟩ := spec_base128_encode_shape 9 9 (y % 128 ^ 10)
          (by norm_num) (Nat.mod_lt _ (by norm_num))
        rcases hs : spec_base128_encode 9 y with _ | ⟨b, bs2⟩
        · have := hall y (by simp)
          rw [Nat.mod_eq_of_lt (by omega)] at henc
          rw [hs] at henc
          simp at henc
        · exact ⟨b, bs2 ++ spec_encode_packed ys, by simp⟩
      obtain ⟨b, bs, hb⟩ := hne
      rw [hb]
      simp only
      rw [← hb, ih fuel (packed ++ [(x : Int)]) true (by simp)
        (by simp at hfuel ⊢; omega) (fun z hz => hall z (List.mem_cons_of_mem _ hz))]
      simp

theorem spec_encode_packed_length (xs : List Nat) :
    xs.length ≤ (spec_encode_packed xs).length := by
  induction xs with
  | nil => simp [spec_encode_packed]
  | cons x xs ih =>
    obtain ⟨bs, last, henc, -⟩ := spec_base128_encode_shape 9 9 (x % 128 ^ 10)
      (by norm_num) (Nat.mod_lt _ (by norm_num))
    have h1 : 1 ≤ (spec_encode_varint x).length := by
      unfold spec_encode_varint spec_base128_encode
      split_ifs <;> simp
    simp only [spec_encode_packed, List.length_append, List.length_cons]
    omega

theorem parse_uint32_packed_encode (xs : List Nat) (hne : xs ≠ [])
    (hall : ∀ x ∈ xs, x < 2 ^ 32) :
    parse_uint32_packed init_packed (spec_encode_packed xs) =
      .ok { init_packed with first := xs.map Nat.cast } := by
  have hl := spec_encode_packed_length xs
  rw [parse_uint32_packed, parse_packed_loop_uint32_encode xs _ _ _ hne (by omega) hall]
  simp [Outcome.bind, init_packed]

theorem int32_of_bits_small (n : Nat) (h : n < 2 ^ 31) : int32_of_bits n = (n : Int) := by
  unfold int32_of_bits
  rw [Nat.mod_eq_of_lt (by omega), if_pos h]

theorem int32_of_bits_neg (m : Nat) (h1 : 1 ≤ m) (h2 : m ≤ 2 ^ 31) :
    int32_of_bits (2 ^ 32 - m) = -(m : Int) := by
  unfold int32_of_bits
  rw [Nat.mod_eq_of_lt (by omega), if_neg (by omega)]
  omega

theorem int64_of_bits_small (n : Nat) (h : n < 2 ^ 63) : int64_of_bits n = (n : Int) := by
  unfold int64_of_bits
  rw [Nat.mod_eq_of_lt (by omega), if_pos h]

theorem int64_of_bits_neg (m : Nat) (h1 : 1 ≤ m) (h2 : m ≤ 2 ^ 63) :
    int64_of_bits (2 ^ 64 - m) = -(m : Int) := by
  unfold int64_of_bits
  rw [Nat.mod_eq_of_lt (by omega), if_neg (by omega)]
  omega

theorem read_var_value_sint32_encode (x : Int) (v64 : Nat)
    (h1 : -2 ^ 31 < x) (h2 : x < 2 ^ 31) :
    read_var_value READOSM_VAR_SINT32 (spec_zigzag_encode x) v64 = some x := by
  simp only [read_var_value, Nat.and_one_is_mod, spec_zigzag_encode, Option.some.injEq]
  have hneg : ((-1 : Int) % 2 ^ 32).toNat = 2 ^ 32 - 1 := by decide
  have hpos : ((1 : Int) % 2 ^ 32).toNat = 1 := by decide
  by_cases hx : 0 ≤ x
  · obtain ⟨n, rfl⟩ := Int.eq_ofNat_of_zero_le hx
    have hn : (2 * (n : Int)).toNat = 2 * n := by omega
    have hv : (2 * n + 1) % 2 ^ 32 / 2 * 1 % 2 ^ 32 = n := by omega
    rw [if_pos hx, hn, if_pos (by omega), hpos, hv]
    exact int32_of_bits_small n (by omega)
  · obtain ⟨m, hm⟩ : ∃ m : Nat, x = -(m : Int) := ⟨(-x).toNat, by omega⟩
    subst hm
    have hn : (-2 * -(m : Int) - 1).toNat = 2 * m - 1 := by omega
    have hh : (2 * m - 1 + 1) % 2 ^ 32 / 2 = m := by omega
    have e : m * (2 ^ 32 - 1) = 2 ^ 32 * (m - 1) + (2 ^ 32 - m) := by omega
    rw [if_neg hx, hn, if_neg (by omega), hneg, hh, e, Nat.mul_add_mod,
      Nat.mod_eq_of_lt (by omega)]
    exact int32_of_bits_neg m (by omega) (by omega)

theorem read_var_value_sint64_encode (x : Int) (v32 : Nat)
    (h1 : -2 ^ 63 < x) (h2 : x < 2 ^ 63) :
    read_var_value READOSM_VAR_SINT64 v32 (spec_zigzag_encode x) = some x := by
  simp only [read_var_value, Nat.and_one_is_mod, spec_zigzag_encode, Option.some.injEq]
  have hneg : ((-1 : Int) % 2 ^ 64).toNat = 2 ^ 64 - 1 := by decide
  have hpos : ((1 : Int) % 2 ^ 64).toNat = 1 := by decide
  by_cases hx : 0 ≤ x
  · obtain ⟨n, rfl⟩ := Int.eq_ofNat_of_zero_le hx
    have hn : (2 * (n : Int)).toNat = 2 * n := by omega
    have hv : (2 * n + 1) % 2 ^ 64 / 2 * 1 % 2 ^ 64 = n := by omega
    rw [if_pos hx, hn, if_pos (by omega), hpos, hv]
    exact int64_of_bits_small n (by omega)
  · obtain ⟨m, hm⟩ : ∃ m : Nat, x = -(m : Int) := ⟨(-x).toNat, by omega⟩
    subst hm
    have hn : (-2 * -(m : Int) - 1).toNat = 2 * m - 1 := by omega
    have hh : (2 * m - 1 + 1) % 2 ^ 64 / 2 = m := by omega
    have e : m * (2 ^ 64 - 1) = 2 ^ 64 * (m - 1) + (2 ^ 64 - m) := by omega
    rw [if_neg hx, hn, if_neg (by omega), hneg, hh, e, Nat.mul_add_mod,
      Nat.mod_eq_of_lt (by omega)]
    exact int64_of_bits_neg m (by omega) (by omega)

theorem spec_zigzag_encode_lt (x : Int) (w : Nat) (h1 : -2 ^ w ≤ x) (h2 : x < 2 ^ w) :
    spec_zigzag_encode x < 2 ^ (w + 1) := by
  unfold spec_zigzag_encode
  have hp : (2 : Int) ^ (w + 1) = 2 * 2 ^ w := by ring
  have hq : ((2 ^ (w + 1) : Nat) : Int) = 2 ^ (w + 1) := by push_cast; ring
  split_ifs <;> zify <;> rw [Int.toNat_of_nonneg (by omega)] <;> omega

theorem read_var_sint32_encode (x : Int) (rest : List Nat)
    (h1 : -2 ^ 31 < x) (h2 : x < 2 ^ 31) :
    read_var READOSM_VAR_SINT32 (spec_encode_varint (spec_zigzag_encode x) ++ rest) =
      some (x, rest) := by
  have hu : spec_zigzag_encode x < 2 ^ 32 := spec_zigzag_encode_lt x 31 (by omega) h2
  obtain ⟨bs, last, henc, hbs, hlast, hlen, hsum⟩ :=
    spec_base128_encode_shape 9 4 (spec_zigzag_encode x) (by norm_num) (by norm_num; omega)
  rw [spec_encode_varint, henc, List.append_assoc, List.singleton_append, read_var,
    read_var_loop_32 (Or.inr (Or.inr rfl)) bs last rest 0 0 0 hbs hlast (by omega)
      (by norm_num), hsum]
  simp only [Nat.mul_zero, pow_zero, Nat.one_mul, Nat.zero_add, Nat.mod_eq_of_lt hu,
    read_var_value_sint32_encode x 0 h1 h2]

theorem read_var_sint64_encode (x : Int) (rest : List Nat)
    (h1 : -2 ^ 63 < x) (h2 : x < 2 ^ 63) :
    read_var READOSM_VAR_SINT64 (spec_encode_varint (spec_zigzag_encode x) ++ rest) =
      some (x, rest) := by
  have hu : spec_zigzag_encode x < 2 ^ 64 := spec_zigzag_encode_lt x 63 (by omega) h2
  obtain ⟨bs, last, henc, hbs, hlast, hlen, hsum⟩ :=
    spec_base128_encode_shape 9 9 (spec_zigzag_encode x) (by norm_num) (by norm_num; omega)
  rw [spec_encode_varint, henc, List.append_assoc, List.singleton_append, read_var,
    read_var_loop_64 (Or.inr (Or.inr rfl)) bs last rest 0 0 0 hbs hlast (by omega)
      (by norm_num), hsum]
  simp only [Nat.mul_zero, pow_zero, Nat.one_mul, Nat.zero_add, Nat.mod_eq_of_lt hu,
    read_var_value_sint64_encode x 0 h1 h2]

theorem spec_encode_packed_cons (ys : List Nat) (hne : ys ≠ []) :
    ∃ b bs, spec_encode_packed ys = b :: bs := by
  rcases ys with _ | ⟨y, ys⟩
  · exact absurd rfl hne
  · have h1 : ∃ b bs, spec_encode_varint y = b :: bs := by
      unfold spec_encode_varint spec_base128_encode
      split_ifs <;> exact ⟨_, _, rfl⟩
    obtain ⟨b, bs, hb⟩ := h1
    exact ⟨b, bs ++ spec_encode_packed ys, by simp [spec_encode_packed, hb]⟩

theorem parse_packed_loop_signed_encode (ty : VarType) (ok : Int → Prop)
    (hdec : ∀ x rest, ok x →
      read_var ty (spec_encode_varint (spec_zigzag_encode x) ++ rest) = some (x, rest)) :
    ∀ (xs : List Int) (fuel : Nat) (packed : List Int) (valid : Bool),
      xs ≠ [] → xs.length ≤ fuel → (∀ x ∈ xs, ok x) →
      parse_packed_loop ty fuel packed valid (spec_encode_packed (xs.map spec_zigzag_encode)) =
        .ok (packed ++ xs) := by
  intro xs
  induction xs with
  | nil => intro _ _ _ h; exact absurd rfl h
  | cons x xs ih =>
    intro fuel packed valid _ hfuel hall
    obtain ⟨fuel, rfl⟩ : ∃ k, fuel = k + 1 := ⟨fuel - 1, by simp at hfuel; omega⟩
    simp only [List.map_cons, spec_encode_packed, parse_packed_loop,
      hdec x _ (hall x (List.mem_cons_self _ _))]
    rcases xs with _ | ⟨y, ys⟩
    · simp [spec_encode_packed]
    · obtain ⟨b, bs, hb⟩ := spec_encode_packed_cons ((y :: ys).map spec_zigzag_encode) (by simp)
      rw [hb]
      simp only
      rw [← hb, ih fuel (packed ++ [x]) true (by simp) (by simp at hfuel ⊢; omega)
        (fun z hz => hall z (List.mem_cons_of_mem _ hz))]
      simp

theorem parse_sint_packed_encode (xs : List Int) (hne : xs ≠ []) :
    ((∀ x ∈ xs, -2 ^ 31 < x ∧ x < 2 ^ 31) →
      parse_sint32_packed init_packed (spec_encode_packed (xs.map spec_zigzag_encode)) =
        .ok { init_packed with first := xs }) ∧
    ((∀ x ∈ xs, -2 ^ 63 < x ∧ x < 2 ^ 63) →
      parse_sint64_packed init_packed (spec_encode_packed (xs.map spec_zigzag_encode)) =
        .ok { init_packed with first := xs }) := by
  have hl := spec_encode_packed_length (xs.map spec_zigzag_encode)
  rw [List.length_map] at hl
  constructor
  · intro hall
    rw [parse_sint32_packed, parse_packed_loop_signed_encode READOSM_VAR_SINT32
      (fun x => -2 ^ 31 < x ∧ x < 2 ^ 31)
      (fun x rest hx => read_var_sint32_encode x rest hx.1 hx.2) xs _ _ _ hne (by omega) hall]
    simp [Outcome.bind, init_packed]
  · intro hall
    rw [parse_sint64_packed, parse_packed_loop_signed_encode READOSM_VAR_SINT64
      (fun x => -2 ^ 63 < x ∧ x < 2 ^ 63)
      (fun x rest hx => read_var_sint64_encode x rest hx.1 hx.2) xs _ _ _ hne (by omega) hall]
    simp [Outcome.bind, init_packed]

/-- Claim C17, evaluated where it fails. The one-element sequences holding the least
32-bit integer and the least 64-bit integer, ZigZag-encoded as `FF FF FF FF 0F` and
`FF FF FF FF FF FF FF FF FF 01`, are decoded by `parse_sint32_packed` and
`parse_sint64_packed` successfully, but the appended sequence is `[0]`, not the value
that was encoded. -/
theorem parse_sint_packed_min_decodes_to_zero :
    spec_encode_packed [spec_zigzag_encode (-2147483648)] = [0xFF, 0xFF, 0xFF, 0xFF, 0x0F] ∧
    parse_sint32_packed init_packed (spec_encode_packed [spec_zigzag_encode (-2147483648)]) =
      .ok { init_packed with first := [0] } ∧
    spec_encode_packed [spec_zigzag_encode (-9223372036854775808)] =
      [0xFF, 0xFF, 0xFF, 0xFF, 0xFF, 0xFF, 0xFF, 0xFF, 0xFF, 0x01] ∧
    parse_sint64_packed init_packed
        (spec_encode_packed [spec_zigzag_encode (-9223372036854775808)]) =
      .ok { init_packed with first := [0] } ∧
    parse_sint32_packed init_packed (spec_encode_packed [spec_zigzag_encode (-2147483647),
        spec_zigzag_encode 5]) = .ok { init_packed with first := [-2147483647, 5] } := by
  decide

/-- Claim C18, evaluated where it fails. On the payload `01 80`, a complete value
followed by a partial varint, none of the three packed parsers returns failure: the
flag `valid` of the local variant is still set from the first value when `read_var`
returns `NULL`, so the stale value is appended a second time and the `NULL` result
becomes the next start position, which `read_var` dereferences.  On the payload `80`,
with no complete value before the partial one, failure is returned. -/
theorem parse_packed_trailing_partial_faults :
    parse_uint32_packed init_packed [0x01, 0x80] = .fault ∧
    parse_sint32_packed init_packed [0x01, 0x80] = .fault ∧
    parse_sint64_packed init_packed [0x01, 0x80] = .fault ∧
    parse_uint32_packed init_packed [0x01, 0xFF, 0xFF, 0xFF, 0xFF, 0xFF, 0x01] = .fault ∧
    parse_uint32_packed init_packed [0x80] = .error ∧
    parse_sint32_packed init_packed [0x80] = .error ∧
    parse_sint64_packed init_packed [0x80] = .error := by
  decide

/-! ## Messages of fields -/

theorem read_var_int32_encode (x : Nat) (rest : List Nat) (hx : x < 2 ^ 32) :
    read_var READOSM_VAR_INT32 (spec_encode_varint x ++ rest) =
      some (int32_of_bits x, rest) := by
  obtain ⟨bs, last, henc, hbs, hlast, hlen, hsum⟩ :=
    spec_base128_encode_shape 9 4 x (by norm_num) (by norm_num; omega)
  rw [spec_encode_varint, henc, List.append_assoc, List.singleton_append, read_var,
    read_var_loop_32 (Or.inl rfl) bs last rest 0 0 0 hbs hlast (by omega)
      (by norm_num), hsum]
  simp only [read_var_value, Nat.mul_zero, pow_zero, Nat.one_mul, Nat.zero_add,
    Nat.mod_eq_of_lt hx]

theorem read_var_int64_encode (x : Nat) (rest : List Nat) (hx : x < 2 ^ 64) :
    read_var READOSM_VAR_INT64 (spec_encode_varint x ++ rest) =
      some (int32_of_bits x, rest) := by
  obtain ⟨bs, last, henc, hbs, hlast, hlen, hsum⟩ :=
    spec_base128_encode_shape 9 9 x (by norm_num) (by norm_num; omega)
  rw [spec_encode_varint, henc, List.append_assoc, List.singleton_append, read_var,
    read_var_loop_64 (Or.inl rfl) bs last rest 0 0 0 hbs hlast (by omega)
      (by norm_num), hsum]
  simp only [read_var_value, Nat.mul_zero, pow_zero, Nat.one_mul, Nat.zero_add,
    Nat.mod_eq_of_lt hx]

theorem varint_tag_byte_fields (id : Nat) (hid : id < 32) :
    (id * 8) &&& 0x07 = 0 ∧ ((id * 8) &&& 0xf8) >>> 3 = id := by
  rw [tag_byte_wire_type, tag_byte_field_id, spec_wire_type, spec_field_id]
  omega

theorem parse_field_spec (v : readosm_variant) (f : spec_field) (rest : List Nat)
    (hf : spec_field_ok v.hints f) :
    parse_field (f.encode ++ rest) (reset_variant v) = (some rest, spec_field_variant v f) := by
  cases f with
  | varint id raw =>
    obtain ⟨hid, h⟩ := hf
    obtain ⟨h1, h2⟩ := varint_tag_byte_fields id hid
    rcases h with ⟨hh, hr⟩ | ⟨hh, hr⟩
    · simp only [spec_field.encode, List.cons_append, parse_field, h1, h2, find_type_hint,
        reset_variant, hh, read_var_int32_encode raw rest hr, spec_field_variant, Option.getD]
    · simp only [spec_field.encode, List.cons_append, parse_field, h1, h2, find_type_hint,
        reset_variant, hh, read_var_int64_encode raw rest hr, spec_field_variant, Option.getD]
  | bytes id p =>
    obtain ⟨hid, hlen, hh⟩ := hf
    rw [spec_field.encode, parse_field_encoded (reset_variant v) id p rest hid hlen
      (by simpa [find_type_hint, reset_variant] using hh)]
    rfl

theorem spec_field_encode_cons (f : spec_field) :
    ∃ b bs, f.encode = b :: bs := by
  cases f with
  | varint id raw => exact ⟨_, _, rfl⟩
  | bytes id p => exact ⟨_, _, rfl⟩

theorem spec_encode_message_length (fs : List spec_field) :
    fs.length ≤ (spec_encode_message fs).length := by
  induction fs with
  | nil => simp [spec_encode_message]
  | cons f fs ih =>
    obtain ⟨b, bs, hb⟩ := spec_field_encode_cons f
    simp only [spec_encode_message, hb, List.length_append, List.length_cons]
    omega

theorem spec_field_variant_hints (v : readosm_variant) (f : spec_field) :
    (spec_field_variant v f).hints = v.hints := by
  cases f <;> rfl

theorem field_loop_encoded {S : Type} (handler : S → readosm_variant → Outcome S) :
    ∀ (fs : List spec_field) (fuel : Nat) (s : S) (v : readosm_variant),
      fs ≠ [] → fs.length ≤ fuel → (∀ f ∈ fs, spec_field_ok v.hints f) →
      field_loop handler fuel s v (spec_encode_message fs) = spec_fold handler s v fs := by
  intro fs
  induction fs with
  | nil => intro _ _ _ h; exact absurd rfl h
  | cons f fs ih =>
    intro fuel s v _ hfuel hall
    obtain ⟨fuel, rfl⟩ : ∃ k, fuel = k + 1 := ⟨fuel - 1, by simp at hfuel; omega⟩
    have hpf := parse_field_spec v f (spec_encode_message fs) (hall f (List.mem_cons_self _ _))
    simp only [spec_encode_message, field_loop, hpf, spec_fold]
    cases hs : handler s (spec_field_variant v f) with
    | ok s2 =>
      simp only [Outcome.bind]
      rcases fs with _ | ⟨g, gs⟩
      · simp [spec_encode_message, spec_fold]
      · obtain ⟨b, bs, hb⟩ := spec_field_encode_cons g
        have hne : spec_encode_message (g :: gs) = b :: (bs ++ spec_encode_message gs) := by
          simp [spec_encode_message, hb]
        rw [hne]
        simp only
        rw [← hne]
        exact ih fuel s2 (spec_field_variant v f) (by simp)
          (by simp at hfuel ⊢; omega)
          (fun g2 hg => by
            rw [spec_field_variant_hints]
            exact hall g2 (List.mem_cons_of_mem _ hg))
    | error => rfl
    | fault => rfl
    | fuel => rfl

/-! ## Ways: the fields -/

theorem info_user_ok (strings : readosm_string_table)
    (hst : strings.count ≤ strings.strings.length) (userid : Int) :
    ∃ user, info_user strings userid = .ok user := by
  unfold info_user
  split_ifs with h
  · have hlt : userid.toNat < strings.strings.length := by omega
    simp only [string_at, if_pos (by omega : 0 ≤ userid), List.get?_eq_getElem?,
      List.getElem?_eq_getElem hlt]
    exact ⟨_, rfl⟩
  · exact ⟨_, rfl⟩

theorem spec_info_field_readable (g : spec_field) (hg : spec_info_field_ok g) :
    spec_field_ok info_variant.hints g := by
  cases g with
  | varint id raw =>
    rcases hg with ⟨rfl, hr⟩ | ⟨rfl | rfl | rfl | rfl | rfl, hr⟩
    · exact ⟨by norm_num, Or.inr ⟨by decide, hr⟩⟩
    all_goals exact ⟨by norm_num, Or.inl ⟨by decide, hr⟩⟩
  | bytes fid p => exact hg.elim

theorem way_info_fold (strings : readosm_string_table)
    (hst : strings.count ≤ strings.strings.length) :
    ∀ (info : List spec_field) (w : readosm_internal_way) (v : readosm_variant),
      v.hints = info_variant.hints → (∀ g ∈ info, spec_info_field_ok g) →
      ∃ w2, spec_fold (way_info_field strings) w v info = .ok w2 ∧
        w2.refs = w.refs ∧ w2.tags = w.tags ∧ w2.id = w.id := by
  intro info
  induction info with
  | nil => intro w v _ _; exact ⟨w, rfl, rfl, rfl, rfl⟩
  | cons g info ih =>
    intro w v hv hall
    have hg := hall g (List.mem_cons_self _ _)
    have hstep : ∃ w1, way_info_field strings w (spec_field_variant v g) = .ok w1 ∧
        w1.refs = w.refs ∧ w1.tags = w.tags ∧ w1.id = w.id := by
      cases g with
      | bytes fid p => exact hg.elim
      | varint fid raw =>
        have h1 : (find_type_hint_loop 1 0 info_variant.hints).getD READOSM_VAR_UNDEFINED =
            READOSM_VAR_INT32 := by decide
        have h2 : (find_type_hint_loop 2 0 info_variant.hints).getD READOSM_VAR_UNDEFINED =
            READOSM_VAR_INT32 := by decide
        have h3 : (find_type_hint_loop 3 0 info_variant.hints).getD READOSM_VAR_UNDEFINED =
            READOSM_VAR_INT64 := by decide
        have h4 : (find_type_hint_loop 4 0 info_variant.hints).getD READOSM_VAR_UNDEFINED =
            READOSM_VAR_INT32 := by decide
        have h5 : (find_type_hint_loop 5 0 info_variant.hints).getD READOSM_VAR_UNDEFINED =
            READOSM_VAR_INT32 := by decide
        have h6 : (find_type_hint_loop 6 0 info_variant.hints).getD READOSM_VAR_UNDEFINED =
            READOSM_VAR_INT32 := by decide
        rcases hg with ⟨rfl, hr⟩ | ⟨rfl | rfl | rfl | rfl | rfl, hr⟩
        · refine ⟨{ w with changeset := int32_of_bits raw }, ?_, rfl, rfl, rfl⟩
          simp [way_info_field, spec_field_variant, hv, h3]
        · refine ⟨{ w with version := int32_of_bits raw }, ?_, rfl, rfl, rfl⟩
          simp [way_info_field, spec_field_variant, hv, h1]
        · refine ⟨{ w with timestamp := some (int32_of_bits raw) }, ?_, rfl, rfl, rfl⟩
          simp [way_info_field, spec_field_variant, hv, h2]
        · refine ⟨{ w with uid := int32_of_bits raw }, ?_, rfl, rfl, rfl⟩
          simp [way_info_field, spec_field_variant, hv, h4]
        · obtain ⟨user, hu⟩ := info_user_ok strings hst (int32_of_bits raw)
          refine ⟨{ w with user := user }, ?_, rfl, rfl, rfl⟩
          simp [way_info_field, spec_field_variant, hv, h5, hu, Outcome.bind]
        · refine ⟨w, ?_, rfl, rfl, rfl⟩
          simp [way_info_field, spec_field_variant, hv, h6]
    obtain ⟨w1, h1, a1, b1, c1⟩ := hstep
    obtain ⟨w2, h2, a2, b2, c2⟩ := ih w1 (spec_field_variant v g)
      (by rw [spec_field_variant_hints, hv]) (fun g2 hg2 => hall g2 (List.mem_cons_of_mem _ hg2))
    exact ⟨w2, by simp only [spec_fold, h1, Outcome.bind, h2], a2.trans a1, b2.trans b1,
      c2.trans c1⟩

theorem parse_pbf_way_info_spec (strings : readosm_string_table)
    (hst : strings.count ≤ strings.strings.length) (w : readosm_internal_way)
    (payload : List Nat) (hp : spec_info_payload payload) :
    ∃ w2, parse_pbf_way_info w strings payload = .ok w2 ∧
      w2.refs = w.refs ∧ w2.tags = w.tags ∧ w2.id = w.id := by
  obtain ⟨info, hne, hall, rfl⟩ := hp
  have hl := spec_encode_message_length info
  rw [parse_pbf_way_info, field_loop_encoded _ info _ w info_variant hne (by omega)
    (fun g hg => spec_info_field_readable g (hall g hg))]
  exact way_info_fold strings hst info w info_variant rfl hall

theorem spec_way_field_readable (ks vs ds : List Int) (f : spec_field)
    (hf : spec_way_field_ok ks vs ds f) : spec_field_ok way_variant.hints f := by
  cases f with
  | varint fid raw =>
    obtain ⟨rfl, hr⟩ := hf
    exact ⟨by norm_num, Or.inr ⟨by decide, hr⟩⟩
  | bytes fid p =>
    obtain ⟨hlen, h⟩ := hf
    rcases h with ⟨rfl, _⟩ | ⟨rfl, _⟩ | ⟨rfl, _⟩ | ⟨rfl, _⟩ <;>
      exact ⟨by norm_num, hlen, by decide⟩

theorem array_from_uint32_packed_init (l : List Int) :
    array_from_uint32_packed { init_packed with first := l } =
      { first := l, count := l.length, values := l } := by
  cases l <;> simp [array_from_uint32_packed, init_packed]

theorem array_from_int64_packed_init (l : List Int) :
    array_from_int64_packed { init_packed with first := l } =
      { first := l, count := l.length, values := l } := by
  cases l <;> simp [array_from_int64_packed, init_packed]

theorem append_way_refs_spec (l : List Int) :
    ∀ w : readosm_internal_way,
      (append_way_refs w l).refs = w.refs ++ delta_int64 0 l ∧
      (append_way_refs w l).tags = w.tags := by
  have key : ∀ (m : List Int) (w : readosm_internal_way),
      (m.foldl append_reference_to_way w).refs = w.refs ++ m ∧
      (m.foldl append_reference_to_way w).tags = w.tags := by
    intro m
    induction m with
    | nil => intro w; simp
    | cons a m ih =>
      intro w
      obtain ⟨h1, h2⟩ := ih (append_reference_to_way w a)
      rw [List.foldl_cons, h1, h2]
      simp [append_reference_to_way]
  intro w
  exact key _ w

theorem way_field_step (strings : readosm_string_table)
    (hst : strings.count ≤ strings.strings.length) (ks vs ds : List Int) (f : spec_field)
    (st : way_state) (v : readosm_variant) (hv : v.hints = way_variant.hints)
    (hf : spec_way_field_ok ks vs ds f)
    (h2 : f.field_id = 2 → st.packed_keys = init_packed)
    (h3 : f.field_id = 3 → st.packed_values = init_packed)
    (h8 : f.field_id = 8 → st.packed_refs = init_packed) :
    ∃ st1, way_field strings st (spec_field_variant v f) = .ok st1 ∧
      (f.field_id = 2 → st1.packed_keys = { first := ks, count := ks.length, values := ks }) ∧
      (f.field_id ≠ 2 → st1.packed_keys = st.packed_keys) ∧
      (f.field_id = 3 → st1.packed_values = { first := vs, count := vs.length, values := vs }) ∧
      (f.field_id ≠ 3 → st1.packed_values = st.packed_values) ∧
      (f.field_id = 8 → st1.way.refs = st.way.refs ++ delta_int64 0 ds) ∧
      (f.field_id ≠ 8 → st1.way.refs = st.way.refs ∧ st1.packed_refs = st.packed_refs) ∧
      st1.way.tags = st.way.tags := by
  cases f with
  | varint fid raw =>
    obtain ⟨rfl, hr⟩ := hf
    have ht : (find_type_hint_loop 1 0 way_variant.hints).getD READOSM_VAR_UNDEFINED =
        READOSM_VAR_INT64 := by decide
    refine ⟨{ st with way := { st.way with id := int32_of_bits raw } }, ?_, ?_, ?_, ?_, ?_, ?_,
      ?_, ?_⟩ <;> simp [way_field, spec_field_variant, hv, ht, spec_field.field_id]
  | bytes fid p =>
    obtain ⟨hlen, h⟩ := hf
    rcases h with ⟨rfl, hp⟩ | ⟨rfl, hp⟩ | ⟨rfl, hp⟩ | ⟨rfl, hp⟩
    · refine ⟨{ st with packed_keys := { first := ks, count := ks.length, values := ks } },
        ?_, ?_, ?_, ?_, ?_, ?_, ?_, ?_⟩ <;>
        simp [way_field, spec_field_variant, spec_field.field_id, h2 rfl, hp, Outcome.bind,
          array_from_uint32_packed_init]
    · refine ⟨{ st with packed_values := { first := vs, count := vs.length, values := vs } },
        ?_, ?_, ?_, ?_, ?_, ?_, ?_, ?_⟩ <;>
        simp [way_field, spec_field_variant, spec_field.field_id, h3 rfl, hp, Outcome.bind,
          array_from_uint32_packed_init]
    · obtain ⟨w2, hw, a, b, c⟩ := parse_pbf_way_info_spec strings hst st.way p hp
      refine ⟨{ st with way := w2 }, ?_, ?_, ?_, ?_, ?_, ?_, ?_, ?_⟩ <;>
        simp [way_field, spec_field_variant, spec_field.field_id, hw, Outcome.bind, a, b]
    · obtain ⟨a, b⟩ := append_way_refs_spec ds st.way
      refine ⟨{ st with packed_refs := { init_packed with first := ds },
                        way := append_way_refs st.way ds },
        ?_, ?_, ?_, ?_, ?_, ?_, ?_, ?_⟩ <;>
        simp [way_field, spec_field_variant, spec_field.field_id, h8 rfl, hp, Outcome.bind, a, b]

theorem way_fold_spec (strings : readosm_string_table)
    (hst : strings.count ≤ strings.strings.length) (ks vs ds : List Int) :
    ∀ (fs : List spec_field) (st : way_state) (v : readosm_variant),
      v.hints = way_variant.hints → (spec_field_ids fs).Nodup →
      (∀ f ∈ fs, spec_way_field_ok ks vs ds f) →
      (2 ∈ spec_field_ids fs → st.packed_keys = init_packed) →
      (3 ∈ spec_field_ids fs → st.packed_values = init_packed) →
      (8 ∈ spec_field_ids fs → st.packed_refs = init_packed) →
      ∃ st2, spec_fold (way_field strings) st v fs = .ok st2 ∧
        (2 ∈ spec_field_ids fs →
          st2.packed_keys = { first := ks, count := ks.length, values := ks }) ∧
        (2 ∉ spec_field_ids fs → st2.packed_keys = st.packed_keys) ∧
        (3 ∈ spec_field_ids fs →
          st2.packed_values = { first := vs, count := vs.length, values := vs }) ∧
        (3 ∉ spec_field_ids fs → st2.packed_values = st.packed_values) ∧
        (8 ∈ spec_field_ids fs → st2.way.refs = st.way.refs ++ delta_int64 0 ds) ∧
        (8 ∉ spec_field_ids fs → st2.way.refs = st.way.refs ∧ st2.packed_refs = st.packed_refs) ∧
        st2.way.tags = st.way.tags := by
  intro fs
  induction fs with
  | nil =>
    intro st v _ _ _ _ _ _
    exact ⟨st, rfl, by simp [spec_field_ids], by simp, by simp [spec_field_ids], by simp,
      by simp [spec_field_ids], by simp, rfl⟩
  | cons f fs ih =>
    intro st v hv hnd hall i2 i3 i8
    have hids : spec_field_ids (f :: fs) = f.field_id :: spec_field_ids fs := rfl
    rw [hids] at hnd i2 i3 i8 ⊢
    obtain ⟨hnot, hnd2⟩ := List.nodup_cons.1 hnd
    obtain ⟨st1, e1, k1, k1n, v1, v1n, r1, r1n, t1⟩ :=
      way_field_step strings hst ks vs ds f st v hv (hall f (List.mem_cons_self _ _))
        (fun h => i2 (by simp [h])) (fun h => i3 (by simp [h])) (fun h => i8 (by simp [h]))
    have hne : ∀ k : Nat, k ∈ spec_field_ids fs → f.field_id ≠ k := by
      intro k hk h
      exact hnot (h ▸ hk)
    obtain ⟨st2, e2, k2, k2n, v2, v2n, r2, r2n, t2⟩ :=
      ih st1 (spec_field_variant v f) (by rw [spec_field_variant_hints, hv]) hnd2
        (fun g hg => hall g (List.mem_cons_of_mem _ hg))
        (fun h => (k1n (hne 2 h)).trans (i2 (List.mem_cons_of_mem _ h)))
        (fun h => (v1n (hne 3 h)).trans (i3 (List.mem_cons_of_mem _ h)))
        (fun h => ((r1n (hne 8 h)).2).trans (i8 (List.mem_cons_of_mem _ h)))
    refine ⟨st2, by simp only [spec_fold, e1, Outcome.bind, e2], ?_, ?_, ?_, ?_, ?_, ?_,
      t2.trans t1⟩
    · intro h
      rcases List.mem_cons.1 h with h | h
      · exact (k2n (fun hin => hnot (h ▸ hin))).trans (k1 h.symm)
      · exact k2 h
    · intro h
      have ha : f.field_id ≠ 2 := fun e => h (by simp [e])
      have hb : 2 ∉ spec_field_ids fs := fun e => h (List.mem_cons_of_mem _ e)
      exact (k2n hb).trans (k1n ha)
    · intro h
      rcases List.mem_cons.1 h with h | h
      · exact (v2n (fun hin => hnot (h ▸ hin))).trans (v1 h.symm)
      · exact v2 h
    · intro h
      have ha : f.field_id ≠ 3 := fun e => h (by simp [e])
      have hb : 3 ∉ spec_field_ids fs := fun e => h (List.mem_cons_of_mem _ e)
      exact (v2n hb).trans (v1n ha)
    · intro h
      rcases List.mem_cons.1 h with h | h
      · exact ((r2n (fun hin => hnot (h ▸ hin))).1).trans (r1 h.symm)
      · rw [r2 h, (r1n (hne 8 h)).1]
    · intro h
      have ha : f.field_id ≠ 8 := fun e => h (by simp [e])
      have hb : 8 ∉ spec_field_ids fs := fun e => h (List.mem_cons_of_mem _ e)
      exact ⟨((r2n hb).1).trans (r1n ha).1, ((r2n hb).2).trans (r1n ha).2⟩

theorem parse_pbf_way_fields_spec (strings : readosm_string_table)
    (hst : strings.count ≤ strings.strings.length) (ks vs ds : List Int)
    (fs : List spec_field) (hmsg : spec_way_message ks vs ds fs) :
    ∃ st, parse_pbf_way_fields strings (spec_encode_message fs) = .ok st ∧
      st.packed_keys = { first := ks, count := ks.length, values := ks } ∧
      st.packed_values = { first := vs, count := vs.length, values := vs } ∧
      st.way.refs = delta_int64 0 ds ∧ st.way.tags = [] := by
  obtain ⟨hne, hnd, hall, hk, hv, hd⟩ := hmsg
  have hl := spec_encode_message_length fs
  obtain ⟨st, e, k, kn, v, vn, r, rn, t⟩ :=
    way_fold_spec strings hst ks vs ds fs init_way_state way_variant rfl hnd hall
      (fun _ => rfl) (fun _ => rfl) (fun _ => rfl)
  refine ⟨st, ?_, ?_, ?_, ?_, t⟩
  · rw [parse_pbf_way_fields, field_loop_encoded _ fs _ _ way_variant hne (by omega)
      (fun f hf => spec_way_field_readable ks vs ds f (hall f hf))]
    exact e
  · by_cases h : 2 ∈ spec_field_ids fs
    · exact k h
    · rw [kn h, hk h]; rfl
  · by_cases h : 3 ∈ spec_field_ids fs
    · exact v h
    · rw [vn h, hv h]; rfl
  · by_cases h : 8 ∈ spec_field_ids fs
    · rw [r h]; rfl
    · rw [(rn h).1, hd h]; rfl

/-! ## C11: the refs and tags of a way -/

theorem string_at_index (strings : readosm_string_table) (k : Int)
    (hlen : strings.strings.length < 2 ^ 31) (hk : 0 ≤ k ∧ k < strings.strings.length) :
    string_at strings (int32_of_bits k.toNat) = some (table_buffer strings k) := by
  obtain ⟨h0, h1⟩ := hk
  have hk2 : k.toNat < strings.strings.length := by omega
  have hconv : int32_of_bits k.toNat = k := by
    unfold int32_of_bits
    have : k.toNat % 2 ^ 32 = k.toNat := Nat.mod_eq_of_lt (by omega)
    rw [this, if_pos (by omega)]
    omega
  rw [hconv]
  unfold string_at table_buffer
  rw [if_pos h0, List.getD_eq_getElem?_getD, List.get?_eq_getElem?,
    List.getElem?_eq_getElem hk2]
  rfl

theorem way_tags_loop_spec (strings : readosm_string_table) (keys values : readosm_packed)
    (hlen : strings.strings.length < 2 ^ 31) :
    ∀ (lk lv : List Int) (i : Nat) (way : readosm_internal_way),
      keys.values.drop i = lk → values.values.drop i = lv → lk.length = lv.length →
      spec_indices_ok strings lk → spec_indices_ok strings lv →
      way_tags_loop strings keys values lk.length i way =
        .ok { way with
              tags := way.tags ++ (List.zip lk lv).map fun kv =>
                { key := some (spec_string strings kv.1),
                  value := some (spec_string strings kv.2) } } := by
  intro lk
  induction lk with
  | nil =>
    intro lv i way _ _ _ _ _
    simp [way_tags_loop]
  | cons k lk ih =>
    intro lv i way hk hv hl hik hiv
    rcases lv with _ | ⟨x, lv⟩
    · simp at hl
    have hgk : keys.values[i]? = some k := by
      have := congrArg List.head? hk
      simpa [List.head?_drop] using this
    have hgv : values.values[i]? = some x := by
      have := congrArg List.head? hv
      simpa [List.head?_drop] using this
    have hdk : keys.values.drop (i + 1) = lk := by
      have := congrArg List.tail hk
      simpa [List.tail_drop] using this
    have hdv : values.values.drop (i + 1) = lv := by
      have := congrArg List.tail hv
      simpa [List.tail_drop] using this
    have hsk := string_at_index strings k hlen (hik k (List.mem_cons_self _ _))
    have hsv := string_at_index strings x hlen (hiv x (List.mem_cons_self _ _))
    have hrec := ih lv (i + 1) (append_tag_to_way way (table_buffer strings k)
      (table_buffer strings x)) hdk hdv (by simpa using hl)
      (fun a ha => hik a (List.mem_cons_of_mem _ ha))
      (fun a ha => hiv a (List.mem_cons_of_mem _ ha))
    simp only [List.length_cons, way_tags_loop, List.get?_eq_getElem?, hgk, hgv, hsk, hsv, hrec]
    simp [append_tag_to_way, spec_string, table_buffer]

theorem parse_pbf_way_entity_spec (strings : readosm_string_table) (ks vs ds : List Int)
    (fs : List spec_field) (hmsg : spec_way_message ks vs ds fs)
    (hlen : ks.length = vs.length) (htab : spec_table_ok strings)
    (hks : spec_indices_ok strings ks) (hvs : spec_indices_ok strings vs) :
    ∃ way, parse_pbf_way_entity strings (spec_encode_message fs) = .ok way ∧
      way.refs = delta_int64 0 ds ∧
      way.tags = (List.zip ks vs).map fun kv =>
        { key := some (spec_string strings kv.1), value := some (spec_string strings kv.2) } := by
  obtain ⟨st, e, k, v, r, t⟩ := parse_pbf_way_fields_spec strings htab.1 ks vs ds fs hmsg
  have hloop := way_tags_loop_spec strings st.packed_keys st.packed_values htab.2 ks vs 0 st.way
    (by rw [k]; rfl) (by rw [v]; rfl) hlen hks hvs
  refine ⟨{ st.way with
            tags := st.way.tags ++ (List.zip ks vs).map fun kv =>
              { key := some (spec_string strings kv.1),
                value := some (spec_string strings kv.2) } }, ?_, r, ?_⟩
  · have hc : st.packed_keys.count = ks.length := by rw [k]
    have hc2 : st.packed_values.count = vs.length := by rw [v]
    simp only [parse_pbf_way_entity, e, Outcome.bind, hc, hc2, hlen, if_true]
    rw [← hlen]
    exact hloop
  · simp [t]

theorem export_zip_tags (strings : readosm_string_table) (ks vs : List Int) :
    ((List.zip ks vs).map fun kv =>
      ({ key := some (spec_string strings kv.1),
         value := some (spec_string strings kv.2) } : readosm_internal_tag)).map
      (fun tag => ({ key := tag.key.map c_string,
                     value := tag.value.map c_string } : readosm_export_tag)) =
    spec_zip_tags strings ks vs := by
  simp [spec_zip_tags, spec_string, c_string_idem]

/-- Claim C11. For every Way message in which no field id occurs twice (so with a
single refs field), whose keys, values and refs payloads decode to `ks`, `vs` and `ds`
with `ks` and `vs` of one length and all indices inside the string table,
`parse_pbf_way` calls the way callback once, on a view whose node references are the
running sums `d_0, d_0 + d_1, ...` of `ds` (in 64-bit arithmetic) in that order and
whose tags are `(st[k_i], st[v_i])` in that order, the keys and values being used as
they are.  With keys `[1, 3]`, values `[2, 4]`, ref deltas `[100, 1, 2]` and the
string table `"", "highway", "residential", "name", "Main"` the view has the node
references `[100, 101, 103]` and the tags `(highway, residential)`, `(name, Main)`. -/
theorem parse_pbf_way_refs_and_tags {σ : Type} (strings : readosm_string_table)
    (fs : List spec_field) (ks vs ds : List Int) (params : pbf_params σ)
    (cb : σ → readosm_export_way → Int × σ)
    (hmsg : spec_way_message ks vs ds fs) (hlen : ks.length = vs.length)
    (htab : spec_table_ok strings)
    (hks : spec_indices_ok strings ks) (hvs : spec_indices_ok strings vs)
    (hcb : params.way_callback = some cb) (hstop : params.stop = 0) :
    (∃ way : readosm_export_way,
      (parse_pbf_way strings (spec_encode_message fs) params).map (fun p => p.user_data) =
        .ok (cb params.user_data way).2 ∧
      way.node_ref_count = ds.length ∧
      way.node_refs = (List.range ds.length).map (spec_sum64 ds) ∧
      way.tag_count = ks.length ∧
      way.tags = spec_zip_tags strings ks vs) ∧
    (parse_pbf_way s4_strings (spec_encode_message s4_way) record_way_params).map
        (fun p => p.user_data) =
      .ok [{ id := 42, version := 1, changeset := 7, user := none, uid := 0, timestamp := none,
             node_ref_count := 3, node_refs := [100, 101, 103], tag_count := 2,
             tags := [{ key := some [104, 105, 103, 104, 119, 97, 121],
                        value := some [114, 101, 115, 105, 100, 101, 110, 116, 105, 97, 108] },
                      { key := some [110, 97, 109, 101], value := some [77, 97, 105, 110] }] }] := by
  refine ⟨?_, by decide⟩
  obtain ⟨way, e, r, t⟩ := parse_pbf_way_entity_spec strings ks vs ds fs hmsg hlen htab hks hvs
  refine ⟨export_way way, ?_, ?_, ?_, ?_, ?_⟩
  · simp only [parse_pbf_way, e, Outcome.bind, Outcome.map, dispatch_way, hcb, hstop,
      call_way_callback, if_true]
    split_ifs <;> rfl
  · simp [export_way, r, delta_int64_zero]
  · simp [export_way, r, delta_int64_zero]
  · simp [export_way, t, hlen]
  · simp only [export_way, t]
    exact export_zip_tags strings ks vs

theorem s4_way_message : spec_way_message [1, 3] [2, 4] [100, 1, 2] s4_way := by
  refine ⟨by decide, by decide, ?_, by decide, by decide, by decide⟩
  intro f hf
  simp only [s4_way, List.mem_cons, List.mem_singleton, List.not_mem_nil, or_false] at hf
  rcases hf with rfl | rfl | rfl | rfl | rfl
  · exact ⟨rfl, by norm_num⟩
  · exact ⟨by decide, Or.inl ⟨rfl, by decide⟩⟩
  · exact ⟨by decide, Or.inr (Or.inl ⟨rfl, by decide⟩)⟩
  · exact ⟨by decide, Or.inr (Or.inr (Or.inl ⟨rfl, [.varint 1 1, .varint 3 7], by decide,
      by decide, by decide⟩))⟩
  · exact ⟨by decide, Or.inr (Or.inr (Or.inr ⟨rfl, by decide⟩))⟩

theorem parse_pbf_way_refs_and_tags_witness :
    spec_way_message [1, 3] [2, 4] [100, 1, 2] s4_way ∧
    spec_table_ok s4_strings ∧ spec_indices_ok s4_strings [1, 3] ∧
    spec_indices_ok s4_strings [2, 4] ∧
    ∃ way : readosm_export_way,
      (parse_pbf_way s4_strings (spec_encode_message s4_way) record_way_params).map
          (fun p => p.user_data) = .ok (record_ways [] way).2 ∧
      way.node_ref_count = 3 ∧
      way.node_refs = (List.range 3).map (spec_sum64 [100, 1, 2]) ∧
      way.tag_count = 2 ∧
      way.tags = spec_zip_tags s4_strings [1, 3] [2, 4] :=
  ⟨s4_way_message, by decide, by decide, by decide,
    (parse_pbf_way_refs_and_tags s4_strings s4_way [1, 3] [2, 4] [100, 1, 2] record_way_params
      record_ways s4_way_message rfl (by decide) (by decide) (by decide) rfl rfl).1⟩

/-! ## Relations: the fields -/

theorem relation_info_fold (strings : readosm_string_table)
    (hst : strings.count ≤ strings.strings.length) :
    ∀ (info : List spec_field) (w : readosm_internal_relation) (v : readosm_variant),
      v.hints = info_variant.hints → (∀ g ∈ info, spec_info_field_ok g) →
      ∃ w2, spec_fold (relation_info_field strings) w v info = .ok w2 ∧
        w2.members = w.members ∧ w2.tags = w.tags ∧ w2.id = w.id := by
  intro info
  induction info with
  | nil => intro w v _ _; exact ⟨w, rfl, rfl, rfl, rfl⟩
  | cons g info ih =>
    intro w v hv hall
    have hg := hall g (List.mem_cons_self _ _)
    have hstep : ∃ w1, relation_info_field strings w (spec_field_variant v g) = .ok w1 ∧
        w1.members = w.members ∧ w1.tags = w.tags ∧ w1.id = w.id := by
      cases g with
      | bytes fid p => exact hg.elim
      | varint fid raw =>
        have h1 : (find_type_hint_loop 1 0 info_variant.hints).getD READOSM_VAR_UNDEFINED =
            READOSM_VAR_INT32 := by decide
        have h2 : (find_type_hint_loop 2 0 info_variant.hints).getD READOSM_VAR_UNDEFINED =
            READOSM_VAR_INT32 := by decide
        have h3 : (find_type_hint_loop 3 0 info_variant.hints).getD READOSM_VAR_UNDEFINED =
            READOSM_VAR_INT64 := by decide
        have h4 : (find_type_hint_loop 4 0 info_variant.hints).getD READOSM_VAR_UNDEFINED =
            READOSM_VAR_INT32 := by decide
        have h5 : (find_type_hint_loop 5 0 info_variant.hints).getD READOSM_VAR_UNDEFINED =
            READOSM_VAR_INT32 := by decide
        have h6 : (find_type_hint_loop 6 0 info_variant.hints).getD READOSM_VAR_UNDEFINED =
            READOSM_VAR_INT32 := by decide
        rcases hg with ⟨rfl, hr⟩ | ⟨rfl | rfl | rfl | rfl | rfl, hr⟩
        · refine ⟨{ w with changeset := int32_of_bits raw }, ?_, rfl, rfl, rfl⟩
          simp [relation_info_field, spec_field_variant, hv, h3]
        · refine ⟨{ w with version := int32_of_bits raw }, ?_, rfl, rfl, rfl⟩
          simp [relation_info_field, spec_field_variant, hv, h1]
        · refine ⟨{ w with timestamp := some (int32_of_bits raw) }, ?_, rfl, rfl, rfl⟩
          simp [relation_info_field, spec_field_variant, hv, h2]
        · refine ⟨{ w with uid := int32_of_bits raw }, ?_, rfl, rfl, rfl⟩
          simp [relation_info_field, spec_field_variant, hv, h4]
        · obtain ⟨user, hu⟩ := info_user_ok strings hst (int32_of_bits raw)
          refine ⟨{ w with user := user }, ?_, rfl, rfl, rfl⟩
          simp [relation_info_field, spec_field_variant, hv, h5, hu, Outcome.bind]
        · refine ⟨w, ?_, rfl, rfl, rfl⟩
          simp [relation_info_field, spec_field_variant, hv, h6]
    obtain ⟨w1, h1, a1, b1, c1⟩ := hstep
    obtain ⟨w2, h2, a2, b2, c2⟩ := ih w1 (spec_field_variant v g)
      (by rw [spec_field_variant_hints, hv]) (fun g2 hg2 => hall g2 (List.mem_cons_of_mem _ hg2))
    exact ⟨w2, by simp only [spec_fold, h1, Outcome.bind, h2], a2.trans a1, b2.trans b1,
      c2.trans c1⟩

theorem parse_pbf_relation_info_spec (strings : readosm_string_table)
    (hst : strings.count ≤ strings.strings.length) (w : readosm_internal_relation)
    (payload : List Nat) (hp : spec_info_payload payload) :
    ∃ w2, parse_pbf_relation_info w strings payload = .ok w2 ∧
      w2.members = w.members ∧ w2.tags = w.tags ∧ w2.id = w.id := by
  obtain ⟨info, hne, hall, rfl⟩ := hp
  have hl := spec_encode_message_length info
  rw [parse_pbf_relation_info, field_loop_encoded _ info _ w info_variant hne (by omega)
    (fun g hg => spec_info_field_readable g (hall g hg))]
  exact relation_info_fold strings hst info w info_variant rfl hall

theorem spec_relation_field_readable (ks vs rs ds ts : List Int) (f : spec_field)
    (hf : spec_relation_field_ok ks vs rs ds ts f) : spec_field_ok relation_variant.hints f := by
  cases f with
  | varint fid raw =>
    obtain ⟨rfl, hr⟩ := hf
    exact ⟨by norm_num, Or.inr ⟨by decide, hr⟩⟩
  | bytes fid p =>
    obtain ⟨hlen, h⟩ := hf
    rcases h with ⟨rfl, _⟩ | ⟨rfl, _⟩ | ⟨rfl, _⟩ | ⟨rfl, _⟩ | ⟨rfl, _⟩ | ⟨rfl, _⟩ <;>
      exact ⟨by norm_num, hlen, by decide⟩

theorem relation_field_step (strings : readosm_string_table)
    (hst : strings.count ≤ strings.strings.length) (ks vs rs ds ts : List Int) (f : spec_field)
    (st : relation_state) (v : readosm_variant) (hv : v.hints = relation_variant.hints)
    (hf : spec_relation_field_ok ks vs rs ds ts f)
    (hfresh : ∀ c ∈ [2, 3, 8, 9, 10], f.field_id = c → relation_packed c st = init_packed) :
    ∃ st1, relation_field strings st (spec_field_variant v f) = .ok st1 ∧
      (∀ c ∈ [2, 3, 8, 9, 10],
        (f.field_id = c → relation_packed c st1 =
          { first := spec_relation_list ks vs rs ds ts c,
            count := (spec_relation_list ks vs rs ds ts c).length,
            values := spec_relation_list ks vs rs ds ts c }) ∧
        (f.field_id ≠ c → relation_packed c st1 = relation_packed c st)) ∧
      st1.relation.members = st.relation.members ∧ st1.relation.tags = st.relation.tags := by
  have hmem : ∀ c ∈ [2, 3, 8, 9, 10], c = 2 ∨ c = 3 ∨ c = 8 ∨ c = 9 ∨ c = 10 := by
    intro c hc
    simpa using hc
  cases f with
  | varint fid raw =>
    obtain ⟨rfl, hr⟩ := hf
    have ht : (find_type_hint_loop 1 0 relation_variant.hints).getD READOSM_VAR_UNDEFINED =
        READOSM_VAR_INT64 := by decide
    refine ⟨{ st with relation := { st.relation with id := int32_of_bits raw } }, ?_, ?_, rfl,
      rfl⟩
    · simp [relation_field, spec_field_variant, hv, ht]
    · intro c hc
      rcases hmem c hc with rfl | rfl | rfl | rfl | rfl <;>
        simp [spec_field.field_id, relation_packed]
  | bytes fid p =>
    obtain ⟨hlen, h⟩ := hf
    rcases h with ⟨rfl, hp⟩ | ⟨rfl, hp⟩ | ⟨rfl, hp⟩ | ⟨rfl, hp⟩ | ⟨rfl, hp⟩ | ⟨rfl, hp⟩
    · have h0 : st.packed_keys = init_packed := hfresh 2 (by simp) rfl
      refine ⟨{ st with packed_keys := { first := ks, count := ks.length, values := ks } },
        ?_, ?_, rfl, rfl⟩
      · simp [relation_field, spec_field_variant, h0, hp, Outcome.bind,
          array_from_uint32_packed_init]
      · intro c hc
        rcases hmem c hc with rfl | rfl | rfl | rfl | rfl <;>
          simp [spec_field.field_id, relation_packed, spec_relation_list]
    · have h0 : st.packed_values = init_packed := hfresh 3 (by simp) rfl
      refine ⟨{ st with packed_values := { first := vs, count := vs.length, values := vs } },
        ?_, ?_, rfl, rfl⟩
      · simp [relation_field, spec_field_variant, h0, hp, Outcome.bind,
          array_from_uint32_packed_init]
      · intro c hc
        rcases hmem c hc with rfl | rfl | rfl | rfl | rfl <;>
          simp [spec_field.field_id, relation_packed, spec_relation_list]
    · obtain ⟨w2, hw, a, b, _⟩ := parse_pbf_relation_info_spec strings hst st.relation p hp
      refine ⟨{ st with relation := w2 }, ?_, ?_, a, b⟩
      · simp [relation_field, spec_field_variant, hw, Outcome.bind]
      · intro c hc
        rcases hmem c hc with rfl | rfl | rfl | rfl | rfl <;>
          simp [spec_field.field_id, relation_packed]
    · have h0 : st.packed_roles = init_packed := hfresh 8 (by simp) rfl
      refine ⟨{ st with packed_roles := { first := rs, count := rs.length, values := rs } },
        ?_, ?_, rfl, rfl⟩
      · simp [relation_field, spec_field_variant, h0, hp, Outcome.bind,
          array_from_uint32_packed_init]
      · intro c hc
        rcases hmem c hc with rfl | rfl | rfl | rfl | rfl <;>
          simp [spec_field.field_id, relation_packed, spec_relation_list]
    · have h0 : st.packed_refs = init_packed := hfresh 9 (by simp) rfl
      refine ⟨{ st with packed_refs := { first := ds, count := ds.length, values := ds } },
        ?_, ?_, rfl, rfl⟩
      · simp [relation_field, spec_field_variant, h0, hp, Outcome.bind,
          array_from_int64_packed_init]
      · intro c hc
        rcases hmem c hc with rfl | rfl | rfl | rfl | rfl <;>
          simp [spec_field.field_id, relation_packed, spec_relation_list]
    · have h0 : st.packed_types = init_packed := hfresh 10 (by simp) rfl
      refine ⟨{ st with packed_types := { first := ts, count := ts.length, values := ts } },
        ?_, ?_, rfl, rfl⟩
      · simp [relation_field, spec_field_variant, h0, hp, Outcome.bind,
          array_from_uint32_packed_init]
      · intro c hc
        rcases hmem c hc with rfl | rfl | rfl | rfl | rfl <;>
          simp [spec_field.field_id, relation_packed, spec_relation_list]

theorem relation_fold_spec (strings : readosm_string_table)
    (hst : strings.count ≤ strings.strings.length) (ks vs rs ds ts : List Int) :
    ∀ (fs : List spec_field) (st : relation_state) (v : readosm_variant),
      v.hints = relation_variant.hints → (spec_field_ids fs).Nodup →
      (∀ f ∈ fs, spec_relation_field_ok ks vs rs ds ts f) →
      (∀ c ∈ [2, 3, 8, 9, 10], c ∈ spec_field_ids fs → relation_packed c st = init_packed) →
      ∃ st2, spec_fold (relation_field strings) st v fs = .ok st2 ∧
        (∀ c ∈ [2, 3, 8, 9, 10],
          (c ∈ spec_field_ids fs → relation_packed c st2 =
            { first := spec_relation_list ks vs rs ds ts c,
              count := (spec_relation_list ks vs rs ds ts c).length,
              values := spec_relation_list ks vs rs ds ts c }) ∧
          (c ∉ spec_field_ids fs → relation_packed c st2 = relation_packed c st)) ∧
        st2.relation.members = st.relation.members ∧ st2.relation.tags = st.relation.tags := by
  intro fs
  induction fs with
  | nil =>
    intro st v _ _ _ _
    exact ⟨st, rfl, fun c _ => ⟨by simp [spec_field_ids], fun _ => rfl⟩, rfl, rfl⟩
  | cons f fs ih =>
    intro st v hv hnd hall hfresh
    have hids : spec_field_ids (f :: fs) = f.field_id :: spec_field_ids fs := rfl
    rw [hids] at hnd hfresh ⊢
    obtain ⟨hnot, hnd2⟩ := List.nodup_cons.1 hnd
    obtain ⟨st1, e1, p1, m1, t1⟩ :=
      relation_field_step strings hst ks vs rs ds ts f st v hv (hall f (List.mem_cons_self _ _))
        (fun c hc h => hfresh c hc (by simp [h]))
    have hne : ∀ k : Nat, k ∈ spec_field_ids fs → f.field_id ≠ k := by
      intro k hk h
      exact hnot (h ▸ hk)
    obtain ⟨st2, e2, p2, m2, t2⟩ :=
      ih st1 (spec_field_variant v f) (by rw [spec_field_variant_hints, hv]) hnd2
        (fun g hg => hall g (List.mem_cons_of_mem _ hg))
        (fun c hc h => ((p1 c hc).2 (hne c h)).trans (hfresh c hc (List.mem_cons_of_mem _ h)))
    refine ⟨st2, by simp only [spec_fold, e1, Outcome.bind, e2], ?_, m2.trans m1, t2.trans t1⟩
    intro c hc
    constructor
    · intro h
      rcases List.mem_cons.1 h with h | h
      · exact ((p2 c hc).2 (fun hin => hnot (h ▸ hin))).trans ((p1 c hc).1 h.symm)
      · exact (p2 c hc).1 h
    · intro h
      have ha : f.field_id ≠ c := fun e => h (by simp [e])
      have hb : c ∉ spec_field_ids fs := fun e => h (List.mem_cons_of_mem _ e)
      exact ((p2 c hc).2 hb).trans ((p1 c hc).2 ha)

theorem parse_pbf_relation_fields_spec (strings : readosm_string_table)
    (hst : strings.count ≤ strings.strings.length) (ks vs rs ds ts : List Int)
    (fs : List spec_field) (hmsg : spec_relation_message ks vs rs ds ts fs) :
    ∃ st, parse_pbf_relation_fields strings (spec_encode_message fs) = .ok st ∧
      st.packed_keys = { first := ks, count := ks.length, values := ks } ∧
      st.packed_values = { first := vs, count := vs.length, values := vs } ∧
      st.packed_roles = { first := rs, count := rs.length, values := rs } ∧
      st.packed_refs = { first := ds, count := ds.length, values := ds } ∧
      st.packed_types = { first := ts, count := ts.length, values := ts } ∧
      st.relation.members = [] ∧ st.relation.tags = [] := by
  obtain ⟨hne, hnd, hall, hk, hv, hr, hd, ht⟩ := hmsg
  have hl := spec_encode_message_length fs
  obtain ⟨st, e, pk, m, t⟩ :=
    relation_fold_spec strings hst ks vs rs ds ts fs init_relation_state relation_variant rfl
      hnd hall (fun c hc _ => by
        have : c = 2 ∨ c = 3 ∨ c = 8 ∨ c = 9 ∨ c = 10 := by simpa using hc
        rcases this with rfl | rfl | rfl | rfl | rfl <;> rfl)
  have key : ∀ c ∈ [2, 3, 8, 9, 10], ∀ l : List Int,
      spec_relation_list ks vs rs ds ts c = l → (c ∉ spec_field_ids fs → l = []) →
      relation_packed c st = { first := l, count := l.length, values := l } := by
    intro c hc l hl2 habs
    by_cases h : c ∈ spec_field_ids fs
    · rw [(pk c hc).1 h, hl2]
    · rw [(pk c hc).2 h, habs h]
      have : c = 2 ∨ c = 3 ∨ c = 8 ∨ c = 9 ∨ c = 10 := by simpa using hc
      rcases this with rfl | rfl | rfl | rfl | rfl <;> rfl
  refine ⟨st, ?_, key 2 (by simp) ks rfl hk, key 3 (by simp) vs rfl hv,
    key 8 (by simp) rs rfl hr, key 9 (by simp) ds rfl hd, key 10 (by simp) ts rfl ht, m, t⟩
  rw [parse_pbf_relation_fields, field_loop_encoded _ fs _ _ relation_variant hne (by omega)
    (fun f hf => spec_relation_field_readable ks vs rs ds ts f (hall f hf))]
  exact e

/-! ## The range of decoded `uint32` values -/

theorem read_var_v32_lt (count c v : Nat) (h : read_var_v32 count c = some v) : v < 2 ^ 32 := by
  unfold read_var_v32 at h
  split at h <;> first
    | (simp only [Option.some.injEq] at h
       rw [← h]
       exact Nat.and_lt_two_pow _ (by decide))
    | exact absurd h (by simp)

theorem read_var_loop_uint32_lt :
    ∀ (bytes : List Nat) (count v32 v64 a b : Nat) (rest : List Nat), v32 < 2 ^ 32 →
      read_var_loop READOSM_VAR_UINT32 bytes count v32 v64 = some (a, b, rest) → a < 2 ^ 32 := by
  intro bytes
  induction bytes with
  | nil => intro _ _ _ _ _ _ _ h; simp [read_var_loop] at h
  | cons x bytes ih =>
    intro count v32 v64 a b rest hv h
    simp only [read_var_loop, read_var_accum] at h
    cases hr : read_var_v32 count (x &&& 0x7f) with
    | none => simp [hr] at h
    | some w =>
      have hw := read_var_v32_lt _ _ _ hr
      simp only [hr] at h
      split_ifs at h
      · exact ih _ _ _ _ _ _ (Nat.or_lt_two_pow hv hw) h
      · simp only [Option.some.injEq, Prod.mk.injEq] at h
        rw [← h.1]
        exact Nat.or_lt_two_pow hv hw

theorem read_var_uint32_range (bytes rest : List Nat) (v : Int)
    (h : read_var READOSM_VAR_UINT32 bytes = some (v, rest)) : 0 ≤ v ∧ v < 2 ^ 32 := by
  unfold read_var at h
  cases hl : read_var_loop READOSM_VAR_UINT32 bytes 0 0 0 with
  | none => simp [hl] at h
  | some r =>
    obtain ⟨a, b, rest2⟩ := r
    have ha := read_var_loop_uint32_lt bytes 0 0 0 a b rest2 (by norm_num) hl
    simp only [hl, read_var_value, Option.some.injEq, Prod.mk.injEq] at h
    rw [← h.1]
    constructor
    · exact Int.natCast_nonneg a
    · exact_mod_cast ha

theorem parse_packed_loop_uint32_range :
    ∀ (fuel : Nat) (packed : List Int) (valid : Bool) (start : List Nat) (l : List Int),
      (∀ x ∈ packed, 0 ≤ x ∧ x < 2 ^ 32) →
      parse_packed_loop READOSM_VAR_UINT32 fuel packed valid start = .ok l →
      ∀ x ∈ l, 0 ≤ x ∧ x < 2 ^ 32 := by
  intro fuel
  induction fuel with
  | zero => intro _ _ _ _ _ h; simp [parse_packed_loop] at h
  | succ fuel ih =>
    intro packed valid start l hp h
    simp only [parse_packed_loop] at h
    cases hr : read_var READOSM_VAR_UINT32 start with
    | none =>
      simp only [hr] at h
      split_ifs at h
    | some r =>
      obtain ⟨v, ptr⟩ := r
      have hv := read_var_uint32_range start ptr v hr
      have hp2 : ∀ x ∈ packed ++ [v], 0 ≤ x ∧ x < 2 ^ 32 := by
        intro x hx
        rcases List.mem_append.1 hx with hx | hx
        · exact hp x hx
        · rw [List.mem_singleton.1 hx]
          exact hv
      simp only [hr] at h
      rcases ptr with _ | ⟨b, bs⟩
      · simp only [Outcome.ok.injEq] at h
        rw [← h]
        exact hp2
      · exact ih _ _ _ _ hp2 h

theorem parse_uint32_packed_range (payload : List Nat) (l : List Int)
    (h : parse_uint32_packed init_packed payload = .ok { init_packed with first := l }) :
    ∀ x ∈ l, 0 ≤ x ∧ x < 2 ^ 32 := by
  unfold parse_uint32_packed at h
  cases hl : parse_packed_loop READOSM_VAR_UINT32 (payload.length + 1) init_packed.first false
      payload with
  | ok m =>
    simp only [hl, Outcome.bind, Outcome.ok.injEq, readosm_packed.mk.injEq] at h
    rw [← h.1]
    exact parse_packed_loop_uint32_range _ _ _ _ _ (by simp [init_packed]) hl
  | error => simp [hl, Outcome.bind] at h
  | fault => simp [hl, Outcome.bind] at h
  | fuel => simp [hl, Outcome.bind] at h

theorem spec_relation_types_range (ks vs rs ds ts : List Int) (fs : List spec_field)
    (hmsg : spec_relation_message ks vs rs ds ts fs) : ∀ t ∈ ts, 0 ≤ t ∧ t < 2 ^ 32 := by
  obtain ⟨_, _, hall, _, _, _, _, ht⟩ := hmsg
  by_cases h : 10 ∈ spec_field_ids fs
  · obtain ⟨f, hf, hid⟩ := List.mem_map.1 h
    have hok := hall f hf
    cases f with
    | varint fid raw =>
      obtain ⟨rfl, _⟩ := hok
      simp [spec_field.field_id] at hid
    | bytes fid p =>
      simp only [spec_field.field_id] at hid
      subst hid
      obtain ⟨_, hcases⟩ := hok
      rcases hcases with ⟨h2, _⟩ | ⟨h2, _⟩ | ⟨h2, _⟩ | ⟨h2, _⟩ | ⟨h2, _⟩ | ⟨_, hp⟩
      · exact absurd h2 (by decide)
      · exact absurd h2 (by decide)
      · exact absurd h2 (by decide)
      · exact absurd h2 (by decide)
      · exact absurd h2 (by decide)
      · exact parse_uint32_packed_range p ts hp
  · rw [ht h]
    simp

/-! ## C14: the members of a relation -/

theorem relation_tags_loop_spec (strings : readosm_string_table)
    (keys values : readosm_packed) (hlen : strings.strings.length < 2 ^ 31) :
    ∀ (lk lv : List Int) (i : Nat) (relation : readosm_internal_relation),
      keys.values.drop i = lk → values.values.drop i = lv → lk.length = lv.length →
      spec_indices_ok strings lk → spec_indices_ok strings lv →
      relation_tags_loop strings keys values lk.length i relation =
        .ok { relation with
              tags := relation.tags ++ (List.zip lk lv).map fun kv =>
                { key := some (spec_string strings kv.1),
                  value := some (spec_string strings kv.2) } } := by
  intro lk
  induction lk with
  | nil =>
    intro lv i relation _ _ _ _ _
    simp [relation_tags_loop]
  | cons k lk ih =>
    intro lv i relation hk hv hl hik hiv
    rcases lv with _ | ⟨x, lv⟩
    · simp at hl
    have hgk : keys.values[i]? = some k := by
      have := congrArg List.head? hk
      simpa [List.head?_drop] using this
    have hgv : values.values[i]? = some x := by
      have := congrArg List.head? hv
      simpa [List.head?_drop] using this
    have hdk : keys.values.drop (i + 1) = lk := by
      have := congrArg List.tail hk
      simpa [List.tail_drop] using this
    have hdv : values.values.drop (i + 1) = lv := by
      have := congrArg List.tail hv
      simpa [List.tail_drop] using this
    have hsk := string_at_index strings k hlen (hik k (List.mem_cons_self _ _))
    have hsv := string_at_index strings x hlen (hiv x (List.mem_cons_self _ _))
    have hrec := ih lv (i + 1) (append_tag_to_relation relation (table_buffer strings k)
      (table_buffer strings x)) hdk hdv (by simpa using hl)
      (fun a ha => hik a (List.mem_cons_of_mem _ ha))
      (fun a ha => hiv a (List.mem_cons_of_mem _ ha))
    simp only [List.length_cons, relation_tags_loop, List.get?_eq_getElem?, hgk, hgv, hsk, hsv,
      hrec]
    simp [append_tag_to_relation, spec_string, table_buffer]

theorem member_type_of_wire (t : Int) (ht : 0 ≤ t ∧ t < 2 ^ 32) (id : Int) (role : List Nat)
    (relation : readosm_internal_relation) :
    append_member_to_relation relation (int32_of_bits t.toNat) id role =
      { relation with
        members := relation.members ++
          [{ member_type := spec_member_type t, id := id, role := some (c_string role) }] } := by
  obtain ⟨h0, h1⟩ := ht
  have hmod : t.toNat % 2 ^ 32 = t.toNat := Nat.mod_eq_of_lt (by omega)
  have e0 : int32_of_bits t.toNat = 0 ↔ t = 0 := by
    unfold int32_of_bits
    rw [hmod]
    split_ifs <;> omega
  have e1 : int32_of_bits t.toNat = 1 ↔ t = 1 := by
    unfold int32_of_bits
    rw [hmod]
    split_ifs <;> omega
  have e2 : int32_of_bits t.toNat = 2 ↔ t = 2 := by
    unfold int32_of_bits
    rw [hmod]
    split_ifs <;> omega
  simp only [append_member_to_relation, spec_member_type, e0, e1, e2, alloc_internal_member]
  split_ifs <;> rfl

theorem relation_members_loop_spec (strings : readosm_string_table)
    (roles types refs : readosm_packed) (hlen : strings.strings.length < 2 ^ 31) :
    ∀ (lr lt ld : List Int) (i : Nat) (delta : Int) (relation : readosm_internal_relation),
      roles.values.drop i = lr → types.values.drop i = lt → refs.values.drop i = ld →
      lr.length = ld.length → lr.length = lt.length →
      spec_indices_ok strings lr → (∀ t ∈ lt, 0 ≤ t ∧ t < 2 ^ 32) →
      relation_members_loop strings roles types refs lr.length i delta relation =
        .ok { relation with
              members := relation.members ++ spec_members_from strings delta lr lt ld } := by
  intro lr
  induction lr with
  | nil =>
    intro lt ld i delta relation _ _ _ _ _ _ _
    simp [relation_members_loop, spec_members_from]
  | cons r lr ih =>
    intro lt ld i delta relation hr ht hd hl1 hl2 hir hit
    rcases lt with _ | ⟨t, lt⟩
    · simp at hl2
    rcases ld with _ | ⟨d, ld⟩
    · simp at hl1
    have hgr : roles.values[i]? = some r := by
      have := congrArg List.head? hr
      simpa [List.head?_drop] using this
    have hgt : types.values[i]? = some t := by
      have := congrArg List.head? ht
      simpa [List.head?_drop] using this
    have hgd : refs.values[i]? = some d := by
      have := congrArg List.head? hd
      simpa [List.head?_drop] using this
    have hdr : roles.values.drop (i + 1) = lr := by
      have := congrArg List.tail hr
      simpa [List.tail_drop] using this
    have hdt : types.values.drop (i + 1) = lt := by
      have := congrArg List.tail ht
      simpa [List.tail_drop] using this
    have hdd : refs.values.drop (i + 1) = ld := by
      have := congrArg List.tail hd
      simpa [List.tail_drop] using this
    have hsr := string_at_index strings r hlen (hir r (List.mem_cons_self _ _))
    have hrec := ih lt ld (i + 1) (int64_add delta d)
      (append_member_to_relation relation (int32_of_bits t.toNat) (int64_add delta d)
        (table_buffer strings r)) hdr hdt hdd (by simpa using hl1) (by simpa using hl2)
      (fun a ha => hir a (List.mem_cons_of_mem _ ha))
      (fun a ha => hit a (List.mem_cons_of_mem _ ha))
    have hm := member_type_of_wire t (hit t (List.mem_cons_self _ _)) (int64_add delta d)
      (table_buffer strings r) relation
    rw [hm] at hrec
    simp only [List.length_cons, relation_members_loop, List.get?_eq_getElem?, hgr, hgt, hgd,
      hsr, hm, hrec]
    simp [spec_members_from, spec_string, table_buffer]

theorem spec_members_from_eq (strings : readosm_string_table) :
    ∀ (rs ts ds : List Int) (delta : Int), rs.length = ds.length → rs.length = ts.length →
      (spec_members_from strings delta rs ts ds).map (fun member =>
        ({ member_type := member.member_type, id := member.id,
           role := member.role.map c_string } : readosm_export_member)) =
      (List.range rs.length).map fun i =>
        { member_type := spec_member_type (ts.getD i 0),
          id := int64_add delta ((ds.take (i + 1)).sum),
          role := some (spec_string strings (rs.getD i 0)) } := by
  intro rs
  induction rs with
  | nil => intro ts ds delta _ _; simp [spec_members_from]
  | cons r rs ih =>
    intro ts ds delta h1 h2
    rcases ts with _ | ⟨t, ts⟩
    · simp at h2
    rcases ds with _ | ⟨d, ds⟩
    · simp at h1
    rw [spec_members_from, List.map_cons, ih ts ds (int64_add delta d) (by simpa using h1)
      (by simpa using h2), List.length_cons, List.range_succ_eq_map, List.map_cons, List.map_map]
    congr 1
    · simp [spec_string, c_string_idem]
    · apply List.map_congr_left
      intro i _
      simp only [Function.comp, List.getD_cons_succ, List.take_succ_cons, List.sum_cons,
        int64_add_assoc]

theorem parse_pbf_relation_entity_spec (strings : readosm_string_table)
    (ks vs rs ds ts : List Int) (fs : List spec_field)
    (hmsg : spec_relation_message ks vs rs ds ts fs)
    (hlen : ks.length = vs.length) (hl1 : rs.length = ds.length) (hl2 : rs.length = ts.length)
    (htab : spec_table_ok strings)
    (hks : spec_indices_ok strings ks) (hvs : spec_indices_ok strings vs)
    (hrs : spec_indices_ok strings rs) :
    ∃ relation, parse_pbf_relation_entity strings (spec_encode_message fs) = .ok relation ∧
      relation.members = spec_members_from strings 0 rs ts ds ∧
      relation.tags = (List.zip ks vs).map fun kv =>
        { key := some (spec_string strings kv.1), value := some (spec_string strings kv.2) } := by
  have hts := spec_relation_types_range ks vs rs ds ts fs hmsg
  obtain ⟨st, e, k, v, r, d, t, m, tg⟩ :=
    parse_pbf_relation_fields_spec strings htab.1 ks vs rs ds ts fs hmsg
  have htags := relation_tags_loop_spec strings st.packed_keys st.packed_values htab.2 ks vs 0
    st.relation (by rw [k]; rfl) (by rw [v]; rfl) hlen hks hvs
  have hmem := relation_members_loop_spec strings st.packed_roles st.packed_types st.packed_refs
    htab.2 rs ts ds 0 0
    { st.relation with
      tags := st.relation.tags ++ (List.zip ks vs).map fun kv =>
        { key := some (spec_string strings kv.1), value := some (spec_string strings kv.2) } }
    (by rw [r]; rfl) (by rw [t]; rfl) (by rw [d]; rfl) hl1 hl2 hrs hts
  have hc1 : st.packed_keys.count = ks.length := by rw [k]
  have hc2 : st.packed_values.count = vs.length := by rw [v]
  have hc3 : st.packed_roles.count = rs.length := by rw [r]
  have hc4 : st.packed_refs.count = ds.length := by rw [d]
  have hc5 : st.packed_types.count = ts.length := by rw [t]
  refine ⟨{ st.relation with
            tags := st.relation.tags ++ (List.zip ks vs).map fun kv =>
              { key := some (spec_string strings kv.1),
                value := some (spec_string strings kv.2) },
            members := st.relation.members ++ spec_members_from strings 0 rs ts ds },
    ?_, ?_, ?_⟩
  · simp only [parse_pbf_relation_entity, e, Outcome.bind, hc1, hc2, hc3, hc4, hc5, hlen,
      if_true]
    rw [← hlen, htags]
    simp only [← hl1, ← hl2, and_self, if_true]
    exact hmem
  · simp [m]
  · simp [tg]

/-- Claim C14. For every Relation message in which no field id occurs twice, whose
roles, member ids and types payloads decode to `rs`, `ds` and `ts` of one length `n`
(and whose keys and values decode to lists of one length), all role, key and value
indices lying inside the string table, `parse_pbf_relation` calls the relation
callback once, on a view with exactly `n` members in wire order, member `i` having the
type NODE, WAY or RELATION for `t_i` = 0, 1 or 2, the id `d_0 + ... + d_i` (in 64-bit
arithmetic) and the role `st[r_i]`. -/
theorem parse_pbf_relation_members {σ : Type} (strings : readosm_string_table)
    (fs : List spec_field) (ks vs rs ds ts : List Int) (params : pbf_params σ)
    (cb : σ → readosm_export_relation → Int × σ)
    (hmsg : spec_relation_message ks vs rs ds ts fs)
    (hlen : ks.length = vs.length) (hl1 : rs.length = ds.length) (hl2 : rs.length = ts.length)
    (htab : spec_table_ok strings)
    (hks : spec_indices_ok strings ks) (hvs : spec_indices_ok strings vs)
    (hrs : spec_indices_ok strings rs)
    (hcb : params.relation_callback = some cb) (hstop : params.stop = 0) :
    ∃ relation : readosm_export_relation,
      (parse_pbf_relation strings (spec_encode_message fs) params).map (fun p => p.user_data) =
        .ok (cb params.user_data relation).2 ∧
      relation.member_count = rs.length ∧
      relation.members = (List.range rs.length).map (spec_member strings rs ds ts) ∧
      spec_member_type 0 = READOSM_MEMBER_NODE ∧ spec_member_type 1 = READOSM_MEMBER_WAY ∧
      spec_member_type 2 = READOSM_MEMBER_RELATION := by
  obtain ⟨relation, e, m, t⟩ := parse_pbf_relation_entity_spec strings ks vs rs ds ts fs hmsg
    hlen hl1 hl2 htab hks hvs hrs
  have hm := spec_members_from_eq strings rs ts ds 0 hl1 hl2
  refine ⟨export_relation relation, ?_, ?_, ?_, rfl, rfl, rfl⟩
  · simp only [parse_pbf_relation, e, Outcome.bind, Outcome.map, dispatch_relation, hcb, hstop,
      call_relation_callback, if_true]
    split_ifs <;> rfl
  · have := congrArg List.length hm
    simpa [export_relation, m] using this
  · simp only [export_relation, m, hm]
    apply List.map_congr_left
    intro i _
    simp [spec_member, spec_sum64, int64_add]

theorem sample_relation_message :
    spec_relation_message [1] [2] [3, 4, 3] [10, 5, -3] [0, 1, 2] sample_relation := by
  refine ⟨by decide, by decide, ?_, by decide, by decide, by decide, by decide, by decide⟩
  intro f hf
  simp only [sample_relation, List.mem_cons, List.mem_singleton, List.not_mem_nil,
    or_false] at hf
  rcases hf with rfl | rfl | rfl | rfl | rfl | rfl
  · exact ⟨rfl, by norm_num⟩
  · exact ⟨by decide, Or.inl ⟨rfl, by decide⟩⟩
  · exact ⟨by decide, Or.inr (Or.inl ⟨rfl, by decide⟩)⟩
  · exact ⟨by decide, Or.inr (Or.inr (Or.inr (Or.inl ⟨rfl, by decide⟩)))⟩
  · exact ⟨by decide, Or.inr (Or.inr (Or.inr (Or.inr (Or.inl ⟨rfl, by decide⟩))))⟩
  · exact ⟨by decide, Or.inr (Or.inr (Or.inr (Or.inr (Or.inr ⟨rfl, by decide⟩))))⟩

theorem parse_pbf_relation_members_witness :
    spec_relation_message [1] [2] [3, 4, 3] [10, 5, -3] [0, 1, 2] sample_relation ∧
    spec_table_ok s4_strings ∧ spec_indices_ok s4_strings [3, 4, 3] ∧
    ∃ relation : readosm_export_relation,
      (parse_pbf_relation s4_strings (spec_encode_message sample_relation)
          record_relation_params).map (fun p => p.user_data) =
        .ok (record_relations [] relation).2 ∧
      relation.member_count = 3 ∧
      relation.members = (List.range 3).map
        (spec_member s4_strings [3, 4, 3] [10, 5, -3] [0, 1, 2]) ∧
      spec_member_type 0 = READOSM_MEMBER_NODE ∧ spec_member_type 1 = READOSM_MEMBER_WAY ∧
      spec_member_type 2 = READOSM_MEMBER_RELATION :=
  ⟨sample_relation_message, by decide, by decide,
    parse_pbf_relation_members s4_strings sample_relation [1] [2] [3, 4, 3] [10, 5, -3]
      [0, 1, 2] record_relation_params record_relations sample_relation_message rfl rfl rfl
      (by decide) (by decide) (by decide) (by decide) rfl rfl⟩

/-! ## C13: the lengths of the parallel arrays -/

/-- Claim C13. For every Way message in which no field id occurs twice and whose keys
and values decode to `ks` and `vs`: if the lengths differ, `parse_pbf_way` returns
failure (which it does before the callback is reached); if they agree and the indices
lie inside the string table, it returns success.  For every such Relation message
with roles `rs`, member ids `ds` and types `ts`: if the lengths of `ks` and `vs`
differ, or if those of `rs`, `ds`, `ts` are not all equal, `parse_pbf_relation` returns
failure; if the lengths agree (and the indices lie inside the table), it returns
success. -/
theorem array_lengths_enforced {σ : Type} (strings : readosm_string_table)
    (params : pbf_params σ) (htab : spec_table_ok strings) :
    (∀ (fs : List spec_field) (ks vs ds : List Int), spec_way_message ks vs ds fs →
      (ks.length ≠ vs.length →
        parse_pbf_way strings (spec_encode_message fs) params = .error) ∧
      (ks.length = vs.length → spec_indices_ok strings ks → spec_indices_ok strings vs →
        ∃ p, parse_pbf_way strings (spec_encode_message fs) params = .ok p)) ∧
    (∀ (fs : List spec_field) (ks vs rs ds ts : List Int),
      spec_relation_message ks vs rs ds ts fs →
      (ks.length ≠ vs.length →
        parse_pbf_relation strings (spec_encode_message fs) params = .error) ∧
      (ks.length = vs.length → spec_indices_ok strings ks → spec_indices_ok strings vs →
        ¬ (rs.length = ds.length ∧ rs.length = ts.length) →
        parse_pbf_relation strings (spec_encode_message fs) params = .error) ∧
      (ks.length = vs.length → rs.length = ds.length → rs.length = ts.length →
        spec_indices_ok strings ks → spec_indices_ok strings vs → spec_indices_ok strings rs →
        ∃ p, parse_pbf_relation strings (spec_encode_message fs) params = .ok p)) := by
  constructor
  · intro fs ks vs ds hmsg
    constructor
    · intro hne
      obtain ⟨st, e, k, v, _, _⟩ := parse_pbf_way_fields_spec strings htab.1 ks vs ds fs hmsg
      have hc : st.packed_keys.count ≠ st.packed_values.count := by rw [k, v]; exact hne
      simp only [parse_pbf_way, parse_pbf_way_entity, e, Outcome.bind, hc, if_false]
    · intro hlen hks hvs
      obtain ⟨way, e, _, _⟩ :=
        parse_pbf_way_entity_spec strings ks vs ds fs hmsg hlen htab hks hvs
      exact ⟨dispatch_way way params, by simp only [parse_pbf_way, e, Outcome.bind]⟩
  · intro fs ks vs rs ds ts hmsg
    refine ⟨?_, ?_, ?_⟩
    · intro hne
      obtain ⟨st, e, k, v, _⟩ :=
        parse_pbf_relation_fields_spec strings htab.1 ks vs rs ds ts fs hmsg
      have hc : st.packed_keys.count ≠ st.packed_values.count := by rw [k, v]; exact hne
      simp only [parse_pbf_relation, parse_pbf_relation_entity, e, Outcome.bind, hc, if_false]
    · intro hlen hks hvs hne
      obtain ⟨st, e, k, v, r, d, t, _⟩ :=
        parse_pbf_relation_fields_spec strings htab.1 ks vs rs ds ts fs hmsg
      have htags := relation_tags_loop_spec strings st.packed_keys st.packed_values htab.2 ks vs
        0 st.relation (by rw [k]; rfl) (by rw [v]; rfl) hlen hks hvs
      have hc1 : st.packed_keys.count = ks.length := by rw [k]
      have hc2 : st.packed_values.count = vs.length := by rw [v]
      have hc3 : st.packed_roles.count = rs.length := by rw [r]
      have hc4 : st.packed_refs.count = ds.length := by rw [d]
      have hc5 : st.packed_types.count = ts.length := by rw [t]
      simp only [parse_pbf_relation, parse_pbf_relation_entity, e, Outcome.bind, hc1, hc2, hc3,
        hc4, hc5, hlen, if_true]
      rw [← hlen, htags]
      simp only [hne, if_false]
    · intro hlen hl1 hl2 hks hvs hrs
      obtain ⟨relation, e, _, _⟩ := parse_pbf_relation_entity_spec strings ks vs rs ds ts fs
        hmsg hlen hl1 hl2 htab hks hvs hrs
      exact ⟨dispatch_relation relation params,
        by simp only [parse_pbf_relation, e, Outcome.bind]⟩

theorem mismatch_way_message : spec_way_message [1, 3] [2] [] mismatch_way := by
  refine ⟨by decide, by decide, ?_, by decide, by decide, by decide⟩
  intro f hf
  simp only [mismatch_way, List.mem_cons, List.mem_singleton, List.not_mem_nil,
    or_false] at hf
  rcases hf with rfl | rfl | rfl
  · exact ⟨rfl, by norm_num⟩
  · exact ⟨by decide, Or.inl ⟨rfl, by decide⟩⟩
  · exact ⟨by decide, Or.inr (Or.inl ⟨rfl, by decide⟩)⟩

theorem mismatch_relation_message :
    spec_relation_message [] [] [3, 4] [10] [0, 1] mismatch_relation := by
  refine ⟨by decide, by decide, ?_, by decide, by decide, by decide, by decide, by decide⟩
  intro f hf
  simp only [mismatch_relation, List.mem_cons, List.mem_singleton, List.not_mem_nil,
    or_false] at hf
  rcases hf with rfl | rfl | rfl | rfl
  · exact ⟨rfl, by norm_num⟩
  · exact ⟨by decide, Or.inr (Or.inr (Or.inr (Or.inl ⟨rfl, by decide⟩)))⟩
  · exact ⟨by decide, Or.inr (Or.inr (Or.inr (Or.inr (Or.inl ⟨rfl, by decide⟩))))⟩
  · exact ⟨by decide, Or.inr (Or.inr (Or.inr (Or.inr (Or.inr ⟨rfl, by decide⟩))))⟩

theorem array_lengths_enforced_witness :
    spec_table_ok s4_strings ∧
    spec_way_message [1, 3] [2] [] mismatch_way ∧
    parse_pbf_way s4_strings (spec_encode_message mismatch_way) record_way_params = .error ∧
    spec_way_message [1, 3] [2, 4] [100, 1, 2] s4_way ∧
    (∃ p, parse_pbf_way s4_strings (spec_encode_message s4_way) record_way_params = .ok p) ∧
    spec_relation_message [] [] [3, 4] [10] [0, 1] mismatch_relation ∧
    parse_pbf_relation s4_strings (spec_encode_message mismatch_relation) record_way_params =
      .error ∧
    spec_relation_message [1] [2] [3, 4, 3] [10, 5, -3] [0, 1, 2] sample_relation ∧
    (∃ p, parse_pbf_relation s4_strings (spec_encode_message sample_relation)
      record_way_params = .ok p) :=
  ⟨by decide, mismatch_way_message,
    ((array_lengths_enforced s4_strings record_way_params (by decide)).1 mismatch_way
      [1, 3] [2] [] mismatch_way_message).1 (by decide),
    s4_way_message,
    ((array_lengths_enforced s4_strings record_way_params (by decide)).1 s4_way
      [1, 3] [2, 4] [100, 1, 2] s4_way_message).2 rfl (by decide) (by decide),
    mismatch_relation_message,
    ((array_lengths_enforced s4_strings record_way_params (by decide)).2 mismatch_relation
      [] [] [3, 4] [10] [0, 1] mismatch_relation_message).2.1 rfl (by decide) (by decide)
      (by decide),
    sample_relation_message,
    ((array_lengths_enforced s4_strings record_way_params (by decide)).2 sample_relation
      [1] [2] [3, 4, 3] [10, 5, -3] [0, 1, 2] sample_relation_message).2.2 rfl rfl rfl
      (by decide) (by decide) (by decide)⟩

/-! ## C12: 64-bit ids and changesets -/

/-- Claim C12, evaluated where it fails. A Way message and a Relation message whose id
field is the varint of 3000000000, with an info message whose changeset is the varint
of 3000000000: `read_var` stores a value declared `INT64` through the conversion
`(int) value64`, so the id and the changeset delivered to the callback are
`-1294967296`, not 3000000000. -/
theorem int64_fields_truncated :
    spec_encode_message big_id_way =
      [0x08, 0x80, 0xBC, 0xC1, 0x96, 0x0B, 0x22, 0x06, 0x18, 0x80, 0xBC, 0xC1, 0x96, 0x0B] ∧
    read_var READOSM_VAR_INT64 [0x80, 0xBC, 0xC1, 0x96, 0x0B] = some (-1294967296, []) ∧
    (parse_pbf_way s4_strings (spec_encode_message big_id_way) record_way_params).map
        (fun p => p.user_data) =
      .ok [{ id := -1294967296, version := 0, changeset := -1294967296, user := none, uid := 0,
             timestamp := none, node_ref_count := 0, node_refs := [], tag_count := 0,
             tags := [] }] ∧
    (parse_pbf_relation s4_strings (spec_encode_message big_id_relation)
        record_relation_params).map (fun p => p.user_data) =
      .ok [{ id := -1294967296, version := 0, changeset := -1294967296, user := none, uid := 0,
             timestamp := none, member_count := 0, members := [], tag_count := 0,
             tags := [] }] := by
  decide

/-! ## C16: string-table indices out of range -/

theorem spec_fold_invariant {S : Type} (handler : S → readosm_variant → Outcome S)
    (P : S → Prop) (Q : spec_field → Prop)
    (hstep : ∀ s v f s2, Q f → P s → handler s (spec_field_variant v f) = .ok s2 → P s2) :
    ∀ (fs : List spec_field) (s : S) (v : readosm_variant) (s2 : S),
      (∀ f ∈ fs, Q f) → P s → spec_fold handler s v fs = .ok s2 → P s2 := by
  intro fs
  induction fs with
  | nil =>
    intro s v s2 _ hs h
    simp only [spec_fold, Outcome.ok.injEq] at h
    exact h ▸ hs
  | cons f fs ih =>
    intro s v s2 hall hs h
    simp only [spec_fold] at h
    cases h1 : handler s (spec_field_variant v f) with
    | ok s1 =>
      simp only [h1, Outcome.bind] at h
      exact ih s1 _ s2 (fun g hg => hall g (List.mem_cons_of_mem _ hg))
        (hstep s v f s1 (hall f (List.mem_cons_self _ _)) hs h1) h
    | error => simp [h1, Outcome.bind] at h
    | fault => simp [h1, Outcome.bind] at h
    | fuel => simp [h1, Outcome.bind] at h

theorem info_user_out_of_range (strings : readosm_string_table) (userid : Int)
    (h : (strings.count : Int) ≤ userid) : info_user strings userid = .ok none := by
  unfold info_user
  rw [if_neg (by omega)]

theorem way_info_field_user (strings : readosm_string_table) (w w2 : readosm_internal_way)
    (v : readosm_variant) (f : spec_field)
    (hu : ∀ raw, f = .varint 5 raw → (strings.count : Int) ≤ int32_of_bits raw)
    (hw : w.user = none) (h : way_info_field strings w (spec_field_variant v f) = .ok w2) :
    w2.user = none := by
  cases f with
  | bytes fid p =>
    simp [way_info_field, spec_field_variant] at h
    rw [← h]; exact hw
  | varint fid raw =>
    simp only [way_info_field, spec_field_variant] at h
    split_ifs at h with c1 c2 c3 c4 c5
    · simp only [Outcome.ok.injEq] at h; rw [← h]; exact hw
    · simp only [Outcome.ok.injEq] at h; rw [← h]; exact hw
    · simp only [Outcome.ok.injEq] at h; rw [← h]; exact hw
    · simp only [Outcome.ok.injEq] at h; rw [← h]; exact hw
    · have hid : fid = 5 := c5.1
      subst hid
      rw [info_user_out_of_range strings _ (hu raw rfl)] at h
      simp only [Outcome.bind, Outcome.ok.injEq] at h
      rw [← h]
    · simp only [Outcome.ok.injEq] at h; rw [← h]; exact hw

theorem relation_info_field_user (strings : readosm_string_table)
    (w w2 : readosm_internal_relation) (v : readosm_variant) (f : spec_field)
    (hu : ∀ raw, f = .varint 5 raw → (strings.count : Int) ≤ int32_of_bits raw)
    (hw : w.user = none) (h : relation_info_field strings w (spec_field_variant v f) = .ok w2) :
    w2.user = none := by
  cases f with
  | bytes fid p =>
    simp [relation_info_field, spec_field_variant] at h
    rw [← h]; exact hw
  | varint fid raw =>
    simp only [relation_info_field, spec_field_variant] at h
    split_ifs at h with c1 c2 c3 c4 c5
    · simp only [Outcome.ok.injEq] at h; rw [← h]; exact hw
    · simp only [Outcome.ok.injEq] at h; rw [← h]; exact hw
    · simp only [Outcome.ok.injEq] at h; rw [← h]; exact hw
    · simp only [Outcome.ok.injEq] at h; rw [← h]; exact hw
    · have hid : fid = 5 := c5.1
      subst hid
      rw [info_user_out_of_range strings _ (hu raw rfl)] at h
      simp only [Outcome.bind, Outcome.ok.injEq] at h
      rw [← h]
    · simp only [Outcome.ok.injEq] at h; rw [← h]; exact hw

/-- Claim C16 as amended. For every WayInfo or RelationInfo message (at least one info
field) in which every user index (field 5) is not less than the number of strings of
the block's string table, `parse_pbf_way_info` and `parse_pbf_relation_info` return
success and the user stays nil: the index is compared with the count of the table
and an index outside it is passed over, so the entity is produced, without a user. -/
theorem info_user_index_out_of_range (strings : readosm_string_table)
    (info : List spec_field) (w : readosm_internal_way) (r : readosm_internal_relation)
    (hst : strings.count ≤ strings.strings.length) (hne : info ≠ [])
    (hall : ∀ g ∈ info, spec_info_field_ok g)
    (hu : ∀ raw, spec_field.varint 5 raw ∈ info → (strings.count : Int) ≤ int32_of_bits raw)
    (hw : w.user = none) (hr : r.user = none) :
    (∃ w2, parse_pbf_way_info w strings (spec_encode_message info) = .ok w2 ∧ w2.user = none) ∧
    (∃ r2, parse_pbf_relation_info r strings (spec_encode_message info) = .ok r2 ∧
      r2.user = none) := by
  have hl := spec_encode_message_length info
  have hq : ∀ f ∈ info,
      ∀ raw, f = .varint 5 raw → (strings.count : Int) ≤ int32_of_bits raw := by
    intro f hf raw e
    exact hu raw (e ▸ hf)
  constructor
  · obtain ⟨w2, e, _⟩ := way_info_fold strings hst info w info_variant rfl hall
    refine ⟨w2, ?_, ?_⟩
    · rw [parse_pbf_way_info, field_loop_encoded _ info _ w info_variant hne (by omega)
        (fun g hg => spec_info_field_readable g (hall g hg))]
      exact e
    · exact spec_fold_invariant (way_info_field strings) (fun w => w.user = none)
        (fun f => ∀ raw, f = .varint 5 raw → (strings.count : Int) ≤ int32_of_bits raw)
        (fun s v f s2 hf hs h => way_info_field_user strings s s2 v f hf hs h)
        info w info_variant w2 hq hw e
  · obtain ⟨r2, e, _⟩ := relation_info_fold strings hst info r info_variant rfl hall
    refine ⟨r2, ?_, ?_⟩
    · rw [parse_pbf_relation_info, field_loop_encoded _ info _ r info_variant hne (by omega)
        (fun g hg => spec_info_field_readable g (hall g hg))]
      exact e
    · exact spec_fold_invariant (relation_info_field strings) (fun w => w.user = none)
        (fun f => ∀ raw, f = .varint 5 raw → (strings.count : Int) ≤ int32_of_bits raw)
        (fun s v f s2 hf hs h => relation_info_field_user strings s s2 v f hf hs h)
        info r info_variant r2 hq hr e

theorem info_user_index_out_of_range_witness :
    s4_strings.count ≤ s4_strings.strings.length ∧
    (∀ g ∈ [spec_field.varint 5 9], spec_info_field_ok g) ∧
    (∀ raw, spec_field.varint 5 raw ∈ [spec_field.varint 5 9] →
      (s4_strings.count : Int) ≤ int32_of_bits raw) ∧
    (∃ w2, parse_pbf_way_info alloc_internal_way s4_strings
        (spec_encode_message [.varint 5 9]) = .ok w2 ∧ w2.user = none) ∧
    (∃ r2, parse_pbf_relation_info alloc_internal_relation s4_strings
        (spec_encode_message [.varint 5 9]) = .ok r2 ∧ r2.user = none) :=
  ⟨by decide, by decide, by
      intro raw h
      simp only [List.mem_singleton, spec_field.varint.injEq, true_and] at h
      subst h
      decide,
    info_user_index_out_of_range s4_strings [.varint 5 9] alloc_internal_way
      alloc_internal_relation (by decide) (by decide) (by decide)
      (by
        intro raw h
        simp only [List.mem_singleton, spec_field.varint.injEq, true_and] at h
        subst h
        decide) rfl rfl⟩

/-- Counterexample to claim C16 as stated. The Way message `08 2A 22 02 28 09` carries
an info message whose user index is 9, while the string table holds 5 strings:
`parse_pbf_way` does not fail, it delivers the way (with a nil user).  (An index out
of range among the keys is not compared with the table at all: the read outside the
pointer array is a fault, not a returned failure.) -/
theorem user_index_out_of_range_counterexample :
    spec_encode_message user_index_way = [0x08, 0x2A, 0x22, 0x02, 0x28, 0x09] ∧
    s4_strings.count = 5 ∧
    (parse_pbf_way s4_strings (spec_encode_message user_index_way) record_way_params).map
        (fun p => p.user_data) =
      .ok [{ id := 42, version := 0, changeset := 0, user := none, uid := 0,
             timestamp := none, node_ref_count := 0, node_refs := [], tag_count := 0,
             tags := [] }] ∧
    parse_pbf_way_entity s4_strings (spec_encode_message key_index_way) = .fault := by
  decide

/-! ## C15: abort propagation -/

theorem parse_pbf_nodes_keeps {σ : Type} (P : pbf_params σ → Prop) (hP : dispatch_invariant P)
    (strings : readosm_string_table) (bytes : List Nat) (p p2 : pbf_params σ) (hp : P p)
    (h : parse_pbf_nodes strings bytes p = .ok p2) : P p2 := by
  unfold parse_pbf_nodes at h
  cases hf : parse_pbf_nodes_fields bytes with
  | ok st =>
    simp only [hf, Outcome.bind] at h
    cases hr : reassemble_nodes strings st with
    | ok nodes =>
      simp only [hr] at h
      cases hc : p.node_callback with
      | none =>
        simp only [hc, Outcome.ok.injEq] at h
        exact h ▸ hp
      | some cb =>
        simp only [hc] at h
        split_ifs at h with hs
        · simp only [Outcome.ok.injEq] at h
          exact h ▸ hP.1 cb nodes p hp hc hs
        · simp only [Outcome.ok.injEq] at h
          exact h ▸ hp
    | error => simp [hr] at h
    | fault => simp [hr] at h
    | fuel => simp [hr] at h
  | error => simp [hf, Outcome.bind] at h
  | fault => simp [hf, Outcome.bind] at h
  | fuel => simp [hf, Outcome.bind] at h

theorem parse_pbf_way_keeps {σ : Type} (P : pbf_params σ → Prop) (hP : dispatch_invariant P)
    (strings : readosm_string_table) (bytes : List Nat) (p p2 : pbf_params σ) (hp : P p)
    (h : parse_pbf_way strings bytes p = .ok p2) : P p2 := by
  unfold parse_pbf_way at h
  cases hf : parse_pbf_way_entity strings bytes with
  | ok way =>
    simp only [hf, Outcome.bind, Outcome.ok.injEq] at h
    exact h ▸ hP.2.1 way p hp
  | error => simp [hf, Outcome.bind] at h
  | fault => simp [hf, Outcome.bind] at h
  | fuel => simp [hf, Outcome.bind] at h

theorem parse_pbf_relation_keeps {σ : Type} (P : pbf_params σ → Prop)
    (hP : dispatch_invariant P) (strings : readosm_string_table) (bytes : List Nat)
    (p p2 : pbf_params σ) (hp : P p) (h : parse_pbf_relation strings bytes p = .ok p2) :
    P p2 := by
  unfold parse_pbf_relation at h
  cases hf : parse_pbf_relation_entity strings bytes with
  | ok relation =>
    simp only [hf, Outcome.bind, Outcome.ok.injEq] at h
    exact h ▸ hP.2.2 relation p hp
  | error => simp [hf, Outcome.bind] at h
  | fault => simp [hf, Outcome.bind] at h
  | fuel => simp [hf, Outcome.bind] at h

theorem primitive_group_field_keeps {σ : Type} (P : pbf_params σ → Prop)
    (hP : dispatch_invariant P) (strings : readosm_string_table) (v : readosm_variant)
    (p p2 : pbf_params σ) (hp : P p) (h : primitive_group_field strings p v = .ok p2) :
    P p2 := by
  unfold primitive_group_field at h
  split_ifs at h
  · exact parse_pbf_nodes_keeps P hP strings _ p p2 hp h
  · exact parse_pbf_way_keeps P hP strings _ p p2 hp h
  · exact parse_pbf_relation_keeps P hP strings _ p p2 hp h
  · simp only [Outcome.ok.injEq] at h
    exact h ▸ hp

theorem primitive_group_loop_keeps {σ : Type} (P : pbf_params σ → Prop)
    (hP : dispatch_invariant P) (strings : readosm_string_table) :
    ∀ (fuel : Nat) (p : pbf_params σ) (v : readosm_variant) (bytes : List Nat)
      (r : Int × pbf_params σ),
      P p → primitive_group_loop strings fuel p v bytes = .ok r → P r.2 := by
  intro fuel
  induction fuel with
  | zero => intro p v bytes r _ h; simp [primitive_group_loop] at h
  | succ fuel ih =>
    intro p v bytes r hp h
    simp only [primitive_group_loop] at h
    rcases hpf : parse_field bytes (reset_variant v) with ⟨_ | base, v2⟩
    · simp only [hpf] at h
      split_ifs at h
      · simp only [Outcome.ok.injEq] at h
        exact h ▸ hp
    · simp only [hpf] at h
      cases hf : primitive_group_field strings p v2 with
      | ok p1 =>
        have hp1 := primitive_group_field_keeps P hP strings v2 p p1 hp hf
        simp only [hf] at h
        rcases base with _ | ⟨b, bs⟩
        · simp only [Outcome.ok.injEq] at h
          exact h ▸ hp1
        · exact ih _ _ _ _ hp1 h
      | error =>
        simp only [hf, Outcome.ok.injEq] at h
        exact h ▸ hp
      | fault => simp [hf] at h
      | fuel => simp [hf] at h

theorem primitive_block_loop_keeps {σ : Type} (P : pbf_params σ → Prop)
    (hP : dispatch_invariant P) :
    ∀ (fuel : Nat) (table : readosm_string_table) (p : pbf_params σ) (v : readosm_variant)
      (bytes : List Nat) (r : Int × pbf_params σ),
      P p → primitive_block_loop fuel table p v bytes = .ok r → P r.2 := by
  intro fuel
  induction fuel with
  | zero => intro table p v bytes r _ h; simp [primitive_block_loop] at h
  | succ fuel ih =>
    intro table p v bytes r hp h
    simp only [primitive_block_loop] at h
    rcases hpf : parse_field bytes (reset_variant v) with ⟨_ | base, v2⟩
    · simp only [hpf] at h
      split_ifs at h
      · simp only [Outcome.ok.injEq] at h
        exact h ▸ hp
    · simp only [hpf] at h
      split at h
      · rename_i table2 _
        cases hg : (if v2.field_id = 2 ∧ v2.type = READOSM_LEN_BYTES then
            parse_primitive_group table2 v2.pointer p else .ok (1, p)) with
        | ok res =>
          have hres : P res.2 := by
            split_ifs at hg with hc
            · exact primitive_group_loop_keeps P hP table2 _ p _ _ res hp hg
            · simp only [Outcome.ok.injEq] at hg
              exact hg ▸ hp
          simp only [hg, Outcome.bind] at h
          split_ifs at h
          · simp only [Outcome.ok.injEq] at h
            exact h ▸ hres
          · simp only [Outcome.ok.injEq] at h
            exact h ▸ hres
          · rcases base with _ | ⟨b, bs⟩
            · simp only [Outcome.ok.injEq] at h
              exact h ▸ hres
            · exact ih _ _ _ _ _ hres h
        | error => simp [hg, Outcome.bind] at h
        | fault => simp [hg, Outcome.bind] at h
        | fuel => simp [hg, Outcome.bind] at h
      · simp only [Outcome.ok.injEq] at h
        exact h ▸ hp
      · simp at h
      · simp at h

theorem parse_primitive_block_keeps {σ : Type} (P : pbf_params σ → Prop)
    (hP : dispatch_invariant P) (inflate : List Nat → Option (List Nat)) (st : blob_state)
    (p : pbf_params σ) (r : Int × pbf_params σ) (hp : P p)
    (h : parse_primitive_block inflate st p = .ok r) : P r.2 := by
  unfold parse_primitive_block at h
  split at h
  · simp only [Outcome.ok.injEq] at h
    exact h ▸ hp
  · split_ifs at h
    · simp only [Outcome.ok.injEq] at h
      exact h ▸ hp
    · exact primitive_block_loop_keeps P hP _ _ p _ _ r hp h
  · simp only [Outcome.ok.injEq] at h
    exact h ▸ hp
  · simp at h
  · simp at h

theorem parse_osm_data_keeps {σ : Type} (P : pbf_params σ → Prop) (hP : dispatch_invariant P)
    (inflate : List Nat → Option (List Nat)) (input : List Nat) (sz : Nat)
    (p : pbf_params σ) (r : Int × pbf_params σ × List Nat) (hp : P p)
    (h : parse_osm_data inflate input sz p = .ok r) : P r.2.1 := by
  unfold parse_osm_data at h
  cases hb : read_blob OSMData input sz with
  | ok rb =>
    simp only [hb, Outcome.bind] at h
    split at h
    · simp only [Outcome.ok.injEq] at h
      exact h ▸ hp
    · split at h
      · rename_i st _
        cases hpb : parse_primitive_block inflate st p with
        | ok res =>
          simp only [hpb, Outcome.bind, Outcome.ok.injEq] at h
          exact h ▸ parse_primitive_block_keeps P hP inflate st p res hp hpb
        | error => simp [hpb, Outcome.bind] at h
        | fault => simp [hpb, Outcome.bind] at h
        | fuel => simp [hpb, Outcome.bind] at h
      · simp only [Outcome.ok.injEq] at h
        exact h ▸ hp
      · simp at h
      · simp at h
  | error => simp [hb, Outcome.bind] at h
  | fault => simp [hb, Outcome.bind] at h
  | fuel => simp [hb, Outcome.bind] at h

theorem parse_osm_pbf_loop_keeps {σ : Type} (P : pbf_params σ → Prop)
    (hP : dispatch_invariant P) (inflate : List Nat → Option (List Nat)) :
    ∀ (fuel : Nat) (p : pbf_params σ) (input : List Nat) (r : Int × pbf_params σ × List Nat),
      P p → parse_osm_pbf_loop inflate fuel p input = .ok r →
      P r.2.1 ∧
      ((r.1 = READOSM_OK ∧ r.2.1.stop = 0) ∨ (r.1 = READOSM_ABORT ∧ r.2.1.stop ≠ 0) ∨
        r.1 = READOSM_INVALID_PBF_HEADER) := by
  intro fuel
  induction fuel with
  | zero => intro p input r _ h; simp [parse_osm_pbf_loop] at h
  | succ fuel ih =>
    intro p input r hp h
    simp only [parse_osm_pbf_loop] at h
    split_ifs at h with hs h0 h4
    · simp only [Outcome.ok.injEq] at h
      subst h
      exact ⟨hp, Or.inr (Or.inl ⟨rfl, hs⟩)⟩
    · simp only [Outcome.ok.injEq] at h
      subst h
      exact ⟨hp, Or.inl ⟨rfl, by simpa using hs⟩⟩
    · simp only [Outcome.ok.injEq] at h
      subst h
      exact ⟨hp, Or.inr (Or.inr rfl)⟩
    · cases hd : parse_osm_data inflate (fread 4 input).2 (get_header_size (fread 4 input).1)
          p with
      | ok res =>
        have hres := parse_osm_data_keeps P hP inflate _ _ p res hp hd
        simp only [hd, Outcome.bind] at h
        split_ifs at h
        · simp only [Outcome.ok.injEq] at h
          subst h
          exact ⟨hres, Or.inr (Or.inr rfl)⟩
        · exact ih _ _ r hres h
      | error => simp [hd, Outcome.bind] at h
      | fault => simp [hd, Outcome.bind] at h
      | fuel => simp [hd, Outcome.bind] at h

theorem parse_osm_pbf_keeps {σ : Type} (P : pbf_params σ → Prop) (hP : dispatch_invariant P)
    (inflate : List Nat → Option (List Nat)) (input : List Nat) (user_data : σ)
    (node_fnct : Option (σ → readosm_export_node → Int × σ))
    (way_fnct : Option (σ → readosm_export_way → Int × σ))
    (relation_fnct : Option (σ → readosm_export_relation → Int × σ))
    (r : Int × pbf_params σ × List Nat)
    (hp : P { user_data := user_data, node_callback := node_fnct, way_callback := way_fnct,
              relation_callback := relation_fnct, stop := 0 })
    (h : parse_osm_pbf inflate input user_data node_fnct way_fnct relation_fnct = .ok r) :
    P r.2.1 ∧
    ((r.1 = READOSM_OK ∧ r.2.1.stop = 0) ∨ (r.1 = READOSM_ABORT ∧ r.2.1.stop ≠ 0) ∨
      r.1 = READOSM_INVALID_PBF_HEADER) := by
  simp only [parse_osm_pbf] at h
  split_ifs at h
  · simp only [Outcome.ok.injEq] at h
    subst h
    exact ⟨hp, Or.inr (Or.inr rfl)⟩
  · cases hk : skip_osm_header (fread 4 input).2 (get_header_size (fread 4 input).1) with
    | ok hd =>
      simp only [hk, Outcome.bind] at h
      split_ifs at h
      · simp only [Outcome.ok.injEq] at h
        subst h
        exact ⟨hp, Or.inr (Or.inr rfl)⟩
      · exact parse_osm_pbf_loop_keeps P hP inflate _ _ _ r hp h
    | error => simp [hk, Outcome.bind] at h
    | fault => simp [hk, Outcome.bind] at h
    | fuel => simp [hk, Outcome.bind] at h

theorem sticky_dispatch_invariant {σ : Type} (p0 : pbf_params σ) (h0 : p0.stop ≠ 0) :
    dispatch_invariant (fun p => p = p0) := by
  refine ⟨?_, ?_, ?_⟩
  · intro cb nodes p hp _ hs
    subst hp
    exact absurd hs h0
  · intro way p hp
    subst hp
    unfold dispatch_way
    cases p.way_callback with
    | none => rfl
    | some cb => simp only [h0, if_false]
  · intro relation p hp
    subst hp
    unfold dispatch_relation
    cases p.relation_callback with
    | none => rfl
    | some cb => simp only [h0, if_false]

theorem journal_append (journal : List Int) (r : Int) (h : journal_ok 0 journal) :
    (r = READOSM_OK → journal_ok 0 (journal ++ [r])) ∧
    (r ≠ READOSM_OK → journal_ok 1 (journal ++ [r])) := by
  obtain ⟨_, hall, _⟩ := h
  have hall2 := hall rfl
  constructor
  · intro hr
    refine ⟨?_, ?_, fun h => absurd rfl h⟩
    · rw [List.dropLast_concat]
      exact hall2
    · intro _ x hx
      rcases List.mem_append.1 hx with hx | hx
      · exact hall2 x hx
      · rw [List.mem_singleton.1 hx]
        exact hr
  · intro hr
    refine ⟨?_, fun h => absurd h (by norm_num), fun _ => ⟨r, List.getLast?_concat _, hr⟩⟩
    rw [List.dropLast_concat]
    exact hall2

theorem journal_dispatch_invariant {σ : Type}
    (ncb : Option (σ → readosm_export_node → Int × σ))
    (wcb : Option (σ → readosm_export_way → Int × σ))
    (rcb : Option (σ → readosm_export_relation → Int × σ)) :
    dispatch_invariant (fun p : pbf_params (σ × List Int) =>
      p.node_callback = ncb.map logged ∧ p.way_callback = wcb.map logged ∧
      p.relation_callback = rcb.map logged ∧ journal_ok p.stop p.user_data.2) := by
  refine ⟨?_, ?_, ?_⟩
  · intro cb nodes
    induction nodes with
    | nil => intro p hp _ _; exact hp
    | cons nd nodes ih =>
      intro p hp hc hs
      obtain ⟨h1, h2, h3, hj⟩ := hp
      obtain ⟨c, hc1, hc2⟩ : ∃ c, ncb = some c ∧ cb = logged c := by
        rw [hc] at h1
        cases ncb with
        | none => simp at h1
        | some c => exact ⟨c, rfl, by simpa using h1⟩
      rw [hs] at hj
      have ha := journal_append p.user_data.2 (c p.user_data.1 (export_node nd)).1 hj
      simp only [dispatch_nodes, call_node_callback]
      split_ifs with hr
      · refine ⟨h1, h2, h3, ?_⟩
        subst hc2
        exact ha.2 hr
      · have hr2 : (c p.user_data.1 (export_node nd)).1 = READOSM_OK := by
          subst hc2
          simpa [logged] using hr
        refine ih _ ⟨h1, h2, h3, ?_⟩ hc hs
        subst hc2
        simp only [hs]
        exact ha.1 hr2
  · intro way p hp
    obtain ⟨h1, h2, h3, hj⟩ := hp
    unfold dispatch_way
    cases hw : p.way_callback with
    | none => exact ⟨h1, h2, h3, hj⟩
    | some cb =>
      obtain ⟨c, hc1, hc2⟩ : ∃ c, wcb = some c ∧ cb = logged c := by
        rw [hw] at h2
        cases wcb with
        | none => simp at h2
        | some c => exact ⟨c, rfl, by simpa using h2⟩
      have h2b : some cb = wcb.map logged := hw ▸ h2
      simp only
      split_ifs with hs hr
      · rw [hs] at hj
        have ha := journal_append p.user_data.2 (c p.user_data.1 (export_way way)).1 hj
        subst hc2
        exact ⟨h1, h2b, h3, ha.2 hr⟩
      · rw [hs] at hj
        have ha := journal_append p.user_data.2 (c p.user_data.1 (export_way way)).1 hj
        subst hc2
        refine ⟨h1, h2b, h3, ?_⟩
        simp only [hs]
        exact ha.1 (by simpa [call_way_callback, logged] using hr)
      · exact ⟨h1, h2, h3, hj⟩
  · intro relation p hp
    obtain ⟨h1, h2, h3, hj⟩ := hp
    unfold dispatch_relation
    cases hw : p.relation_callback with
    | none => exact ⟨h1, h2, h3, hj⟩
    | some cb =>
      obtain ⟨c, hc1, hc2⟩ : ∃ c, rcb = some c ∧ cb = logged c := by
        rw [hw] at h3
        cases rcb with
        | none => simp at h3
        | some c => exact ⟨c, rfl, by simpa using h3⟩
      have h3b : some cb = rcb.map logged := hw ▸ h3
      simp only
      split_ifs with hs hr
      · rw [hs] at hj
        have ha := journal_append p.user_data.2 (c p.user_data.1 (export_relation relation)).1 hj
        subst hc2
        exact ⟨h1, h2, h3b, ha.2 hr⟩
      · rw [hs] at hj
        have ha := journal_append p.user_data.2 (c p.user_data.1 (export_relation relation)).1 hj
        subst hc2
        refine ⟨h1, h2, h3b, ?_⟩
        simp only [hs]
        exact ha.1 (by simpa [call_relation_callback, logged] using hr)
      · exact ⟨h1, h2, h3, hj⟩

set_option maxRecDepth 100000 in
/-- Claim C15 as amended. For every stream, every decompression and all callbacks, run
with a journal of the values that the callback invocations return: every entry of the
journal but the last is `READOSM_OK`, so no node, way or relation callback is invoked
after an invocation that returned another value; if some invocation returned another
value, `parse_osm_pbf` returns `READOSM_ABORT` or `READOSM_INVALID_PBF_HEADER`, and it
returns `READOSM_ABORT` only then.  Once the stop flag is set, `parse_osm_data` leaves
the parameters as they are, and the loop of `parse_osm_pbf` returns `READOSM_ABORT`
without reading a byte; so when the blob in which the flag was set decodes to its end
without error, the result is `READOSM_ABORT` with the stream position just behind that
blob.  With 10 nodes and a callback that returns a value other than `READOSM_OK` on
its third call there are exactly 3 deliveries, the result is `READOSM_ABORT`, and the
51 bytes of the following blob are left unread. -/
theorem abort_propagation {σ : Type} (inflate : List Nat → Option (List Nat)) :
    (∀ (input : List Nat) (user_data : σ)
        (ncb : Option (σ → readosm_export_node → Int × σ))
        (wcb : Option (σ → readosm_export_way → Int × σ))
        (rcb : Option (σ → readosm_export_relation → Int × σ))
        (r : Int × pbf_params (σ × List Int) × List Nat),
      parse_osm_pbf inflate input (user_data, []) (ncb.map logged) (wcb.map logged)
          (rcb.map logged) = .ok r →
      (∀ x ∈ r.2.1.user_data.2.dropLast, x = READOSM_OK) ∧
      ((∃ x ∈ r.2.1.user_data.2, x ≠ READOSM_OK) →
        r.1 = READOSM_ABORT ∨ r.1 = READOSM_INVALID_PBF_HEADER) ∧
      (r.1 = READOSM_ABORT → ∃ x ∈ r.2.1.user_data.2, x ≠ READOSM_OK)) ∧
    (∀ (params : pbf_params σ) (input : List Nat) (fuel : Nat), params.stop ≠ 0 →
      parse_osm_pbf_loop inflate (fuel + 1) params input =
        .ok (READOSM_ABORT, params, input)) ∧
    (∀ (params : pbf_params σ) (input : List Nat) (sz : Nat)
        (r : Int × pbf_params σ × List Nat), params.stop ≠ 0 →
      parse_osm_data inflate input sz params = .ok r → r.2.1 = params) ∧
    (∀ (params : pbf_params σ) (input : List Nat) (fuel : Nat)
        (r : Int × pbf_params σ × List Nat), params.stop = 0 → 4 ≤ input.length →
      parse_osm_data inflate (input.drop 4) (get_header_size (input.take 4)) params = .ok r →
      r.1 ≠ 0 → r.2.1.stop ≠ 0 →
      parse_osm_pbf_loop inflate (fuel + 2) params input =
        .ok (READOSM_ABORT, r.2.1, r.2.2)) ∧
    run_result (parse_osm_pbf no_inflate s5_stream [] (some abort_on_third) none none) =
      .ok (READOSM_ABORT, [1, 2, 3], 1, 51) ∧
    (spec_encode_data_blob (spec_nodes_block 1)).length = 51 := by
  refine ⟨?_, ?_, ?_, ?_, by decide, by decide⟩
  · intro input user_data ncb wcb rcb r h
    obtain ⟨⟨_, _, _, hd, h0, h1⟩, hcode⟩ :=
      parse_osm_pbf_keeps _ (journal_dispatch_invariant ncb wcb rcb) inflate input
        (user_data, []) _ _ _ r
        ⟨rfl, rfl, rfl, by simp [journal_ok], by simp, by simp⟩ h
    refine ⟨hd, ?_, ?_⟩
    · rintro ⟨x, hx, hne⟩
      rcases hcode with ⟨_, hs⟩ | ⟨hc, _⟩ | hc
      · exact absurd (h0 hs x hx) hne
      · exact Or.inl hc
      · exact Or.inr hc
    · intro hc
      rcases hcode with ⟨hc2, _⟩ | ⟨_, hs⟩ | hc2
      · rw [hc] at hc2
        exact absurd hc2 (by decide)
      · obtain ⟨x, hx, hne⟩ := h1 hs
        exact ⟨x, List.mem_of_getLast?_eq_some hx, hne⟩
      · rw [hc] at hc2
        exact absurd hc2 (by decide)
  · intro params input fuel hs
    simp only [parse_osm_pbf_loop, hs, ne_eq, not_false_eq_true, if_true]
  · intro params input sz r hs h
    exact parse_osm_data_keeps (fun p => p = params) (sticky_dispatch_invariant params hs)
      inflate input sz params r rfl h
  · intro params input fuel r hs hlen h hret hstop
    have hl : (List.take 4 input).length = 4 := by
      rw [List.length_take]
      omega
    simp only [parse_osm_pbf_loop, fread, hs, ne_eq, not_true_eq_false, if_false, hl, h,
      Outcome.bind, hret, hstop, not_false_eq_true, if_true]
    simp

theorem abort_propagation_witness :
    stopped_params.stop ≠ 0 ∧
    parse_osm_pbf_loop no_inflate (0 + 1) stopped_params (spec_encode_data_blob
        (spec_nodes_block 1)) =
      .ok (READOSM_ABORT, stopped_params, spec_encode_data_blob (spec_nodes_block 1)) ∧
    run_result (parse_osm_pbf no_inflate s5_stream [] (some abort_on_third) none none) =
      .ok (READOSM_ABORT, [1, 2, 3], 1, 51) :=
  ⟨by decide,
    (abort_propagation no_inflate).2.1 stopped_params
      (spec_encode_data_blob (spec_nodes_block 1)) 0 (by decide),
    (@abort_propagation (List Int) no_inflate).2.2.2.2.1⟩

set_option maxRecDepth 100000 in
/-- Counterexample to claim C15 as stated. The only OSMData blob of the stream holds a
group of 10 nodes and, behind it, a primitive group that does not decode.  The node
callback returns a value other than `READOSM_OK` on its third call; there are 3
deliveries and no later one, but the rest of the blob is still decoded, fails, and
`parse_osm_pbf` returns `READOSM_INVALID_PBF_HEADER`, not `READOSM_ABORT`. -/
theorem abort_then_corrupt_counterexample :
    run_result (parse_osm_pbf no_inflate abort_then_corrupt_stream [] (some abort_on_third)
        none none) =
      .ok (READOSM_INVALID_PBF_HEADER, [1, 2, 3], 1, 0) ∧
    READOSM_INVALID_PBF_HEADER ≠ READOSM_ABORT := by
  decide

/-! ## C21: the slice of `read_bytes` -/

/-- [C21] `read_bytes` decodes a leading `uint32` varint `L`.  When the `L` bytes
after it lie within the buffer, the variant becomes valid with the slice of exactly
`L` bytes that starts right behind the varint (a window of the input, not a copy)
and the returned position is just past the slice; when the varint cannot be decoded
or the bytes reach past the buffer, the call fails and the variant is left as it
was, so not valid after the reset that precedes the call. -/
theorem read_bytes_slice (bytes : List Nat) (variant : readosm_variant) :
    (∀ L ptr, read_var READOSM_VAR_UINT32 bytes = some (L, ptr) → L.toNat ≤ ptr.length →
      read_bytes bytes variant =
        (some (ptr.drop L.toNat),
         { variant with pointer := ptr.take L.toNat, length := L.toNat, valid := true }) ∧
      (ptr.take L.toNat).length = L.toNat ∧
      ptr.take L.toNat ++ ptr.drop L.toNat = ptr) ∧
    ((read_var READOSM_VAR_UINT32 bytes = none ∨
      ∃ L ptr, read_var READOSM_VAR_UINT32 bytes = some (L, ptr) ∧ ptr.length < L.toNat) →
      read_bytes bytes variant = (none, variant) ∧
      (read_bytes bytes (reset_variant variant)).2.valid = false) := by
  constructor
  · intro L ptr h hL
    refine ⟨?_, ?_, List.take_append_drop _ _⟩
    · simp only [read_bytes, h, if_neg (Nat.not_lt.mpr hL)]
    · rw [List.length_take]; omega
  · rintro (h | ⟨L, ptr, h, hL⟩)
    · simp only [read_bytes, h, reset_variant, and_self]
    · simp only [read_bytes, h, gt_iff_lt, if_pos hL, reset_variant, and_self]

theorem read_bytes_slice_witness :
    (read_bytes [3, 65, 66, 67, 99] init_variant =
      (some ([65, 66, 67, 99].drop (3 : Int).toNat),
       { init_variant with pointer := [65, 66, 67, 99].take (3 : Int).toNat,
                           length := (3 : Int).toNat, valid := true }) ∧
     ([65, 66, 67, 99].take (3 : Int).toNat).length = (3 : Int).toNat ∧
     [65, 66, 67, 99].take (3 : Int).toNat ++ [65, 66, 67, 99].drop (3 : Int).toNat =
       [65, 66, 67, 99]) ∧
    (read_bytes [3, 65, 66] init_variant = (none, init_variant) ∧
     (read_bytes [3, 65, 66] (reset_variant init_variant)).2.valid = false) :=
  ⟨(read_bytes_slice [3, 65, 66, 67, 99] init_variant).1 3 [65, 66, 67, 99]
      (by decide) (by decide),
   (read_bytes_slice [3, 65, 66] init_variant).2
      (Or.inr ⟨3, [65, 66], by decide, by decide⟩)⟩

/-! ## C22: the string table -/

theorem string_table_fold (ps : List (List Nat)) :
    ∀ (t : readosm_string_table) (v : readosm_variant),
      spec_fold string_table_field t v (ps.map (spec_field.bytes 1)) =
        .ok { t with first := t.first ++ ps } := by
  induction ps with
  | nil => intro t v; simp [spec_fold]
  | cons p ps ih =>
    intro t v
    have h : string_table_field t (spec_field_variant v (spec_field.bytes 1 p)) =
        .ok { t with first := t.first ++ [p] } := by
      simp [string_table_field, spec_field_variant, reset_variant, append_string_to_table]
    simp only [List.map_cons, spec_fold, h, Outcome.bind, ih, List.append_assoc,
      List.singleton_append]

theorem c_string_no_zero (p : List Nat) (h : 0 ∉ p) : c_string p = p := by
  unfold c_string
  induction p with
  | nil => rfl
  | cons a p ih =>
    have ha : a ≠ 0 := fun e => h (e ▸ List.mem_cons_self _ _)
    have hp : 0 ∉ p := fun e => h (List.mem_cons_of_mem _ e)
    simp [List.takeWhile_cons, ha, ih hp]

theorem parse_string_table_encoded (ps : List (List Nat)) (hne : ps ≠ [])
    (hlen : ∀ p ∈ ps, p.length < 2 ^ 32) :
    parse_string_table init_string_table (spec_encode_message (ps.map (spec_field.bytes 1))) =
      .ok { init_string_table with first := ps } := by
  have hok : ∀ f ∈ ps.map (spec_field.bytes 1),
      spec_field_ok (add_variant_hints init_variant READOSM_LEN_BYTES 1).hints f := by
    intro f hf
    obtain ⟨p, hp, rfl⟩ := List.mem_map.mp hf
    exact ⟨by norm_num, hlen p hp, by decide⟩
  have hfuel : (ps.map (spec_field.bytes 1)).length ≤
      (spec_encode_message (ps.map (spec_field.bytes 1))).length + 1 :=
    Nat.le_succ_of_le (spec_encode_message_length _)
  rw [parse_string_table, field_loop_encoded string_table_field _ _ _ _
    (by simpa using hne) hfuel hok, string_table_fold]
  simp [init_string_table]

/-- [C22] For a StringTable message of `n ≥ 1` length-delimited fields with id 1
whose payloads `p_i` hold no zero byte, `parse_string_table` followed by
`array_from_string_table` on a fresh table gives `count = n`, and the entry at
index `i` is a copy of `p_i`: the buffer holds the bytes of `p_i`, and read as a C
string it is `p_i`. -/
theorem parse_string_table_strings (ps : List (List Nat)) (hne : ps ≠ [])
    (hlen : ∀ p ∈ ps, p.length < 2 ^ 32) (hz : ∀ p ∈ ps, 0 ∉ p) :
    ∃ t, parse_string_table init_string_table
          (spec_encode_message (ps.map (spec_field.bytes 1))) = .ok t ∧
      (array_from_string_table t).count = ps.length ∧
      ∀ i : Nat, i < ps.length →
        string_at (array_from_string_table t) i = ps.get? i ∧
        (string_at (array_from_string_table t) i).map c_string = ps.get? i := by
  refine ⟨_, parse_string_table_encoded ps hne hlen, ?_, ?_⟩
  · simp [array_from_string_table, init_string_table]
    split_ifs <;> rfl
  · intro i hi
    have hs : string_at (array_from_string_table { init_string_table with first := ps }) i =
        ps.get? i := by
      simp [array_from_string_table, init_string_table, string_at, hne]
    refine ⟨hs, ?_⟩
    rw [hs, List.get?_eq_get hi, Option.map_some']
    exact congrArg some (c_string_no_zero _ (hz _ (List.get_mem _ _ _)))

theorem parse_string_table_strings_witness :
    ∃ t, parse_string_table init_string_table
          (spec_encode_message ([[97, 98], [], [117, 49]].map (spec_field.bytes 1))) = .ok t ∧
      (array_from_string_table t).count = [[97, 98], [], [117, 49]].length ∧
      ∀ i : Nat, i < [[97, 98], [], [117, 49]].length →
        string_at (array_from_string_table t) i = [[97, 98], [], [117, 49]].get? i ∧
        (string_at (array_from_string_table t) i).map c_string =
          [[97, 98], [], [117, 49]].get? i :=
  parse_string_table_strings [[97, 98], [], [117, 49]] (by decide) (by decide) (by decide)

/-! ## C23: the size prefix -/

theorem endian4_value (host_little : Bool) (b0 b1 b2 b3 : Nat) :
    endian4_uint32_value host_little [b0, b1, b2, b3] =
      if host_little then b0 + b1 * 2 ^ 8 + b2 * 2 ^ 16 + b3 * 2 ^ 24
      else b0 * 2 ^ 24 + b1 * 2 ^ 16 + b2 * 2 ^ 8 + b3 := by
  cases host_little <;> rfl

/-- [C23] When the flag `little_endian_cpu` describes the byte order of the host,
as the value of `test_endianness` does, `get_header_size` returns
`b0 * 2^24 + b1 * 2^16 + b2 * 2^8 + b3` for the four bytes of the buffer, which is
the value of the host-independent `get_header_size` used by the stream functions;
the bytes `00 00 00 0D` give 13. -/
theorem get_header_size_big_endian (host_little : Bool) (buf : List Nat) :
    test_endianness host_little = host_little ∧
    get_header_size_on_host host_little buf host_little =
      buf.getD 0 0 * 2 ^ 24 + buf.getD 1 0 * 2 ^ 16 + buf.getD 2 0 * 2 ^ 8 + buf.getD 3 0 ∧
    get_header_size_on_host host_little buf (test_endianness host_little) =
      get_header_size buf ∧
    get_header_size_on_host host_little [0x00, 0x00, 0x00, 0x0D]
      (test_endianness host_little) = 13 := by
  have ht : test_endianness host_little = host_little := by cases host_little <;> rfl
  have hv : get_header_size_on_host host_little buf host_little =
      buf.getD 0 0 * 2 ^ 24 + buf.getD 1 0 * 2 ^ 16 + buf.getD 2 0 * 2 ^ 8 + buf.getD 3 0 := by
    cases host_little
    · simp [get_header_size_on_host, endian4_value]
    · simp only [get_header_size_on_host, endian4_value, if_true]
      omega
  refine ⟨ht, hv, ?_, ?_⟩
  · rw [ht, hv, get_header_size]
  · cases host_little <;> rfl

theorem get_header_size_wrong_flag (host_little : Bool) (buf : List Nat) :
    get_header_size_on_host host_little buf (!host_little) =
      buf.getD 0 0 + buf.getD 1 0 * 2 ^ 8 + buf.getD 2 0 * 2 ^ 16 + buf.getD 3 0 * 2 ^ 24 := by
  cases host_little
  · simp only [get_header_size_on_host, endian4_value, Bool.not_false, if_true]
    simp
    omega
  · simp [get_header_size_on_host, endian4_value]

/-! ## C30: the export view -/

theorem count_loop_eq {α : Type} (l : List α) : ∀ c, count_loop l c = c + l.length := by
  induction l with
  | nil => intro c; rfl
  | cons a l ih => intro c; rw [count_loop, ih, List.length_cons]; omega

theorem list_set_append_replicate {α : Type} (pre : List α) (n : Nat) (a x : α) :
    (pre ++ List.replicate (n + 1) a).set pre.length x =
      (pre ++ [x]) ++ List.replicate n a := by
  induction pre with
  | nil => rfl
  | cons b pre ih => simp only [List.cons_append, List.length_cons, List.set_cons_succ, ih]

theorem list_getD_append_replicate {α : Type} (pre : List α) (n : Nat) (a d : α) :
    (pre ++ List.replicate (n + 1) a).getD pre.length d = a := by
  induction pre with
  | nil => rfl
  | cons b pre ih => simpa using ih

theorem copy_tags_loop_spec (l : List readosm_internal_tag) :
    ∀ pre : List readosm_export_tag,
      copy_tags_loop l pre.length (pre ++ List.replicate l.length init_export_tag) =
        .ok (pre ++ l.map fun tag =>
          { key := tag.key.map c_string, value := tag.value.map c_string }) := by
  induction l with
  | nil => intro pre; simp [copy_tags_loop]
  | cons tag l ih =>
    intro pre
    have hlt : pre.length < (pre ++ List.replicate (l.length + 1) init_export_tag).length := by
      simp
    have hget : (pre ++ List.replicate (l.length + 1) init_export_tag).getD pre.length
        init_export_tag = init_export_tag := list_getD_append_replicate _ _ _ _
    have h := ih (pre ++ [{ key := tag.key.map c_string, value := tag.value.map c_string }])
    rw [List.length_append, List.length_singleton] at h
    rw [List.length_cons, copy_tags_loop, if_pos hlt]
    simp only [hget, list_set_append_replicate, List.map_cons]
    simp only [List.append_assoc, List.singleton_append] at h ⊢
    rcases tag with ⟨_ | key, _ | value⟩ <;> exact h

theorem setup_export_tags_spec (l : List readosm_internal_tag) :
    setup_export_tags l (count_loop l 0) =
      .ok (l.map fun tag => { key := tag.key.map c_string, value := tag.value.map c_string }) := by
  rw [count_loop_eq, Nat.zero_add, setup_export_tags]
  cases l with
  | nil => rfl
  | cons tag l =>
    rw [if_pos (by simp)]
    exact copy_tags_loop_spec (tag :: l) []

theorem copy_refs_loop_spec (l : List Int) :
    ∀ pre : List Int,
      copy_refs_loop l pre.length (pre ++ List.replicate l.length 0) = .ok (pre ++ l) := by
  induction l with
  | nil => intro pre; simp [copy_refs_loop]
  | cons ref l ih =>
    intro pre
    have hlt : pre.length < (pre ++ List.replicate (l.length + 1) (0 : Int)).length := by simp
    have h := ih (pre ++ [ref])
    rw [List.length_append, List.length_singleton] at h
    rw [List.length_cons, copy_refs_loop, if_pos hlt, list_set_append_replicate, h,
      List.append_assoc, List.singleton_append]

theorem copy_members_loop_spec (l : List readosm_internal_member) :
    ∀ pre : List readosm_export_member,
      copy_members_loop l pre.length (pre ++ List.replicate l.length init_export_member) =
        .ok (pre ++ l.map fun member =>
          { member_type := member.member_type, id := member.id,
            role := member.role.map c_string }) := by
  induction l with
  | nil => intro pre; simp [copy_members_loop]
  | cons member l ih =>
    intro pre
    have hlt : pre.length <
        (pre ++ List.replicate (l.length + 1) init_export_member).length := by simp
    have hget : (pre ++ List.replicate (l.length + 1) init_export_member).getD pre.length
        init_export_member = init_export_member := list_getD_append_replicate _ _ _ _
    have h := ih (pre ++ [{ member_type := member.member_type, id := member.id,
                            role := member.role.map c_string }])
    rw [List.length_append, List.length_singleton] at h
    rw [List.length_cons, copy_members_loop, if_pos hlt]
    simp only [hget, list_set_append_replicate, List.map_cons]
    simp only [List.append_assoc, List.singleton_append] at h ⊢
    rcases member with ⟨_, _, _ | role⟩ <;> exact h

theorem setup_export_node_eq (node : readosm_internal_node) :
    setup_export_node node = .ok (export_node node) := by
  have ht := setup_export_tags_spec node.tags
  rw [count_loop_eq, Nat.zero_add] at ht
  rcases node with ⟨_, _, _, _, _, _ | user, _, _ | timestamp, _, tags⟩ <;>
    simp only [setup_export_node, init_export_node, count_loop_eq, Nat.zero_add] at ht ⊢ <;>
    rw [ht] <;> rfl

theorem setup_export_refs_spec (l : List Int) :
    (if count_loop l 0 > 0 then copy_refs_loop l 0 (List.replicate (count_loop l 0) 0)
     else .ok []) = Outcome.ok l := by
  rw [count_loop_eq, Nat.zero_add]
  cases l with
  | nil => rfl
  | cons ref l =>
    rw [if_pos (by simp)]
    exact copy_refs_loop_spec (ref :: l) []

theorem setup_export_members_spec (l : List readosm_internal_member) :
    (if count_loop l 0 > 0 then
      copy_members_loop l 0 (List.replicate (count_loop l 0) init_export_member)
     else .ok []) =
      Outcome.ok (l.map fun member =>
        ({ member_type := member.member_type, id := member.id,
           role := member.role.map c_string } : readosm_export_member)) := by
  rw [count_loop_eq, Nat.zero_add]
  cases l with
  | nil => rfl
  | cons member l =>
    rw [if_pos (by simp)]
    exact copy_members_loop_spec (member :: l) []

theorem setup_export_way_eq (way : readosm_internal_way) :
    setup_export_way way = .ok (export_way way) := by
  have ht := setup_export_tags_spec way.tags
  have hr := setup_export_refs_spec way.refs
  rcases way with ⟨_, _, _, _ | user, _, _ | timestamp, _, refs, _, tags⟩ <;>
    simp only [setup_export_way, init_export_way] at ht hr ⊢ <;>
    rw [hr] <;> simp only [Outcome.bind] <;> rw [ht] <;>
    simp only [Outcome.bind, export_way, init_export_way, count_loop_eq, Nat.zero_add] <;> rfl

theorem setup_export_relation_eq (relation : readosm_internal_relation) :
    setup_export_relation relation = .ok (export_relation relation) := by
  have ht := setup_export_tags_spec relation.tags
  have hm := setup_export_members_spec relation.members
  rcases relation with ⟨_, _, _, _ | user, _, _ | timestamp, _, members, _, tags⟩ <;>
    simp only [setup_export_relation, init_export_relation] at ht hm ⊢ <;>
    rw [hm] <;> simp only [Outcome.bind] <;> rw [ht] <;>
    simp only [Outcome.bind, export_relation, init_export_relation, count_loop_eq,
      Nat.zero_add] <;> rfl

theorem mirror_tags_eq (tags : List readosm_internal_tag) (h : spec_c_string_tags tags) :
    (tags.map fun tag =>
      ({ key := tag.key.map c_string, value := tag.value.map c_string } : readosm_export_tag)) =
      tags.map spec_mirror_tag := by
  apply List.map_congr_left
  intro tag htag
  obtain ⟨h1, h2⟩ := h tag htag
  unfold spec_c_string at h1 h2
  rw [h1, h2, spec_mirror_tag]

theorem mirror_members_eq (members : List readosm_internal_member)
    (h : spec_c_string_members members) :
    (members.map fun member =>
      ({ member_type := member.member_type, id := member.id,
         role := member.role.map c_string } : readosm_export_member)) =
      members.map spec_mirror_member := by
  apply List.map_congr_left
  intro member hmem
  have h1 := h member hmem
  unfold spec_c_string at h1
  rw [h1, spec_mirror_member]

theorem export_node_mirror (node : readosm_internal_node)
    (h : spec_c_string node.user ∧ spec_c_string_tags node.tags) :
    export_node node = spec_mirror_node node := by
  obtain ⟨h1, h2⟩ := h
  unfold spec_c_string at h1
  rw [export_node, mirror_tags_eq _ h2, h1, spec_mirror_node]

theorem export_way_mirror (way : readosm_internal_way)
    (h : spec_c_string way.user ∧ spec_c_string_tags way.tags) :
    export_way way = spec_mirror_way way := by
  obtain ⟨h1, h2⟩ := h
  unfold spec_c_string at h1
  rw [export_way, mirror_tags_eq _ h2, h1, spec_mirror_way]

theorem export_relation_mirror (relation : readosm_internal_relation)
    (h : spec_c_string relation.user ∧ spec_c_string_tags relation.tags ∧
      spec_c_string_members relation.members) :
    export_relation relation = spec_mirror_relation relation := by
  obtain ⟨h1, h2, h3⟩ := h
  unfold spec_c_string at h1
  rw [export_relation, mirror_tags_eq _ h2, mirror_members_eq _ h3, h1, spec_mirror_relation]

theorem spec_node_c_strings (strings : readosm_string_table) (d_id d_lat d_lon : Int)
    (ids lats lons vers tims cngs uids usrs keys : List Int) (j : Nat) :
    spec_c_string (spec_node strings d_id d_lat d_lon ids lats lons vers tims cngs uids usrs
      keys j).user ∧
    spec_c_string_tags (spec_node strings d_id d_lat d_lon ids lats lons vers tims cngs uids
      usrs keys j).tags := by
  constructor
  · simp only [spec_node, spec_c_string, spec_user]
    split_ifs
    · simp [spec_string, c_string_idem]
    · rfl
  · intro tag htag
    simp only [spec_node, spec_tags, List.mem_map] at htag
    obtain ⟨kv, _, rfl⟩ := htag
    simp [spec_c_string, spec_string, c_string_idem]

/-- [C30] The export view mirrors the internal object.  For a node, a way and a
relation whose strings are C strings, the object that `call_node_callback`,
`call_way_callback` and `call_relation_callback` set up (counting loops, array
allocation, copy loops) is the mirror of the internal object: `tag_count` is the
number of tags and `tags[i]` the tag at position `i`, likewise `node_ref_count` and
`node_refs[i]` for a way and `member_count` and `members[i]` for a relation, and id,
version, changeset, uid, user and timestamp are copied unchanged; the value each
function returns is the value of the user callback on that view. -/
theorem export_view_mirrors_internal {σ : Type} (user_data : σ)
    (node_callback : σ → readosm_export_node → Int × σ)
    (way_callback : σ → readosm_export_way → Int × σ)
    (relation_callback : σ → readosm_export_relation → Int × σ)
    (node : readosm_internal_node) (way : readosm_internal_way)
    (relation : readosm_internal_relation)
    (hn : spec_c_string node.user ∧ spec_c_string_tags node.tags)
    (hw : spec_c_string way.user ∧ spec_c_string_tags way.tags)
    (hr : spec_c_string relation.user ∧ spec_c_string_tags relation.tags ∧
      spec_c_string_members relation.members) :
    (setup_export_node node = .ok (spec_mirror_node node) ∧
     call_node_callback node_callback user_data node =
       node_callback user_data (spec_mirror_node node)) ∧
    (setup_export_way way = .ok (spec_mirror_way way) ∧
     call_way_callback way_callback user_data way =
       way_callback user_data (spec_mirror_way way)) ∧
    (setup_export_relation relation = .ok (spec_mirror_relation relation) ∧
     call_relation_callback relation_callback user_data relation =
       relation_callback user_data (spec_mirror_relation relation)) := by
  refine ⟨⟨?_, ?_⟩, ⟨?_, ?_⟩, ⟨?_, ?_⟩⟩
  · rw [setup_export_node_eq, export_node_mirror node hn]
  · rw [call_node_callback, export_node_mirror node hn]
  · rw [setup_export_way_eq, export_way_mirror way hw]
  · rw [call_way_callback, export_way_mirror way hw]
  · rw [setup_export_relation_eq, export_relation_mirror relation hr]
  · rw [call_relation_callback, export_relation_mirror relation hr]

theorem export_view_mirrors_internal_witness :
    (setup_export_node sample_internal_node = .ok (spec_mirror_node sample_internal_node) ∧
     call_node_callback (fun (n : Nat) (e : readosm_export_node) => (e.id, n + e.tag_count)) 0
         sample_internal_node =
       (fun (n : Nat) (e : readosm_export_node) => (e.id, n + e.tag_count)) 0
         (spec_mirror_node sample_internal_node)) ∧
    (setup_export_way sample_internal_way = .ok (spec_mirror_way sample_internal_way) ∧
     call_way_callback (fun (n : Nat) (e : readosm_export_way) => (e.id, n + e.node_ref_count))
         0 sample_internal_way =
       (fun (n : Nat) (e : readosm_export_way) => (e.id, n + e.node_ref_count)) 0
         (spec_mirror_way sample_internal_way)) ∧
    (setup_export_relation sample_internal_relation =
       .ok (spec_mirror_relation sample_internal_relation) ∧
     call_relation_callback
         (fun (n : Nat) (e : readosm_export_relation) => (e.id, n + e.member_count)) 0
         sample_internal_relation =
       (fun (n : Nat) (e : readosm_export_relation) => (e.id, n + e.member_count)) 0
         (spec_mirror_relation sample_internal_relation)) :=
  export_view_mirrors_internal 0 _ _ _ sample_internal_node sample_internal_way
    sample_internal_relation (by decide) (by decide) (by decide)

/-! ## DenseNodes: a block built from its values -/

theorem parse_pbf_nodes_loop_eq :
    ∀ (fuel : Nat) (st : dense_nodes_state) (v : readosm_variant) (bytes : List Nat),
      parse_pbf_nodes_loop fuel st v bytes = field_loop nodes_field fuel st v bytes := by
  intro fuel
  induction fuel with
  | zero => intro st v bytes; rfl
  | succ fuel ih =>
    intro st v bytes
    simp only [parse_pbf_nodes_loop, field_loop, ih]

theorem parse_pbf_node_infos_loop_eq :
    ∀ (fuel : Nat) (infos : readosm_packed_infos) (v : readosm_variant) (bytes : List Nat),
      parse_pbf_node_infos_loop fuel infos v bytes =
        field_loop node_infos_field fuel infos v bytes := by
  intro fuel
  induction fuel with
  | zero => intro st v bytes; rfl
  | succ fuel ih =>
    intro st v bytes
    simp only [parse_pbf_node_infos_loop, field_loop, ih]

theorem parse_signed_encode32 (xs : List Int) (hne : xs ≠ [])
    (h : ∀ x ∈ xs, -2 ^ 31 < x ∧ x < 2 ^ 31) :
    parse_sint32_packed init_packed (spec_encode_signed xs) =
      .ok { init_packed with first := xs } :=
  (parse_sint_packed_encode xs hne).1 h

theorem parse_signed_encode64 (xs : List Int) (hne : xs ≠ [])
    (h : ∀ x ∈ xs, -2 ^ 63 < x ∧ x < 2 ^ 63) :
    parse_sint64_packed init_packed (spec_encode_signed xs) =
      .ok { init_packed with first := xs } :=
  (parse_sint_packed_encode xs hne).2 h

theorem dense_info_spec (d : spec_dense) (N : Nat) (h : spec_dense_ok d N) :
    parse_pbf_node_infos init_packed_infos (spec_encode_message (spec_dense_info d)) =
      .ok (spec_dense_state d).packed_infos := by
  obtain ⟨hN, ⟨l1, l2, l3, l4, l5, l6, l7, l8⟩, ⟨r1, r2, r3, r4, r5, r6, r7, r8, r9⟩, hi, hf⟩ := h
  have ne : ∀ {α : Type} (l : List α), l.length = N → l ≠ [] := by
    intro α l hl e
    rw [e] at hl
    simp at hl
    omega
  have pos : ∀ {α : Type} (l : List α), l.length = N → l.length > 0 := by
    intro α l hl
    omega
  have hl := spec_encode_message_length (spec_dense_info d)
  rw [parse_pbf_node_infos, parse_pbf_node_infos_loop_eq,
    field_loop_encoded node_infos_field (spec_dense_info d) _ _ _ (by simp [spec_dense_info])
      (by omega) hi]
  simp only [spec_dense_info, spec_fold, spec_field_variant, node_infos_field, reset_variant,
    parse_uint32_packed_encode d.versions (ne _ l4) r8,
    parse_signed_encode32 d.timestamps (ne _ l5) r5,
    parse_signed_encode64 d.changesets (ne _ l6) r4,
    parse_signed_encode32 d.uids (ne _ l7) r6,
    parse_signed_encode32 d.user_sids (ne _ l8) r7, Outcome.bind]
  simp [init_packed, init_packed_infos, spec_dense_state, delta_int32_zero, delta_int64_zero,
    pos _ l4, pos _ l5, pos _ l6, pos _ l7, pos _ l8, READOSM_LEN_BYTES]

theorem dense_fields_spec (d : spec_dense) (N : Nat) (h : spec_dense_ok d N) :
    parse_pbf_nodes_fields (spec_dense_message d) = .ok (spec_dense_state d) := by
  have hinfo := dense_info_spec d N h
  obtain ⟨hN, ⟨l1, l2, l3, l4, l5, l6, l7, l8⟩, ⟨r1, r2, r3, r4, r5, r6, r7, r8, r9⟩, hi, hf⟩ := h
  have ne : ∀ {α : Type} (l : List α), l.length = N → l ≠ [] := by
    intro α l hl e
    rw [e] at hl
    simp at hl
    omega
  have hl := spec_encode_message_length (spec_dense_fields d)
  have e1 := parse_signed_encode64 d.ids (ne _ l1) r1
  have e2 := parse_signed_encode64 d.lats (ne _ l2) r2
  have e3 := parse_signed_encode64 d.lons (ne _ l3) r3
  rw [parse_pbf_nodes_fields, parse_pbf_nodes_loop_eq, spec_dense_message,
    field_loop_encoded nodes_field (spec_dense_fields d) _ _ _ (by simp [spec_dense_fields])
      (by omega) hf]
  by_cases hk : d.keys_vals = []
  · simp [spec_dense_fields, hk, spec_fold, spec_field_variant, nodes_field, reset_variant,
      init_dense_nodes_state, hinfo, e1, e2, e3, Outcome.bind, array_from_int64_packed_init,
      spec_dense_state]
  · have e4 := parse_uint32_packed_encode d.keys_vals hk r9
    simp [spec_dense_fields, hk, spec_fold, spec_field_variant, nodes_field, reset_variant,
      init_dense_nodes_state, hinfo, e1, e2, e3, e4, Outcome.bind,
      array_from_int64_packed_init, array_from_uint32_packed_init, spec_dense_state]

theorem dense_state_aligned (d : spec_dense) (N : Nat) (h : spec_dense_ok d N) :
    dense_aligned (spec_dense_state d) N := by
  obtain ⟨hN, ⟨l1, l2, l3, l4, l5, l6, l7, l8⟩, _⟩ := h
  unfold dense_aligned spec_dense_state
  by_cases hk : d.keys_vals = [] <;>
    simp [hk, l1, l2, l3, l4, l5, l6, l7, l8, init_packed]

theorem dense_views_spec {σ : Type} (strings : readosm_string_table) (d : spec_dense) (N : Nat)
    (params : pbf_params σ) (cb : σ → readosm_export_node → Int × σ)
    (h : spec_dense_ok d N) (hrange : indices_in_range strings (spec_dense_state d))
    (hcb : params.node_callback = some cb) (hok : ∀ s n, (cb s n).1 = READOSM_OK)
    (hstop : params.stop = 0) :
    parse_pbf_nodes strings (spec_dense_message d) params =
      .ok { params with
            user_data := (spec_dense_views strings d N).foldl (fun s n => (cb s n).2)
              params.user_data } := by
  rw [parse_pbf_nodes_spec strings _ (spec_dense_state d) N params cb (dense_fields_spec d N h)
    (dense_state_aligned d N h) hrange hcb hok hstop, spec_dense_views, List.foldl_map]

theorem dense_view_at (strings : readosm_string_table) (d : spec_dense) (N i : Nat)
    (h : spec_dense_ok d N) (hi : i < N) :
    ∃ view, (spec_dense_views strings d N).get? i = some view ∧
      view.uid = (if spec_sum32 d.uids i ≥ 0 then spec_sum32 d.uids i else READOSM_UNDEFINED) ∧
      view.user = spec_user strings (spec_sum32 d.user_sids i) := by
  obtain ⟨hN, ⟨l1, l2, l3, l4, l5, l6, l7, l8⟩, _⟩ := h
  refine ⟨export_node (spec_node strings 0 0 0 (spec_dense_state d).packed_ids.values
    (spec_dense_state d).packed_lats.values (spec_dense_state d).packed_lons.values
    (spec_dense_state d).packed_infos.versions (spec_dense_state d).packed_infos.timestamps
    (spec_dense_state d).packed_infos.changesets (spec_dense_state d).packed_infos.uids
    (spec_dense_state d).packed_infos.users (spec_dense_state d).packed_keys.values i),
    ?_, ?_, ?_⟩
  · simp only [spec_dense_views, spec_nodes, List.get?_eq_getElem?, List.getElem?_map,
      List.getElem?_range hi, Option.map_some']
  · simp [export_node, spec_node, spec_dense_state, l7, hi, List.getD_eq_getElem?_getD]
  · simp only [export_node, spec_node, spec_dense_state]
    simp only [List.getD_eq_getElem?_getD, List.getElem?_map, l8, List.getElem?_range hi,
      Option.map_some', Option.getD_some, spec_user]
    split_ifs
    · simp [spec_string, c_string_idem]
    · rfl

theorem spec_sum32_in_range (l : List Int) (i : Nat)
    (h : -2 ^ 31 ≤ (l.take (i + 1)).sum ∧ (l.take (i + 1)).sum < 2 ^ 31) :
    spec_sum32 l i = (l.take (i + 1)).sum := by
  obtain ⟨h1, h2⟩ := h
  unfold spec_sum32 int32_of_bits
  generalize (l.take (i + 1)).sum = x at h1 h2 ⊢
  have hm : (x % 2 ^ 32).toNat % 2 ^ 32 = (x % 2 ^ 32).toNat := Nat.mod_eq_of_lt (by omega)
  rw [hm]
  split_ifs <;> omega

/-! ## C27: a user id of 0 -/

/-- [C27] Evaluated where it fails: in the DenseNodes block with the user-id deltas
`[5, -5, -7]` the eight arrays have three entries each, the user id of node 1 is
reconstituted as `5 + -5 = 0`, and the node is delivered with the uid 0, which is
not the `UNDEFINED` sentinel; only node 2, whose sum is negative, carries it. -/
theorem dense_uid_zero_counterexample :
    spec_dense_ok uid_dense 3 ∧ nodes_counts_agree (spec_dense_state uid_dense) = true ∧
    (uid_dense.uids.take (1 + 1)).sum = 0 ∧
    (∃ p, parse_pbf_nodes s3_strings (spec_dense_message uid_dense) record_params = .ok p ∧
      p.user_data.map (fun n => n.uid) = [5, 0, READOSM_UNDEFINED]) ∧
    (0 : Int) ≠ READOSM_UNDEFINED :=
  ⟨by decide, by decide, by decide,
    ⟨_, dense_views_spec s3_strings uid_dense 3 record_params record_nodes (by decide)
      (by decide) rfl (fun _ _ => rfl) rfl, by decide⟩, by decide⟩

/-- [C27] as amended. For every DenseNodes block of `N` nodes that passes the
parallel-array check (string indices in range, a node callback that returns OK),
`parse_pbf_nodes` delivers the `N` views in index order, and a node `i` whose
reconstituted user id (the sum of the uid deltas `0 .. i`) is 0 is delivered with
the uid 0: the guard of the source is `>= 0`, so 0 is a user id like any other
and not the `UNDEFINED` sentinel. -/
theorem dense_uid_zero_delivered {σ : Type} (strings : readosm_string_table) (d : spec_dense)
    (N i : Nat) (params : pbf_params σ) (cb : σ → readosm_export_node → Int × σ)
    (h : spec_dense_ok d N) (hrange : indices_in_range strings (spec_dense_state d))
    (hcb : params.node_callback = some cb) (hok : ∀ s n, (cb s n).1 = READOSM_OK)
    (hstop : params.stop = 0) (hi : i < N) (hz : (d.uids.take (i + 1)).sum = 0) :
    nodes_counts_agree (spec_dense_state d) = true ∧
    parse_pbf_nodes strings (spec_dense_message d) params =
      .ok { params with
            user_data := (spec_dense_views strings d N).foldl (fun s n => (cb s n).2)
              params.user_data } ∧
    ∃ view, (spec_dense_views strings d N).get? i = some view ∧ view.uid = 0 ∧
      view.uid ≠ READOSM_UNDEFINED := by
  refine ⟨nodes_counts_agree_of_aligned _ N (dense_state_aligned d N h),
    dense_views_spec strings d N params cb h hrange hcb hok hstop, ?_⟩
  obtain ⟨view, hv, hu, _⟩ := dense_view_at strings d N i h hi
  have hs : spec_sum32 d.uids i = 0 := by
    rw [spec_sum32_in_range d.uids i (by rw [hz]; norm_num), hz]
  rw [hs] at hu
  refine ⟨view, hv, ?_, ?_⟩
  · rw [hu]; rfl
  · rw [hu]; decide

theorem dense_uid_zero_delivered_witness :
    nodes_counts_agree (spec_dense_state uid_dense) = true ∧
    parse_pbf_nodes s3_strings (spec_dense_message uid_dense) record_params =
      .ok { record_params with
            user_data := (spec_dense_views s3_strings uid_dense 3).foldl
              (fun s n => (record_nodes s n).2) record_params.user_data } ∧
    ∃ view, (spec_dense_views s3_strings uid_dense 3).get? 1 = some view ∧ view.uid = 0 ∧
      view.uid ≠ READOSM_UNDEFINED :=
  dense_uid_zero_delivered s3_strings uid_dense 3 1 record_params record_nodes (by decide)
    (by decide) rfl (fun _ _ => rfl) rfl (by decide) (by decide)

/-! ## C28: negative and positive user ids -/

/-- [C28] For every DenseNodes block of `N` nodes that passes the parallel-array
check (string indices in range, a node callback that returns OK), `parse_pbf_nodes`
delivers the `N` views in index order; a node `i` whose reconstituted user id (the
sum of the uid deltas `0 .. i`, within the range of `int`) is negative is delivered
with the uid `UNDEFINED`, and one whose reconstituted user id is positive is
delivered with that sum as uid. -/
theorem dense_uid_sign {σ : Type} (strings : readosm_string_table) (d : spec_dense)
    (N i : Nat) (params : pbf_params σ) (cb : σ → readosm_export_node → Int × σ)
    (h : spec_dense_ok d N) (hrange : indices_in_range strings (spec_dense_state d))
    (hcb : params.node_callback = some cb) (hok : ∀ s n, (cb s n).1 = READOSM_OK)
    (hstop : params.stop = 0) (hi : i < N) :
    nodes_counts_agree (spec_dense_state d) = true ∧
    parse_pbf_nodes strings (spec_dense_message d) params =
      .ok { params with
            user_data := (spec_dense_views strings d N).foldl (fun s n => (cb s n).2)
              params.user_data } ∧
    ∃ view, (spec_dense_views strings d N).get? i = some view ∧
      (-2 ^ 31 ≤ (d.uids.take (i + 1)).sum ∧ (d.uids.take (i + 1)).sum < 0 →
        view.uid = READOSM_UNDEFINED) ∧
      (0 < (d.uids.take (i + 1)).sum ∧ (d.uids.take (i + 1)).sum < 2 ^ 31 →
        view.uid = (d.uids.take (i + 1)).sum) := by
  refine ⟨nodes_counts_agree_of_aligned _ N (dense_state_aligned d N h),
    dense_views_spec strings d N params cb h hrange hcb hok hstop, ?_⟩
  obtain ⟨view, hv, hu, _⟩ := dense_view_at strings d N i h hi
  refine ⟨view, hv, ?_, ?_⟩
  · rintro ⟨h1, h2⟩
    rw [spec_sum32_in_range d.uids i ⟨h1, by omega⟩, if_neg (by omega)] at hu
    exact hu
  · rintro ⟨h1, h2⟩
    rw [spec_sum32_in_range d.uids i ⟨by omega, h2⟩, if_pos (by omega)] at hu
    exact hu

theorem dense_uid_sign_witness :
    (∃ view, (spec_dense_views s3_strings uid_dense 3).get? 2 = some view ∧
      view.uid = READOSM_UNDEFINED) ∧
    (∃ view, (spec_dense_views s3_strings uid_dense 3).get? 0 = some view ∧
      view.uid = (uid_dense.uids.take (0 + 1)).sum) := by
  obtain ⟨_, _, v2, e2, n2, _⟩ :=
    dense_uid_sign s3_strings uid_dense 3 2 record_params record_nodes (by decide)
      (by decide) rfl (fun _ _ => rfl) rfl (by decide)
  obtain ⟨_, _, v0, e0, _, p0⟩ :=
    dense_uid_sign s3_strings uid_dense 3 0 record_params record_nodes (by decide)
      (by decide) rfl (fun _ _ => rfl) rfl (by decide)
  exact ⟨⟨v2, e2, n2 (by decide)⟩, ⟨v0, e0, p0 (by decide)⟩⟩

/-! ## C29: the user name -/

theorem spec_fold_tracks {S α : Type} (handler : S → readosm_variant → Outcome S)
    (get : S → α) (Q : spec_field → Prop) (k : Nat) (F : α → α)
    (hints : List readosm_variant_hint) (hF : ∀ a, F (F a) = F a)
    (hstep : ∀ s v f s2, v.hints = hints → Q f → handler s (spec_field_variant v f) = .ok s2 →
      (f.field_id ≠ k → get s2 = get s) ∧ (f.field_id = k → get s2 = F (get s))) :
    ∀ (fs : List spec_field) (s : S) (v : readosm_variant) (s2 : S),
      v.hints = hints → (∀ f ∈ fs, Q f) → spec_fold handler s v fs = .ok s2 →
      (k ∈ spec_field_ids fs → get s2 = F (get s)) ∧
      (k ∉ spec_field_ids fs → get s2 = get s) := by
  intro fs
  induction fs with
  | nil =>
    intro s v s2 _ _ h
    simp only [spec_fold, Outcome.ok.injEq] at h
    subst h
    simp [spec_field_ids]
  | cons f fs ih =>
    intro s v s2 hv hall h
    simp only [spec_fold] at h
    cases h1 : handler s (spec_field_variant v f) with
    | ok s1 =>
      rw [h1] at h
      simp only [Outcome.bind] at h
      obtain ⟨a, b⟩ := hstep s v f s1 hv (hall f (List.mem_cons_self _ _)) h1
      obtain ⟨c, d⟩ := ih s1 (spec_field_variant v f) s2
        (by rw [spec_field_variant_hints]; exact hv)
        (fun g hg => hall g (List.mem_cons_of_mem _ hg)) h
      simp only [spec_field_ids, List.map_cons, List.mem_cons] at c d ⊢
      by_cases hk : f.field_id = k
      · refine ⟨fun _ => ?_, fun hn => absurd (Or.inl hk.symm) hn⟩
        by_cases hm : k ∈ List.map spec_field.field_id fs
        · rw [c hm, b hk, hF]
        · rw [d hm, b hk]
      · constructor
        · rintro (e | hm)
          · exact absurd e.symm hk
          · rw [c hm, a hk]
        · intro hn
          rw [d (fun hm => hn (Or.inr hm)), a hk]
    | error => rw [h1] at h; simp [Outcome.bind] at h
    | fault => rw [h1] at h; simp [Outcome.bind] at h
    | fuel => rw [h1] at h; simp [Outcome.bind] at h

theorem info_hint_user (v : readosm_variant) (hv : v.hints = info_variant.hints) :
    (find_type_hint_loop 5 0 v.hints).getD READOSM_VAR_UNDEFINED = READOSM_VAR_INT32 := by
  rw [hv]; decide

theorem way_info_field_tracks (strings : readosm_string_table) (U : Option (List Nat))
    (w w2 : readosm_internal_way) (v : readosm_variant) (f : spec_field)
    (hv : v.hints = info_variant.hints)
    (hq : spec_info_field_ok f ∧
      ∀ raw, f = .varint 5 raw → info_user strings (int32_of_bits raw) = .ok U)
    (h : way_info_field strings w (spec_field_variant v f) = .ok w2) :
    (f.field_id ≠ 5 → w2.user = w.user) ∧ (f.field_id = 5 → w2.user = U) := by
  cases f with
  | bytes fid p => exact hq.1.elim
  | varint fid raw =>
    obtain ⟨_, hu⟩ := hq
    simp only [spec_field.field_id]
    by_cases h5 : fid = 5
    · subst h5
      simp [way_info_field, spec_field_variant, info_hint_user v hv, hu raw rfl,
        Outcome.bind] at h
      rw [← h]
      simp
    · simp only [way_info_field, spec_field_variant] at h
      split_ifs at h with c1 c2 c3 c4 c5
      · simp only [Outcome.ok.injEq] at h; rw [← h]; exact ⟨fun _ => rfl, fun e => absurd e h5⟩
      · simp only [Outcome.ok.injEq] at h; rw [← h]; exact ⟨fun _ => rfl, fun e => absurd e h5⟩
      · simp only [Outcome.ok.injEq] at h; rw [← h]; exact ⟨fun _ => rfl, fun e => absurd e h5⟩
      · simp only [Outcome.ok.injEq] at h; rw [← h]; exact ⟨fun _ => rfl, fun e => absurd e h5⟩
      · exact absurd c5.1 h5
      · simp only [Outcome.ok.injEq] at h; rw [← h]; exact ⟨fun _ => rfl, fun e => absurd e h5⟩

theorem relation_info_field_tracks (strings : readosm_string_table) (U : Option (List Nat))
    (w w2 : readosm_internal_relation) (v : readosm_variant) (f : spec_field)
    (hv : v.hints = info_variant.hints)
    (hq : spec_info_field_ok f ∧
      ∀ raw, f = .varint 5 raw → info_user strings (int32_of_bits raw) = .ok U)
    (h : relation_info_field strings w (spec_field_variant v f) = .ok w2) :
    (f.field_id ≠ 5 → w2.user = w.user) ∧ (f.field_id = 5 → w2.user = U) := by
  cases f with
  | bytes fid p => exact hq.1.elim
  | varint fid raw =>
    obtain ⟨_, hu⟩ := hq
    simp only [spec_field.field_id]
    by_cases h5 : fid = 5
    · subst h5
      simp [relation_info_field, spec_field_variant, info_hint_user v hv, hu raw rfl,
        Outcome.bind] at h
      rw [← h]
      simp
    · simp only [relation_info_field, spec_field_variant] at h
      split_ifs at h with c1 c2 c3 c4 c5
      · simp only [Outcome.ok.injEq] at h; rw [← h]; exact ⟨fun _ => rfl, fun e => absurd e h5⟩
      · simp only [Outcome.ok.injEq] at h; rw [← h]; exact ⟨fun _ => rfl, fun e => absurd e h5⟩
      · simp only [Outcome.ok.injEq] at h; rw [← h]; exact ⟨fun _ => rfl, fun e => absurd e h5⟩
      · simp only [Outcome.ok.injEq] at h; rw [← h]; exact ⟨fun _ => rfl, fun e => absurd e h5⟩
      · exact absurd c5.1 h5
      · simp only [Outcome.ok.injEq] at h; rw [← h]; exact ⟨fun _ => rfl, fun e => absurd e h5⟩

theorem spec_info_user_idem (info : List spec_field) (U u : Option (List Nat)) :
    spec_info_user info U (spec_info_user info U u) = spec_info_user info U u := by
  unfold spec_info_user
  split_ifs <;> rfl

theorem parse_pbf_way_info_user (strings : readosm_string_table) (info : List spec_field)
    (U : Option (List Nat)) (w w2 : readosm_internal_way)
    (hne : info ≠ []) (hall : ∀ g ∈ info, spec_info_field_ok g)
    (hu : ∀ raw, spec_field.varint 5 raw ∈ info →
      info_user strings (int32_of_bits raw) = .ok U)
    (h : parse_pbf_way_info w strings (spec_encode_message info) = .ok w2) :
    w2.user = spec_info_user info U w.user := by
  have hl := spec_encode_message_length info
  rw [parse_pbf_way_info, field_loop_encoded _ info _ w info_variant hne (by omega)
    (fun g hg => spec_info_field_readable g (hall g hg))] at h
  obtain ⟨a, b⟩ := spec_fold_tracks (way_info_field strings) (fun w => w.user)
    (fun f => spec_info_field_ok f ∧
      ∀ raw, f = .varint 5 raw → info_user strings (int32_of_bits raw) = .ok U)
    5 (fun _ => U) info_variant.hints (fun _ => rfl)
    (fun s v f s2 hv hq hh => way_info_field_tracks strings U s s2 v f hv hq hh)
    info w info_variant w2 rfl (fun f hf => ⟨hall f hf, fun raw e => hu raw (e ▸ hf)⟩) h
  unfold spec_info_user
  split_ifs with c
  · exact a c
  · exact b c

theorem parse_pbf_relation_info_user (strings : readosm_string_table)
    (info : List spec_field) (U : Option (List Nat)) (w w2 : readosm_internal_relation)
    (hne : info ≠ []) (hall : ∀ g ∈ info, spec_info_field_ok g)
    (hu : ∀ raw, spec_field.varint 5 raw ∈ info →
      info_user strings (int32_of_bits raw) = .ok U)
    (h : parse_pbf_relation_info w strings (spec_encode_message info) = .ok w2) :
    w2.user = spec_info_user info U w.user := by
  have hl := spec_encode_message_length info
  rw [parse_pbf_relation_info, field_loop_encoded _ info _ w info_variant hne (by omega)
    (fun g hg => spec_info_field_readable g (hall g hg))] at h
  obtain ⟨a, b⟩ := spec_fold_tracks (relation_info_field strings) (fun w => w.user)
    (fun f => spec_info_field_ok f ∧
      ∀ raw, f = .varint 5 raw → info_user strings (int32_of_bits raw) = .ok U)
    5 (fun _ => U) info_variant.hints (fun _ => rfl)
    (fun s v f s2 hv hq hh => relation_info_field_tracks strings U s s2 v f hv hq hh)
    info w info_variant w2 rfl (fun f hf => ⟨hall f hf, fun raw e => hu raw (e ▸ hf)⟩) h
  unfold spec_info_user
  split_ifs with c
  · exact a c
  · exact b c

theorem append_way_refs_user (l : List Int) (w : readosm_internal_way) :
    (append_way_refs w l).user = w.user := by
  have key : ∀ (m : List Int) (w : readosm_internal_way),
      (m.foldl append_reference_to_way w).user = w.user := by
    intro m
    induction m with
    | nil => intro w; rfl
    | cons a m ih => intro w; rw [List.foldl_cons, ih]; rfl
  exact key _ w

theorem bind_eq_ok {α β : Type} (o : Outcome α) (f : α → Outcome β) (b : β)
    (h : o.bind f = .ok b) : ∃ a, o = .ok a ∧ f a = .ok b := by
  cases o with
  | ok a => exact ⟨a, rfl, h⟩
  | error => simp [Outcome.bind] at h
  | fault => simp [Outcome.bind] at h
  | fuel => simp [Outcome.bind] at h

theorem way_field_tracks (strings : readosm_string_table) (ks vs ds : List Int)
    (info : List spec_field) (U : Option (List Nat)) (st st2 : way_state)
    (v : readosm_variant) (f : spec_field)
    (hne : info ≠ []) (hall : ∀ g ∈ info, spec_info_field_ok g)
    (hu : ∀ raw, spec_field.varint 5 raw ∈ info →
      info_user strings (int32_of_bits raw) = .ok U)
    (hq : spec_way_field_ok ks vs ds f ∧ ∀ p, f = .bytes 4 p → p = spec_encode_message info)
    (h : way_field strings st (spec_field_variant v f) = .ok st2) :
    (f.field_id ≠ 4 → st2.way.user = st.way.user) ∧
    (f.field_id = 4 → st2.way.user = spec_info_user info U st.way.user) := by
  cases f with
  | varint fid raw =>
    obtain ⟨⟨rfl, _⟩, _⟩ := hq
    simp only [way_field, spec_field_variant] at h
    split_ifs at h with c1 c2 c3 c4 c5
    · simp only [Outcome.ok.injEq] at h; rw [← h]; exact ⟨fun _ => rfl, fun e => by cases e⟩
    · exact absurd c2.1 (by decide)
    · exact absurd c3.1 (by decide)
    · exact absurd c4.1 (by decide)
    · exact absurd c5.1 (by decide)
    · simp only [Outcome.ok.injEq] at h; rw [← h]; exact ⟨fun _ => rfl, fun e => by cases e⟩
  | bytes fid p =>
    obtain ⟨⟨_, hf⟩, hp⟩ := hq
    simp only [spec_field.field_id]
    rcases hf with ⟨rfl, _⟩ | ⟨rfl, _⟩ | ⟨rfl, _⟩ | ⟨rfl, _⟩
    · simp [way_field, spec_field_variant] at h
      obtain ⟨a, _, e⟩ := bind_eq_ok _ _ _ h
      simp only [Outcome.ok.injEq] at e
      rw [← e]; exact ⟨fun _ => rfl, fun e => by cases e⟩
    · simp [way_field, spec_field_variant] at h
      obtain ⟨a, _, e⟩ := bind_eq_ok _ _ _ h
      simp only [Outcome.ok.injEq] at e
      rw [← e]; exact ⟨fun _ => rfl, fun e => by cases e⟩
    · simp [way_field, spec_field_variant] at h
      obtain ⟨a, ha, e⟩ := bind_eq_ok _ _ _ h
      simp only [Outcome.ok.injEq] at e
      rw [hp p rfl] at ha
      rw [← e]
      exact ⟨fun e => absurd rfl e,
        fun _ => parse_pbf_way_info_user strings info U st.way a hne hall hu ha⟩
    · simp [way_field, spec_field_variant] at h
      obtain ⟨a, _, e⟩ := bind_eq_ok _ _ _ h
      simp only [Outcome.ok.injEq] at e
      rw [← e]
      exact ⟨fun _ => append_way_refs_user _ _, fun e => by cases e⟩

theorem parse_pbf_way_entity_user (strings : readosm_string_table) (ks vs ds : List Int)
    (fs info : List spec_field) (U : Option (List Nat))
    (hmsg : spec_way_message ks vs ds fs)
    (hlen : ks.length = vs.length) (htab : spec_table_ok strings)
    (hks : spec_indices_ok strings ks) (hvs : spec_indices_ok strings vs)
    (hp : ∀ p, spec_field.bytes 4 p ∈ fs → p = spec_encode_message info)
    (hne : info ≠ []) (hall : ∀ g ∈ info, spec_info_field_ok g)
    (hu : ∀ raw, spec_field.varint 5 raw ∈ info →
      info_user strings (int32_of_bits raw) = .ok U) :
    ∃ way, parse_pbf_way_entity strings (spec_encode_message fs) = .ok way ∧
      (4 ∈ spec_field_ids fs → way.user = spec_info_user info U none) ∧
      (4 ∉ spec_field_ids fs → way.user = none) := by
  obtain ⟨st, e, k, v, r, t⟩ := parse_pbf_way_fields_spec strings htab.1 ks vs ds fs hmsg
  have hloop := way_tags_loop_spec strings st.packed_keys st.packed_values htab.2 ks vs 0 st.way
    (by rw [k]; rfl) (by rw [v]; rfl) hlen hks hvs
  have hl := spec_encode_message_length fs
  have e2 := e
  rw [parse_pbf_way_fields, field_loop_encoded _ fs _ _ way_variant hmsg.1 (by omega)
    (fun f hf => spec_way_field_readable ks vs ds f (hmsg.2.2.1 f hf))] at e2
  obtain ⟨a, b⟩ := spec_fold_tracks (way_field strings) (fun st => st.way.user)
    (fun f => spec_way_field_ok ks vs ds f ∧ ∀ p, f = .bytes 4 p → p = spec_encode_message info)
    4 (spec_info_user info U) way_variant.hints (spec_info_user_idem info U)
    (fun s v f s2 _ hq hh => way_field_tracks strings ks vs ds info U s s2 v f hne hall hu hq hh)
    fs init_way_state way_variant st rfl
    (fun f hf => ⟨hmsg.2.2.1 f hf, fun p e => hp p (e ▸ hf)⟩) e2
  refine ⟨{ st.way with
            tags := st.way.tags ++ (List.zip ks vs).map fun kv =>
              { key := some (spec_string strings kv.1),
                value := some (spec_string strings kv.2) } }, ?_, a, b⟩
  have hc : st.packed_keys.count = ks.length := by rw [k]
  have hc2 : st.packed_values.count = vs.length := by rw [v]
  simp only [parse_pbf_way_entity, e, Outcome.bind, hc, hc2, hlen, if_true]
  rw [← hlen]
  exact hloop

theorem relation_field_tracks (strings : readosm_string_table) (ks vs rs ds ts : List Int)
    (info : List spec_field) (U : Option (List Nat)) (st st2 : relation_state)
    (v : readosm_variant) (f : spec_field)
    (hne : info ≠ []) (hall : ∀ g ∈ info, spec_info_field_ok g)
    (hu : ∀ raw, spec_field.varint 5 raw ∈ info →
      info_user strings (int32_of_bits raw) = .ok U)
    (hq : spec_relation_field_ok ks vs rs ds ts f ∧
      ∀ p, f = .bytes 4 p → p = spec_encode_message info)
    (h : relation_field strings st (spec_field_variant v f) = .ok st2) :
    (f.field_id ≠ 4 → st2.relation.user = st.relation.user) ∧
    (f.field_id = 4 → st2.relation.user = spec_info_user info U st.relation.user) := by
  cases f with
  | varint fid raw =>
    obtain ⟨⟨rfl, _⟩, _⟩ := hq
    simp only [relation_field, spec_field_variant] at h
    split_ifs at h with c1 c2 c3 c4 c5 c6 c7
    · simp only [Outcome.ok.injEq] at h; rw [← h]; exact ⟨fun _ => rfl, fun e => by cases e⟩
    · exact absurd c2.1 (by decide)
    · exact absurd c3.1 (by decide)
    · exact absurd c4.1 (by decide)
    · exact absurd c5.1 (by decide)
    · exact absurd c6.1 (by decide)
    · exact absurd c7.1 (by decide)
    · simp only [Outcome.ok.injEq] at h; rw [← h]; exact ⟨fun _ => rfl, fun e => by cases e⟩
  | bytes fid p =>
    obtain ⟨⟨_, hf⟩, hp⟩ := hq
    simp only [spec_field.field_id]
    rcases hf with ⟨rfl, _⟩ | ⟨rfl, _⟩ | ⟨rfl, _⟩ | ⟨rfl, _⟩ | ⟨rfl, _⟩ | ⟨rfl, _⟩
    · simp [relation_field, spec_field_variant] at h
      obtain ⟨a, _, e⟩ := bind_eq_ok _ _ _ h
      simp only [Outcome.ok.injEq] at e
      rw [← e]; exact ⟨fun _ => rfl, fun e => by cases e⟩
    · simp [relation_field, spec_field_variant] at h
      obtain ⟨a, _, e⟩ := bind_eq_ok _ _ _ h
      simp only [Outcome.ok.injEq] at e
      rw [← e]; exact ⟨fun _ => rfl, fun e => by cases e⟩
    · simp [relation_field, spec_field_variant] at h
      obtain ⟨a, ha, e⟩ := bind_eq_ok _ _ _ h
      simp only [Outcome.ok.injEq] at e
      rw [hp p rfl] at ha
      rw [← e]
      exact ⟨fun e => absurd rfl e,
        fun _ => parse_pbf_relation_info_user strings info U st.relation a hne hall hu ha⟩
    · simp [relation_field, spec_field_variant] at h
      obtain ⟨a, _, e⟩ := bind_eq_ok _ _ _ h
      simp only [Outcome.ok.injEq] at e
      rw [← e]; exact ⟨fun _ => rfl, fun e => by cases e⟩
    · simp [relation_field, spec_field_variant] at h
      obtain ⟨a, _, e⟩ := bind_eq_ok _ _ _ h
      simp only [Outcome.ok.injEq] at e
      rw [← e]; exact ⟨fun _ => rfl, fun e => by cases e⟩
    · simp [relation_field, spec_field_variant] at h
      obtain ⟨a, _, e⟩ := bind_eq_ok _ _ _ h
      simp only [Outcome.ok.injEq] at e
      rw [← e]; exact ⟨fun _ => rfl, fun e => by cases e⟩

theorem parse_pbf_relation_entity_user (strings : readosm_string_table)
    (ks vs rs ds ts : List Int) (fs info : List spec_field) (U : Option (List Nat))
    (hmsg : spec_relation_message ks vs rs ds ts fs)
    (hlen : ks.length = vs.length) (hl1 : rs.length = ds.length) (hl2 : rs.length = ts.length)
    (htab : spec_table_ok strings)
    (hks : spec_indices_ok strings ks) (hvs : spec_indices_ok strings vs)
    (hrs : spec_indices_ok strings rs)
    (hp : ∀ p, spec_field.bytes 4 p ∈ fs → p = spec_encode_message info)
    (hne : info ≠ []) (hall : ∀ g ∈ info, spec_info_field_ok g)
    (hu : ∀ raw, spec_field.varint 5 raw ∈ info →
      info_user strings (int32_of_bits raw) = .ok U) :
    ∃ relation, parse_pbf_relation_entity strings (spec_encode_message fs) = .ok relation ∧
      (4 ∈ spec_field_ids fs → relation.user = spec_info_user info U none) ∧
      (4 ∉ spec_field_ids fs → relation.user = none) := by
  have hts := spec_relation_types_range ks vs rs ds ts fs hmsg
  obtain ⟨st, e, k, v, r, d, t, m, tg⟩ :=
    parse_pbf_relation_fields_spec strings htab.1 ks vs rs ds ts fs hmsg
  have htags := relation_tags_loop_spec strings st.packed_keys st.packed_values htab.2 ks vs 0
    st.relation (by rw [k]; rfl) (by rw [v]; rfl) hlen hks hvs
  have hmem := relation_members_loop_spec strings st.packed_roles st.packed_types st.packed_refs
    htab.2 rs ts ds 0 0
    { st.relation with
      tags := st.relation.tags ++ (List.zip ks vs).map fun kv =>
        { key := some (spec_string strings kv.1), value := some (spec_string strings kv.2) } }
    (by rw [r]; rfl) (by rw [t]; rfl) (by rw [d]; rfl) hl1 hl2 hrs hts
  have hc1 : st.packed_keys.count = ks.length := by rw [k]
  have hc2 : st.packed_values.count = vs.length := by rw [v]
  have hc3 : st.packed_roles.count = rs.length := by rw [r]
  have hc4 : st.packed_refs.count = ds.length := by rw [d]
  have hc5 : st.packed_types.count = ts.length := by rw [t]
  have hl := spec_encode_message_length fs
  have e2 := e
  rw [parse_pbf_relation_fields, field_loop_encoded _ fs _ _ relation_variant hmsg.1 (by omega)
    (fun f hf => spec_relation_field_readable ks vs rs ds ts f (hmsg.2.2.1 f hf))] at e2
  obtain ⟨a, b⟩ := spec_fold_tracks (relation_field strings) (fun st => st.relation.user)
    (fun f => spec_relation_field_ok ks vs rs ds ts f ∧
      ∀ p, f = .bytes 4 p → p = spec_encode_message info)
    4 (spec_info_user info U) relation_variant.hints (spec_info_user_idem info U)
    (fun s v f s2 _ hq hh =>
      relation_field_tracks strings ks vs rs ds ts info U s s2 v f hne hall hu hq hh)
    fs init_relation_state relation_variant st rfl
    (fun f hf => ⟨hmsg.2.2.1 f hf, fun p e => hp p (e ▸ hf)⟩) e2
  refine ⟨{ st.relation with
            tags := st.relation.tags ++ (List.zip ks vs).map fun kv =>
              { key := some (spec_string strings kv.1),
                value := some (spec_string strings kv.2) },
            members := st.relation.members ++ spec_members_from strings 0 rs ts ds },
    ?_, a, b⟩
  simp only [parse_pbf_relation_entity, e, Outcome.bind, hc1, hc2, hc3, hc4, hc5, hlen,
    if_true]
  rw [← hlen, htags]
  simp only [← hl1, ← hl2, and_self, if_true]
  exact hmem

theorem info_user_zero (strings : readosm_string_table) :
    info_user strings (int32_of_bits 0) = .ok none := by
  have h0 : int32_of_bits 0 = 0 := by decide
  unfold info_user
  rw [h0, if_neg (fun h => absurd h.1 (by decide))]

theorem info_user_in_range (strings : readosm_string_table) (sid : Nat)
    (htab : spec_table_ok strings) (h : 0 < sid ∧ (sid : Int) < strings.count) :
    info_user strings (int32_of_bits sid) = .ok (some (spec_string strings sid)) := by
  obtain ⟨ht1, ht2⟩ := htab
  obtain ⟨h1, h2⟩ := h
  have hlt : sid < strings.strings.length := by omega
  rw [int32_of_bits_small sid (by omega)]
  unfold info_user
  rw [if_pos ⟨by omega, h2⟩]
  simp [string_at, spec_string, List.getElem?_eq_getElem hlt, List.getD_eq_getElem?_getD]

theorem export_user_string (strings : readosm_string_table) (s : Int) :
    (some (spec_string strings s)).map c_string = some (spec_string strings s) := by
  simp [spec_string, c_string_idem]

theorem user_way_message (sid : Nat) (h : sid < 2 ^ 32) :
    spec_way_message [] [] [] (user_way sid) := by
  refine ⟨by simp [user_way], by simp [user_way, spec_field_ids, spec_field.field_id], ?_,
    fun _ => rfl, fun _ => rfl, fun _ => rfl⟩
  intro f hf
  simp only [user_way, List.mem_cons, List.mem_singleton, List.not_mem_nil, or_false] at hf
  rcases hf with rfl | rfl
  · exact ⟨rfl, by norm_num⟩
  · have hok : ∀ g ∈ [spec_field.varint 1 1, spec_field.varint 5 sid], spec_info_field_ok g := by
      intro g hg
      simp only [List.mem_cons, List.mem_singleton, List.not_mem_nil, or_false] at hg
      rcases hg with rfl | rfl
      · exact Or.inr ⟨Or.inl rfl, by norm_num⟩
      · exact Or.inr ⟨Or.inr (Or.inr (Or.inr (Or.inl rfl))), h⟩
    have hfo := spec_info_field_readable _ (hok _ (List.mem_cons_self _ _))
    refine ⟨?_, Or.inr (Or.inr (Or.inl ⟨rfl, _, by simp, hok, rfl⟩))⟩
    obtain ⟨bs, last, henc, _, _, hlen, _⟩ :=
      spec_base128_encode_shape 9 4 sid (by norm_num) (by norm_num; omega)
    simp only [spec_encode_message, spec_field.encode, spec_encode_varint, henc,
      List.length_append, List.length_cons, List.length_nil]
    have : (spec_base128_encode 9 1).length = 1 := by decide
    omega

theorem user_relation_message (sid : Nat) (h : sid < 2 ^ 32) :
    spec_relation_message [] [] [] [] [] (user_relation sid) := by
  have hw := (user_way_message sid h).2.2.1 (.bytes 4 (spec_encode_message
    [.varint 1 1, .varint 5 sid])) (by simp [user_way])
  refine ⟨by simp [user_relation],
    by simp [user_relation, spec_field_ids, spec_field.field_id], ?_, fun _ => rfl,
    fun _ => rfl, fun _ => rfl, fun _ => rfl, fun _ => rfl⟩
  intro f hf
  simp only [user_relation, List.mem_cons, List.mem_singleton, List.not_mem_nil,
    or_false] at hf
  rcases hf with rfl | rfl
  · exact ⟨rfl, by norm_num⟩
  · obtain ⟨hlen, hcase⟩ := hw
    refine ⟨hlen, Or.inr (Or.inr (Or.inl ⟨rfl, ?_⟩))⟩
    rcases hcase with ⟨e, _⟩ | ⟨e, _⟩ | ⟨_, hp⟩ | ⟨e, _⟩
    · cases e
    · cases e
    · exact hp
    · cases e

/-- [C29] A user-name index of 0 yields a nil user, and an in-range index `s > 0`
yields the string `s` of the string table.  For a DenseNodes block that passes the
parallel-array check, node `i` is delivered without a user when the sum of the
user-index deltas `0 .. i` is 0, and with the user `st[s]` when the sum is an
index `s > 0` of the table that names a non-empty string.  A way and a relation
are produced without a user when the message has no info, the info has no
user-index field, or the index is 0, and with the user `st[s]` when the index `s`
is positive and below the count of the table.  With the user-index deltas
`[1, 0, 0]` and `u1` at entry 1, all three nodes carry `u1`. -/
theorem user_name_index {σ : Type} (strings : readosm_string_table)
    (d : spec_dense) (N i : Nat) (params : pbf_params σ)
    (cb : σ → readosm_export_node → Int × σ)
    (fw fr info : List spec_field) (kw vw dw kr vr rr dr tr : List Int) (sid : Nat)
    (hd : spec_dense_ok d N) (hrange : indices_in_range strings (spec_dense_state d))
    (hcb : params.node_callback = some cb) (hok : ∀ s n, (cb s n).1 = READOSM_OK)
    (hstop : params.stop = 0) (hi : i < N)
    (htab : spec_table_ok strings)
    (hw : spec_way_message kw vw dw fw) (hwl : kw.length = vw.length)
    (hwk : spec_indices_ok strings kw) (hwv : spec_indices_ok strings vw)
    (hr : spec_relation_message kr vr rr dr tr fr) (hrl : kr.length = vr.length)
    (hr1 : rr.length = dr.length) (hr2 : rr.length = tr.length)
    (hrk : spec_indices_ok strings kr) (hrv : spec_indices_ok strings vr)
    (hrr : spec_indices_ok strings rr)
    (hpw : ∀ p, spec_field.bytes 4 p ∈ fw → p = spec_encode_message info)
    (hpr : ∀ p, spec_field.bytes 4 p ∈ fr → p = spec_encode_message info)
    (hne : info ≠ []) (hall : ∀ g ∈ info, spec_info_field_ok g)
    (hsid : ∀ raw, spec_field.varint 5 raw ∈ info → raw = sid) :
    (parse_pbf_nodes strings (spec_dense_message d) params =
       .ok { params with
             user_data := (spec_dense_views strings d N).foldl (fun s n => (cb s n).2)
               params.user_data } ∧
     ∃ view, (spec_dense_views strings d N).get? i = some view ∧
      ((d.user_sids.take (i + 1)).sum = 0 → view.user = none) ∧
      (0 < (d.user_sids.take (i + 1)).sum →
        (d.user_sids.take (i + 1)).sum < strings.strings.length →
        spec_string strings (d.user_sids.take (i + 1)).sum ≠ [] →
        view.user = some (spec_string strings (d.user_sids.take (i + 1)).sum))) ∧
    (∃ way, parse_pbf_way_entity strings (spec_encode_message fw) = .ok way ∧
      (4 ∉ spec_field_ids fw ∨ 5 ∉ spec_field_ids info ∨ sid = 0 →
        (export_way way).user = none) ∧
      (4 ∈ spec_field_ids fw → 5 ∈ spec_field_ids info → 0 < sid →
        (sid : Int) < strings.count →
        (export_way way).user = some (spec_string strings sid))) ∧
    (∃ relation, parse_pbf_relation_entity strings (spec_encode_message fr) = .ok relation ∧
      (4 ∉ spec_field_ids fr ∨ 5 ∉ spec_field_ids info ∨ sid = 0 →
        (export_relation relation).user = none) ∧
      (4 ∈ spec_field_ids fr → 5 ∈ spec_field_ids info → 0 < sid →
        (sid : Int) < strings.count →
        (export_relation relation).user = some (spec_string strings sid))) ∧
    (spec_dense_views s3_strings s3_dense 3).map (fun n => n.user) =
      [some [117, 49], some [117, 49], some [117, 49]] := by
  have hcases : ∃ U, info_user strings (int32_of_bits sid) = .ok U ∧
      (sid = 0 → U = none) ∧
      (0 < sid → (sid : Int) < strings.count → U = some (spec_string strings sid)) := by
    by_cases h0 : 0 < sid ∧ (sid : Int) < strings.count
    · exact ⟨_, info_user_in_range strings sid htab h0, fun e => by omega, fun _ _ => rfl⟩
    · obtain ⟨U, hU⟩ := info_user_ok strings htab.1 (int32_of_bits sid)
      refine ⟨U, hU, ?_, fun a b => absurd ⟨a, b⟩ h0⟩
      intro e
      subst e
      rw [info_user_zero] at hU
      simp only [Outcome.ok.injEq] at hU
      exact hU.symm
  obtain ⟨U, hU, hU0, hU1⟩ := hcases
  have hu : ∀ raw, spec_field.varint 5 raw ∈ info →
      info_user strings (int32_of_bits raw) = .ok U := by
    intro raw hraw
    rw [hsid raw hraw]
    exact hU
  refine ⟨⟨dense_views_spec strings d N params cb hd hrange hcb hok hstop, ?_⟩, ?_, ?_,
    by decide⟩
  · obtain ⟨view, hv, _, hus⟩ := dense_view_at strings d N i hd hi
    refine ⟨view, hv, ?_, ?_⟩
    · intro hz
      rw [spec_sum32_in_range d.user_sids i (by rw [hz]; norm_num), hz] at hus
      rw [hus]
      rfl
    · intro h1 h2 h3
      have hlen := hrange.1
      rw [spec_sum32_in_range d.user_sids i ⟨by omega, by omega⟩] at hus
      rw [hus, spec_user, if_pos ⟨h1, List.length_pos.mpr h3⟩]
  · obtain ⟨way, e, a, b⟩ := parse_pbf_way_entity_user strings kw vw dw fw info U hw hwl htab
      hwk hwv hpw hne hall hu
    refine ⟨way, e, ?_, ?_⟩
    · intro hc
      have hnone : way.user = none := by
        by_cases h4 : 4 ∈ spec_field_ids fw
        · rw [a h4, spec_info_user]
          split_ifs with h5
          · rcases hc with c | c | c
            · exact absurd h4 c
            · exact absurd h5 c
            · exact hU0 c
          · rfl
        · exact b h4
      simp [export_way, hnone]
    · intro h4 h5 h1 h2
      have hsome : way.user = some (spec_string strings sid) := by
        rw [a h4, spec_info_user, if_pos h5, hU1 h1 h2]
      simp only [export_way, hsome, export_user_string]
  · obtain ⟨relation, e, a, b⟩ := parse_pbf_relation_entity_user strings kr vr rr dr tr fr info
      U hr hrl hr1 hr2 htab hrk hrv hrr hpr hne hall hu
    refine ⟨relation, e, ?_, ?_⟩
    · intro hc
      have hnone : relation.user = none := by
        by_cases h4 : 4 ∈ spec_field_ids fr
        · rw [a h4, spec_info_user]
          split_ifs with h5
          · rcases hc with c | c | c
            · exact absurd h4 c
            · exact absurd h5 c
            · exact hU0 c
          · rfl
        · exact b h4
      simp [export_relation, hnone]
    · intro h4 h5 h1 h2
      have hsome : relation.user = some (spec_string strings sid) := by
        rw [a h4, spec_info_user, if_pos h5, hU1 h1 h2]
      simp only [export_relation, hsome, export_user_string]

theorem user_name_index_witness :
    ((∃ view, (spec_dense_views s3_strings s3_dense 3).get? 0 = some view ∧
        view.user = some (spec_string s3_strings (s3_dense.user_sids.take (0 + 1)).sum)) ∧
     (∃ way, parse_pbf_way_entity s3_strings (spec_encode_message (user_way 1)) = .ok way ∧
        (export_way way).user = some (spec_string s3_strings (1 : Nat))) ∧
     (∃ relation,
        parse_pbf_relation_entity s3_strings (spec_encode_message (user_relation 1)) =
          .ok relation ∧
        (export_relation relation).user = some (spec_string s3_strings (1 : Nat)))) ∧
    ((∃ view, (spec_dense_views s3_strings uid_dense 3).get? 1 = some view ∧
        view.user = none) ∧
     (∃ way, parse_pbf_way_entity s3_strings (spec_encode_message (user_way 0)) = .ok way ∧
        (export_way way).user = none) ∧
     (∃ relation,
        parse_pbf_relation_entity s3_strings (spec_encode_message (user_relation 0)) =
          .ok relation ∧
        (export_relation relation).user = none)) := by
  obtain ⟨⟨_, v, hv, _, hvu⟩, ⟨w, hw, _, hwu⟩, ⟨r, hr, _, hru⟩, _⟩ :=
    user_name_index s3_strings s3_dense 3 0 record_params record_nodes (user_way 1)
      (user_relation 1) [.varint 1 1, .varint 5 1] [] [] [] [] [] [] [] [] 1
      (by decide) (by decide) rfl (fun _ _ => rfl) rfl (by decide) (by decide)
      (user_way_message 1 (by norm_num)) rfl (by decide) (by decide)
      (user_relation_message 1 (by norm_num)) rfl rfl rfl (by decide) (by decide) (by decide)
      (fun p hp => by simpa [user_way] using hp)
      (fun p hp => by simpa [user_relation] using hp)
      (by decide) (by decide) (fun raw h => by simpa using h)
  obtain ⟨⟨_, v0, hv0, hvz, _⟩, ⟨w0, hw0, hwz, _⟩, ⟨r0, hr0, hrz, _⟩, _⟩ :=
    user_name_index s3_strings uid_dense 3 1 record_params record_nodes (user_way 0)
      (user_relation 0) [.varint 1 1, .varint 5 0] [] [] [] [] [] [] [] [] 0
      (by decide) (by decide) rfl (fun _ _ => rfl) rfl (by decide) (by decide)
      (user_way_message 0 (by norm_num)) rfl (by decide) (by decide)
      (user_relation_message 0 (by norm_num)) rfl rfl rfl (by decide) (by decide) (by decide)
      (fun p hp => by simpa [user_way] using hp)
      (fun p hp => by simpa [user_relation] using hp)
      (by decide) (by decide) (fun raw h => by simpa using h)
  exact ⟨⟨⟨v, hv, hvu (by decide) (by decide) (by decide)⟩,
      ⟨w, hw, hwu (by decide) (by decide) (by decide) (by decide)⟩,
      ⟨r, hr, hru (by decide) (by decide) (by decide) (by decide)⟩⟩,
    ⟨⟨v0, hv0, hvz (by decide)⟩, ⟨w0, hw0, hwz (Or.inr (Or.inr rfl))⟩,
      ⟨r0, hr0, hrz (Or.inr (Or.inr rfl))⟩⟩⟩

/-! ## Streams of blobs -/

theorem get_header_size_encode_size (n : Nat) (h : n < 2 ^ 32) :
    get_header_size (spec_encode_size n) = n := by
  simp only [get_header_size, spec_encode_size, List.getD_cons_zero, List.getD_cons_succ]
  omega

theorem spec_encode_size_length (n : Nat) : (spec_encode_size n).length = 4 := rfl

theorem spec_base128_encode_length (n : Nat) :
    ∀ x, (spec_base128_encode n x).length ≤ n + 1 := by
  induction n with
  | zero => intro x; simp [spec_base128_encode]
  | succ n ih =>
    intro x
    rw [spec_base128_encode]
    split_ifs
    · simp
    · have := ih (x / 128)
      simp only [List.length_cons]
      omega

theorem spec_blob_header_length (name : List Nat) (datasize : Nat) :
    (spec_blob_header name datasize).length ≤ name.length + 22 := by
  have h1 := spec_base128_encode_length 9 name.length
  have h2 := spec_base128_encode_length 9 datasize
  simp only [spec_blob_header, spec_encode_message, spec_field.encode, spec_encode_field,
    spec_encode_varint, List.length_append, List.length_cons, List.length_nil]
  omega

theorem blob_header_fold (name : List Nat) (datasize : Nat) (hd : datasize < 2 ^ 31) :
    spec_fold (blob_header_field name) { ok_header := 0, hdsz := 0 } blob_header_variant
        [.bytes 1 name, .varint 3 datasize] =
      .ok { ok_header := 1, hdsz := datasize } := by
  have ht : (find_type_hint_loop 3 0 blob_header_variant.hints).getD READOSM_VAR_UNDEFINED =
      READOSM_VAR_INT32 := by decide
  simp [spec_fold, spec_field_variant, blob_header_field, reset_variant, ht,
    int32_of_bits_small datasize hd, Outcome.bind]

theorem read_blob_encoded (name data rest : List Nat) (hname : name.length < 2 ^ 31)
    (hd : spec_data_size_ok data) :
    read_blob name (spec_blob_header name data.length ++ (data ++ rest))
        (spec_blob_header name data.length).length = .ok (some data, rest) := by
  obtain ⟨h0, h1⟩ := hd
  have hl := spec_encode_message_length [spec_field.bytes 1 name, .varint 3 data.length]
  have hok : ∀ f ∈ [spec_field.bytes 1 name, .varint 3 data.length],
      spec_field_ok blob_header_variant.hints f := by
    intro f hf
    simp only [List.mem_cons, List.mem_singleton, List.not_mem_nil, or_false] at hf
    rcases hf with rfl | rfl
    · exact ⟨by norm_num, by omega, by decide⟩
    · exact ⟨by norm_num, Or.inl ⟨by decide, by omega⟩⟩
  have hloop := field_loop_encoded (blob_header_field name)
    [.bytes 1 name, .varint 3 data.length] ((spec_blob_header name data.length).length + 1)
    { ok_header := 0, hdsz := 0 } blob_header_variant (by simp)
    (by simp only [spec_blob_header]; omega) hok
  rw [blob_header_fold name data.length h1] at hloop
  simp only [read_blob, fread, List.take_left', List.drop_left', ne_eq, not_true_eq_false,
    if_false]
  rw [spec_blob_header] at hloop ⊢
  rw [hloop]
  have hne : ¬ ((1 : Int) = 0 ∨ (data.length : Int) = 0) := by omega
  have hnn : ¬ ((data.length : Int) < 0) := by omega
  simp only [hne, hnn, if_false, Int.toNat_ofNat, List.take_left', List.drop_left',
    ne_eq, not_true_eq_false]

theorem skip_osm_header_encoded (data rest : List Nat) (hd : spec_data_size_ok data) :
    skip_osm_header (spec_blob_header OSMHeader data.length ++ (data ++ rest))
        (spec_blob_header OSMHeader data.length).length = .ok (1, rest) := by
  rw [skip_osm_header, read_blob_encoded OSMHeader data rest (by decide) hd]
  rfl

theorem parse_osm_data_encoded {σ : Type} (inflate : List Nat → Option (List Nat))
    (data rest : List Nat) (params : pbf_params σ) (hd : spec_data_size_ok data) :
    parse_osm_data inflate (spec_blob_header OSMData data.length ++ (data ++ rest))
        (spec_blob_header OSMData data.length).length params =
      (spec_blob_result inflate data params).bind fun res => .ok (res.1, res.2, rest) := by
  rw [parse_osm_data, read_blob_encoded OSMData data rest (by decide) hd]
  simp only [Outcome.bind, spec_blob_result]
  cases field_loop blob_field (data.length + 1)
      { raw_ptr := none, raw_sz := 0, zip_ptr := none, zip_sz := 0 } blob_variant data <;> rfl

theorem ok_dispatch_invariant {σ : Type}
    (ncb : Option (σ → readosm_export_node → Int × σ))
    (wcb : Option (σ → readosm_export_way → Int × σ))
    (rcb : Option (σ → readosm_export_relation → Int × σ))
    (hn : ∀ cb, ncb = some cb → ∀ s n, (cb s n).1 = READOSM_OK)
    (hw : ∀ cb, wcb = some cb → ∀ s n, (cb s n).1 = READOSM_OK)
    (hr : ∀ cb, rcb = some cb → ∀ s n, (cb s n).1 = READOSM_OK) :
    dispatch_invariant (fun p : pbf_params σ =>
      p.node_callback = ncb ∧ p.way_callback = wcb ∧ p.relation_callback = rcb ∧
      p.stop = 0) := by
  refine ⟨?_, ?_, ?_⟩
  · intro cb nodes p ⟨h1, h2, h3, h4⟩ hc _
    rw [dispatch_nodes_all_ok cb (hn cb (by rw [← h1, hc])) nodes p]
    exact ⟨h1, h2, h3, h4⟩
  · intro way p ⟨h1, h2, h3, h4⟩
    unfold dispatch_way
    cases hc : p.way_callback with
    | none => exact ⟨h1, h2, h3, h4⟩
    | some cb =>
      have hcb := hw cb (by rw [← h2, hc])
      simp only [h4, if_true, call_way_callback, hcb, ne_eq, not_true_eq_false, if_false]
      exact ⟨h1, by rw [← h2, hc], h3, trivial⟩
  · intro relation p ⟨h1, h2, h3, h4⟩
    unfold dispatch_relation
    cases hc : p.relation_callback with
    | none => exact ⟨h1, h2, h3, h4⟩
    | some cb =>
      have hcb := hr cb (by rw [← h3, hc])
      simp only [h4, if_true, call_relation_callback, hcb, ne_eq, not_true_eq_false, if_false]
      exact ⟨h1, h2, by rw [← h3, hc], trivial⟩

theorem spec_blob_result_keeps {σ : Type} (P : pbf_params σ → Prop)
    (hP : dispatch_invariant P) (inflate : List Nat → Option (List Nat)) (data : List Nat)
    (p : pbf_params σ) (r : Int × pbf_params σ) (hp : P p)
    (h : spec_blob_result inflate data p = .ok r) : P r.2 := by
  unfold spec_blob_result at h
  split at h
  · rename_i st _
    exact parse_primitive_block_keeps P hP inflate st p r hp h
  · simp only [Outcome.ok.injEq] at h
    exact h ▸ hp
  · simp at h
  · simp at h

theorem spec_encode_blob_eq (name data : List Nat) :
    spec_encode_blob name data =
      spec_encode_size (spec_blob_header name data.length).length ++
        (spec_blob_header name data.length ++ data) := by
  simp [spec_encode_blob, spec_blob_header]

theorem spec_encode_data_blobs_length (datas : List (List Nat)) :
    datas.length ≤ (spec_encode_data_blobs datas).length := by
  induction datas with
  | nil => simp
  | cons data datas ih =>
    rw [spec_encode_data_blobs, spec_encode_blob_eq]
    simp only [List.length_cons, List.length_append, spec_encode_size_length]
    omega

theorem spec_run_blobs_cons {σ : Type} (inflate : List Nat → Option (List Nat))
    (data : List Nat) (datas : List (List Nat)) (params p2 : pbf_params σ)
    (h : spec_run_blobs inflate (data :: datas) params = some p2) :
    ∃ r, spec_blob_result inflate data params = .ok r ∧ r.1 ≠ 0 ∧
      spec_run_blobs inflate datas r.2 = some p2 := by
  rw [spec_run_blobs] at h
  split at h
  · rename_i r hr
    split_ifs at h with hc
    exact ⟨r, hr, hc, h⟩
  · simp at h

theorem parse_osm_pbf_loop_blobs {σ : Type} (inflate : List Nat → Option (List Nat))
    (ncb : Option (σ → readosm_export_node → Int × σ))
    (wcb : Option (σ → readosm_export_way → Int × σ))
    (rcb : Option (σ → readosm_export_relation → Int × σ))
    (hn : ∀ cb, ncb = some cb → ∀ s n, (cb s n).1 = READOSM_OK)
    (hw : ∀ cb, wcb = some cb → ∀ s n, (cb s n).1 = READOSM_OK)
    (hr : ∀ cb, rcb = some cb → ∀ s n, (cb s n).1 = READOSM_OK) :
    ∀ (datas : List (List Nat)) (fuel : Nat) (params p2 : pbf_params σ) (tail : List Nat),
      datas.length < fuel →
      (params.node_callback = ncb ∧ params.way_callback = wcb ∧
        params.relation_callback = rcb ∧ params.stop = 0) →
      (∀ data ∈ datas, spec_data_size_ok data) →
      spec_run_blobs inflate datas params = some p2 → tail.length < 4 →
      parse_osm_pbf_loop inflate fuel params (spec_encode_data_blobs datas ++ tail) =
        .ok (if tail = [] then READOSM_OK else READOSM_INVALID_PBF_HEADER, p2, []) ∧
      p2.stop = 0 := by
  intro datas
  induction datas with
  | nil =>
    intro fuel params p2 tail hfuel hgood _ hrun htail
    obtain ⟨fuel, rfl⟩ : ∃ k, fuel = k + 1 := ⟨fuel - 1, by simp at hfuel; omega⟩
    simp only [spec_run_blobs, Option.some.injEq] at hrun
    subst hrun
    refine ⟨?_, hgood.2.2.2⟩
    simp only [parse_osm_pbf_loop, hgood.2.2.2, ne_eq, not_true_eq_false, if_false, fread,
      spec_encode_data_blobs, List.nil_append, List.take_of_length_le (Nat.le_of_lt htail),
      List.drop_of_length_le (Nat.le_of_lt htail)]
    by_cases ht : tail = []
    · simp [ht]
    · have h0 : tail.length ≠ 0 := fun e => ht (List.length_eq_zero.mp e)
      have h4 : tail.length ≠ 4 := by omega
      simp [ht, h0, h4]
  | cons data datas ih =>
    intro fuel params p2 tail hfuel hgood hsz hrun htail
    obtain ⟨fuel, rfl⟩ : ∃ k, fuel = k + 1 := ⟨fuel - 1, by simp at hfuel; omega⟩
    obtain ⟨r, hres, hcode, hrest⟩ := spec_run_blobs_cons inflate data datas params p2 hrun
    have hd := hsz data (List.mem_cons_self _ _)
    have hgood2 := spec_blob_result_keeps _ (ok_dispatch_invariant ncb wcb rcb hn hw hr)
      inflate data params r hgood hres
    have hlen := spec_blob_header_length OSMData data.length
    have hname : OSMData.length = 7 := rfl
    have hsize := get_header_size_encode_size (spec_blob_header OSMData data.length).length
      (by omega)
    obtain ⟨hloop, hstop⟩ := ih fuel r.2 p2 tail (by simpa using hfuel) hgood2
      (fun d hdm => hsz d (List.mem_cons_of_mem _ hdm)) hrest htail
    refine ⟨?_, hstop⟩
    have hin : spec_encode_data_blobs (data :: datas) ++ tail =
        spec_encode_size (spec_blob_header OSMData data.length).length ++
          (spec_blob_header OSMData data.length ++
            (data ++ (spec_encode_data_blobs datas ++ tail))) := by
      simp [spec_encode_data_blobs, spec_encode_blob_eq]
    have htake : ∀ (sz rest : List Nat), sz.length = 4 → (sz ++ rest).take 4 = sz ∧
        (sz ++ rest).drop 4 = rest := by
      intro sz rest h
      rw [← h]
      exact ⟨List.take_left' rfl, List.drop_left' rfl⟩
    obtain ⟨ht, hdr⟩ := htake _ (spec_blob_header OSMData data.length ++
      (data ++ (spec_encode_data_blobs datas ++ tail))) (spec_encode_size_length _)
    rw [hin]
    simp only [parse_osm_pbf_loop, hgood.2.2.2, ne_eq, not_true_eq_false, if_false, fread]
    rw [ht, hdr]
    simp only [spec_encode_size_length, OfNat.ofNat_ne_zero, hsize, not_true_eq_false, if_false,
      parse_osm_data_encoded inflate data _ params hd, hres, Outcome.bind, hcode]
    exact hloop

/-! ## C24: the OSMHeader blob -/

theorem skip_osm_header_advance (data rest : List Nat) (hd : spec_data_size_ok data) :
    skip_osm_header ((spec_encode_blob OSMHeader data ++ rest).drop 4)
        (get_header_size ((spec_encode_blob OSMHeader data ++ rest).take 4)) = .ok (1, rest) ∧
    (spec_encode_blob OSMHeader data ++ rest).length =
      4 + (spec_blob_header OSMHeader data.length).length + data.length + rest.length := by
  have hlen := spec_blob_header_length OSMHeader data.length
  have hname : OSMHeader.length = 9 := rfl
  have hsize := get_header_size_encode_size (spec_blob_header OSMHeader data.length).length
    (by omega)
  have hin : spec_encode_blob OSMHeader data ++ rest =
      spec_encode_size (spec_blob_header OSMHeader data.length).length ++
        (spec_blob_header OSMHeader data.length ++ (data ++ rest)) := by
    simp [spec_encode_blob_eq]
  have ht : (spec_encode_size (spec_blob_header OSMHeader data.length).length ++
      (spec_blob_header OSMHeader data.length ++ (data ++ rest))).take 4 =
      spec_encode_size (spec_blob_header OSMHeader data.length).length :=
    List.take_left' (spec_encode_size_length _)
  have hdr : (spec_encode_size (spec_blob_header OSMHeader data.length).length ++
      (spec_blob_header OSMHeader data.length ++ (data ++ rest))).drop 4 =
      spec_blob_header OSMHeader data.length ++ (data ++ rest) :=
    List.drop_left' (spec_encode_size_length _)
  constructor
  · rw [hin, ht, hdr, hsize]
    exact skip_osm_header_encoded data rest hd
  · rw [hin]
    simp only [List.length_append, spec_encode_size_length]
    omega

/-- [C24] Evaluated where it fails: the OSMHeader blob of the stream names
`OSMHeader` and declares the data size -1 (field 3 is the varint `FF FF FF FF 0F`),
and one more byte follows.  The size is not 0, so `skip_osm_header` goes on to
`malloc (hdsz)` and `fread (buf, 1, hdsz, ..)` with a negative `hdsz` and without
testing the pointer (the first allocation of the function is tested): the call has
no defined result, where the claim requires `parse_osm_pbf` to return
`INVALID_PBF_HEADER`. -/
theorem skip_osm_header_negative_datasize :
    negative_datasize_stream =
      [0, 0, 0, 17, 10, 9, 79, 83, 77, 72, 101, 97, 100, 101, 114, 24, 255, 255, 255, 255,
       15, 0] ∧
    field_loop (blob_header_field OSMHeader) 18 { ok_header := 0, hdsz := 0 }
        blob_header_variant ((negative_datasize_stream.drop 4).take 17) =
      .ok { ok_header := 1, hdsz := -1 } ∧
    skip_osm_header (negative_datasize_stream.drop 4)
        (get_header_size (negative_datasize_stream.take 4)) = .fault ∧
    run_result (parse_osm_pbf no_inflate negative_datasize_stream ([] : List Int) none none
        none) = .fault := by
  decide

/-! ## C25: a stream of valid blobs -/

/-- [C25] For every stream made of an OSMHeader blob and `k ≥ 0` OSMData blobs, each
with a BlobHeader that names its type and declares the size of its data (not 0,
below `2 ^ 31`), the data of every OSMData blob being decoded without error, and
callbacks that always return OK: `parse_osm_pbf` returns `READOSM_OK` with the whole
stream read when the stream ends behind the last blob, and
`READOSM_INVALID_PBF_HEADER` when 1 to 3 bytes follow the last blob, where a size
prefix is expected. -/
theorem valid_stream_returns_ok {σ : Type} (inflate : List Nat → Option (List Nat))
    (header : List Nat) (datas : List (List Nat)) (user_data : σ)
    (ncb : Option (σ → readosm_export_node → Int × σ))
    (wcb : Option (σ → readosm_export_way → Int × σ))
    (rcb : Option (σ → readosm_export_relation → Int × σ))
    (hn : ∀ cb, ncb = some cb → ∀ s n, (cb s n).1 = READOSM_OK)
    (hw : ∀ cb, wcb = some cb → ∀ s n, (cb s n).1 = READOSM_OK)
    (hr : ∀ cb, rcb = some cb → ∀ s n, (cb s n).1 = READOSM_OK)
    (hh : spec_data_size_ok header) (hsz : ∀ data ∈ datas, spec_data_size_ok data)
    (hrun : (spec_run_blobs inflate datas (initial_params user_data ncb wcb rcb)).isSome =
      true) :
    ∃ p2, spec_run_blobs inflate datas (initial_params user_data ncb wcb rcb) = some p2 ∧
      p2.stop = 0 ∧
      parse_osm_pbf inflate (spec_encode_blob OSMHeader header ++ spec_encode_data_blobs datas)
          user_data ncb wcb rcb = .ok (READOSM_OK, p2, []) ∧
      ∀ tail : List Nat, 1 ≤ tail.length → tail.length ≤ 3 →
        parse_osm_pbf inflate
            (spec_encode_blob OSMHeader header ++ (spec_encode_data_blobs datas ++ tail))
            user_data ncb wcb rcb = .ok (READOSM_INVALID_PBF_HEADER, p2, []) := by
  obtain ⟨p2, hp2⟩ := Option.isSome_iff_exists.mp hrun
  have hgood : (initial_params user_data ncb wcb rcb).node_callback = ncb ∧
      (initial_params user_data ncb wcb rcb).way_callback = wcb ∧
      (initial_params user_data ncb wcb rcb).relation_callback = rcb ∧
      (initial_params user_data ncb wcb rcb).stop = 0 := ⟨rfl, rfl, rfl, rfl⟩
  have hl := spec_encode_data_blobs_length datas
  have key : ∀ tail : List Nat, tail.length < 4 →
      parse_osm_pbf inflate
          (spec_encode_blob OSMHeader header ++ (spec_encode_data_blobs datas ++ tail))
          user_data ncb wcb rcb =
        .ok (if tail = [] then READOSM_OK else READOSM_INVALID_PBF_HEADER, p2, []) ∧
      p2.stop = 0 := by
    intro tail ht
    obtain ⟨hskip, hlen⟩ := skip_osm_header_advance header
      (spec_encode_data_blobs datas ++ tail) hh
    obtain ⟨hloop, hstop⟩ := parse_osm_pbf_loop_blobs inflate ncb wcb rcb hn hw hr datas
      ((spec_encode_data_blobs datas ++ tail).length + 1)
      (initial_params user_data ncb wcb rcb) p2 tail
      (by rw [List.length_append]; omega) hgood hsz hp2 ht
    refine ⟨?_, hstop⟩
    have h4 : ((spec_encode_blob OSMHeader header ++
        (spec_encode_data_blobs datas ++ tail)).take 4).length = 4 := by
      rw [List.length_take]
      omega
    simp only [parse_osm_pbf, fread, h4, ne_eq, not_true_eq_false, if_false, hskip,
      Outcome.bind, one_ne_zero]
    exact hloop
  refine ⟨p2, hp2, (key [] (by simp)).2, ?_, ?_⟩
  · have := (key [] (by simp)).1
    simpa using this
  · intro tail h1 h3
    have hne : tail ≠ [] := by
      intro e
      rw [e] at h1
      simp at h1
    have := (key tail (by omega)).1
    rw [if_neg hne] at this
    exact this

set_option maxRecDepth 100000 in
theorem valid_stream_returns_ok_witness :
    ∃ p2, spec_run_blobs no_inflate
        [spec_encode_message [.bytes 1 (spec_nodes_block 10)],
         spec_encode_message [.bytes 1 (spec_nodes_block 1)]]
        (initial_params ([] : List readosm_export_node) (some record_nodes) none none) =
        some p2 ∧
      p2.stop = 0 ∧
      parse_osm_pbf no_inflate
          (spec_encode_blob OSMHeader [0] ++ spec_encode_data_blobs
            [spec_encode_message [.bytes 1 (spec_nodes_block 10)],
             spec_encode_message [.bytes 1 (spec_nodes_block 1)]])
          [] (some record_nodes) none none = .ok (READOSM_OK, p2, []) ∧
      ∀ tail : List Nat, 1 ≤ tail.length → tail.length ≤ 3 →
        parse_osm_pbf no_inflate
            (spec_encode_blob OSMHeader [0] ++ (spec_encode_data_blobs
              [spec_encode_message [.bytes 1 (spec_nodes_block 10)],
               spec_encode_message [.bytes 1 (spec_nodes_block 1)]] ++ tail))
            [] (some record_nodes) none none = .ok (READOSM_INVALID_PBF_HEADER, p2, []) :=
  valid_stream_returns_ok no_inflate [0]
    [spec_encode_message [.bytes 1 (spec_nodes_block 10)],
     spec_encode_message [.bytes 1 (spec_nodes_block 1)]]
    [] (some record_nodes) none none
    (fun cb h s n => by cases h; rfl) (fun cb h => by cases h) (fun cb h => by cases h)
    (by decide) (by decide) (by decide)

/-! ## C26: a stream that ends behind the OSMHeader blob -/

/-- [C26] Evaluated where it fails: the stream is an OSMHeader blob (data size 1) and
nothing else.  `readosm_parse` on a live PBF handle reads the blob, finds the end of
the file where the next size prefix would start, and returns `READOSM_OK`, not
`READOSM_INVALID_PBF_HEADER`. -/
theorem header_only_stream_counterexample :
    readosm_parse no_inflate no_xml (some (pbf_handle true (spec_encode_blob OSMHeader [0])))
        ([] : List Int) none none none =
      .ok (READOSM_OK, some (pbf_handle true []), []) ∧
    READOSM_OK ≠ READOSM_INVALID_PBF_HEADER := by
  decide

/-- [C26] as amended. For every stream that is an OSMHeader blob and nothing else
(a BlobHeader naming `OSMHeader` and declaring the size of the data, which is not 0
and below `2 ^ 31`, then the data), `readosm_parse` on a live PBF handle returns
`READOSM_OK` without invoking a callback: the end of the file at a blob boundary is
the regular end of the stream.  The sentinels of the handle are unchanged, so a
following `readosm_close` returns `READOSM_OK`. -/
theorem header_only_stream_returns_ok {σ : Type} (inflate : List Nat → Option (List Nat))
    (parse_osm_xml : readosm_file → σ → Outcome (Int × readosm_file × σ))
    (little_endian_cpu : Bool) (header : List Nat) (user_data : σ)
    (ncb : Option (σ → readosm_export_node → Int × σ))
    (wcb : Option (σ → readosm_export_way → Int × σ))
    (rcb : Option (σ → readosm_export_relation → Int × σ))
    (hh : spec_data_size_ok header) :
    readosm_parse inflate parse_osm_xml
        (some (pbf_handle little_endian_cpu (spec_encode_blob OSMHeader header)))
        user_data ncb wcb rcb =
      .ok (READOSM_OK, some (pbf_handle little_endian_cpu []), user_data) ∧
    (pbf_handle little_endian_cpu []).magic1 = READOSM_MAGIC_START ∧
    (pbf_handle little_endian_cpu []).magic2 = READOSM_MAGIC_END ∧
    readosm_close (some (pbf_handle little_endian_cpu [])) = (READOSM_OK, none) := by
  refine ⟨?_, rfl, rfl, ?_⟩
  · obtain ⟨hskip, hlen⟩ := skip_osm_header_advance header [] hh
    rw [List.append_nil] at hskip hlen
    have h4 : ((spec_encode_blob OSMHeader header).take 4).length = 4 := by
      rw [List.length_take]
      omega
    have hpbf : parse_osm_pbf inflate (spec_encode_blob OSMHeader header) user_data ncb wcb
        rcb = .ok (READOSM_OK, initial_params user_data ncb wcb rcb, []) := by
      simp only [parse_osm_pbf, fread, h4, ne_eq, not_true_eq_false, if_false, hskip,
        Outcome.bind, one_ne_zero, List.length_nil, Nat.zero_add, parse_osm_pbf_loop,
        List.take_nil, List.drop_nil, if_true]
      rfl
    simp [readosm_parse, pbf_handle, alloc_osm_file, hpbf, Outcome.bind, initial_params,
      READOSM_PBF_FORMAT, READOSM_OSM_FORMAT]
  · simp [readosm_close, pbf_handle, alloc_osm_file, destroy_osm_file]

theorem header_only_stream_returns_ok_witness :
    spec_data_size_ok [0] ∧
    readosm_parse no_inflate no_xml
        (some (pbf_handle true (spec_encode_blob OSMHeader [0])))
        ([] : List Int) (some abort_on_third) none none =
      .ok (READOSM_OK, some (pbf_handle true []), []) ∧
    readosm_close (some (pbf_handle true [])) = (READOSM_OK, none) :=
  ⟨by decide,
    (header_only_stream_returns_ok no_inflate no_xml true [0] ([] : List Int)
      (some abort_on_third) none none (by decide)).1,
    (header_only_stream_returns_ok no_inflate (@no_xml (List Int)) true [0] ([] : List Int)
      (some abort_on_third) none none (by decide)).2.2.2⟩

/-! ## C37: empty packed payloads -/

theorem spec_fold_fails {S : Type} (handler : S → readosm_variant → Outcome S)
    (bad : spec_field → Prop)
    (hbad : ∀ s v f, bad f → handler s (spec_field_variant v f) = .error) :
    ∀ (fs : List spec_field) (s : S) (v : readosm_variant),
      (∃ f ∈ fs, bad f) → ∀ r, spec_fold handler s v fs ≠ .ok r := by
  intro fs
  induction fs with
  | nil => intro s v ⟨f, hf, _⟩; simp at hf
  | cons g fs ih =>
    intro s v ⟨f, hf, hb⟩ r h
    simp only [spec_fold] at h
    obtain ⟨s1, h1, h2⟩ := bind_eq_ok _ _ _ h
    rcases List.mem_cons.mp hf with rfl | hm
    · rw [hbad s v f hb] at h1
      simp at h1
    · exact ih s1 _ ⟨f, hm, hb⟩ r h2

theorem parse_packed_empty (packed : readosm_packed) :
    parse_uint32_packed packed [] = .error ∧ parse_sint32_packed packed [] = .error ∧
    parse_sint64_packed packed [] = .error := by
  refine ⟨?_, ?_, ?_⟩ <;> rfl

theorem node_infos_field_empty (infos : readosm_packed_infos) (v : readosm_variant) (k : Nat)
    (hk : k ∈ [1, 2, 3, 4, 5]) :
    node_infos_field infos (spec_field_variant v (.bytes k [])) = .error := by
  simp only [List.mem_cons, List.mem_singleton, List.not_mem_nil, or_false] at hk
  rcases hk with rfl | rfl | rfl | rfl | rfl <;>
    simp [node_infos_field, spec_field_variant, parse_packed_empty, Outcome.bind]

theorem nodes_field_empty (st : dense_nodes_state) (v : readosm_variant) (k : Nat)
    (hk : k ∈ [1, 8, 9, 10]) :
    nodes_field st (spec_field_variant v (.bytes k [])) = .error := by
  simp only [List.mem_cons, List.mem_singleton, List.not_mem_nil, or_false] at hk
  rcases hk with rfl | rfl | rfl | rfl <;>
    simp [nodes_field, spec_field_variant, parse_packed_empty, Outcome.bind]

theorem way_field_empty (strings : readosm_string_table) (st : way_state)
    (v : readosm_variant) (k : Nat) (hk : k ∈ [2, 3, 8]) :
    way_field strings st (spec_field_variant v (.bytes k [])) = .error := by
  simp only [List.mem_cons, List.mem_singleton, List.not_mem_nil, or_false] at hk
  rcases hk with rfl | rfl | rfl <;>
    simp [way_field, spec_field_variant, parse_packed_empty, Outcome.bind]

theorem relation_field_empty (strings : readosm_string_table) (st : relation_state)
    (v : readosm_variant) (k : Nat) (hk : k ∈ [2, 3, 8, 9, 10]) :
    relation_field strings st (spec_field_variant v (.bytes k [])) = .error := by
  simp only [List.mem_cons, List.mem_singleton, List.not_mem_nil, or_false] at hk
  rcases hk with rfl | rfl | rfl | rfl | rfl <;>
    simp [relation_field, spec_field_variant, parse_packed_empty, Outcome.bind]

theorem bind_not_ok {α β : Type} (o : Outcome α) (f : α → Outcome β)
    (h : ∀ a, o ≠ .ok a) : ∀ b, o.bind f ≠ .ok b := by
  intro b hb
  obtain ⟨a, ha, _⟩ := bind_eq_ok o f b hb
  exact h a ha

/-- [C37] An empty packed payload is rejected.  On a buffer of length 0,
`parse_uint32_packed`, `parse_sint32_packed` and `parse_sint64_packed` fail at the
first `read_var`, before any value is appended.  Hence a DenseInfo message
(fields 1 to 5), a DenseNodes message (fields 1, 8, 9, 10), a Way message (fields 2,
3, 8) or a Relation message (fields 2, 3, 8, 9, 10) that holds such a field with a
payload of length 0 is not decoded: the parser does not return success, whatever
the other fields are. -/
theorem empty_packed_payload_rejected {σ : Type} (strings : readosm_string_table)
    (fs : List spec_field) (k : Nat) (hmem : spec_field.bytes k [] ∈ fs) :
    (∀ packed, parse_uint32_packed packed [] = .error ∧
      parse_sint32_packed packed [] = .error ∧ parse_sint64_packed packed [] = .error) ∧
    (∀ (ty : VarType) (fuel : Nat) (l : List Int),
      parse_packed_loop ty (fuel + 1) l false [] = .error) ∧
    (k ∈ [1, 2, 3, 4, 5] → (∀ f ∈ fs, spec_field_ok node_infos_variant.hints f) →
      ∀ infos r, parse_pbf_node_infos infos (spec_encode_message fs) ≠ .ok r) ∧
    (k ∈ [1, 8, 9, 10] → (∀ f ∈ fs, spec_field_ok nodes_variant.hints f) →
      ∀ (params : pbf_params σ) r,
        parse_pbf_nodes strings (spec_encode_message fs) params ≠ .ok r) ∧
    (k ∈ [2, 3, 8] → (∀ f ∈ fs, spec_field_ok way_variant.hints f) →
      ∀ (params : pbf_params σ) r,
        parse_pbf_way strings (spec_encode_message fs) params ≠ .ok r) ∧
    (k ∈ [2, 3, 8, 9, 10] → (∀ f ∈ fs, spec_field_ok relation_variant.hints f) →
      ∀ (params : pbf_params σ) r,
        parse_pbf_relation strings (spec_encode_message fs) params ≠ .ok r) := by
  have hne : fs ≠ [] := List.ne_nil_of_mem hmem
  have hl := spec_encode_message_length fs
  refine ⟨parse_packed_empty, ?_, ?_, ?_, ?_, ?_⟩
  · intro ty fuel l
    cases ty <;> rfl
  · intro hk hok infos r
    rw [parse_pbf_node_infos, parse_pbf_node_infos_loop_eq,
      field_loop_encoded node_infos_field fs _ infos node_infos_variant hne (by omega) hok]
    exact spec_fold_fails node_infos_field (fun f => f = .bytes k [])
      (fun s v f hf => hf ▸ node_infos_field_empty s v k hk) fs infos _ ⟨_, hmem, rfl⟩ r
  · intro hk hok params
    apply bind_not_ok
    intro st
    rw [parse_pbf_nodes_fields, parse_pbf_nodes_loop_eq,
      field_loop_encoded nodes_field fs _ _ nodes_variant hne (by omega) hok]
    exact spec_fold_fails nodes_field (fun f => f = .bytes k [])
      (fun s v f hf => hf ▸ nodes_field_empty s v k hk) fs _ _ ⟨_, hmem, rfl⟩ st
  · intro hk hok params
    apply bind_not_ok
    apply bind_not_ok
    intro st
    rw [parse_pbf_way_fields,
      field_loop_encoded (way_field strings) fs _ _ way_variant hne (by omega) hok]
    exact spec_fold_fails (way_field strings) (fun f => f = .bytes k [])
      (fun s v f hf => hf ▸ way_field_empty strings s v k hk) fs _ _ ⟨_, hmem, rfl⟩ st
  · intro hk hok params
    apply bind_not_ok
    apply bind_not_ok
    intro st
    rw [parse_pbf_relation_fields,
      field_loop_encoded (relation_field strings) fs _ _ relation_variant hne (by omega) hok]
    exact spec_fold_fails (relation_field strings) (fun f => f = .bytes k [])
      (fun s v f hf => hf ▸ relation_field_empty strings s v k hk) fs _ _ ⟨_, hmem, rfl⟩ st

theorem empty_packed_payload_rejected_witness :
    (∀ infos r, parse_pbf_node_infos infos (spec_encode_message empty_packed_info) ≠ .ok r) ∧
    (∀ (params : pbf_params (List Int)) r,
      parse_pbf_nodes s3_strings (spec_encode_message empty_packed_nodes) params ≠ .ok r) ∧
    (∀ (params : pbf_params (List Int)) r,
      parse_pbf_way s3_strings (spec_encode_message empty_packed_way) params ≠ .ok r) ∧
    (∀ (params : pbf_params (List Int)) r,
      parse_pbf_relation s3_strings (spec_encode_message empty_packed_relation) params ≠
        .ok r) :=
  ⟨(@empty_packed_payload_rejected (List Int) s3_strings empty_packed_info 2
      (by decide)).2.2.1 (by decide) (by decide),
   (@empty_packed_payload_rejected (List Int) s3_strings empty_packed_nodes 8
      (by decide)).2.2.2.1 (by decide) (by decide),
   (@empty_packed_payload_rejected (List Int) s3_strings empty_packed_way 2
      (by decide)).2.2.2.2.1 (by decide) (by decide),
   (@empty_packed_payload_rejected (List Int) s3_strings empty_packed_relation 9
      (by decide)).2.2.2.2.2 (by decide) (by decide)⟩

/-! ## C40: a dangling key -/

theorem spec_pairs_length : ∀ l : List Int, (spec_pairs l).length = l.length / 2
  | [] => rfl
  | [_] => by simp [spec_pairs]
  | _ :: _ :: rest => by
    rw [spec_pairs, List.length_cons, spec_pairs_length rest]
    simp only [List.length_cons]
    omega

theorem spec_pairs_dropLast : ∀ l : List Int, l.length % 2 = 1 →
    spec_pairs l = spec_pairs l.dropLast
  | [], h => by simp at h
  | [_], _ => rfl
  | [_, _], h => by simp at h
  | k :: v :: x :: rest, h => by
    have h2 : (x :: rest).length % 2 = 1 := by
      simp only [List.length_cons] at h ⊢
      omega
    have ih := spec_pairs_dropLast (x :: rest) h2
    rw [spec_pairs, ih]
    rfl

theorem dense_state_keys (d : spec_dense) :
    (spec_dense_state d).packed_keys.values = d.keys_vals.map Nat.cast := by
  unfold spec_dense_state
  by_cases hk : d.keys_vals = []
  · simp [hk, init_packed]
  · simp [hk]

theorem dense_view_tags (strings : readosm_string_table) (d : spec_dense) (N i : Nat)
    (hi : i < N) :
    ((spec_dense_views strings d N).get? i).map (fun n => n.tags) =
      some ((spec_pairs (spec_segment (d.keys_vals.map Nat.cast) i)).map (fun kv =>
        ({ key := some (spec_string strings kv.1),
           value := some (spec_string strings kv.2) } : readosm_export_tag))) := by
  simp only [spec_dense_views, spec_nodes, List.get?_eq_getElem?, List.getElem?_map,
    List.getElem?_range hi, Option.map_some', export_spec_node_tags, dense_state_keys]

/-- [C40] For every DenseNodes block that passes the parallel-array check (string
indices in range, node callback returning OK), node `i` is delivered with the tags
made of the consecutive pairs of segment `i` of `keys_vals` (the indices before the
`i`-th zero, or before the end of the array).  When the segment has an odd number
of indices, these are the pairs of the segment without its last index: the
dangling key is dropped, the message is still decoded, and since every node takes
its pairs from its own segment the key is not carried over to the next node.  With
`keys_vals = [3, 4, 5, 0, 6, 1]` node 0 has the single tag `(st[3], st[4])` and node
1 the single tag `(st[6], st[1])`. -/
theorem dense_dangling_key_dropped {σ : Type} (strings : readosm_string_table)
    (d : spec_dense) (N i : Nat) (params : pbf_params σ)
    (cb : σ → readosm_export_node → Int × σ)
    (h : spec_dense_ok d N) (hrange : indices_in_range strings (spec_dense_state d))
    (hcb : params.node_callback = some cb) (hok : ∀ s n, (cb s n).1 = READOSM_OK)
    (hstop : params.stop = 0) (hi : i < N)
    (hodd : (spec_segment (d.keys_vals.map Nat.cast) i).length % 2 = 1) :
    parse_pbf_nodes strings (spec_dense_message d) params =
      .ok { params with
            user_data := (spec_dense_views strings d N).foldl (fun s n => (cb s n).2)
              params.user_data } ∧
    ((spec_dense_views strings d N).get? i).map (fun n => n.tags) =
      some ((spec_pairs (spec_segment (d.keys_vals.map Nat.cast) i).dropLast).map (fun kv =>
        ({ key := some (spec_string strings kv.1),
           value := some (spec_string strings kv.2) } : readosm_export_tag))) ∧
    (spec_pairs (spec_segment (d.keys_vals.map Nat.cast) i).dropLast).length =
      (spec_segment (d.keys_vals.map Nat.cast) i).length / 2 ∧
    (∀ j, j < N →
      ((spec_dense_views strings d N).get? j).map (fun n => n.tags) =
        some ((spec_pairs (spec_segment (d.keys_vals.map Nat.cast) j)).map (fun kv =>
          ({ key := some (spec_string strings kv.1),
             value := some (spec_string strings kv.2) } : readosm_export_tag)))) ∧
    (spec_dense_views s3_strings dangling_dense 2).map (fun n => n.tags) =
      [[{ key := some [107, 49], value := some [118, 49] }],
       [{ key := some [118, 50], value := some [117, 49] }]] := by
  refine ⟨dense_views_spec strings d N params cb h hrange hcb hok hstop, ?_, ?_,
    fun j hj => dense_view_tags strings d N j hj, by decide⟩
  · rw [dense_view_tags strings d N i hi, spec_pairs_dropLast _ hodd]
  · rw [← spec_pairs_dropLast _ hodd, spec_pairs_length]

theorem dense_dangling_key_dropped_witness :
    (spec_segment (dangling_dense.keys_vals.map Nat.cast) 0).length % 2 = 1 ∧
    parse_pbf_nodes s3_strings (spec_dense_message dangling_dense) record_params =
      .ok { record_params with
            user_data := (spec_dense_views s3_strings dangling_dense 2).foldl
              (fun s n => (record_nodes s n).2) record_params.user_data } ∧
    ((spec_dense_views s3_strings dangling_dense 2).get? 0).map (fun n => n.tags) =
      some ((spec_pairs (spec_segment (dangling_dense.keys_vals.map Nat.cast) 0).dropLast).map
        (fun kv => ({ key := some (spec_string s3_strings kv.1),
                      value := some (spec_string s3_strings kv.2) } : readosm_export_tag))) :=
  ⟨by decide,
    (dense_dangling_key_dropped s3_strings dangling_dense 2 0 record_params record_nodes
      (by decide) (by decide) rfl (fun _ _ => rfl) rfl (by decide) (by decide)).1,
    (dense_dangling_key_dropped s3_strings dangling_dense 2 0 record_params record_nodes
      (by decide) (by decide) rfl (fun _ _ => rfl) rfl (by decide) (by decide)).2.1⟩

/-! ## C32: latitude and longitude -/

theorem spec_sum64_in_range (l : List Int) (i : Nat)
    (h : -2 ^ 63 ≤ (l.take (i + 1)).sum ∧ (l.take (i + 1)).sum < 2 ^ 63) :
    spec_sum64 l i = (l.take (i + 1)).sum :=
  int64_of_bits_exact _ h.1 h.2

theorem dense_view_coordinates (strings : readosm_string_table) (d : spec_dense) (N i : Nat)
    (hi : i < N) :
    ∃ view, (spec_dense_views strings d N).get? i = some view ∧
      view.latitude = spec_sum64 d.lats i ∧ view.longitude = spec_sum64 d.lons i := by
  refine ⟨export_node (spec_node strings 0 0 0 (spec_dense_state d).packed_ids.values
    (spec_dense_state d).packed_lats.values (spec_dense_state d).packed_lons.values
    (spec_dense_state d).packed_infos.versions (spec_dense_state d).packed_infos.timestamps
    (spec_dense_state d).packed_infos.changesets (spec_dense_state d).packed_infos.uids
    (spec_dense_state d).packed_infos.users (spec_dense_state d).packed_keys.values i),
    ?_, ?_, ?_⟩
  · simp only [spec_dense_views, spec_nodes, List.get?_eq_getElem?, List.getElem?_map,
      List.getElem?_range hi, Option.map_some']
  · simp [export_node, spec_node, spec_dense_state, int64_add, spec_sum64]
  · simp [export_node, spec_node, spec_dense_state, int64_add, spec_sum64]

set_option maxRecDepth 100000 in
/-- [C32] For every DenseNodes block that passes the parallel-array check (string
indices in range, node callback returning OK), node `i` is delivered with the
latitude `(lats[0] + .. + lats[i]) / 10000000` and the longitude
`(lons[0] + .. + lons[i]) / 10000000`, the sums being those of the 64-bit
accumulators (sums within the range of `long long`): the view holds the sum as the
numerator over the fixed denominator `10000000`.  `parse_pbf_nodes` receives nothing
of the block but the string table and the message, and the PrimitiveBlock loop
passes over the fields 18, 19 and 20: a block with date granularity, latitude offset
and longitude offset before the group, and granularity behind it, delivers the same
coordinates as the block without them. -/
theorem dense_coordinates {σ : Type} (strings : readosm_string_table)
    (d : spec_dense) (N i : Nat) (params : pbf_params σ)
    (cb : σ → readosm_export_node → Int × σ)
    (h : spec_dense_ok d N) (hrange : indices_in_range strings (spec_dense_state d))
    (hcb : params.node_callback = some cb) (hok : ∀ s n, (cb s n).1 = READOSM_OK)
    (hstop : params.stop = 0) (hi : i < N)
    (hlat : -2 ^ 63 ≤ (d.lats.take (i + 1)).sum ∧ (d.lats.take (i + 1)).sum < 2 ^ 63)
    (hlon : -2 ^ 63 ≤ (d.lons.take (i + 1)).sum ∧ (d.lons.take (i + 1)).sum < 2 ^ 63) :
    parse_pbf_nodes strings (spec_dense_message d) params =
      .ok { params with
            user_data := (spec_dense_views strings d N).foldl (fun s n => (cb s n).2)
              params.user_data } ∧
    (∃ view, (spec_dense_views strings d N).get? i = some view ∧
      view.latitude = (d.lats.take (i + 1)).sum ∧
      view.longitude = (d.lons.take (i + 1)).sum ∧
      spec_degrees view.latitude = ((d.lats.take (i + 1)).sum : ℚ) / 10000000 ∧
      spec_degrees view.longitude = ((d.lons.take (i + 1)).sum : ℚ) / 10000000) ∧
    block_coordinates (spec_block_with [] [] (spec_dense_message coordinate_dense)) =
      .ok (1, [(451234567, -912345678), (451234467, -912345673), (451234474, -912345678)]) ∧
    block_coordinates (spec_block_with [.varint 18 1000, .varint 19 500, .varint 20 700]
        [.varint 17 1000] (spec_dense_message coordinate_dense)) =
      block_coordinates (spec_block_with [] [] (spec_dense_message coordinate_dense)) := by
  refine ⟨dense_views_spec strings d N params cb h hrange hcb hok hstop, ?_, by decide,
    by decide⟩
  obtain ⟨view, hv, h1, h2⟩ := dense_view_coordinates strings d N i hi
  rw [spec_sum64_in_range d.lats i hlat] at h1
  rw [spec_sum64_in_range d.lons i hlon] at h2
  exact ⟨view, hv, h1, h2, by rw [spec_degrees, h1], by rw [spec_degrees, h2]⟩

theorem dense_coordinates_witness :
    ∃ view, (spec_dense_views s3_strings coordinate_dense 3).get? 1 = some view ∧
      view.latitude = (coordinate_dense.lats.take (1 + 1)).sum ∧
      view.longitude = (coordinate_dense.lons.take (1 + 1)).sum ∧
      spec_degrees view.latitude = ((coordinate_dense.lats.take (1 + 1)).sum : ℚ) / 10000000 ∧
      spec_degrees view.longitude =
        ((coordinate_dense.lons.take (1 + 1)).sum : ℚ) / 10000000 :=
  (dense_coordinates s3_strings coordinate_dense 3 1 record_params record_nodes (by decide)
    (by decide) rfl (fun _ _ => rfl) rfl (by decide) (by decide) (by decide)).2.1

/-! ## C39: the count of a packed object -/

/-- [C39] Evaluated where it fails: a packed field that occurs twice.  In the Way
message the keys field holds `[1]` and then `[3]`: the second `parse_uint32_packed`
appends to the list of the first, and `array_from_uint32_packed` adds the length of
the whole list to the count it finds, so the packed object ends with the count 3
for the two values `[1, 3]`.  Likewise the DenseNodes message with two id fields of
one id each ends with the count 3 for two ids.  The Way message, whose two keys
match its two values, is rejected by the comparison of the counts.  After a single
occurrence the count is the number of values. -/
theorem packed_count_repeated_field :
    ((parse_pbf_way_fields s4_strings (spec_encode_message repeated_keys_way)).map
        fun st => (st.packed_keys.first, st.packed_keys.count, st.packed_keys.values)) =
      .ok ([1, 3], 3, [1, 3]) ∧
    ((parse_pbf_nodes_fields (spec_encode_message repeated_ids_nodes)).map
        fun st => (st.packed_ids.first, st.packed_ids.count, st.packed_ids.values)) =
      .ok ([1, 1], 3, [1, 1]) ∧
    parse_pbf_way_entity s4_strings (spec_encode_message repeated_keys_way) = .error ∧
    (array_from_uint32_packed (array_from_uint32_packed
        { init_packed with first := [1] })).count = 2 ∧
    (∀ l : List Int, (array_from_uint32_packed { init_packed with first := l }).count =
        l.length ∧
      (array_from_int64_packed { init_packed with first := l }).count = l.length) := by
  refine ⟨by decide, by decide, by decide, by decide, ?_⟩
  intro l
  rw [array_from_uint32_packed_init, array_from_int64_packed_init]
  exact ⟨rfl, rfl⟩

/-! ## C36: progress and termination of the message loops -/

theorem read_var_loop_progress (ty : VarType) :
    ∀ (bytes : List Nat) (count v32 v64 a b : Nat) (rest : List Nat),
      read_var_loop ty bytes count v32 v64 = some (a, b, rest) →
      ∃ consumed, bytes = consumed ++ rest ∧ 1 ≤ consumed.length := by
  intro bytes
  induction bytes with
  | nil => intro count v32 v64 a b rest h; simp [read_var_loop] at h
  | cons x bytes ih =>
    intro count v32 v64 a b rest h
    simp only [read_var_loop] at h
    split at h
    · simp at h
    · rename_i w32 w64 _
      split_ifs at h
      · obtain ⟨c, hc, _⟩ := ih _ _ _ _ _ _ h
        exact ⟨x :: c, by rw [hc]; rfl, by simp⟩
      · simp only [Option.some.injEq, Prod.mk.injEq] at h
        exact ⟨[x], by rw [← h.2.2]; rfl, by simp⟩

theorem read_var_progress (ty : VarType) (bytes rest : List Nat) (x : Int)
    (h : read_var ty bytes = some (x, rest)) :
    ∃ consumed, bytes = consumed ++ rest ∧ 1 ≤ consumed.length := by
  unfold read_var at h
  split at h
  · simp at h
  · rename_i a b r hl
    split at h
    · simp at h
    · simp only [Option.some.injEq, Prod.mk.injEq] at h
      rw [← h.2]
      exact read_var_loop_progress ty bytes 0 0 0 a b r hl

theorem read_bytes_progress (bytes rest : List Nat) (v v2 : readosm_variant)
    (h : read_bytes bytes v = (some rest, v2)) :
    ∃ consumed, bytes = consumed ++ rest ∧ 1 ≤ consumed.length := by
  unfold read_bytes at h
  split at h
  · rename_i x ptr hv
    obtain ⟨c, hc, hc1⟩ := read_var_progress _ _ _ _ hv
    simp only at h
    split_ifs at h
    · simp at h
    · simp only [Prod.mk.injEq, Option.some.injEq] at h
      refine ⟨c ++ ptr.take x.toNat, ?_, by simp; omega⟩
      rw [hc, ← h.1, List.append_assoc, List.take_append_drop]
  · simp at h

theorem parse_field_progress (bytes rest : List Nat) (v v2 : readosm_variant)
    (h : parse_field bytes v = (some rest, v2)) :
    ∃ consumed, bytes = consumed ++ rest ∧ 2 ≤ consumed.length := by
  unfold parse_field at h
  split at h
  · simp at h
  · rename_i t ptr
    simp only at h
    split at h
    · simp at h
    · split at h
      all_goals first
        | (split at h
           · rename_i x r hv
             simp only [Prod.mk.injEq, Option.some.injEq] at h
             obtain ⟨c, hc, hc1⟩ := read_var_progress _ _ _ _ hv
             exact ⟨t :: c, by rw [hc, ← h.1]; rfl, by simp; omega⟩
           · simp at h)
        | (obtain ⟨c, hc, hc1⟩ := read_bytes_progress _ _ _ _ h
           exact ⟨t :: c, by rw [hc]; rfl, by simp; omega⟩)
        | simp at h

theorem parse_field_rest_length (bytes rest : List Nat) (v v2 : readosm_variant)
    (h : parse_field bytes v = (some rest, v2)) : rest.length + 2 ≤ bytes.length := by
  obtain ⟨c, hc, hc2⟩ := parse_field_progress bytes rest v v2 h
  rw [hc, List.length_append]
  omega

theorem field_loop_fuel {S : Type} (handler : S → readosm_variant → Outcome S) :
    ∀ (fuel1 fuel2 : Nat) (s : S) (v : readosm_variant) (bytes : List Nat),
      bytes.length / 2 < fuel1 → bytes.length / 2 < fuel2 →
      field_loop handler fuel1 s v bytes = field_loop handler fuel2 s v bytes := by
  intro fuel1
  induction fuel1 with
  | zero => intro fuel2 s v bytes h; omega
  | succ fuel1 ih =>
    intro fuel2 s v bytes h1 h2
    obtain ⟨fuel2, rfl⟩ : ∃ k, fuel2 = k + 1 := ⟨fuel2 - 1, by omega⟩
    simp only [field_loop]
    split
    · rfl
    · rename_i base v2 hp
      have hlen := parse_field_rest_length _ _ _ _ hp
      cases handler s v2 with
      | ok s1 =>
        simp only [Outcome.bind]
        cases base with
        | nil => rfl
        | cons b base =>
          simp only
          exact ih fuel2 s1 v2 (b :: base) (by omega) (by omega)
      | error => rfl
      | fault => rfl
      | fuel => rfl

theorem field_loop_total {S : Type} (handler : S → readosm_variant → Outcome S)
    (hh : ∀ s v, handler s v ≠ .fuel) :
    ∀ (fuel : Nat) (s : S) (v : readosm_variant) (bytes : List Nat),
      bytes.length / 2 < fuel → field_loop handler fuel s v bytes ≠ .fuel := by
  intro fuel
  induction fuel with
  | zero => intro s v bytes h; omega
  | succ fuel ih =>
    intro s v bytes h
    simp only [field_loop]
    split
    · split_ifs <;> simp
    · rename_i base v2 hp
      have hlen := parse_field_rest_length _ _ _ _ hp
      cases hs : handler s v2 with
      | ok s1 =>
        simp only [Outcome.bind]
        cases base with
        | nil => simp
        | cons b base =>
          simp only
          exact ih s1 v2 (b :: base) (by omega)
      | error => simp [Outcome.bind]
      | fault => simp [Outcome.bind]
      | fuel => exact absurd hs (hh s v2)

theorem bind_ne_fuel {α β : Type} (o : Outcome α) (f : α → Outcome β)
    (h1 : o ≠ .fuel) (h2 : ∀ a, f a ≠ .fuel) : o.bind f ≠ .fuel := by
  cases o with
  | ok a => exact h2 a
  | error => simp [Outcome.bind]
  | fault => simp [Outcome.bind]
  | fuel => exact absurd rfl h1

theorem ok_ne_fuel {α : Type} (a : α) : (Outcome.ok a) ≠ Outcome.fuel := by simp

theorem parse_packed_loop_total (ty : VarType) :
    ∀ (fuel : Nat) (packed : List Int) (valid : Bool) (bytes : List Nat),
      bytes.length < fuel → parse_packed_loop ty fuel packed valid bytes ≠ .fuel := by
  intro fuel
  induction fuel with
  | zero => intro packed valid bytes h; omega
  | succ fuel ih =>
    intro packed valid bytes h
    simp only [parse_packed_loop]
    split
    · rename_i x ptr hv
      obtain ⟨c, hc, hc1⟩ := read_var_progress _ _ _ _ hv
      cases ptr with
      | nil => simp
      | cons b ptr =>
        simp only
        apply ih
        rw [hc, List.length_append] at h
        omega
    · split_ifs <;> simp

theorem parse_packed_total (packed : readosm_packed) (bytes : List Nat) :
    parse_uint32_packed packed bytes ≠ .fuel ∧ parse_sint32_packed packed bytes ≠ .fuel ∧
    parse_sint64_packed packed bytes ≠ .fuel :=
  ⟨bind_ne_fuel _ _ (parse_packed_loop_total _ _ _ _ _ (Nat.lt_succ_self _))
      (fun _ => ok_ne_fuel _),
   bind_ne_fuel _ _ (parse_packed_loop_total _ _ _ _ _ (Nat.lt_succ_self _))
      (fun _ => ok_ne_fuel _),
   bind_ne_fuel _ _ (parse_packed_loop_total _ _ _ _ _ (Nat.lt_succ_self _))
      (fun _ => ok_ne_fuel _)⟩

theorem half_lt_succ (n : Nat) : n / 2 < n + 1 := by omega

theorem node_infos_field_total (infos : readosm_packed_infos) (v : readosm_variant) :
    node_infos_field infos v ≠ .fuel := by
  unfold node_infos_field
  split_ifs <;>
    first
    | exact ok_ne_fuel _
    | exact bind_ne_fuel _ _ (parse_packed_total _ _).1 (fun _ => ok_ne_fuel _)
    | exact bind_ne_fuel _ _ (parse_packed_total _ _).2.1 (fun _ => ok_ne_fuel _)
    | exact bind_ne_fuel _ _ (parse_packed_total _ _).2.2 (fun _ => ok_ne_fuel _)

theorem parse_pbf_node_infos_total (infos : readosm_packed_infos) (bytes : List Nat) :
    parse_pbf_node_infos infos bytes ≠ .fuel := by
  rw [parse_pbf_node_infos, parse_pbf_node_infos_loop_eq]
  exact field_loop_total _ node_infos_field_total _ _ _ _ (half_lt_succ _)

theorem nodes_field_total (st : dense_nodes_state) (v : readosm_variant) :
    nodes_field st v ≠ .fuel := by
  unfold nodes_field
  split_ifs <;>
    first
    | exact ok_ne_fuel _
    | exact bind_ne_fuel _ _ (parse_packed_total _ _).1 (fun _ => ok_ne_fuel _)
    | exact bind_ne_fuel _ _ (parse_packed_total _ _).2.2 (fun _ => ok_ne_fuel _)
    | exact bind_ne_fuel _ _ (parse_pbf_node_infos_total _ _) (fun _ => ok_ne_fuel _)

theorem parse_pbf_nodes_fields_total (bytes : List Nat) :
    parse_pbf_nodes_fields bytes ≠ .fuel := by
  rw [parse_pbf_nodes_fields, parse_pbf_nodes_loop_eq]
  exact field_loop_total _ nodes_field_total _ _ _ _ (half_lt_succ _)

theorem node_user_total (strings : readosm_string_table) (s_id : Int) :
    node_user strings s_id ≠ .fuel := by
  unfold node_user
  split_ifs
  · split
    · simp
    · split_ifs <;> simp
  · simp

theorem node_tags_loop_total (strings : readosm_string_table) (keys : readosm_packed) :
    ∀ (n i_keys : Nat) (key : Option (List Nat)) (nd : readosm_internal_node),
      node_tags_loop strings keys n i_keys key nd ≠ .fuel := by
  intro n
  induction n with
  | zero => intro i_keys key nd; simp [node_tags_loop]
  | succ n ih =>
    intro i_keys key nd
    simp only [node_tags_loop]
    split
    · simp
    · split_ifs
      · simp
      · split
        · simp
        · split
          · exact ih _ _ _
          · exact ih _ _ _

theorem reassemble_node_total (strings : readosm_string_table) (st : dense_nodes_state)
    (i i_keys : Nat) (a b c : Int) : reassemble_node strings st i i_keys a b c ≠ .fuel := by
  unfold reassemble_node
  split
  · exact bind_ne_fuel _ _ (node_user_total _ _)
      (fun _ => bind_ne_fuel _ _ (node_tags_loop_total _ _ _ _ _ _) (fun _ => ok_ne_fuel _))
  · simp

theorem reassemble_loop_total (strings : readosm_string_table) (st : dense_nodes_state) :
    ∀ (n i i_keys : Nat) (a b c : Int),
      reassemble_loop strings st n i i_keys a b c ≠ .fuel := by
  intro n
  induction n with
  | zero => intro i i_keys a b c; simp [reassemble_loop]
  | succ n ih =>
    intro i i_keys a b c
    rw [reassemble_loop]
    exact bind_ne_fuel _ _ (reassemble_node_total _ _ _ _ _ _ _)
      (fun _ => bind_ne_fuel _ _ (ih _ _ _ _ _) (fun _ => ok_ne_fuel _))

theorem parse_pbf_nodes_total {σ : Type} (strings : readosm_string_table) (bytes : List Nat)
    (params : pbf_params σ) : parse_pbf_nodes strings bytes params ≠ .fuel := by
  unfold parse_pbf_nodes
  refine bind_ne_fuel _ _ (parse_pbf_nodes_fields_total _) (fun st => ?_)
  refine bind_ne_fuel _ _ ?_ (fun nodes => ?_)
  · unfold reassemble_nodes
    split_ifs
    · exact reassemble_loop_total _ _ _ _ _ _ _ _
    · simp
  · split
    · split_ifs <;> simp
    · simp

theorem info_user_total (strings : readosm_string_table) (userid : Int) :
    info_user strings userid ≠ .fuel := by
  unfold info_user
  split_ifs
  · split <;> simp
  · simp

theorem way_info_field_total (strings : readosm_string_table) (way : readosm_internal_way)
    (v : readosm_variant) : way_info_field strings way v ≠ .fuel := by
  unfold way_info_field
  split_ifs <;>
    first
    | exact ok_ne_fuel _
    | exact bind_ne_fuel _ _ (info_user_total _ _) (fun _ => ok_ne_fuel _)

theorem relation_info_field_total (strings : readosm_string_table)
    (relation : readosm_internal_relation) (v : readosm_variant) :
    relation_info_field strings relation v ≠ .fuel := by
  unfold relation_info_field
  split_ifs <;>
    first
    | exact ok_ne_fuel _
    | exact bind_ne_fuel _ _ (info_user_total _ _) (fun _ => ok_ne_fuel _)

theorem parse_pbf_way_info_total (way : readosm_internal_way) (strings : readosm_string_table)
    (bytes : List Nat) : parse_pbf_way_info way strings bytes ≠ .fuel :=
  field_loop_total _ (way_info_field_total strings) _ _ _ _ (half_lt_succ _)

theorem parse_pbf_relation_info_total (relation : readosm_internal_relation)
    (strings : readosm_string_table) (bytes : List Nat) :
    parse_pbf_relation_info relation strings bytes ≠ .fuel :=
  field_loop_total _ (relation_info_field_total strings) _ _ _ _ (half_lt_succ _)

theorem way_field_total (strings : readosm_string_table) (st : way_state)
    (v : readosm_variant) : way_field strings st v ≠ .fuel := by
  unfold way_field
  split_ifs <;>
    first
    | exact ok_ne_fuel _
    | exact bind_ne_fuel _ _ (parse_packed_total _ _).1 (fun _ => ok_ne_fuel _)
    | exact bind_ne_fuel _ _ (parse_packed_total _ _).2.2 (fun _ => ok_ne_fuel _)
    | exact bind_ne_fuel _ _ (parse_pbf_way_info_total _ _ _) (fun _ => ok_ne_fuel _)

theorem relation_field_total (strings : readosm_string_table) (st : relation_state)
    (v : readosm_variant) : relation_field strings st v ≠ .fuel := by
  unfold relation_field
  split_ifs <;>
    first
    | exact ok_ne_fuel _
    | exact bind_ne_fuel _ _ (parse_packed_total _ _).1 (fun _ => ok_ne_fuel _)
    | exact bind_ne_fuel _ _ (parse_packed_total _ _).2.2 (fun _ => ok_ne_fuel _)
    | exact bind_ne_fuel _ _ (parse_pbf_relation_info_total _ _ _) (fun _ => ok_ne_fuel _)

theorem way_tags_loop_total (strings : readosm_string_table) (keys values : readosm_packed) :
    ∀ (n i : Nat) (way : readosm_internal_way),
      way_tags_loop strings keys values n i way ≠ .fuel := by
  intro n
  induction n with
  | zero => intro i way; simp [way_tags_loop]
  | succ n ih =>
    intro i way
    simp only [way_tags_loop]
    split
    · split
      · exact ih _ _
      · simp
    · simp

theorem relation_tags_loop_total (strings : readosm_string_table)
    (keys values : readosm_packed) :
    ∀ (n i : Nat) (relation : readosm_internal_relation),
      relation_tags_loop strings keys values n i relation ≠ .fuel := by
  intro n
  induction n with
  | zero => intro i relation; simp [relation_tags_loop]
  | succ n ih =>
    intro i relation
    simp only [relation_tags_loop]
    split
    · split
      · exact ih _ _
      · simp
    · simp

theorem relation_members_loop_total (strings : readosm_string_table)
    (roles types refs : readosm_packed) :
    ∀ (n i : Nat) (delta : Int) (relation : readosm_internal_relation),
      relation_members_loop strings roles types refs n i delta relation ≠ .fuel := by
  intro n
  induction n with
  | zero => intro i delta relation; simp [relation_members_loop]
  | succ n ih =>
    intro i delta relation
    simp only [relation_members_loop]
    split
    · split
      · exact ih _ _ _
      · simp
    · simp

theorem parse_pbf_way_total {σ : Type} (strings : readosm_string_table) (bytes : List Nat)
    (params : pbf_params σ) : parse_pbf_way strings bytes params ≠ .fuel := by
  unfold parse_pbf_way parse_pbf_way_entity
  refine bind_ne_fuel _ _ (bind_ne_fuel _ _ ?_ (fun st => ?_)) (fun _ => ok_ne_fuel _)
  · exact field_loop_total _ (way_field_total strings) _ _ _ _ (half_lt_succ _)
  · split_ifs
    · exact way_tags_loop_total _ _ _ _ _ _
    · simp

theorem parse_pbf_relation_total {σ : Type} (strings : readosm_string_table)
    (bytes : List Nat) (params : pbf_params σ) :
    parse_pbf_relation strings bytes params ≠ .fuel := by
  unfold parse_pbf_relation parse_pbf_relation_entity
  refine bind_ne_fuel _ _ (bind_ne_fuel _ _ ?_ (fun st => ?_)) (fun _ => ok_ne_fuel _)
  · exact field_loop_total _ (relation_field_total strings) _ _ _ _ (half_lt_succ _)
  · split_ifs
    · exact bind_ne_fuel _ _ (relation_tags_loop_total _ _ _ _ _ _)
        (fun r => relation_members_loop_total _ _ _ _ _ _ _ _)
    · exact bind_ne_fuel _ _ (relation_tags_loop_total _ _ _ _ _ _) (fun r => by simp)
    · simp

theorem parse_string_table_total (t : readosm_string_table) (bytes : List Nat) :
    parse_string_table t bytes ≠ .fuel := by
  refine field_loop_total _ (fun s v => ?_) _ _ _ _ (half_lt_succ _)
  unfold string_table_field
  split_ifs <;> simp

theorem primitive_group_field_total {σ : Type} (strings : readosm_string_table)
    (params : pbf_params σ) (v : readosm_variant) :
    primitive_group_field strings params v ≠ .fuel := by
  unfold primitive_group_field
  split_ifs
  · exact parse_pbf_nodes_total _ _ _
  · exact parse_pbf_way_total _ _ _
  · exact parse_pbf_relation_total _ _ _
  · simp

theorem primitive_group_loop_fuel {σ : Type} (strings : readosm_string_table) :
    ∀ (fuel1 fuel2 : Nat) (params : pbf_params σ) (v : readosm_variant) (bytes : List Nat),
      bytes.length / 2 < fuel1 → bytes.length / 2 < fuel2 →
      primitive_group_loop strings fuel1 params v bytes =
        primitive_group_loop strings fuel2 params v bytes ∧
      primitive_group_loop strings fuel1 params v bytes ≠ .fuel := by
  intro fuel1
  induction fuel1 with
  | zero => intro fuel2 params v bytes h; omega
  | succ fuel1 ih =>
    intro fuel2 params v bytes h1 h2
    obtain ⟨fuel2, rfl⟩ : ∃ k, fuel2 = k + 1 := ⟨fuel2 - 1, by omega⟩
    simp only [primitive_group_loop]
    split
    · exact ⟨rfl, by split_ifs <;> simp⟩
    · rename_i base v2 hp
      have hlen := parse_field_rest_length _ _ _ _ hp
      cases hg : primitive_group_field strings params v2 with
      | ok p1 =>
        simp only
        cases base with
        | nil => exact ⟨rfl, by simp⟩
        | cons b base =>
          simp only
          exact ih fuel2 p1 v2 (b :: base) (by omega) (by omega)
      | error => exact ⟨rfl, by simp⟩
      | fault => exact ⟨rfl, by simp⟩
      | fuel => exact absurd hg (primitive_group_field_total _ _ _)

theorem parse_primitive_group_total {σ : Type} (strings : readosm_string_table)
    (bytes : List Nat) (params : pbf_params σ) :
    parse_primitive_group strings bytes params ≠ .fuel :=
  (primitive_group_loop_fuel strings _ _ params _ bytes (half_lt_succ _) (half_lt_succ _)).2

theorem primitive_block_loop_fuel {σ : Type} :
    ∀ (fuel1 fuel2 : Nat) (t : readosm_string_table) (params : pbf_params σ)
      (v : readosm_variant) (bytes : List Nat),
      bytes.length / 2 < fuel1 → bytes.length / 2 < fuel2 →
      primitive_block_loop fuel1 t params v bytes =
        primitive_block_loop fuel2 t params v bytes ∧
      primitive_block_loop fuel1 t params v bytes ≠ .fuel := by
  intro fuel1
  induction fuel1 with
  | zero => intro fuel2 t params v bytes h; omega
  | succ fuel1 ih =>
    intro fuel2 t params v bytes h1 h2
    obtain ⟨fuel2, rfl⟩ : ∃ k, fuel2 = k + 1 := ⟨fuel2 - 1, by omega⟩
    simp only [primitive_block_loop]
    split
    · exact ⟨rfl, by split_ifs <;> simp⟩
    · rename_i base v2 hp
      have hlen := parse_field_rest_length _ _ _ _ hp
      have htab : (if v2.field_id = 1 ∧ v2.type = READOSM_LEN_BYTES then
            (parse_string_table t v2.pointer).bind fun t =>
              Outcome.ok (array_from_string_table t)
           else Outcome.ok t) ≠ .fuel := by
        split_ifs
        · exact bind_ne_fuel _ _ (parse_string_table_total _ _) (fun _ => ok_ne_fuel _)
        · simp
      split
      · rename_i t1 _
        have hgrp : (if v2.field_id = 2 ∧ v2.type = READOSM_LEN_BYTES then
              parse_primitive_group t1 v2.pointer params
             else Outcome.ok (1, params)) ≠ .fuel := by
          split_ifs
          · exact parse_primitive_group_total _ _ _
          · simp
        cases hr : (if v2.field_id = 2 ∧ v2.type = READOSM_LEN_BYTES then
              parse_primitive_group t1 v2.pointer params
             else Outcome.ok (1, params)) with
        | ok r =>
          simp only [Outcome.bind]
          split_ifs
          · exact ⟨rfl, by simp⟩
          · exact ⟨rfl, by simp⟩
          · cases base with
            | nil => exact ⟨rfl, by simp⟩
            | cons b base =>
              simp only
              exact ih fuel2 t1 r.2 v2 (b :: base) (by omega) (by omega)
        | error => exact ⟨rfl, by simp [Outcome.bind]⟩
        | fault => exact ⟨rfl, by simp [Outcome.bind]⟩
        | fuel => exact absurd hr hgrp
      · exact ⟨rfl, by simp⟩
      · exact ⟨rfl, by simp⟩
      · rename_i hf
        exact absurd hf htab

theorem blob_header_field_total (name : List Nat) (st : blob_header_state)
    (v : readosm_variant) : blob_header_field name st v ≠ .fuel := by
  unfold blob_header_field
  simp only
  split_ifs <;> simp

theorem blob_field_total (st : blob_state) (v : readosm_variant) :
    blob_field st v ≠ .fuel := by
  unfold blob_field
  simp only
  split_ifs <;> simp

theorem read_blob_total (name input : List Nat) (sz : Nat) :
    read_blob name input sz ≠ .fuel := by
  unfold read_blob
  simp only
  split_ifs
  · simp
  · have h := field_loop_total _ (blob_header_field_total name) ((fread sz input).1.length + 1)
      { ok_header := 0, hdsz := 0 } blob_header_variant (fread sz input).1 (half_lt_succ _)
    split
    · split_ifs <;> simp
    · simp
    · simp
    · rename_i hf
      exact absurd hf h

theorem unzip_blob_total (inflate : List Nat → Option (List Nat)) (st : blob_state) :
    unzip_blob inflate st ≠ .fuel := by
  unfold unzip_blob
  split
  · split_ifs
    · simp
    · split <;> simp
    · simp
  · simp

theorem parse_primitive_block_total {σ : Type} (inflate : List Nat → Option (List Nat))
    (st : blob_state) (params : pbf_params σ) :
    parse_primitive_block inflate st params ≠ .fuel := by
  unfold parse_primitive_block
  split
  · simp
  · rename_i raw _
    split_ifs
    · simp
    · simp
    · refine (primitive_block_loop_fuel _ (raw.length + 1) _ _ _ _ ?_ ?_).2
      · rw [List.length_take]
        omega
      · rw [List.length_take]
        omega
  · simp
  · simp
  · rename_i hf
    exact absurd hf (unzip_blob_total inflate st)

theorem parse_osm_data_total {σ : Type} (inflate : List Nat → Option (List Nat))
    (input : List Nat) (sz : Nat) (params : pbf_params σ) :
    parse_osm_data inflate input sz params ≠ .fuel := by
  unfold parse_osm_data
  refine bind_ne_fuel _ _ (read_blob_total _ _ _) (fun r => ?_)
  split
  · simp
  · rename_i buf _
    have h := field_loop_total _ blob_field_total (buf.length + 1)
      { raw_ptr := none, raw_sz := 0, zip_ptr := none, zip_sz := 0 } blob_variant buf
      (half_lt_succ _)
    split
    · exact bind_ne_fuel _ _ (parse_primitive_block_total _ _ _) (fun _ => ok_ne_fuel _)
    · simp
    · simp
    · rename_i hf
      exact absurd hf h

theorem field_loop_bound {S : Type} (handler : S → readosm_variant → Outcome S)
    (hh : ∀ s v, handler s v ≠ .fuel) (fuel : Nat) (s : S) (v : readosm_variant)
    (bytes : List Nat) (hfuel : bytes.length / 2 < fuel) :
    field_loop handler fuel s v bytes = field_loop handler (bytes.length + 1) s v bytes ∧
    field_loop handler fuel s v bytes ≠ .fuel :=
  ⟨field_loop_fuel handler fuel _ s v bytes hfuel (half_lt_succ _),
   field_loop_total handler hh fuel s v bytes hfuel⟩

/-- [C36] The bound of half the length does not hold for the iterations of a message
loop when the failing last one is counted.  The BlobHeader loop on the three bytes
`24 1 24` decodes field 3 from the first two bytes and enters its body a second
time, where `parse_field` fails on the lone tag byte; on the single byte `10` the
StringTable loop enters its body once.  With one iteration in the first case and
none in the second, half the length of the buffer, the loop is not finished. -/
theorem message_loop_iterations_counterexample :
    [24, 1, 24].length / 2 = 1 ∧
    field_loop (blob_header_field OSMData) 1 { ok_header := 0, hdsz := 0 } blob_header_variant
      [24, 1, 24] = .fuel ∧
    field_loop (blob_header_field OSMData) 2 { ok_header := 0, hdsz := 0 } blob_header_variant
      [24, 1, 24] = .error ∧
    [10].length / 2 = 0 ∧
    field_loop string_table_field 0 init_string_table
      (add_variant_hints init_variant READOSM_LEN_BYTES 1) [10] = .fuel ∧
    parse_string_table init_string_table [10] = .error := by
  decide

/-- [C36] Progress and termination of the message loops.  When `parse_field` succeeds
on a buffer, the position it returns lies at least two bytes after the start and at
most one byte after the end of the buffer.  Hence in each of the eleven loops
(StringTable, DenseInfo, DenseNodes, WayInfo, Way, RelationInfo, Relation,
PrimitiveGroup, BlobHeader, Blob, PrimitiveBlock) at most half the length of the
buffer iterations decode a field, the loop enters its body at most once more (an
allowance of iterations that runs out is at most half the length), and with any
larger allowance the loop ends with the result of the parser.  Every parser built
on these loops returns on every input. -/
theorem message_loops_terminate {σ : Type} (bytes : List Nat) (fuel : Nat)
    (hfuel : bytes.length / 2 < fuel) :
    (∀ v rest v2, parse_field bytes v = (some rest, v2) →
      ∃ consumed, bytes = consumed ++ rest ∧ 2 ≤ consumed.length) ∧
    (∀ t v, field_loop string_table_field fuel t v bytes =
        field_loop string_table_field (bytes.length + 1) t v bytes ∧
      field_loop string_table_field fuel t v bytes ≠ .fuel) ∧
    (∀ infos v, parse_pbf_node_infos_loop fuel infos v bytes =
        parse_pbf_node_infos_loop (bytes.length + 1) infos v bytes ∧
      parse_pbf_node_infos_loop fuel infos v bytes ≠ .fuel) ∧
    (∀ st v, parse_pbf_nodes_loop fuel st v bytes =
        parse_pbf_nodes_loop (bytes.length + 1) st v bytes ∧
      parse_pbf_nodes_loop fuel st v bytes ≠ .fuel) ∧
    (∀ strings way v, field_loop (way_info_field strings) fuel way v bytes =
        field_loop (way_info_field strings) (bytes.length + 1) way v bytes ∧
      field_loop (way_info_field strings) fuel way v bytes ≠ .fuel) ∧
    (∀ strings st v, field_loop (way_field strings) fuel st v bytes =
        field_loop (way_field strings) (bytes.length + 1) st v bytes ∧
      field_loop (way_field strings) fuel st v bytes ≠ .fuel) ∧
    (∀ strings relation v, field_loop (relation_info_field strings) fuel relation v bytes =
        field_loop (relation_info_field strings) (bytes.length + 1) relation v bytes ∧
      field_loop (relation_info_field strings) fuel relation v bytes ≠ .fuel) ∧
    (∀ strings st v, field_loop (relation_field strings) fuel st v bytes =
        field_loop (relation_field strings) (bytes.length + 1) st v bytes ∧
      field_loop (relation_field strings) fuel st v bytes ≠ .fuel) ∧
    (∀ strings (params : pbf_params σ) v,
      primitive_group_loop strings fuel params v bytes =
        primitive_group_loop strings (bytes.length + 1) params v bytes ∧
      primitive_group_loop strings fuel params v bytes ≠ .fuel) ∧
    (∀ name st v, field_loop (blob_header_field name) fuel st v bytes =
        field_loop (blob_header_field name) (bytes.length + 1) st v bytes ∧
      field_loop (blob_header_field name) fuel st v bytes ≠ .fuel) ∧
    (∀ st v, field_loop blob_field fuel st v bytes =
        field_loop blob_field (bytes.length + 1) st v bytes ∧
      field_loop blob_field fuel st v bytes ≠ .fuel) ∧
    (∀ t (params : pbf_params σ) v,
      primitive_block_loop fuel t params v bytes =
        primitive_block_loop (bytes.length + 1) t params v bytes ∧
      primitive_block_loop fuel t params v bytes ≠ .fuel) ∧
    (∀ {S : Type} (handler : S → readosm_variant → Outcome S) (n : Nat) s v,
      (∀ s v, handler s v ≠ .fuel) → field_loop handler n s v bytes = .fuel →
        n ≤ bytes.length / 2) ∧
    (∀ strings t infos way relation (params : pbf_params σ) name inflate sz,
      parse_string_table t bytes ≠ .fuel ∧ parse_pbf_node_infos infos bytes ≠ .fuel ∧
      parse_pbf_nodes strings bytes params ≠ .fuel ∧
      parse_pbf_way_info way strings bytes ≠ .fuel ∧
      parse_pbf_way strings bytes params ≠ .fuel ∧
      parse_pbf_relation_info relation strings bytes ≠ .fuel ∧
      parse_pbf_relation strings bytes params ≠ .fuel ∧
      parse_primitive_group strings bytes params ≠ .fuel ∧
      read_blob name bytes sz ≠ .fuel ∧
      parse_osm_data inflate bytes sz params ≠ .fuel) := by
  refine ⟨fun v rest v2 h => parse_field_progress bytes rest v v2 h, ?_, ?_, ?_, ?_, ?_, ?_,
    ?_, ?_, ?_, ?_, ?_, ?_, ?_⟩
  · intro t v
    exact field_loop_bound _ (fun s v => by unfold string_table_field; split_ifs <;> simp)
      fuel t v bytes hfuel
  · intro infos v
    rw [parse_pbf_node_infos_loop_eq, parse_pbf_node_infos_loop_eq]
    exact field_loop_bound _ node_infos_field_total fuel infos v bytes hfuel
  · intro st v
    rw [parse_pbf_nodes_loop_eq, parse_pbf_nodes_loop_eq]
    exact field_loop_bound _ nodes_field_total fuel st v bytes hfuel
  · intro strings way v
    exact field_loop_bound _ (way_info_field_total strings) fuel way v bytes hfuel
  · intro strings st v
    exact field_loop_bound _ (way_field_total strings) fuel st v bytes hfuel
  · intro strings relation v
    exact field_loop_bound _ (relation_info_field_total strings) fuel relation v bytes hfuel
  · intro strings st v
    exact field_loop_bound _ (relation_field_total strings) fuel st v bytes hfuel
  · intro strings params v
    exact primitive_group_loop_fuel strings fuel _ params v bytes hfuel (half_lt_succ _)
  · intro name st v
    exact field_loop_bound _ (blob_header_field_total name) fuel st v bytes hfuel
  · intro st v
    exact field_loop_bound _ blob_field_total fuel st v bytes hfuel
  · intro t params v
    exact primitive_block_loop_fuel fuel _ t params v bytes hfuel (half_lt_succ _)
  · intro S handler n s v hh hn
    by_contra hlt
    exact field_loop_total handler hh n s v bytes (by omega) hn
  · intro strings t infos way relation params name inflate sz
    exact ⟨parse_string_table_total _ _, parse_pbf_node_infos_total _ _,
      parse_pbf_nodes_total _ _ _, parse_pbf_way_info_total _ _ _, parse_pbf_way_total _ _ _,
      parse_pbf_relation_info_total _ _ _, parse_pbf_relation_total _ _ _,
      parse_primitive_group_total _ _ _, read_blob_total _ _ _, parse_osm_data_total _ _ _ _⟩

theorem message_loops_terminate_witness :
    [24, 1, 24].length / 2 < 2 ∧
    (∀ v rest v2, parse_field [24, 1, 24] v = (some rest, v2) →
      ∃ consumed, [24, 1, 24] = consumed ++ rest ∧ 2 ≤ consumed.length) ∧
    (∀ name st v, field_loop (blob_header_field name) 2 st v [24, 1, 24] =
        field_loop (blob_header_field name) ([24, 1, 24].length + 1) st v [24, 1, 24] ∧
      field_loop (blob_header_field name) 2 st v [24, 1, 24] ≠ .fuel) :=
  ⟨by decide, (@message_loops_terminate (List Int) [24, 1, 24] 2 (by decide)).1,
    (@message_loops_terminate (List Int) [24, 1, 24] 2 (by decide)).2.2.2.2.2.2.2.2.2.1⟩

/-! ## C35: the field 17 of a PrimitiveBlock -/

theorem spec_field_encode_length (v : readosm_variant) (f : spec_field)
    (hf : spec_field_ok v.hints f) : 2 ≤ f.encode.length := by
  have h := parse_field_rest_length _ _ _ _ (parse_field_spec v f [] hf)
  simp only [List.append_nil, List.length_nil] at h
  omega

theorem primitive_block_loop_at_marker {σ : Type} (fuel : Nat) (t : readosm_string_table)
    (params : pbf_params σ) (v : readosm_variant) (g : Nat) (rest : List Nat)
    (h17 : find_type_hint_loop 17 0 v.hints = some READOSM_VAR_INT32) (hg : g < 2 ^ 32) :
    primitive_block_loop (fuel + 1) t params v ((spec_field.varint 17 g).encode ++ rest) =
      .ok (1, params) := by
  have hpf := parse_field_spec v (.varint 17 g) rest ⟨by norm_num, Or.inl ⟨h17, hg⟩⟩
  simp only [primitive_block_loop, hpf, spec_field_variant, h17, Option.getD]
  simp [READOSM_LEN_BYTES, READOSM_VAR_INT32, Outcome.bind]

theorem primitive_block_loop_marker {σ : Type} (g : Nat) (rest : List Nat) (hg : g < 2 ^ 32) :
    ∀ (pre : List spec_field) (fuel1 fuel2 : Nat) (t : readosm_string_table)
      (params : pbf_params σ) (v : readosm_variant),
      pre ≠ [] → (∀ f ∈ pre, spec_field_ok v.hints f) →
      find_type_hint_loop 17 0 v.hints = some READOSM_VAR_INT32 →
      pre.length < fuel1 → pre.length ≤ fuel2 →
      primitive_block_loop fuel1 t params v (spec_marked_block pre g rest) =
        primitive_block_loop fuel2 t params v (spec_encode_message pre) := by
  intro pre
  induction pre with
  | nil => intro _ _ _ _ _ h; exact absurd rfl h
  | cons f fs ih =>
    intro fuel1 fuel2 t params v _ hall h17 hf1 hf2
    simp only [List.length_cons] at hf1 hf2
    obtain ⟨fuel1, rfl⟩ : ∃ k, fuel1 = k + 1 := ⟨fuel1 - 1, by omega⟩
    obtain ⟨fuel2, rfl⟩ : ∃ k, fuel2 = k + 1 := ⟨fuel2 - 1, by omega⟩
    have hok := hall f (List.mem_cons_self _ _)
    have hpf1 := parse_field_spec v f (spec_marked_block fs g rest) hok
    have hpf2 := parse_field_spec v f (spec_encode_message fs) hok
    have hin : spec_marked_block (f :: fs) g rest = f.encode ++ spec_marked_block fs g rest := by
      simp [spec_marked_block, spec_encode_message]
    rw [hin]
    simp only [spec_encode_message, primitive_block_loop, hpf1, hpf2]
    generalize (if (spec_field_variant v f).field_id = 1 ∧
        (spec_field_variant v f).type = READOSM_LEN_BYTES then
          (parse_string_table t (spec_field_variant v f).pointer).bind fun t =>
            Outcome.ok (array_from_string_table t)
        else Outcome.ok t) = tab
    cases tab with
    | ok t1 =>
      simp only
      generalize (if (spec_field_variant v f).field_id = 2 ∧
          (spec_field_variant v f).type = READOSM_LEN_BYTES then
            parse_primitive_group t1 (spec_field_variant v f).pointer params
          else Outcome.ok (1, params)) = grp
      cases grp with
      | ok r =>
        simp only [Outcome.bind]
        split_ifs
        · rfl
        · rfl
        · rcases fs with _ | ⟨f2, fs⟩
          · have hm : spec_marked_block [] g rest = (spec_field.varint 17 g).encode ++ rest := by
              simp [spec_marked_block, spec_encode_message]
            rw [hm]
            obtain ⟨fuel1, rfl⟩ : ∃ k, fuel1 = k + 1 := ⟨fuel1 - 1, by simp at hf1; omega⟩
            have hmk := primitive_block_loop_at_marker fuel1 t1 r.2 (spec_field_variant v f) g
              rest (by rw [spec_field_variant_hints]; exact h17) hg
            simp only [spec_field.encode, List.cons_append] at hmk ⊢
            rw [hmk]
            simp [spec_encode_message]
          · obtain ⟨b, bs, hb⟩ := spec_field_encode_cons f2
            have hne1 : spec_marked_block (f2 :: fs) g rest =
                b :: (bs ++ spec_marked_block fs g rest) := by
              simp [spec_marked_block, spec_encode_message, hb]
            have hne2 : spec_encode_message (f2 :: fs) = b :: (bs ++ spec_encode_message fs) := by
              simp [spec_encode_message, hb]
            rw [hne1, hne2]
            simp only
            rw [← hne1, ← hne2]
            exact ih fuel1 fuel2 t1 r.2 (spec_field_variant v f) (by simp)
              (fun g2 hg2 => by
                rw [spec_field_variant_hints]
                exact hall g2 (List.mem_cons_of_mem _ hg2))
              (by rw [spec_field_variant_hints]; exact h17)
              (by simp only [List.length_cons] at hf1 ⊢; omega)
              (by simp only [List.length_cons] at hf2 ⊢; omega)
      | error => rfl
      | fault => rfl
      | fuel => rfl
    | error => rfl
    | fault => rfl
    | fuel => rfl

theorem spec_blob_result_raw {σ : Type} (inflate : List Nat → Option (List Nat))
    (block : List Nat) (params : pbf_params σ) (h0 : 0 < block.length)
    (h1 : block.length < 2 ^ 32) :
    spec_blob_result inflate (spec_raw_blob block) params =
      primitive_block_loop (block.length + 1) init_string_table params
        primitive_block_variant block := by
  have hl := spec_encode_message_length [spec_field.bytes 1 block]
  have hloop := field_loop_encoded blob_field [.bytes 1 block]
    ((spec_raw_blob block).length + 1)
    { raw_ptr := none, raw_sz := 0, zip_ptr := none, zip_sz := 0 } blob_variant (by simp)
    (by simp only [spec_raw_blob]; omega)
    (by
      intro f hf
      simp only [List.mem_singleton] at hf
      subst hf
      exact ⟨by norm_num, h1, by decide⟩)
  have hne : ¬ ((block.length : Int) = 0) := by omega
  rw [spec_raw_blob] at hloop ⊢
  rw [spec_blob_result, hloop]
  simp [spec_fold, blob_field, spec_field_variant, reset_variant, READOSM_LEN_BYTES,
    READOSM_VAR_INT32, Outcome.bind, parse_primitive_block, unzip_blob, hne]

theorem spec_raw_blob_length (block : List Nat) :
    block.length ≤ (spec_raw_blob block).length := by
  simp only [spec_raw_blob, spec_encode_message, spec_field.encode, spec_encode_field,
    List.append_nil, List.length_cons, List.length_append]
  omega

theorem spec_marked_block_length (pre : List spec_field) (g : Nat) (rest : List Nat) :
    pre.length < (spec_marked_block pre g rest).length := by
  have h := spec_encode_message_length pre
  simp only [spec_marked_block, spec_field.encode, List.length_append, List.length_cons]
  omega

/-- [C35] The field 17 ends a PrimitiveBlock.  In a block whose readable fields
`pre` are followed by the field 17 with wire type 0 and then by any bytes `rest`, the
PrimitiveBlock loop gives the result of the block that consists of `pre` alone:
every primitive group in `pre` is decoded and dispatched as in that block, and
nothing of `rest` is read, whatever it holds.  When the fields before the field 17
decode (or there are none), `parse_osm_data` on the blob that holds the block
returns 1, with the parameters left by the groups of `pre` and the stream at the
end of the blob. -/
theorem field_17_ends_block {σ : Type} (inflate : List Nat → Option (List Nat))
    (pre : List spec_field) (g : Nat) (rest tail : List Nat) (params : pbf_params σ)
    (hpre : ∀ f ∈ pre, spec_field_ok primitive_block_variant.hints f) (hg : g < 2 ^ 32)
    (hsize : (spec_raw_blob (spec_marked_block pre g rest)).length < 2 ^ 31) :
    primitive_block_loop ((spec_marked_block pre g rest).length + 1) init_string_table params
        primitive_block_variant (spec_marked_block pre g rest) =
      (if pre = [] then .ok (1, params)
       else primitive_block_loop ((spec_encode_message pre).length + 1) init_string_table
         params primitive_block_variant (spec_encode_message pre)) ∧
    parse_osm_data inflate
        (spec_blob_header OSMData (spec_raw_blob (spec_marked_block pre g rest)).length ++
          (spec_raw_blob (spec_marked_block pre g rest) ++ tail))
        (spec_blob_header OSMData (spec_raw_blob (spec_marked_block pre g rest)).length).length
        params =
      (if pre = [] then .ok (1, params)
       else primitive_block_loop ((spec_encode_message pre).length + 1) init_string_table
         params primitive_block_variant (spec_encode_message pre)).bind
        (fun res => .ok (res.1, res.2, tail)) ∧
    (∀ p2, (pre = [] ∧ p2 = params) ∨
        (pre ≠ [] ∧ primitive_block_loop ((spec_encode_message pre).length + 1)
          init_string_table params primitive_block_variant (spec_encode_message pre) =
            .ok (1, p2)) →
      parse_osm_data inflate
        (spec_blob_header OSMData (spec_raw_blob (spec_marked_block pre g rest)).length ++
          (spec_raw_blob (spec_marked_block pre g rest) ++ tail))
        (spec_blob_header OSMData (spec_raw_blob (spec_marked_block pre g rest)).length).length
        params = .ok (1, p2, tail)) := by
  have h17 : find_type_hint_loop 17 0 primitive_block_variant.hints =
      some READOSM_VAR_INT32 := by decide
  have hraw := spec_raw_blob_length (spec_marked_block pre g rest)
  have hmk := spec_marked_block_length pre g rest
  have hl := spec_encode_message_length pre
  have hloop : primitive_block_loop ((spec_marked_block pre g rest).length + 1)
      init_string_table params primitive_block_variant (spec_marked_block pre g rest) =
      (if pre = [] then .ok (1, params)
       else primitive_block_loop ((spec_encode_message pre).length + 1) init_string_table
         params primitive_block_variant (spec_encode_message pre)) := by
    by_cases hp : pre = []
    · subst hp
      rw [if_pos rfl]
      exact primitive_block_loop_at_marker _ _ _ _ g rest h17 hg
    · rw [if_neg hp]
      exact primitive_block_loop_marker g rest hg pre _ _ _ _ _ hp hpre h17 (by omega)
        (by omega)
  have hdata : parse_osm_data inflate
      (spec_blob_header OSMData (spec_raw_blob (spec_marked_block pre g rest)).length ++
        (spec_raw_blob (spec_marked_block pre g rest) ++ tail))
      (spec_blob_header OSMData (spec_raw_blob (spec_marked_block pre g rest)).length).length
      params =
      (if pre = [] then .ok (1, params)
       else primitive_block_loop ((spec_encode_message pre).length + 1) init_string_table
         params primitive_block_variant (spec_encode_message pre)).bind
        (fun res => .ok (res.1, res.2, tail)) := by
    rw [parse_osm_data_encoded inflate _ tail params ⟨by omega, hsize⟩,
      spec_blob_result_raw inflate _ params (by omega) (by omega), hloop]
  refine ⟨hloop, hdata, ?_⟩
  intro p2 h
  rw [hdata]
  rcases h with ⟨hp, rfl⟩ | ⟨hp, h⟩
  · rw [if_pos hp]
    rfl
  · rw [if_neg hp, h]
    rfl

set_option maxRecDepth 100000 in
theorem field_17_ends_block_witness :
    (∀ f ∈ two_nodes_fields, spec_field_ok primitive_block_variant.hints f) ∧
    (spec_raw_blob (spec_marked_block two_nodes_fields 100 after_marker)).length < 2 ^ 31 ∧
    block_coordinates (spec_encode_message two_nodes_fields) = .ok (1, [(0, 0), (0, 0)]) ∧
    block_coordinates (spec_encode_message two_nodes_fields ++ after_marker) =
      .ok (0, [(0, 0), (0, 0)]) ∧
    parse_osm_data no_inflate
        (spec_blob_header OSMData
            (spec_raw_blob (spec_marked_block two_nodes_fields 100 after_marker)).length ++
          (spec_raw_blob (spec_marked_block two_nodes_fields 100 after_marker) ++ [7]))
        (spec_blob_header OSMData
          (spec_raw_blob (spec_marked_block two_nodes_fields 100 after_marker)).length).length
        record_params =
      (if two_nodes_fields = [] then .ok (1, record_params)
       else primitive_block_loop ((spec_encode_message two_nodes_fields).length + 1)
         init_string_table record_params primitive_block_variant
         (spec_encode_message two_nodes_fields)).bind
        (fun res => .ok (res.1, res.2, [7])) :=
  ⟨by decide, by decide, by decide, by decide,
    (field_17_ends_block no_inflate two_nodes_fields 100 after_marker [7] record_params
      (by decide) (by decide) (by decide)).2.1⟩

/-! ## C38: the return code after an abort -/

theorem parse_osm_pbf_loop_step {σ : Type} (inflate : List Nat → Option (List Nat))
    (fuel : Nat) (params : pbf_params σ) (data tail : List Nat) (hstop : params.stop = 0)
    (hd : spec_data_size_ok data) :
    parse_osm_pbf_loop inflate (fuel + 1) params (spec_encode_blob OSMData data ++ tail) =
      (spec_blob_result inflate data params).bind fun res =>
        if res.1 = 0 then .ok (READOSM_INVALID_PBF_HEADER, res.2, tail)
        else parse_osm_pbf_loop inflate fuel res.2 tail := by
  have hlen := spec_blob_header_length OSMData data.length
  have hname : OSMData.length = 7 := rfl
  have hsize := get_header_size_encode_size (spec_blob_header OSMData data.length).length
    (by omega)
  have hin : spec_encode_blob OSMData data ++ tail =
      spec_encode_size (spec_blob_header OSMData data.length).length ++
        (spec_blob_header OSMData data.length ++ (data ++ tail)) := by
    simp [spec_encode_blob_eq]
  have ht : (spec_encode_size (spec_blob_header OSMData data.length).length ++
      (spec_blob_header OSMData data.length ++ (data ++ tail))).take 4 =
      spec_encode_size (spec_blob_header OSMData data.length).length :=
    List.take_left' (spec_encode_size_length _)
  have hdr : (spec_encode_size (spec_blob_header OSMData data.length).length ++
      (spec_blob_header OSMData data.length ++ (data ++ tail))).drop 4 =
      spec_blob_header OSMData data.length ++ (data ++ tail) :=
    List.drop_left' (spec_encode_size_length _)
  rw [hin]
  simp only [parse_osm_pbf_loop, hstop, ne_eq, not_true_eq_false, if_false, fread]
  rw [ht, hdr]
  simp only [spec_encode_size_length, OfNat.ofNat_ne_zero, hsize, not_true_eq_false, if_false,
    parse_osm_data_encoded inflate data _ params hd]
  cases spec_blob_result inflate data params <;> rfl

theorem spec_run_clear_stop {σ : Type} (inflate : List Nat → Option (List Nat)) :
    ∀ (datas : List (List Nat)) (params p1 : pbf_params σ),
      params.stop = 0 → spec_run_clear inflate datas params = some p1 → p1.stop = 0 := by
  intro datas
  induction datas with
  | nil =>
    intro params p1 h0 h
    simp only [spec_run_clear, Option.some.injEq] at h
    exact h ▸ h0
  | cons data datas ih =>
    intro params p1 h0 h
    rw [spec_run_clear] at h
    split at h
    · split_ifs at h with hc
      exact ih _ _ hc.2 h
    · simp at h

theorem parse_osm_pbf_loop_clear {σ : Type} (inflate : List Nat → Option (List Nat)) :
    ∀ (datas : List (List Nat)) (fuel : Nat) (params p1 : pbf_params σ) (tail : List Nat),
      params.stop = 0 → (∀ data ∈ datas, spec_data_size_ok data) →
      spec_run_clear inflate datas params = some p1 →
      parse_osm_pbf_loop inflate (datas.length + fuel) params
          (spec_encode_data_blobs datas ++ tail) =
        parse_osm_pbf_loop inflate fuel p1 tail := by
  intro datas
  induction datas with
  | nil =>
    intro fuel params p1 tail _ _ h
    simp only [spec_run_clear, Option.some.injEq] at h
    simp [spec_encode_data_blobs, h]
  | cons data datas ih =>
    intro fuel params p1 tail h0 hsz h
    rw [spec_run_clear] at h
    split at h
    · rename_i r hr
      split_ifs at h with hc
      have e : (data :: datas).length + fuel = (datas.length + fuel) + 1 := by
        simp only [List.length_cons]
        omega
      rw [e, spec_encode_data_blobs, List.append_assoc,
        parse_osm_pbf_loop_step inflate _ params data _ h0 (hsz data (List.mem_cons_self _ _)),
        hr]
      simp only [Outcome.bind, hc.1, if_false]
      exact ih fuel r.2 p1 tail hc.2 (fun d hdm => hsz d (List.mem_cons_of_mem _ hdm)) h
    · simp at h

/-- [C38] The return code after a consumer abort.  In a stream made of the OSMHeader
blob, blobs that are decoded without error and leave the stop flag clear, and a blob
`k` whose decoding ends with the stop flag set (a callback has returned a value
other than OK), `parse_osm_pbf` decodes blob `k` to its end and returns
`READOSM_ABORT` exactly when that decoding reports no error, and
`READOSM_INVALID_PBF_HEADER` when it reports one; in both cases with the parameters
that blob `k` left and every byte behind blob `k` unread. -/
theorem abort_return_code {σ : Type} (inflate : List Nat → Option (List Nat))
    (header : List Nat) (datas : List (List Nat)) (data rest : List Nat) (user_data : σ)
    (ncb : Option (σ → readosm_export_node → Int × σ))
    (wcb : Option (σ → readosm_export_way → Int × σ))
    (rcb : Option (σ → readosm_export_relation → Int × σ))
    (p1 : pbf_params σ) (r : Int × pbf_params σ)
    (hh : spec_data_size_ok header) (hsz : ∀ d ∈ datas, spec_data_size_ok d)
    (hd : spec_data_size_ok data)
    (hrun : spec_run_clear inflate datas (initial_params user_data ncb wcb rcb) = some p1)
    (hres : spec_blob_result inflate data p1 = .ok r) (hstop : r.2.stop ≠ 0) :
    parse_osm_pbf inflate
        (spec_encode_blob OSMHeader header ++
          (spec_encode_data_blobs datas ++ (spec_encode_blob OSMData data ++ rest)))
        user_data ncb wcb rcb =
      .ok (if r.1 ≠ 0 then READOSM_ABORT else READOSM_INVALID_PBF_HEADER, r.2, rest) ∧
    ((if r.1 ≠ 0 then READOSM_ABORT else READOSM_INVALID_PBF_HEADER) = READOSM_ABORT ↔
      r.1 ≠ 0) ∧
    ((if r.1 ≠ 0 then READOSM_ABORT else READOSM_INVALID_PBF_HEADER) =
      READOSM_INVALID_PBF_HEADER ↔ r.1 = 0) := by
  refine ⟨?_, ?_, ?_⟩
  · have hp1 := spec_run_clear_stop inflate datas _ p1 rfl hrun
    have hl := spec_encode_data_blobs_length datas
    obtain ⟨hskip, hlen⟩ := skip_osm_header_advance header
      (spec_encode_data_blobs datas ++ (spec_encode_blob OSMData data ++ rest)) hh
    have h4 : ((spec_encode_blob OSMHeader header ++
        (spec_encode_data_blobs datas ++ (spec_encode_blob OSMData data ++ rest))).take
          4).length = 4 := by
      rw [List.length_take]
      omega
    have hblob : 4 ≤ (spec_encode_blob OSMData data).length := by
      rw [spec_encode_blob_eq, List.length_append, spec_encode_size_length]
      omega
    obtain ⟨fuel, hfuel⟩ : ∃ fuel,
        (spec_encode_data_blobs datas ++ (spec_encode_blob OSMData data ++ rest)).length + 1 =
          datas.length + (fuel + 2) := by
      refine ⟨(spec_encode_data_blobs datas ++
        (spec_encode_blob OSMData data ++ rest)).length + 1 - datas.length - 2, ?_⟩
      simp only [List.length_append]
      omega
    simp only [parse_osm_pbf, fread, h4, ne_eq, not_true_eq_false, if_false, hskip,
      Outcome.bind, one_ne_zero]
    rw [hfuel]
    have hloop := parse_osm_pbf_loop_clear inflate datas (fuel + 2)
      (initial_params user_data ncb wcb rcb) p1 (spec_encode_blob OSMData data ++ rest) rfl hsz
      hrun
    rw [initial_params] at hloop
    rw [hloop, parse_osm_pbf_loop_step inflate _ p1 data rest hp1 hd, hres]
    simp only [Outcome.bind]
    by_cases hc : r.1 = 0
    · simp [hc]
    · simp [hc, parse_osm_pbf_loop, hstop]
  · by_cases hc : r.1 = 0
    · simp [hc, READOSM_ABORT, READOSM_INVALID_PBF_HEADER]
    · simp [hc]
  · by_cases hc : r.1 = 0
    · simp [hc]
    · simp [hc, READOSM_ABORT, READOSM_INVALID_PBF_HEADER]

set_option maxRecDepth 100000 in
theorem abort_return_code_witness :
    spec_run_clear no_inflate [spec_raw_blob (spec_nodes_block 1)]
        (initial_params ([] : List Int) (some abort_on_third) none none) =
      some one_seen_params ∧
    spec_blob_result no_inflate (spec_raw_blob (spec_nodes_block 10)) one_seen_params =
      .ok (1, aborted_params) ∧
    spec_blob_result no_inflate (spec_raw_blob corrupt_tail_block) one_seen_params =
      .ok (0, aborted_params) ∧
    parse_osm_pbf no_inflate
        (spec_encode_blob OSMHeader [0] ++
          (spec_encode_data_blobs [spec_raw_blob (spec_nodes_block 1)] ++
            (spec_encode_blob OSMData (spec_raw_blob (spec_nodes_block 10)) ++
              spec_encode_data_blob (spec_nodes_block 1))))
        ([] : List Int) (some abort_on_third) none none =
      .ok (READOSM_ABORT, aborted_params, spec_encode_data_blob (spec_nodes_block 1)) ∧
    parse_osm_pbf no_inflate
        (spec_encode_blob OSMHeader [0] ++
          (spec_encode_data_blobs [spec_raw_blob (spec_nodes_block 1)] ++
            (spec_encode_blob OSMData (spec_raw_blob corrupt_tail_block) ++
              spec_encode_data_blob (spec_nodes_block 1))))
        ([] : List Int) (some abort_on_third) none none =
      .ok (READOSM_INVALID_PBF_HEADER, aborted_params,
        spec_encode_data_blob (spec_nodes_block 1)) :=
  ⟨rfl, rfl, rfl,
    (abort_return_code no_inflate [0] [spec_raw_blob (spec_nodes_block 1)]
      (spec_raw_blob (spec_nodes_block 10)) (spec_encode_data_blob (spec_nodes_block 1))
      ([] : List Int) (some abort_on_third) none none one_seen_params (1, aborted_params)
      (by decide) (by decide) (by decide) rfl rfl (by decide)).1,
    (abort_return_code no_inflate [0] [spec_raw_blob (spec_nodes_block 1)]
      (spec_raw_blob corrupt_tail_block) (spec_encode_data_blob (spec_nodes_block 1))
      ([] : List Int) (some abort_on_third) none none one_seen_params (0, aborted_params)
      (by decide) (by decide) (by decide) rfl rfl (by decide)).1⟩

/-! ## C31: nil callbacks -/

theorem dispatch_nodes_ok_callback {σ : Type} :
    ∀ (nodes : List readosm_internal_node) (params : pbf_params σ),
      dispatch_nodes ok_callback nodes params = params := by
  intro nodes
  induction nodes with
  | nil => intro params; rfl
  | cons nd nodes ih =>
    intro params
    simp only [dispatch_nodes, call_node_callback, ok_callback, ne_eq, not_true_eq_false,
      if_false]
    exact ih params

theorem dispatch_nodes_fill {σ : Type} (cb : σ → readosm_export_node → Int × σ) :
    ∀ (nodes : List readosm_internal_node) (params : pbf_params σ),
      dispatch_nodes cb nodes (spec_fill_callbacks params) =
        spec_fill_callbacks (dispatch_nodes cb nodes params) := by
  intro nodes
  induction nodes with
  | nil => intro params; rfl
  | cons nd nodes ih =>
    intro params
    simp only [dispatch_nodes]
    have e : (spec_fill_callbacks params).user_data = params.user_data := rfl
    rw [e]
    split_ifs
    · rfl
    · exact ih { params with user_data := (call_node_callback cb params.user_data nd).2 }

theorem parse_pbf_nodes_fill {σ : Type} (strings : readosm_string_table) (bytes : List Nat)
    (params : pbf_params σ) :
    parse_pbf_nodes strings bytes (spec_fill_callbacks params) =
      (parse_pbf_nodes strings bytes params).map spec_fill_callbacks := by
  unfold parse_pbf_nodes
  cases parse_pbf_nodes_fields bytes with
  | ok st =>
    simp only [Outcome.bind]
    cases reassemble_nodes strings st with
    | ok nodes =>
      simp only [Outcome.bind]
      have es : (spec_fill_callbacks params).stop = params.stop := rfl
      cases hcb : params.node_callback with
      | none =>
        have e : (spec_fill_callbacks params).node_callback = some ok_callback := by
          simp [spec_fill_callbacks, spec_fill_callback, hcb]
        rw [e]
        simp only [es]
        split_ifs
        · rw [dispatch_nodes_ok_callback]
          rfl
        · rfl
      | some cb =>
        have e : (spec_fill_callbacks params).node_callback = some cb := by
          simp [spec_fill_callbacks, spec_fill_callback, hcb]
        rw [e]
        simp only [es]
        split_ifs
        · rw [dispatch_nodes_fill]
          rfl
        · rfl
    | error => rfl
    | fault => rfl
    | fuel => rfl
  | error => rfl
  | fault => rfl
  | fuel => rfl

theorem dispatch_way_fill {σ : Type} (way : readosm_internal_way) (params : pbf_params σ) :
    dispatch_way way (spec_fill_callbacks params) =
      spec_fill_callbacks (dispatch_way way params) := by
  obtain ⟨ud, ncb, wcb, rcb, stop⟩ := params
  cases wcb with
  | none =>
    simp only [dispatch_way, spec_fill_callbacks, spec_fill_callback, Option.getD,
      call_way_callback, ok_callback, ne_eq, not_true_eq_false, if_false]
    split_ifs <;> rfl
  | some cb =>
    simp only [dispatch_way, spec_fill_callbacks, spec_fill_callback, Option.getD]
    split_ifs <;> rfl

theorem dispatch_relation_fill {σ : Type} (relation : readosm_internal_relation)
    (params : pbf_params σ) :
    dispatch_relation relation (spec_fill_callbacks params) =
      spec_fill_callbacks (dispatch_relation relation params) := by
  obtain ⟨ud, ncb, wcb, rcb, stop⟩ := params
  cases rcb with
  | none =>
    simp only [dispatch_relation, spec_fill_callbacks, spec_fill_callback, Option.getD,
      call_relation_callback, ok_callback, ne_eq, not_true_eq_false, if_false]
    split_ifs <;> rfl
  | some cb =>
    simp only [dispatch_relation, spec_fill_callbacks, spec_fill_callback, Option.getD]
    split_ifs <;> rfl

theorem parse_pbf_way_fill {σ : Type} (strings : readosm_string_table) (bytes : List Nat)
    (params : pbf_params σ) :
    parse_pbf_way strings bytes (spec_fill_callbacks params) =
      (parse_pbf_way strings bytes params).map spec_fill_callbacks := by
  unfold parse_pbf_way
  cases parse_pbf_way_entity strings bytes with
  | ok way => simp only [Outcome.bind, Outcome.map, dispatch_way_fill]
  | error => rfl
  | fault => rfl
  | fuel => rfl

theorem parse_pbf_relation_fill {σ : Type} (strings : readosm_string_table)
    (bytes : List Nat) (params : pbf_params σ) :
    parse_pbf_relation strings bytes (spec_fill_callbacks params) =
      (parse_pbf_relation strings bytes params).map spec_fill_callbacks := by
  unfold parse_pbf_relation
  cases parse_pbf_relation_entity strings bytes with
  | ok relation => simp only [Outcome.bind, Outcome.map, dispatch_relation_fill]
  | error => rfl
  | fault => rfl
  | fuel => rfl

theorem primitive_group_field_fill {σ : Type} (strings : readosm_string_table)
    (params : pbf_params σ) (v : readosm_variant) :
    primitive_group_field strings (spec_fill_callbacks params) v =
      (primitive_group_field strings params v).map spec_fill_callbacks := by
  unfold primitive_group_field
  split_ifs
  · exact parse_pbf_nodes_fill _ _ _
  · exact parse_pbf_way_fill _ _ _
  · exact parse_pbf_relation_fill _ _ _
  · rfl

theorem primitive_group_loop_fill {σ : Type} (strings : readosm_string_table) :
    ∀ (fuel : Nat) (params : pbf_params σ) (v : readosm_variant) (bytes : List Nat),
      primitive_group_loop strings fuel (spec_fill_callbacks params) v bytes =
        (primitive_group_loop strings fuel params v bytes).map
          (fun r => (r.1, spec_fill_callbacks r.2)) := by
  intro fuel
  induction fuel with
  | zero => intro params v bytes; rfl
  | succ fuel ih =>
    intro params v bytes
    simp only [primitive_group_loop]
    split
    · split_ifs <;> rfl
    · rename_i base v2 _
      rw [primitive_group_field_fill]
      cases primitive_group_field strings params v2 with
      | ok p1 =>
        simp only [Outcome.map]
        cases base with
        | nil => rfl
        | cons b base => exact ih p1 v2 (b :: base)
      | error => rfl
      | fault => rfl
      | fuel => rfl

theorem primitive_block_loop_fill {σ : Type} :
    ∀ (fuel : Nat) (t : readosm_string_table) (params : pbf_params σ) (v : readosm_variant)
      (bytes : List Nat),
      primitive_block_loop fuel t (spec_fill_callbacks params) v bytes =
        (primitive_block_loop fuel t params v bytes).map
          (fun r => (r.1, spec_fill_callbacks r.2)) := by
  intro fuel
  induction fuel with
  | zero => intro t params v bytes; rfl
  | succ fuel ih =>
    intro t params v bytes
    simp only [primitive_block_loop]
    split
    · split_ifs <;> rfl
    · rename_i base v2 _
      split
      · rename_i t1 _
        have hg : (if v2.field_id = 2 ∧ v2.type = READOSM_LEN_BYTES then
              parse_primitive_group t1 v2.pointer (spec_fill_callbacks params)
             else Outcome.ok (1, spec_fill_callbacks params)) =
            (if v2.field_id = 2 ∧ v2.type = READOSM_LEN_BYTES then
              parse_primitive_group t1 v2.pointer params
             else Outcome.ok (1, params)).map (fun r => (r.1, spec_fill_callbacks r.2)) := by
          split_ifs
          · exact primitive_group_loop_fill t1 _ params _ _
          · rfl
        rw [hg]
        cases (if v2.field_id = 2 ∧ v2.type = READOSM_LEN_BYTES then
              parse_primitive_group t1 v2.pointer params
             else Outcome.ok (1, params)) with
        | ok r =>
          simp only [Outcome.map, Outcome.bind]
          split_ifs
          · rfl
          · rfl
          · cases base with
            | nil => rfl
            | cons b base => exact ih t1 r.2 v2 (b :: base)
        | error => rfl
        | fault => rfl
        | fuel => rfl
      · rfl
      · rfl
      · rfl

theorem parse_primitive_block_fill {σ : Type} (inflate : List Nat → Option (List Nat))
    (st : blob_state) (params : pbf_params σ) :
    parse_primitive_block inflate st (spec_fill_callbacks params) =
      (parse_primitive_block inflate st params).map
        (fun r => (r.1, spec_fill_callbacks r.2)) := by
  unfold parse_primitive_block
  split
  · rfl
  · split_ifs
    · rfl
    · rfl
    · exact primitive_block_loop_fill _ _ _ _ _
  · rfl
  · rfl
  · rfl

theorem parse_osm_data_fill {σ : Type} (inflate : List Nat → Option (List Nat))
    (input : List Nat) (sz : Nat) (params : pbf_params σ) :
    parse_osm_data inflate input sz (spec_fill_callbacks params) =
      (parse_osm_data inflate input sz params).map
        (fun r => (r.1, spec_fill_callbacks r.2.1, r.2.2)) := by
  unfold parse_osm_data
  cases read_blob OSMData input sz with
  | ok r =>
    simp only [Outcome.bind]
    split
    · rfl
    · split
      · rw [parse_primitive_block_fill]
        cases parse_primitive_block inflate _ params <;> rfl
      · rfl
      · rfl
      · rfl
  | error => rfl
  | fault => rfl
  | fuel => rfl

theorem parse_osm_pbf_loop_fill {σ : Type} (inflate : List Nat → Option (List Nat)) :
    ∀ (fuel : Nat) (params : pbf_params σ) (input : List Nat),
      parse_osm_pbf_loop inflate fuel (spec_fill_callbacks params) input =
        (parse_osm_pbf_loop inflate fuel params input).map
          (fun r => (r.1, spec_fill_callbacks r.2.1, r.2.2)) := by
  intro fuel
  induction fuel with
  | zero => intro params input; rfl
  | succ fuel ih =>
    intro params input
    simp only [parse_osm_pbf_loop]
    have es : (spec_fill_callbacks params).stop = params.stop := rfl
    rw [es]
    split_ifs
    · rfl
    · rfl
    · rfl
    · rw [parse_osm_data_fill]
      cases parse_osm_data inflate (fread 4 input).2 (get_header_size (fread 4 input).1)
          params with
      | ok res =>
        simp only [Outcome.map, Outcome.bind]
        split_ifs
        · rfl
        · exact ih res.2.1 res.2.2
      | error => rfl
      | fault => rfl
      | fuel => rfl

theorem parse_osm_pbf_fill {σ : Type} (inflate : List Nat → Option (List Nat))
    (input : List Nat) (user_data : σ)
    (ncb : Option (σ → readosm_export_node → Int × σ))
    (wcb : Option (σ → readosm_export_way → Int × σ))
    (rcb : Option (σ → readosm_export_relation → Int × σ)) :
    parse_osm_pbf inflate input user_data (spec_fill_callback ncb) (spec_fill_callback wcb)
        (spec_fill_callback rcb) =
      (parse_osm_pbf inflate input user_data ncb wcb rcb).map
        (fun r => (r.1, spec_fill_callbacks r.2.1, r.2.2)) := by
  unfold parse_osm_pbf
  simp only
  split_ifs
  · rfl
  · cases skip_osm_header (fread 4 input).2 (get_header_size (fread 4 input).1) with
    | ok h =>
      simp only [Outcome.bind]
      split_ifs
      · rfl
      · exact parse_osm_pbf_loop_fill inflate _
          { user_data := user_data, node_callback := ncb, way_callback := wcb,
            relation_callback := rcb, stop := 0 } h.2
    | error => rfl
    | fault => rfl
    | fuel => rfl

theorem xml_end_node_fill {σ : Type} (params : xml_params σ) :
    xml_end_node (xml_fill_callbacks params) = xml_fill_callbacks (xml_end_node params) := by
  obtain ⟨ct, ud, ncb, wcb, rcb, nd, wy, rl, stop⟩ := params
  cases ncb with
  | none =>
    simp only [xml_end_node, xml_fill_callbacks, spec_fill_callback, Option.getD,
      xml_call_node_callback, ok_callback, ne_eq, not_true_eq_false, if_false]
    split_ifs <;> rfl
  | some cb =>
    simp only [xml_end_node, xml_fill_callbacks, spec_fill_callback, Option.getD]
    split_ifs <;> rfl

theorem xml_end_way_fill {σ : Type} (params : xml_params σ) :
    xml_end_way (xml_fill_callbacks params) = xml_fill_callbacks (xml_end_way params) := by
  obtain ⟨ct, ud, ncb, wcb, rcb, nd, wy, rl, stop⟩ := params
  cases wcb with
  | none =>
    simp only [xml_end_way, xml_fill_callbacks, spec_fill_callback, Option.getD,
      xml_call_way_callback, ok_callback, ne_eq, not_true_eq_false, if_false]
    split_ifs <;> rfl
  | some cb =>
    simp only [xml_end_way, xml_fill_callbacks, spec_fill_callback, Option.getD]
    split_ifs <;> rfl

theorem xml_end_relation_fill {σ : Type} (params : xml_params σ) :
    xml_end_relation (xml_fill_callbacks params) =
      xml_fill_callbacks (xml_end_relation params) := by
  obtain ⟨ct, ud, ncb, wcb, rcb, nd, wy, rl, stop⟩ := params
  cases rcb with
  | none =>
    simp only [xml_end_relation, xml_fill_callbacks, spec_fill_callback, Option.getD,
      xml_call_relation_callback, ok_callback, ne_eq, not_true_eq_false, if_false]
    split_ifs <;> rfl
  | some cb =>
    simp only [xml_end_relation, xml_fill_callbacks, spec_fill_callback, Option.getD]
    split_ifs <;> rfl

theorem ite_fill {σ : Type} (c : Prop) [Decidable c] (f : xml_params σ → xml_params σ)
    (hf : ∀ q, f (xml_fill_callbacks q) = xml_fill_callbacks (f q)) (p : xml_params σ) :
    (if c then f (xml_fill_callbacks p) else xml_fill_callbacks p) =
      xml_fill_callbacks (if c then f p else p) := by
  split_ifs
  · exact hf p
  · rfl

theorem xml_start_xtag_fill {σ : Type} (attr : List (List Nat × List Nat))
    (params : xml_params σ) :
    xml_start_xtag (xml_fill_callbacks params) attr =
      xml_fill_callbacks (xml_start_xtag params attr) := by
  obtain ⟨ct, ud, ncb, wcb, rcb, nd, wy, rl, stop⟩ := params
  simp only [xml_start_xtag, xml_fill_callbacks]
  split_ifs <;> rfl

theorem xml_start_nd_fill {σ : Type} (lib : xml_conversions)
    (attr : List (List Nat × List Nat)) (params : xml_params σ) :
    xml_start_nd lib (xml_fill_callbacks params) attr =
      xml_fill_callbacks (xml_start_nd lib params attr) := by
  obtain ⟨ct, ud, ncb, wcb, rcb, nd, wy, rl, stop⟩ := params
  simp only [xml_start_nd, xml_fill_callbacks]
  split_ifs <;> rfl

theorem xml_start_member_fill {σ : Type} (lib : xml_conversions)
    (attr : List (List Nat × List Nat)) (params : xml_params σ) :
    xml_start_member lib (xml_fill_callbacks params) attr =
      xml_fill_callbacks (xml_start_member lib params attr) := by
  obtain ⟨ct, ud, ncb, wcb, rcb, nd, wy, rl, stop⟩ := params
  simp only [xml_start_member, xml_fill_callbacks]
  split_ifs <;> rfl

theorem xml_handle_event_fill {σ : Type} (lib : xml_conversions) (params : xml_params σ)
    (e : xml_event) :
    xml_handle_event lib (xml_fill_callbacks params) e =
      xml_fill_callbacks (xml_handle_event lib params e) := by
  cases e with
  | start_element el attr =>
    simp only [xml_handle_event, xml_start_tag]
    rw [ite_fill _ (fun q => xml_start_node lib q attr) (fun _ => rfl),
      ite_fill _ (fun q => xml_start_xtag q attr) (xml_start_xtag_fill attr),
      ite_fill _ (fun q => xml_start_way lib q attr) (fun _ => rfl),
      ite_fill _ (fun q => xml_start_nd lib q attr) (xml_start_nd_fill lib attr),
      ite_fill _ (fun q => xml_start_relation lib q attr) (fun _ => rfl),
      ite_fill _ (fun q => xml_start_member lib q attr) (xml_start_member_fill lib attr)]
  | end_element el =>
    simp only [xml_handle_event, xml_end_tag]
    rw [ite_fill _ xml_end_node xml_end_node_fill, ite_fill _ xml_end_way xml_end_way_fill,
      ite_fill _ xml_end_relation xml_end_relation_fill]

theorem xml_events_fill {σ : Type} (lib : xml_conversions) :
    ∀ (events : List xml_event) (params : xml_params σ),
      events.foldl (xml_handle_event lib) (xml_fill_callbacks params) =
        xml_fill_callbacks (events.foldl (xml_handle_event lib) params) := by
  intro events
  induction events with
  | nil => intro params; rfl
  | cons e events ih =>
    intro params
    simp only [List.foldl_cons, xml_handle_event_fill, ih]

theorem parse_osm_xml_loop_fill {σ π : Type} (lib : xml_conversions)
    (XML_Parse : π → List Nat → Bool → xml_parse_result π) :
    ∀ (fuel : Nat) (parser : π) (params : xml_params σ) (input : List Nat),
      parse_osm_xml_loop lib XML_Parse fuel parser (xml_fill_callbacks params) input =
        (parse_osm_xml_loop lib XML_Parse fuel parser params input).map
          (fun r => (r.1, xml_fill_callbacks r.2.1, r.2.2)) := by
  intro fuel
  induction fuel with
  | zero => intro parser params input; rfl
  | succ fuel ih =>
    intro parser params input
    simp only [parse_osm_xml_loop, xml_events_fill]
    have es : ∀ q : xml_params σ, (xml_fill_callbacks q).stop = q.stop := fun _ => rfl
    rw [es]
    split_ifs
    · rfl
    · rfl
    · rfl
    · exact ih _ _ _

theorem parse_osm_xml_fill {σ π : Type} (lib : xml_conversions)
    (XML_Parse : π → List Nat → Bool → xml_parse_result π) (parser : Option π)
    (input : List Nat) (user_data : σ)
    (ncb : Option (σ → xml_export_node → Int × σ))
    (wcb : Option (σ → xml_export_way → Int × σ))
    (rcb : Option (σ → xml_export_relation → Int × σ)) :
    parse_osm_xml lib XML_Parse parser input user_data (spec_fill_callback ncb)
        (spec_fill_callback wcb) (spec_fill_callback rcb) =
      (parse_osm_xml lib XML_Parse parser input user_data ncb wcb rcb).map
        (fun r => (r.1, xml_fill_callbacks r.2.1, r.2.2)) := by
  unfold parse_osm_xml
  cases parser with
  | none => rfl
  | some pr =>
    exact parse_osm_xml_loop_fill lib XML_Parse _ pr
      (xml_init_params user_data ncb wcb rcb 0) input

/-- [C31] Nil callbacks.  Whatever the stream and whichever of the three callbacks
are nil, `parse_osm_pbf` run with every nil callback replaced by a callback that
always returns OK (and leaves the user data alone) gives the same return code, the
same user data (for every type of user data and all callbacks, hence the same
invocations of the callbacks that are not nil), the same stop flag and the same
stream position; so does `readosm_parse` on a PBF handle, and so does `parse_osm_xml`
over any tokenizer.  An entity whose callback is nil is decoded all the same:
`parse_pbf_nodes`, `parse_pbf_way` and `parse_pbf_relation` fail exactly when the
decoding fails, and on success leave the parameters as they were, no callback
having run. -/
theorem nil_callbacks_decoded_not_dispatched {σ : Type}
    (inflate : List Nat → Option (List Nat))
    (xml_reader : readosm_file → σ → Outcome (Int × readosm_file × σ))
    (input : List Nat) (handle : readosm_file) (user_data : σ)
    (ncb : Option (σ → readosm_export_node → Int × σ))
    (wcb : Option (σ → readosm_export_way → Int × σ))
    (rcb : Option (σ → readosm_export_relation → Int × σ))
    (strings : readosm_string_table) (bytes : List Nat) (params : pbf_params σ)
    {π : Type} (lib : xml_conversions)
    (XML_Parse : π → List Nat → Bool → xml_parse_result π) (created : Option π)
    (xml_ncb : Option (σ → xml_export_node → Int × σ))
    (xml_wcb : Option (σ → xml_export_way → Int × σ))
    (xml_rcb : Option (σ → xml_export_relation → Int × σ)) :
    parse_osm_pbf inflate input user_data (spec_fill_callback ncb) (spec_fill_callback wcb)
        (spec_fill_callback rcb) =
      (parse_osm_pbf inflate input user_data ncb wcb rcb).map
        (fun r => (r.1, spec_fill_callbacks r.2.1, r.2.2)) ∧
    run_result (parse_osm_pbf inflate input user_data (spec_fill_callback ncb)
        (spec_fill_callback wcb) (spec_fill_callback rcb)) =
      run_result (parse_osm_pbf inflate input user_data ncb wcb rcb) ∧
    (handle.file_format = READOSM_PBF_FORMAT →
      readosm_parse inflate xml_reader (some handle) user_data (spec_fill_callback ncb)
          (spec_fill_callback wcb) (spec_fill_callback rcb) =
        readosm_parse inflate xml_reader (some handle) user_data ncb wcb rcb) ∧
    (params.node_callback = none →
      parse_pbf_nodes strings bytes params =
        ((parse_pbf_nodes_fields bytes).bind (reassemble_nodes strings)).bind
          (fun _ => .ok params)) ∧
    (params.way_callback = none →
      parse_pbf_way strings bytes params =
        (parse_pbf_way_entity strings bytes).bind (fun _ => .ok params)) ∧
    (params.relation_callback = none →
      parse_pbf_relation strings bytes params =
        (parse_pbf_relation_entity strings bytes).bind (fun _ => .ok params)) ∧
    xml_run_result (parse_osm_xml lib XML_Parse created input user_data
        (spec_fill_callback xml_ncb) (spec_fill_callback xml_wcb)
        (spec_fill_callback xml_rcb)) =
      xml_run_result (parse_osm_xml lib XML_Parse created input user_data xml_ncb xml_wcb
        xml_rcb) := by
  have hfill := parse_osm_pbf_fill inflate input user_data ncb wcb rcb
  refine ⟨hfill, ?_, ?_, ?_, ?_, ?_, ?_⟩
  · rw [hfill]
    cases parse_osm_pbf inflate input user_data ncb wcb rcb <;> rfl
  · intro hf
    have hne : handle.file_format ≠ READOSM_OSM_FORMAT := by
      rw [hf]
      decide
    obtain ⟨m1, ff, le, m2, ins⟩ := handle
    simp only at hf hne
    cases ins with
    | none =>
      simp only [readosm_parse, hne, hf, if_false, if_true]
    | some stream =>
      simp only [readosm_parse, hne, hf, if_false, if_true]
      rw [parse_osm_pbf_fill inflate stream user_data ncb wcb rcb]
      cases parse_osm_pbf inflate stream user_data ncb wcb rcb <;> rfl
  · intro hn
    unfold parse_pbf_nodes
    cases parse_pbf_nodes_fields bytes with
    | ok st =>
      simp only [Outcome.bind]
      cases reassemble_nodes strings st with
      | ok nodes => simp only [hn]
      | error => rfl
      | fault => rfl
      | fuel => rfl
    | error => rfl
    | fault => rfl
    | fuel => rfl
  · intro hw
    unfold parse_pbf_way
    cases parse_pbf_way_entity strings bytes with
    | ok way => simp only [Outcome.bind, dispatch_way, hw]
    | error => rfl
    | fault => rfl
    | fuel => rfl
  · intro hr
    unfold parse_pbf_relation
    cases parse_pbf_relation_entity strings bytes with
    | ok relation => simp only [Outcome.bind, dispatch_relation, hr]
    | error => rfl
    | fault => rfl
    | fuel => rfl
  · rw [parse_osm_xml_fill]
    cases parse_osm_xml lib XML_Parse created input user_data xml_ncb xml_wcb xml_rcb <;> rfl

set_option maxRecDepth 100000 in
theorem nil_callbacks_decoded_not_dispatched_witness :
    run_result (parse_osm_pbf no_inflate nodes_and_way_stream ([] : List Int)
        (some record_ids) none none) = .ok (READOSM_OK, [1, 2], 0, 0) ∧
    run_result (parse_osm_pbf no_inflate nodes_and_way_stream ([] : List Int)
        (spec_fill_callback (some record_ids)) (spec_fill_callback none)
        (spec_fill_callback none)) =
      run_result (parse_osm_pbf no_inflate nodes_and_way_stream ([] : List Int)
        (some record_ids) none none) ∧
    (pbf_handle true nodes_and_way_stream).file_format = READOSM_PBF_FORMAT ∧
    readosm_parse no_inflate no_xml (some (pbf_handle true nodes_and_way_stream))
        ([] : List Int) (spec_fill_callback (some record_ids)) (spec_fill_callback none)
        (spec_fill_callback none) =
      readosm_parse no_inflate no_xml (some (pbf_handle true nodes_and_way_stream))
        ([] : List Int) (some record_ids) none none ∧
    one_seen_params.way_callback = none ∧
    parse_pbf_way s4_strings (spec_encode_message mismatch_way) one_seen_params =
      (parse_pbf_way_entity s4_strings (spec_encode_message mismatch_way)).bind
        (fun _ => .ok one_seen_params) ∧
    parse_pbf_way_entity s4_strings (spec_encode_message mismatch_way) = .error :=
  ⟨by decide,
    (nil_callbacks_decoded_not_dispatched no_inflate no_xml nodes_and_way_stream
      (pbf_handle true nodes_and_way_stream) ([] : List Int) (some record_ids) none none
      s4_strings (spec_encode_message mismatch_way) one_seen_params sample_conversions
      (sample_tokenizer 1) (some ()) none none none).2.1,
    rfl,
    (nil_callbacks_decoded_not_dispatched no_inflate no_xml nodes_and_way_stream
      (pbf_handle true nodes_and_way_stream) ([] : List Int) (some record_ids) none none
      s4_strings (spec_encode_message mismatch_way) one_seen_params sample_conversions
      (sample_tokenizer 1) (some ()) none none none).2.2.1 rfl,
    rfl,
    (nil_callbacks_decoded_not_dispatched no_inflate no_xml nodes_and_way_stream
      (pbf_handle true nodes_and_way_stream) ([] : List Int) (some record_ids) none none
      s4_strings (spec_encode_message mismatch_way) one_seen_params sample_conversions
      (sample_tokenizer 1) (some ()) none none none).2.2.2.2.1 rfl,
    by decide⟩

/-! ## C33: the stop flag of the XML path -/

theorem xml_same_frame_refl {σ : Type} (p : xml_params σ) : xml_same_frame p p :=
  ⟨rfl, rfl, rfl, rfl, rfl⟩

theorem xml_same_frame_trans {σ : Type} (p q r : xml_params σ) (h1 : xml_same_frame p q)
    (h2 : xml_same_frame q r) : xml_same_frame p r := by
  obtain ⟨a1, a2, a3, a4, a5⟩ := h1
  obtain ⟨b1, b2, b3, b4, b5⟩ := h2
  exact ⟨b1.trans a1, b2.trans a2, b3.trans a3, b4.trans a4, b5.trans a5⟩

theorem xml_reset_params_frame {σ : Type} (p : xml_params σ) :
    xml_same_frame p (xml_reset_params p) :=
  ⟨rfl, rfl, rfl, rfl, rfl⟩

theorem xml_start_xtag_frame {σ : Type} (p : xml_params σ)
    (attr : List (List Nat × List Nat)) : xml_same_frame p (xml_start_xtag p attr) := by
  unfold xml_start_xtag
  simp only
  split_ifs <;> exact ⟨rfl, rfl, rfl, rfl, rfl⟩

theorem xml_start_nd_frame {σ : Type} (lib : xml_conversions) (p : xml_params σ)
    (attr : List (List Nat × List Nat)) : xml_same_frame p (xml_start_nd lib p attr) := by
  unfold xml_start_nd
  split_ifs <;> exact ⟨rfl, rfl, rfl, rfl, rfl⟩

theorem xml_start_member_frame {σ : Type} (lib : xml_conversions) (p : xml_params σ)
    (attr : List (List Nat × List Nat)) :
    xml_same_frame p (xml_start_member lib p attr) := by
  unfold xml_start_member
  split_ifs <;> exact ⟨rfl, rfl, rfl, rfl, rfl⟩

theorem ite_frame {σ : Type} (c : Prop) [Decidable c] (p q r : xml_params σ)
    (h1 : xml_same_frame p q) (h2 : xml_same_frame q r) :
    xml_same_frame p (if c then r else q) := by
  split_ifs
  · exact xml_same_frame_trans p q r h1 h2
  · exact h1

theorem xml_start_tag_frame {σ : Type} (lib : xml_conversions) (p : xml_params σ)
    (el : List Nat) (attr : List (List Nat × List Nat)) :
    xml_same_frame p (xml_start_tag lib p el attr) := by
  unfold xml_start_tag
  simp only
  refine ite_frame _ p _ _ (ite_frame _ p _ _ (ite_frame _ p _ _ (ite_frame _ p _ _
    (ite_frame _ p _ _ (ite_frame _ p _ _ (xml_same_frame_refl p) ?_) ?_) ?_) ?_) ?_) ?_
  · exact ⟨rfl, rfl, rfl, rfl, rfl⟩
  · exact xml_start_xtag_frame _ _
  · exact ⟨rfl, rfl, rfl, rfl, rfl⟩
  · exact xml_start_nd_frame _ _ _
  · exact ⟨rfl, rfl, rfl, rfl, rfl⟩
  · exact xml_start_member_frame _ _ _

theorem xml_end_stopped {σ : Type} (p : xml_params σ) (h : p.stop ≠ 0) :
    xml_end_node p = xml_reset_params p ∧ xml_end_way p = xml_reset_params p ∧
      xml_end_relation p = xml_reset_params p := by
  refine ⟨?_, ?_, ?_⟩
  · unfold xml_end_node
    cases p.node_callback <;> simp [h]
  · unfold xml_end_way
    cases p.way_callback <;> simp [h]
  · unfold xml_end_relation
    cases p.relation_callback <;> simp [h]

theorem xml_end_tag_frame {σ : Type} (p : xml_params σ) (el : List Nat) (h : p.stop ≠ 0) :
    xml_same_frame p (xml_end_tag p el) := by
  have hk : ∀ q : xml_params σ, xml_same_frame p q → q.stop ≠ 0 := by
    intro q hq
    rw [hq.2.1]
    exact h
  unfold xml_end_tag
  simp only
  refine ite_frame _ p _ _ (ite_frame _ p _ _ (ite_frame _ p _ _ (xml_same_frame_refl p) ?_)
    ?_) ?_
  · rw [(xml_end_stopped p h).1]
    exact xml_reset_params_frame p
  · generalize hq : (if el = c_literal "node" then xml_end_node p else p) = q
    have hf : xml_same_frame p q := by
      rw [← hq]
      split_ifs
      · rw [(xml_end_stopped p h).1]
        exact xml_reset_params_frame p
      · exact xml_same_frame_refl p
    rw [(xml_end_stopped q (hk q hf)).2.1]
    exact xml_reset_params_frame q
  · generalize hq : (if el = c_literal "way" then
        xml_end_way (if el = c_literal "node" then xml_end_node p else p)
      else if el = c_literal "node" then xml_end_node p else p) = q
    have hf : xml_same_frame p q := by
      rw [← hq]
      refine ite_frame _ p _ _ (ite_frame _ p _ _ (xml_same_frame_refl p) ?_) ?_
      · rw [(xml_end_stopped p h).1]
        exact xml_reset_params_frame p
      · generalize hq2 : (if el = c_literal "node" then xml_end_node p else p) = q2
        have hf2 : xml_same_frame p q2 := by
          rw [← hq2]
          split_ifs
          · rw [(xml_end_stopped p h).1]
            exact xml_reset_params_frame p
          · exact xml_same_frame_refl p
        rw [(xml_end_stopped q2 (hk q2 hf2)).2.1]
        exact xml_reset_params_frame q2
    rw [(xml_end_stopped q (hk q hf)).2.2]
    exact xml_reset_params_frame q

theorem xml_events_frame {σ : Type} (lib : xml_conversions) :
    ∀ (events : List xml_event) (p : xml_params σ), p.stop ≠ 0 →
      xml_same_frame p (events.foldl (xml_handle_event lib) p) := by
  intro events
  induction events with
  | nil => intro p _; exact xml_same_frame_refl p
  | cons e events ih =>
    intro p h
    have h1 : xml_same_frame p (xml_handle_event lib p e) := by
      cases e with
      | start_element el attr => exact xml_start_tag_frame lib p el attr
      | end_element el => exact xml_end_tag_frame p el h
    have h2 : (xml_handle_event lib p e).stop ≠ 0 := by
      rw [h1.2.1]
      exact h
    exact xml_same_frame_trans p _ _ h1 (ih _ h2)

theorem parse_osm_xml_loop_total {σ π : Type} (lib : xml_conversions)
    (XML_Parse : π → List Nat → Bool → xml_parse_result π) :
    ∀ (fuel : Nat) (parser : π) (params : xml_params σ) (input : List Nat),
      input.length < fuel → parse_osm_xml_loop lib XML_Parse fuel parser params input ≠ .fuel := by
  intro fuel
  induction fuel with
  | zero => intro parser params input h; omega
  | succ fuel ih =>
    intro parser params input h
    simp only [parse_osm_xml_loop]
    split_ifs with h1 h2 h3
    · simp
    · simp
    · simp
    · refine ih _ _ _ ?_
      simp only [fread, List.length_take, decide_eq_true_eq, BUFFSIZE] at h3 ⊢
      simp only [List.length_drop]
      omega

theorem xml_end_sets_stop {σ : Type} (p : xml_params σ) (h : p.stop = 0) :
    (∀ cb, p.node_callback = some cb →
      (xml_call_node_callback cb p.user_data p.node).1 ≠ READOSM_OK →
      (xml_end_node p).stop = 1 ∧
        (xml_end_node p).user_data = (xml_call_node_callback cb p.user_data p.node).2) ∧
    (∀ cb, p.way_callback = some cb →
      (xml_call_way_callback cb p.user_data p.way).1 ≠ READOSM_OK →
      (xml_end_way p).stop = 1 ∧
        (xml_end_way p).user_data = (xml_call_way_callback cb p.user_data p.way).2) ∧
    (∀ cb, p.relation_callback = some cb →
      (xml_call_relation_callback cb p.user_data p.relation).1 ≠ READOSM_OK →
      (xml_end_relation p).stop = 1 ∧
        (xml_end_relation p).user_data =
          (xml_call_relation_callback cb p.user_data p.relation).2) := by
  refine ⟨?_, ?_, ?_⟩
  · intro cb hcb hret
    unfold xml_end_node
    simp only [hcb, h, if_true, hret, ne_eq, not_false_eq_true]
    exact ⟨rfl, rfl⟩
  · intro cb hcb hret
    unfold xml_end_way
    simp only [hcb, h, if_true, hret, ne_eq, not_false_eq_true]
    exact ⟨rfl, rfl⟩
  · intro cb hcb hret
    unfold xml_end_relation
    simp only [hcb, h, if_true, hret, ne_eq, not_false_eq_true]
    exact ⟨rfl, rfl⟩

/-- [C33] The return code of `parse_osm_xml` is not `READOSM_ABORT` whenever the stop
flag is set after a parse step.  The tokenizer of the sample run calls the handlers
for two nodes and reports an error; the node callback returns 1 at the first node,
which sets the stop flag (the second node is not dispatched).  `parse_osm_xml` tests
the return value of `XML_Parse` before the stop flag and returns
`READOSM_XML_ERROR`; with the same events and no error it returns `READOSM_ABORT`. -/
theorem xml_error_before_abort_counterexample :
    xml_run_result (parse_osm_xml sample_conversions (sample_tokenizer 0) (some ()) [60]
        ([] : List Int) (some abort_xml_node) none none) =
      .ok (READOSM_XML_ERROR, [7], 1) ∧
    xml_run_result (parse_osm_xml sample_conversions (sample_tokenizer 1) (some ()) [60]
        ([] : List Int) (some abort_xml_node) none none) =
      .ok (READOSM_ABORT, [7], 1) := by
  decide

/-- [C33] The stop flag of the XML path is sticky.  `xml_reset_params` keeps the
flag.  An end-of-node, end-of-way or end-of-relation handler whose callback returns
a value other than OK sets it to 1.  Once the flag is not 0, every sequence of
start-element and end-element events leaves the flag, the user data and the
callbacks as they are, and the three end handlers do nothing but reset the state:
no callback is invoked.  A step of the loop of `parse_osm_xml` in which `XML_Parse`
reports no error and after which the flag is set returns `READOSM_ABORT`; a step in
which `XML_Parse` reports an error returns `READOSM_XML_ERROR`, whatever the flag.
`parse_osm_xml` returns on every input. -/
theorem xml_stop_sticky {σ π : Type} (lib : xml_conversions)
    (XML_Parse : π → List Nat → Bool → xml_parse_result π) (params : xml_params σ)
    (events : List xml_event) (fuel : Nat) (parser : π) (input : List Nat) :
    (xml_reset_params params).stop = params.stop ∧
    (params.stop = 0 →
      (∀ cb, params.node_callback = some cb →
        (xml_call_node_callback cb params.user_data params.node).1 ≠ READOSM_OK →
        (events.foldl (xml_handle_event lib) (xml_end_node params)).stop = 1 ∧
        (events.foldl (xml_handle_event lib) (xml_end_node params)).user_data =
          (xml_call_node_callback cb params.user_data params.node).2) ∧
      (∀ cb, params.way_callback = some cb →
        (xml_call_way_callback cb params.user_data params.way).1 ≠ READOSM_OK →
        (events.foldl (xml_handle_event lib) (xml_end_way params)).stop = 1 ∧
        (events.foldl (xml_handle_event lib) (xml_end_way params)).user_data =
          (xml_call_way_callback cb params.user_data params.way).2) ∧
      (∀ cb, params.relation_callback = some cb →
        (xml_call_relation_callback cb params.user_data params.relation).1 ≠ READOSM_OK →
        (events.foldl (xml_handle_event lib) (xml_end_relation params)).stop = 1 ∧
        (events.foldl (xml_handle_event lib) (xml_end_relation params)).user_data =
          (xml_call_relation_callback cb params.user_data params.relation).2)) ∧
    (params.stop ≠ 0 →
      xml_same_frame params (events.foldl (xml_handle_event lib) params) ∧
      xml_end_node params = xml_reset_params params ∧
      xml_end_way params = xml_reset_params params ∧
      xml_end_relation params = xml_reset_params params) ∧
    ((XML_Parse parser (fread BUFFSIZE input).1
        (decide ((fread BUFFSIZE input).1.length < BUFFSIZE))).status ≠ 0 →
      ((XML_Parse parser (fread BUFFSIZE input).1
        (decide ((fread BUFFSIZE input).1.length < BUFFSIZE))).events.foldl
          (xml_handle_event lib) params).stop ≠ 0 →
      parse_osm_xml_loop lib XML_Parse (fuel + 1) parser params input =
        .ok (READOSM_ABORT,
          (XML_Parse parser (fread BUFFSIZE input).1
            (decide ((fread BUFFSIZE input).1.length < BUFFSIZE))).events.foldl
              (xml_handle_event lib) params,
          (fread BUFFSIZE input).2)) ∧
    ((XML_Parse parser (fread BUFFSIZE input).1
        (decide ((fread BUFFSIZE input).1.length < BUFFSIZE))).status = 0 →
      parse_osm_xml_loop lib XML_Parse (fuel + 1) parser params input =
        .ok (READOSM_XML_ERROR,
          (XML_Parse parser (fread BUFFSIZE input).1
            (decide ((fread BUFFSIZE input).1.length < BUFFSIZE))).events.foldl
              (xml_handle_event lib) params,
          (fread BUFFSIZE input).2)) ∧
    (∀ (created : Option π) (user_data : σ) node_fnct way_fnct relation_fnct,
      parse_osm_xml lib XML_Parse created input user_data node_fnct way_fnct
        relation_fnct ≠ .fuel) := by
  have hset : ∀ q : xml_params σ, q.stop = 1 →
      (events.foldl (xml_handle_event lib) q).stop = 1 ∧
      (events.foldl (xml_handle_event lib) q).user_data = q.user_data := by
    intro q hq
    have hf := xml_events_frame lib events q (by rw [hq]; exact one_ne_zero)
    exact ⟨hf.2.1.trans hq, hf.1⟩
  refine ⟨rfl, ?_, ?_, ?_, ?_, ?_⟩
  · intro h0
    obtain ⟨hn, hw, hr⟩ := xml_end_sets_stop params h0
    refine ⟨?_, ?_, ?_⟩
    · intro cb hcb hret
      obtain ⟨h1, h2⟩ := hn cb hcb hret
      exact ⟨(hset _ h1).1, (hset _ h1).2.trans h2⟩
    · intro cb hcb hret
      obtain ⟨h1, h2⟩ := hw cb hcb hret
      exact ⟨(hset _ h1).1, (hset _ h1).2.trans h2⟩
    · intro cb hcb hret
      obtain ⟨h1, h2⟩ := hr cb hcb hret
      exact ⟨(hset _ h1).1, (hset _ h1).2.trans h2⟩
  · intro h
    exact ⟨xml_events_frame lib events params h, xml_end_stopped params h⟩
  · intro hs hstop
    simp only [parse_osm_xml_loop, hs, if_false, hstop, ne_eq, not_false_eq_true, if_true]
  · intro hs
    simp only [parse_osm_xml_loop, hs, if_true]
  · intro created user_data node_fnct way_fnct relation_fnct
    unfold parse_osm_xml
    cases created with
    | none => simp
    | some pr => exact parse_osm_xml_loop_total lib XML_Parse _ _ _ _ (by omega)

theorem xml_stop_sticky_witness :
    (xml_init_params ([] : List Int) (some abort_xml_node) none none 0).stop = 0 ∧
    (xml_call_node_callback abort_xml_node
      (xml_init_params ([] : List Int) (some abort_xml_node) none none 0).user_data
      (xml_init_params ([] : List Int) (some abort_xml_node) none none 0).node).1 ≠
        READOSM_OK ∧
    (two_node_events.foldl (xml_handle_event sample_conversions)
      (xml_end_node (xml_init_params ([] : List Int) (some abort_xml_node) none
        none 0))).stop = 1 ∧
    (two_node_events.foldl (xml_handle_event sample_conversions)
      (xml_end_node (xml_init_params ([] : List Int) (some abort_xml_node) none
        none 0))).user_data = [READOSM_UNDEFINED] ∧
    parse_osm_xml_loop sample_conversions (sample_tokenizer 1) (0 + 1) ()
        (xml_init_params ([] : List Int) (some abort_xml_node) none none 0) [60] =
      .ok (READOSM_ABORT,
        ((sample_tokenizer 1) () (fread BUFFSIZE [60]).1
          (decide ((fread BUFFSIZE [60]).1.length < BUFFSIZE))).events.foldl
            (xml_handle_event sample_conversions)
            (xml_init_params ([] : List Int) (some abort_xml_node) none none 0),
        (fread BUFFSIZE [60]).2) :=
  ⟨rfl, by decide,
    (((xml_stop_sticky sample_conversions (sample_tokenizer 1)
      (xml_init_params ([] : List Int) (some abort_xml_node) none none 0) two_node_events
      0 () [60]).2.1 rfl).1 abort_xml_node rfl (by decide)).1,
    (((xml_stop_sticky sample_conversions (sample_tokenizer 1)
      (xml_init_params ([] : List Int) (some abort_xml_node) none none 0) two_node_events
      0 () [60]).2.1 rfl).1 abort_xml_node rfl (by decide)).2,
    (xml_stop_sticky sample_conversions (sample_tokenizer 1)
      (xml_init_params ([] : List Int) (some abort_xml_node) none none 0) two_node_events
      0 () [60]).2.2.2.1 (by decide) (by decide)⟩

/-! ## C34: the suffix of the path -/

theorem tolower_ne_zero (c : Nat) (h : c ≠ 0) : tolower c ≠ 0 := by
  unfold tolower
  split_ifs <;> omega

theorem strcasecmp_eq_zero :
    ∀ (a b : List Nat), (∀ x ∈ a, x ≠ 0) → (∀ x ∈ b, x ≠ 0) →
      (strcasecmp a b = 0 ↔ a.map tolower = b.map tolower)
  | [], [], _, _ => by simp [strcasecmp]
  | [], b :: rest, _, hb => by
    have h := tolower_ne_zero b (hb b (List.mem_cons_self _ _))
    simp only [strcasecmp, List.map_nil, List.map_cons]
    constructor
    · intro h0
      omega
    · intro h0
      simp at h0
  | a :: rest, [], ha, _ => by
    have h := tolower_ne_zero a (ha a (List.mem_cons_self _ _))
    simp only [strcasecmp, List.map_nil, List.map_cons]
    constructor
    · intro h0
      omega
    · intro h0
      simp at h0
  | a :: rest1, b :: rest2, ha, hb => by
    have ih := strcasecmp_eq_zero rest1 rest2
      (fun x hx => ha x (List.mem_cons_of_mem _ hx))
      (fun x hx => hb x (List.mem_cons_of_mem _ hx))
    simp only [strcasecmp, List.map_cons, List.cons.injEq]
    split_ifs with hc
    · rw [ih]
      simp [hc]
    · constructor
      · intro h0
        omega
      · intro h0
        exact absurd h0.1 hc

theorem readosm_open_format (fopen : List Nat → Option (List Nat)) (host_little : Bool)
    (path : List Nat) :
    (spec_has_suffix (c_string path) ".osm" →
      ∃ code input, readosm_open fopen host_little (some path) = (code, some input) ∧
        input.file_format = READOSM_OSM_FORMAT ∧
        (code = READOSM_OK ∨ code = READOSM_FILE_NOT_FOUND)) ∧
    (¬ spec_has_suffix (c_string path) ".osm" → spec_has_suffix (c_string path) ".osm.pbf" →
      ∃ code input, readosm_open fopen host_little (some path) = (code, some input) ∧
        input.file_format = READOSM_PBF_FORMAT ∧
        (code = READOSM_OK ∨ code = READOSM_FILE_NOT_FOUND)) ∧
    (¬ spec_has_suffix (c_string path) ".osm" →
      ¬ spec_has_suffix (c_string path) ".osm.pbf" →
      readosm_open fopen host_little (some path) = (READOSM_INVALID_SUFFIX, none)) := by
  have hz : ∀ n, ∀ x ∈ (c_string path).drop n, x ≠ 0 := by
    intro n x hx
    have hm := List.mem_takeWhile_imp (List.mem_of_mem_drop hx)
    simpa using hm
  have h1 : (4 < (c_string path).length ∧
      strcasecmp ((c_string path).drop ((c_string path).length - 4)) (c_literal ".osm") = 0) ↔
      spec_has_suffix (c_string path) ".osm" := by
    rw [strcasecmp_eq_zero _ _ (hz _) (by decide)]
    rfl
  have h2 : (8 < (c_string path).length ∧
      strcasecmp ((c_string path).drop ((c_string path).length - 8))
        (c_literal ".osm.pbf") = 0) ↔
      spec_has_suffix (c_string path) ".osm.pbf" := by
    rw [strcasecmp_eq_zero _ _ (hz _) (by decide)]
    rfl
  refine ⟨?_, ?_, ?_⟩
  · intro h
    unfold readosm_open
    simp only [gt_iff_lt]
    rw [if_pos (h1.mpr h)]
    cases fopen (c_string path) with
    | none => exact ⟨_, _, rfl, rfl, Or.inr rfl⟩
    | some bytes => exact ⟨_, _, rfl, rfl, Or.inl rfl⟩
  · intro hn h
    unfold readosm_open
    simp only [gt_iff_lt]
    rw [if_neg (fun hc => hn (h1.mp hc)), if_pos (h2.mpr h)]
    cases fopen (c_string path) with
    | none => exact ⟨_, _, rfl, rfl, Or.inr rfl⟩
    | some bytes => exact ⟨_, _, rfl, rfl, Or.inl rfl⟩
  · intro hn hp
    unfold readosm_open
    simp only [gt_iff_lt]
    rw [if_neg (fun hc => hn (h1.mp hc)), if_neg (fun hc => hp (h2.mp hc))]

theorem spec_has_suffix_exclusive (path : List Nat)
    (h : spec_has_suffix path ".osm.pbf") : ¬ spec_has_suffix path ".osm" := by
  obtain ⟨hl, hs⟩ := h
  intro ⟨_, hc⟩
  have h8 : (c_literal ".osm.pbf").length = 8 := by decide
  have h4 : (c_literal ".osm").length = 4 := by decide
  rw [h8] at hl hs
  rw [h4] at hc
  have hd : path.drop (path.length - 4) = (path.drop (path.length - 8)).drop 4 := by
    rw [List.drop_drop]
    congr 1
    omega
  rw [hd, List.map_drop, hs] at hc
  revert hc
  decide

theorem spec_ends_in_has_suffix (path : List Nat) (suffix : String)
    (hlow : (c_literal suffix).map tolower = c_literal suffix)
    (h : spec_ends_in path suffix) (hl : (c_literal suffix).length < path.length) :
    spec_has_suffix path suffix := by
  refine ⟨hl, ?_⟩
  rw [h.2, hlow]

/-- [C34] The suffix test of `readosm_open` is not the one the claim states.  The path
`.osm` ends in `.osm`, yet it is not longer than the suffix and the call returns
`READOSM_INVALID_SUFFIX` with no handle (likewise the path `.osm.pbf`).  The path
`map.OSM` ends neither in `.osm` nor in `.osm.pbf`, yet the comparison ignores the
case of letters and the call returns `READOSM_OK` with a handle in XML mode. -/
theorem readosm_open_suffix_counterexample :
    spec_ends_in (c_literal ".osm") ".osm" ∧
    readosm_open sample_fopen true (some (c_literal ".osm")) =
      (READOSM_INVALID_SUFFIX, none) ∧
    spec_ends_in (c_literal ".osm.pbf") ".osm.pbf" ∧
    readosm_open sample_fopen true (some (c_literal ".osm.pbf")) =
      (READOSM_INVALID_SUFFIX, none) ∧
    ¬ spec_ends_in (c_literal "map.OSM") ".osm" ∧
    ¬ spec_ends_in (c_literal "map.OSM") ".osm.pbf" ∧
    readosm_open sample_fopen true (some (c_literal "map.OSM")) =
      (READOSM_OK,
        some { alloc_osm_file true READOSM_OSM_FORMAT with in_stream := some [1, 2, 3] }) := by
  decide

/-- [C34] For every non-null path, `readosm_open` selects the XML mode when the path
is longer than 4 characters and its last 4 characters are `.osm` up to the case of
ASCII letters, selects the PBF mode when the path is longer than 8 characters and
its last 8 characters are `.osm.pbf` up to the case of ASCII letters (the two cases
exclude each other), and returns `READOSM_INVALID_SUFFIX` without creating a handle
for every other path.  In the two modes a handle is stored, with the return value
`READOSM_OK`, or `READOSM_FILE_NOT_FOUND` when the file cannot be opened.  A path
with a stem that ends in `.osm` or in `.osm.pbf` character for character is among
those that select the mode. -/
theorem readosm_open_selects_mode (fopen : List Nat → Option (List Nat))
    (host_little : Bool) (path : List Nat) :
    (spec_has_suffix (c_string path) ".osm" →
      ∃ code input, readosm_open fopen host_little (some path) = (code, some input) ∧
        input.file_format = READOSM_OSM_FORMAT ∧
        (code = READOSM_OK ∨ code = READOSM_FILE_NOT_FOUND)) ∧
    (spec_has_suffix (c_string path) ".osm.pbf" →
      ¬ spec_has_suffix (c_string path) ".osm" ∧
      ∃ code input, readosm_open fopen host_little (some path) = (code, some input) ∧
        input.file_format = READOSM_PBF_FORMAT ∧
        (code = READOSM_OK ∨ code = READOSM_FILE_NOT_FOUND)) ∧
    (¬ spec_has_suffix (c_string path) ".osm" →
      ¬ spec_has_suffix (c_string path) ".osm.pbf" →
      readosm_open fopen host_little (some path) = (READOSM_INVALID_SUFFIX, none)) ∧
    (spec_ends_in (c_string path) ".osm" → 4 < (c_string path).length →
      spec_has_suffix (c_string path) ".osm") ∧
    (spec_ends_in (c_string path) ".osm.pbf" → 8 < (c_string path).length →
      spec_has_suffix (c_string path) ".osm.pbf") := by
  obtain ⟨h1, h2, h3⟩ := readosm_open_format fopen host_little path
  refine ⟨h1, ?_, h3, ?_, ?_⟩
  · intro h
    exact ⟨spec_has_suffix_exclusive _ h, h2 (spec_has_suffix_exclusive _ h) h⟩
  · intro h hl
    exact spec_ends_in_has_suffix _ ".osm" (by decide) h hl
  · intro h hl
    exact spec_ends_in_has_suffix _ ".osm.pbf" (by decide) h hl

theorem readosm_open_selects_mode_witness :
    spec_has_suffix (c_string (c_literal "map.osm")) ".osm" ∧
    (∃ code input,
      readosm_open sample_fopen true (some (c_literal "map.osm")) = (code, some input) ∧
        input.file_format = READOSM_OSM_FORMAT ∧
        (code = READOSM_OK ∨ code = READOSM_FILE_NOT_FOUND)) ∧
    spec_has_suffix (c_string (c_literal "Map.Osm.PBF")) ".osm.pbf" ∧
    (∃ code input,
      readosm_open sample_fopen true (some (c_literal "Map.Osm.PBF")) = (code, some input) ∧
        input.file_format = READOSM_PBF_FORMAT ∧
        (code = READOSM_OK ∨ code = READOSM_FILE_NOT_FOUND)) ∧
    ¬ spec_has_suffix (c_string (c_literal "map.xml")) ".osm" ∧
    ¬ spec_has_suffix (c_string (c_literal "map.xml")) ".osm.pbf" ∧
    readosm_open sample_fopen true (some (c_literal "map.xml")) =
      (READOSM_INVALID_SUFFIX, none) :=
  ⟨by decide,
    (readosm_open_selects_mode sample_fopen true (c_literal "map.osm")).1 (by decide),
    by decide,
    ((readosm_open_selects_mode sample_fopen true (c_literal "Map.Osm.PBF")).2.1
      (by decide)).2,
    by decide, by decide,
    (readosm_open_selects_mode sample_fopen true (c_literal "map.xml")).2.2.1 (by decide)
      (by decide)⟩

end ReadOSM
